import Mathlib

/-! # nvc front end: parser (parse.c) and constant folder (eval.c)

A shallow embedding of the two source files.  Tree nodes are values: a node
that the C code shares by pointer (a callee declaration, an enumeration
literal, a type) is embedded by value where it is referenced.  Debug output
(printf) is not modelled.  Functions that can loop take a fuel argument and
answer `out_of_fuel` when it runs out.
-/

set_option maxRecDepth 100000
set_option maxHeartbeats 4000000

namespace Nvc

/-! ## Data model (tree.h, type.h, ident.h, util.h) -/

/-- Interned identifier: two identifiers are the same pointer exactly when
they have the same text. -/
abbrev ident_t := String

/-- Source span, as filled by begin_token and combined by _diff_loc. -/
structure loc_t where
  first_line : Nat
  first_column : Nat
  last_line : Nat
  last_column : Nat
  file : Option String
  linebuf : Option Nat
  deriving DecidableEq, Repr, Inhabited

/-- The sentinel location: its linebuf is NULL. -/
def LOC_INVALID : loc_t := ⟨0, 0, 0, 0, none, none⟩

/-- Kinds of tree nodes named in parse.c and eval.c. -/
inductive tree_kind_t
  | T_ENTITY | T_ARCH | T_PORT_DECL | T_SIGNAL_DECL | T_VAR_DECL
  | T_ATTR_DECL | T_ATTR_SPEC | T_PROCESS | T_WAIT | T_ASSERT | T_CASSERT
  | T_SIGNAL_ASSIGN | T_VAR_ASSIGN | T_WAVEFORM | T_IF | T_WHILE | T_FOR
  | T_RETURN | T_NULL | T_FCALL | T_REF | T_LITERAL | T_AGGREGATE
  | T_ARRAY_SLICE | T_OPEN | T_BLOCK | T_ENUM_LIT | T_FUNC_DECL | T_FUNC_BODY
  deriving DecidableEq, Repr, Inhabited

/-- Kinds of type objects named in parse.c; T_OTHER stands for the kinds
only the later passes create (enumeration, function, ...). -/
inductive type_kind_t
  | T_UNRESOLVED | T_SUBTYPE | T_OTHER
  deriving DecidableEq, Repr, Inhabited

/-- Literal payload: the kind tag with the member of the union it selects. -/
inductive literal_t
  | L_INT (i : Int)
  | L_REAL (r : Float)
  | L_NULL
  deriving Repr, Inhabited

inductive range_kind_t
  | RANGE_TO | RANGE_DOWNTO
  deriving DecidableEq, Repr, Inhabited

inductive param_kind_t
  | P_POS | P_NAMED
  deriving DecidableEq, Repr, Inhabited

inductive port_mode_t
  | PORT_INVALID | PORT_IN | PORT_OUT | PORT_INOUT | PORT_BUFFER | PORT_LINKAGE
  deriving DecidableEq, Repr, Inhabited

inductive class_t
  | C_DEFAULT | C_SIGNAL | C_VARIABLE | C_CONSTANT | C_ENTITY | C_PROCEDURE
  | C_LABEL
  deriving DecidableEq, Repr, Inhabited

/-- Value of an entry of a node's attribute map. -/
inductive attr_val_t
  | A_STRING (s : ident_t)
  | A_INT (n : Int)
  deriving DecidableEq, Repr, Inhabited

abbrev attrs_t := List (ident_t × attr_val_t)

mutual
/-- Type object: kind, name, result type (function types), enumeration
literals (enumeration types), base and resolution function (subtypes). -/
inductive type_t
  | mk (kind : type_kind_t) (ident : Option ident_t) (result : Option type_t)
      (enum_literals : List tree_t) (base : Option type_t)
      (resolution : Option tree_t)
/-- Range with its direction. -/
inductive range_t
  | mk (kind : range_kind_t) (left : tree_t) (right : tree_t)
/-- Association of an aggregate. -/
inductive assoc_t
  | A_POS (value : tree_t)
  | A_NAMED (name : tree_t) (value : tree_t)
  | A_RANGE (range : range_t) (value : tree_t)
  | A_OTHERS (value : tree_t)
/-- Actual parameter of a call. -/
inductive param_t
  | mk (kind : param_kind_t) (value : tree_t)
/-- Tree node, one constructor per kind, with the fields the two files
read or write for that kind. -/
inductive tree_t
  | T_ENTITY (loc : loc_t) (ident : ident_t) (generics : List tree_t)
      (ports : List tree_t) (decls : List tree_t) (stmts : List tree_t)
  | T_ARCH (loc : loc_t) (ident : ident_t) (ident2 : ident_t)
      (decls : List tree_t) (stmts : List tree_t)
  | T_PORT_DECL (loc : loc_t) (ident : ident_t) (mode : port_mode_t)
      (type : Option type_t) (cls : Option class_t) (value : Option tree_t)
  | T_SIGNAL_DECL (loc : loc_t) (ident : ident_t) (type : Option type_t)
      (value : Option tree_t)
  | T_VAR_DECL (loc : loc_t) (ident : ident_t) (type : Option type_t)
      (value : Option tree_t)
  | T_ATTR_DECL (loc : loc_t) (ident : ident_t) (type : Option type_t)
  | T_ATTR_SPEC (loc : loc_t) (ident : ident_t) (cls : class_t) (value : tree_t)
  | T_PROCESS (loc : loc_t) (ident : Option ident_t) (triggers : List tree_t)
      (decls : List tree_t) (stmts : List tree_t) (attrs : attrs_t)
  | T_WAIT (loc : loc_t) (ident : Option ident_t) (triggers : List tree_t)
      (value : Option tree_t) (delay : Option tree_t)
  | T_ASSERT (loc : loc_t) (ident : Option ident_t) (value : Option tree_t)
      (message : tree_t) (severity : tree_t) (attrs : attrs_t)
  | T_CASSERT (loc : loc_t) (ident : Option ident_t) (value : Option tree_t)
      (message : tree_t) (severity : tree_t) (attrs : attrs_t)
  | T_SIGNAL_ASSIGN (loc : loc_t) (ident : Option ident_t) (target : tree_t)
      (waveforms : List tree_t)
  | T_VAR_ASSIGN (loc : loc_t) (ident : Option ident_t) (target : tree_t)
      (value : tree_t)
  | T_WAVEFORM (loc : loc_t) (value : tree_t) (delay : Option tree_t)
  | T_IF (loc : loc_t) (ident : Option ident_t) (value : tree_t)
      (stmts : List tree_t) (else_stmts : List tree_t)
  | T_WHILE (loc : loc_t) (ident : Option ident_t) (value : tree_t)
      (stmts : List tree_t)
  | T_FOR (loc : loc_t) (ident : Option ident_t) (stmts : List tree_t)
  | T_RETURN (loc : loc_t) (ident : Option ident_t) (value : Option tree_t)
  | T_NULL (loc : loc_t) (ident : Option ident_t)
  | T_FCALL (loc : loc_t) (ident : Option ident_t) (ref : Option tree_t)
      (type : Option type_t) (params : List param_t)
  | T_REF (loc : loc_t) (ident : Option ident_t) (ref : Option tree_t)
      (type : Option type_t)
  | T_LITERAL (loc : loc_t) (type : Option type_t) (literal : Option literal_t)
  | T_AGGREGATE (loc : loc_t) (assocs : List assoc_t)
  | T_ARRAY_SLICE (loc : loc_t) (range : range_t)
  | T_OPEN (loc : loc_t)
  | T_BLOCK (loc : loc_t)
  | T_ENUM_LIT (loc : loc_t) (ident : ident_t) (type : Option type_t)
      (pos : Nat)
  | T_FUNC_DECL (loc : loc_t) (ident : ident_t) (type : Option type_t)
      (ports : List tree_t) (attrs : attrs_t)
  | T_FUNC_BODY (loc : loc_t) (ident : ident_t) (type : Option type_t)
      (ports : List tree_t) (decls : List tree_t) (stmts : List tree_t)
      (attrs : attrs_t)
end

instance : Inhabited tree_t := ⟨.T_OPEN LOC_INVALID⟩

open tree_kind_t in
def tree_kind : tree_t → tree_kind_t
  | .T_ENTITY .. => T_ENTITY
  | .T_ARCH .. => T_ARCH
  | .T_PORT_DECL .. => T_PORT_DECL
  | .T_SIGNAL_DECL .. => T_SIGNAL_DECL
  | .T_VAR_DECL .. => T_VAR_DECL
  | .T_ATTR_DECL .. => T_ATTR_DECL
  | .T_ATTR_SPEC .. => T_ATTR_SPEC
  | .T_PROCESS .. => T_PROCESS
  | .T_WAIT .. => T_WAIT
  | .T_ASSERT .. => T_ASSERT
  | .T_CASSERT .. => T_CASSERT
  | .T_SIGNAL_ASSIGN .. => T_SIGNAL_ASSIGN
  | .T_VAR_ASSIGN .. => T_VAR_ASSIGN
  | .T_WAVEFORM .. => T_WAVEFORM
  | .T_IF .. => T_IF
  | .T_WHILE .. => T_WHILE
  | .T_FOR .. => T_FOR
  | .T_RETURN .. => T_RETURN
  | .T_NULL .. => T_NULL
  | .T_FCALL .. => T_FCALL
  | .T_REF .. => T_REF
  | .T_LITERAL .. => T_LITERAL
  | .T_AGGREGATE .. => T_AGGREGATE
  | .T_ARRAY_SLICE .. => T_ARRAY_SLICE
  | .T_OPEN .. => T_OPEN
  | .T_BLOCK .. => T_BLOCK
  | .T_ENUM_LIT .. => T_ENUM_LIT
  | .T_FUNC_DECL .. => T_FUNC_DECL
  | .T_FUNC_BODY .. => T_FUNC_BODY

def tree_loc : tree_t → loc_t
  | .T_ENTITY l .. | .T_ARCH l .. | .T_PORT_DECL l .. | .T_SIGNAL_DECL l ..
  | .T_VAR_DECL l .. | .T_ATTR_DECL l .. | .T_ATTR_SPEC l .. | .T_PROCESS l ..
  | .T_WAIT l .. | .T_ASSERT l .. | .T_CASSERT l .. | .T_SIGNAL_ASSIGN l ..
  | .T_VAR_ASSIGN l .. | .T_WAVEFORM l .. | .T_IF l .. | .T_WHILE l ..
  | .T_FOR l .. | .T_RETURN l .. | .T_NULL l .. | .T_FCALL l .. | .T_REF l ..
  | .T_LITERAL l .. | .T_AGGREGATE l .. | .T_ARRAY_SLICE l .. | .T_OPEN l
  | .T_BLOCK l | .T_ENUM_LIT l .. | .T_FUNC_DECL l .. | .T_FUNC_BODY l .. => l

def type_ident : type_t → Option ident_t
  | .mk _ i _ _ _ _ => i

def type_result : type_t → Option type_t
  | .mk _ _ r _ _ _ => r

def type_enum_literals : type_t → List tree_t
  | .mk _ _ _ ls _ _ => ls

/-- Type of a node, for the kinds that carry one. -/
def tree_type : tree_t → Option type_t
  | .T_PORT_DECL _ _ _ ty _ _ | .T_SIGNAL_DECL _ _ ty _ | .T_VAR_DECL _ _ ty _
  | .T_ATTR_DECL _ _ ty | .T_FCALL _ _ _ ty _ | .T_REF _ _ _ ty
  | .T_LITERAL _ ty _ | .T_ENUM_LIT _ _ ty _ | .T_FUNC_DECL _ _ ty _ _
  | .T_FUNC_BODY _ _ ty _ _ _ _ => ty
  | _ => none

/-- Identifier of a node, for the kinds that carry one. -/
def tree_ident : tree_t → Option ident_t
  | .T_ENTITY _ i .. | .T_ARCH _ i .. | .T_PORT_DECL _ i ..
  | .T_SIGNAL_DECL _ i .. | .T_VAR_DECL _ i .. | .T_ATTR_DECL _ i ..
  | .T_ATTR_SPEC _ i .. | .T_ENUM_LIT _ i ..
  | .T_FUNC_DECL _ i .. | .T_FUNC_BODY _ i .. => some i
  | .T_PROCESS _ i .. | .T_WAIT _ i .. | .T_SIGNAL_ASSIGN _ i ..
  | .T_VAR_ASSIGN _ i ..
  | .T_ASSERT _ i .. | .T_CASSERT _ i .. | .T_IF _ i .. | .T_WHILE _ i ..
  | .T_FOR _ i .. | .T_RETURN _ i .. | .T_NULL _ i | .T_FCALL _ i ..
  | .T_REF _ i .. => i
  | _ => none

/-- Referent of a call or reference node. -/
def tree_ref : tree_t → Option tree_t
  | .T_FCALL _ _ r _ _ | .T_REF _ _ r _ => r
  | _ => none

def tree_params : tree_t → List param_t
  | .T_FCALL _ _ _ _ ps => ps
  | _ => []

def tree_ports : tree_t → List tree_t
  | .T_ENTITY _ _ _ ps _ _ | .T_FUNC_DECL _ _ _ ps _
  | .T_FUNC_BODY _ _ _ ps _ _ _ => ps
  | _ => []

def tree_decls : tree_t → List tree_t
  | .T_ENTITY _ _ _ _ ds _ | .T_ARCH _ _ _ ds _ | .T_PROCESS _ _ _ ds _ _
  | .T_FUNC_BODY _ _ _ _ ds _ _ => ds
  | _ => []

def tree_stmts : tree_t → List tree_t
  | .T_ENTITY _ _ _ _ _ ss | .T_ARCH _ _ _ _ ss | .T_PROCESS _ _ _ _ ss _
  | .T_IF _ _ _ ss _ | .T_WHILE _ _ _ ss | .T_FOR _ _ ss
  | .T_FUNC_BODY _ _ _ _ _ ss _ => ss
  | _ => []

def tree_else_stmts : tree_t → List tree_t
  | .T_IF _ _ _ _ es => es
  | _ => []

def tree_assocs : tree_t → List assoc_t
  | .T_AGGREGATE _ as => as
  | _ => []

def tree_attrs : tree_t → attrs_t
  | .T_PROCESS _ _ _ _ _ a | .T_ASSERT _ _ _ _ _ a | .T_CASSERT _ _ _ _ _ a
  | .T_FUNC_DECL _ _ _ _ a | .T_FUNC_BODY _ _ _ _ _ _ a => a
  | _ => []

/-- Value child of a node; none when the node has no value (tree_has_value
is false). -/
def tree_value : tree_t → Option tree_t
  | .T_PORT_DECL _ _ _ _ _ v | .T_SIGNAL_DECL _ _ _ v | .T_VAR_DECL _ _ _ v
  | .T_WAIT _ _ _ v _ | .T_ASSERT _ _ v _ _ _ | .T_CASSERT _ _ v _ _ _
  | .T_RETURN _ _ v => v
  | .T_ATTR_SPEC _ _ _ v | .T_VAR_ASSIGN _ _ _ v | .T_WAVEFORM _ v _
  | .T_IF _ _ v _ _ | .T_WHILE _ _ v _ => some v
  | _ => none

def tree_literal : tree_t → Option literal_t
  | .T_LITERAL _ _ l => l
  | _ => none

def tree_pos : tree_t → Nat
  | .T_ENUM_LIT _ _ _ p => p
  | _ => 0

/-- String attribute of a node, NULL (none) when the map has no such
string entry. -/
def tree_attr_str (t : tree_t) (name : ident_t) : Option ident_t :=
  match (tree_attrs t).find? (fun a => a.1 == name) with
  | some (_, .A_STRING s) => some s
  | _ => none

/-- Comparison of an identifier with a C string. -/
def icmp (i : ident_t) (s : String) : Bool := i == s

/-! ## Constant folder (eval.c) -/

/-- Ways in which a run of the evaluator does not return a tree. -/
inductive eval_error
  | fatal (loc : loc_t) (msg : String)
  | assert_failed (what : String)
  | undefined_behaviour (what : String)
  | out_of_fuel
  deriving DecidableEq, Repr, Inhabited

abbrev eval_m := Except eval_error

def MAX_BUILTIN_ARGS : Nat := 2
def VTABLE_SZ : Nat := 16

def std_bool_i : ident_t := "STD.STANDARD.BOOLEAN"
def builtin_i : ident_t := "builtin"

/-- Key of a binding.  The static result_i is never assigned by
eval_intern_strings, so it stays NULL (none); identifiers of declarations
are interned, hence not NULL. -/
abbrev vtkey_t := Option ident_t

def result_i : vtkey_t := none

/-- Frame: the first size entries of the binding array, in index order. -/
abbrev vtframe_t := List (vtkey_t × tree_t)

/-- Value-table: the chain of frames from top downwards. -/
abbrev vtable_t := List vtframe_t

def INT64_MAX : Int := 2 ^ 63 - 1
def INT64_MIN : Int := -(2 ^ 63)

/-- Result of an int64_t operation: overflow is not detected, the value
wraps modulo 2^64 into the signed range. -/
def wrap64 (x : Int) : Int := (x + 2 ^ 63) % 2 ^ 64 - 2 ^ 63

def vtable_push (v : vtable_t) : vtable_t := [] :: v

def vtable_pop : vtable_t → eval_m vtable_t
  | [] => .error (.undefined_behaviour "vtable_pop: top is NULL")
  | _ :: down => .ok down

/-- Loop of vtable_bind: overwrite the first binding of that name. -/
def vtframe_set : vtframe_t → vtkey_t → tree_t → Option vtframe_t
  | [], _, _ => none
  | b :: bs, name, value =>
    if b.1 = name then some ((b.1, value) :: bs)
    else (vtframe_set bs name value).map (fun bs2 => b :: bs2)

def vtable_bind (v : vtable_t) (name : vtkey_t) (value : tree_t) :
    eval_m vtable_t :=
  match v with
  | [] => .ok v
  | f :: down =>
    match vtframe_set f name value with
    | some f2 => .ok (f2 :: down)
    | none =>
      if f.length < VTABLE_SZ then .ok ((f ++ [(name, value)]) :: down)
      else .error (.assert_failed "f->size < VTABLE_SZ")

def vtframe_get : vtable_t → vtkey_t → Option tree_t
  | [], _ => none
  | f :: down, name =>
    match f.find? (fun b => b.1 = name) with
    | some b => some b.2
    | none => vtframe_get down name

def vtable_get (v : vtable_t) (name : vtkey_t) : Option tree_t :=
  vtframe_get v name

/-- Returns the truth value and what was stored through the out pointer
(none: nothing stored). -/
def folded_int (t : tree_t) : Bool × Option literal_t :=
  if tree_kind t = .T_LITERAL then
    match tree_literal t with
    | some (.L_INT i) => (true, some (.L_INT i))
    | l => (false, l)
  else (false, none)

def folded_real (t : tree_t) : Bool × Option literal_t :=
  if tree_kind t = .T_LITERAL then
    match tree_literal t with
    | some (.L_REAL r) => (true, some (.L_REAL r))
    | l => (false, l)
  else (false, none)

/-- Returns none for false, some b for true with b stored through the out
pointer.  A reference without referent, or an enumeration literal without
type, cannot be inspected. -/
def folded_bool (t : tree_t) : eval_m (Option Bool) :=
  if tree_kind t = .T_REF then
    match tree_ref t with
    | none => .error (.assert_failed "tree_ref: no referent")
    | some decl =>
      if tree_kind decl = .T_ENUM_LIT then
        match tree_type decl with
        | none => .error (.assert_failed "tree_type: no type")
        | some ty =>
          if type_ident ty = some std_bool_i then .ok (some (tree_pos decl == 1))
          else .ok none
      else .ok none
  else .ok none

def folded_agg_assocs : List assoc_t → Bool
  | [] => true
  | .A_NAMED name _ :: rest =>
    if !(folded_int name).1 then false else folded_agg_assocs rest
  | .A_RANGE (.mk _ left right) _ :: rest =>
    if !(folded_int left).1 || !(folded_int right).1 then false
    else folded_agg_assocs rest
  | _ :: rest => folded_agg_assocs rest

def folded_agg (t : tree_t) : Bool :=
  if tree_kind t = .T_AGGREGATE then folded_agg_assocs (tree_assocs t)
  else false

def folded (t : tree_t) : eval_m Bool :=
  let kind := tree_kind t
  if kind = .T_LITERAL then .ok true
  else if kind = .T_AGGREGATE then .ok (folded_agg t)
  else if kind = .T_REF then (folded_bool t).map Option.isSome
  else .ok false

/-- Callee of the call being folded, with the assertion that opens
get_int_lit, get_real_lit and get_bool_lit. -/
def get_fdecl (t : tree_t) : eval_m tree_t :=
  match tree_ref t with
  | none => .error (.assert_failed "tree_ref: no referent")
  | some fdecl =>
    if tree_kind fdecl = .T_FUNC_DECL then .ok fdecl
    else .error (.assert_failed "tree_kind(fdecl) == T_FUNC_DECL")

def get_int_lit (t : tree_t) (i : Int) : eval_m tree_t := do
  let _ ← get_fdecl t
  pure (.T_LITERAL (tree_loc t) (tree_type t) (some (.L_INT i)))

def get_real_lit (t : tree_t) (r : Float) : eval_m tree_t := do
  let _ ← get_fdecl t
  pure (.T_LITERAL (tree_loc t) (tree_type t) (some (.L_REAL r)))

def get_bool_lit (t : tree_t) (v : Bool) : eval_m tree_t := do
  let fdecl ← get_fdecl t
  match (tree_type fdecl).bind type_result with
  | none => .error (.assert_failed "type_result: no result type")
  | some std_bool =>
    if type_ident std_bool ≠ some std_bool_i then
      .error (.assert_failed "type_ident(std_bool) == std_bool_i")
    else if (type_enum_literals std_bool).length ≠ 2 then
      .error (.assert_failed "type_enum_literals(std_bool) == 2")
    else
      match (type_enum_literals std_bool).get? (if v then 1 else 0) with
      | none => .error (.assert_failed "type_enum_literal: index")
      | some lit =>
        pure (.T_REF (tree_loc t) (tree_ident lit) (some lit) (some std_bool))

/-- Element args[k] of the bool array filled by eval_fcall; an element that
was never stored is an uninitialised read. -/
def barg (args : List (Option Bool)) (k : Nat) : eval_m Bool :=
  match args.get? k with
  | some (some b) => .ok b
  | _ => .error (.undefined_behaviour "uninitialised argument")

def simp_fcall_log (t : tree_t) (builtin : ident_t) (args : List (Option Bool)) :
    eval_m tree_t :=
  if icmp builtin "not" then do
    get_bool_lit t (!(← barg args 0))
  else if icmp builtin "and" then do
    let a ← barg args 0; let b ← barg args 1
    get_bool_lit t (a && b)
  else if icmp builtin "nand" then do
    let a ← barg args 0; let b ← barg args 1
    get_bool_lit t (!(a && b))
  else if icmp builtin "or" then do
    let a ← barg args 0; let b ← barg args 1
    get_bool_lit t (a || b)
  else if icmp builtin "nor" then do
    let a ← barg args 0; let b ← barg args 1
    get_bool_lit t (!(a || b))
  else if icmp builtin "xor" then do
    let a ← barg args 0; let b ← barg args 1
    get_bool_lit t (xor a b)
  else if icmp builtin "xnor" then do
    let a ← barg args 0; let b ← barg args 1
    get_bool_lit t (!(xor a b))
  else
    pure t

/-- Member r of args[k]. -/
def larg_r (args : List (Option literal_t)) (k : Nat) : eval_m Float :=
  match args.get? k with
  | some (some (.L_REAL r)) => .ok r
  | _ => .error (.undefined_behaviour "argument is not a stored real")

/-- Member i of args[k]. -/
def larg_i (args : List (Option literal_t)) (k : Nat) : eval_m Int :=
  match args.get? k with
  | some (some (.L_INT i)) => .ok i
  | _ => .error (.undefined_behaviour "argument is not a stored integer")

def simp_fcall_real (t : tree_t) (builtin : ident_t)
    (args : List (Option literal_t)) : eval_m tree_t :=
  match args.get? 0 with
  | some (some (.L_REAL a0)) =>
    if icmp builtin "mul" then do
      get_real_lit t (a0 * (← larg_r args 1))
    else if icmp builtin "div" then do
      get_real_lit t (a0 / (← larg_r args 1))
    else if icmp builtin "add" then do
      get_real_lit t (a0 + (← larg_r args 1))
    else if icmp builtin "sub" then do
      get_real_lit t (a0 - (← larg_r args 1))
    else if icmp builtin "neg" then
      get_real_lit t (-a0)
    else if icmp builtin "identity" then
      get_real_lit t a0
    else if icmp builtin "eq" then do
      get_bool_lit t (a0 == (← larg_r args 1))
    else if icmp builtin "neq" then do
      get_bool_lit t (a0 != (← larg_r args 1))
    else if icmp builtin "gt" then do
      get_bool_lit t (decide (a0 > (← larg_r args 1)))
    else if icmp builtin "lt" then do
      get_bool_lit t (decide (a0 < (← larg_r args 1)))
    else
      pure t
  | some (some _) => .error (.assert_failed "lkind == L_REAL")
  | _ => .error (.undefined_behaviour "uninitialised argument")

def simp_fcall_int (t : tree_t) (builtin : ident_t)
    (args : List (Option literal_t)) : eval_m tree_t :=
  match args.get? 0 with
  | some (some (.L_INT a0)) =>
    if icmp builtin "mul" then do
      get_int_lit t (wrap64 (a0 * (← larg_i args 1)))
    else if icmp builtin "div" then do
      let a1 ← larg_i args 1
      if a1 = 0 then .error (.undefined_behaviour "division by zero")
      else if a0 = INT64_MIN ∧ a1 = -1 then
        .error (.undefined_behaviour "overflow of the division")
      else get_int_lit t (wrap64 (Int.tdiv a0 a1))
    else if icmp builtin "add" then do
      get_int_lit t (wrap64 (a0 + (← larg_i args 1)))
    else if icmp builtin "sub" then do
      get_int_lit t (wrap64 (a0 - (← larg_i args 1)))
    else if icmp builtin "neg" then
      get_int_lit t (wrap64 (-a0))
    else if icmp builtin "identity" then
      get_int_lit t a0
    else if icmp builtin "eq" then do
      get_bool_lit t (a0 == (← larg_i args 1))
    else if icmp builtin "neq" then do
      get_bool_lit t (a0 != (← larg_i args 1))
    else if icmp builtin "gt" then do
      get_bool_lit t (decide (a0 > (← larg_i args 1)))
    else if icmp builtin "lt" then do
      get_bool_lit t (decide (a0 < (← larg_i args 1)))
    else if icmp builtin "leq" then do
      get_bool_lit t (decide (a0 ≤ (← larg_i args 1)))
    else if icmp builtin "geq" then do
      get_bool_lit t (decide (a0 ≥ (← larg_i args 1)))
    else
      pure t
  | some (some _) => .error (.assert_failed "lkind == L_INT")
  | _ => .error (.undefined_behaviour "uninitialised argument")

/-- Modelled from the spec: assume_int (common.c, not under src/) reads the
value of an integer index key; the keys of a foldable aggregate are integer
literals. -/
def assume_int (t : tree_t) : eval_m Int :=
  match tree_literal t with
  | some (.L_INT i) => .ok i
  | _ => .error (.assert_failed "assume_int: not an integer literal")

/-- Modelled from the spec: range_bounds (common.c, not under src/) yields
the low and the high bound of a range.  The spec has a range contribute both
endpoints to the minimum and maximum of the index keys, so low is the
smaller endpoint and high the larger one. -/
def range_bounds (r : range_t) : eval_m (Int × Int) :=
  match r with
  | .mk _ left right => do
    let l ← assume_int left
    let h ← assume_int right
    pure (min l h, max l h)

/-- Loop of simp_fcall_agg over the associations, carrying low and high. -/
def simp_fcall_agg_loop : List assoc_t → Int → Int → eval_m (Int × Int)
  | [], low, high => .ok (low, high)
  | .A_NAMED name _ :: rest, low, high => do
    let tmp ← assume_int name
    let low := if tmp < low then tmp else low
    let high := if tmp > high then tmp else high
    simp_fcall_agg_loop rest low high
  | .A_RANGE range _ :: rest, low, high => do
    let (low_r, high_r) ← range_bounds range
    let low := if low_r < low then low_r else low
    let high := if high_r > high then high_r else high
    simp_fcall_agg_loop rest low high
  | _ :: _, _, _ => .error (.assert_failed "false")

def simp_fcall_agg (t : tree_t) (builtin : ident_t) : eval_m tree_t :=
  let agg_low := icmp builtin "agg_low"
  let agg_high := icmp builtin "agg_high"
  if agg_low || agg_high then
    match (tree_params t).get? 0 with
    | none => .error (.assert_failed "tree_param: index")
    | some (.mk _ value) => do
      let (low, high) ← simp_fcall_agg_loop (tree_assocs value) INT64_MAX INT64_MIN
      get_int_lit t (if agg_low then low else high)
  else
    pure t

/-- Identifier of a declaration as a key of the value-table; a node without
identifier fails the assertion of tree_ident. -/
def tree_ident_key (t : tree_t) : eval_m vtkey_t :=
  match tree_ident t with
  | some i => .ok (some i)
  | none => .error (.assert_failed "tree_ident: no identifier")

/-- Loop of eval_fcall that binds each port of the callee to the actual of
the same index.  The result none means that an actual is not a literal node
(the caller then pops the frame and returns the call). -/
def bind_ports : List tree_t → Nat → tree_t → vtable_t → eval_m (Option vtable_t)
  | [], _, _, v => .ok (some v)
  | port :: rest, i, t, v =>
    match (tree_params t).get? i with
    | none => .error (.assert_failed "tree_param: index")
    | some (.mk _ value) =>
      if tree_kind value ≠ .T_LITERAL then .ok none
      else do
        let v2 ← vtable_bind v (← tree_ident_key port) value
        bind_ports rest (i + 1) t v2

/-- Locals of the argument loop of eval_fcall. -/
structure fold_args_t where
  can_fold_int : Bool
  can_fold_log : Bool
  can_fold_agg : Bool
  can_fold_real : Bool
  largs : List (Option literal_t)
  bargs : List (Option Bool)

/-- One iteration of the argument loop of eval_fcall, after the actual has
been evaluated to val.  The operator && does not call its right operand when
the flag is already false, so then nothing is stored for this index. -/
def fold_arg (a : fold_args_t) (val : tree_t) : eval_m fold_args_t := do
  let fi := if a.can_fold_int then folded_int val else (false, none)
  let fb ← if a.can_fold_log then folded_bool val else pure none
  let fa := a.can_fold_agg && folded_agg val
  let fr := if a.can_fold_real then folded_real val else (false, none)
  pure { can_fold_int := fi.1, can_fold_log := fb.isSome, can_fold_agg := fa,
         can_fold_real := fr.1,
         largs := a.largs ++ [if fr.2.isSome then fr.2 else fi.2],
         bargs := a.bargs ++ [fb] }

/-- Argument loop of eval_fcall, given the evaluator of one expression. -/
def fold_args (ev : tree_t → vtable_t → eval_m (tree_t × vtable_t)) :
    List param_t → fold_args_t → vtable_t → eval_m (fold_args_t × vtable_t)
  | [], a, v => .ok (a, v)
  | .mk kind value :: rest, a, v =>
    if kind ≠ .P_POS then .error (.assert_failed "p.kind == P_POS")
    else do
      let (val, v2) ← ev value v
      let a2 ← fold_arg a val
      fold_args ev rest a2 v2

/-- Declaration loop of eval_func_body. -/
def eval_decls (ev : tree_t → vtable_t → eval_m (tree_t × vtable_t)) :
    List tree_t → vtable_t → eval_m vtable_t
  | [], v => .ok v
  | decl :: rest, v =>
    if tree_kind decl = .T_VAR_DECL then
      match tree_value decl with
      | none => .error (.assert_failed "tree_value: no value")
      | some init => do
        let (val, v2) ← ev init v
        let v3 ← vtable_bind v2 (← tree_ident_key decl) val
        eval_decls ev rest v3
    else eval_decls ev rest v

/-- Statement loop of eval_func_body: stops after the first statement that
leaves a result binding visible. -/
def eval_body_stmts (st : tree_t → vtable_t → eval_m vtable_t) :
    List tree_t → vtable_t → eval_m vtable_t
  | [], v => .ok v
  | s :: rest, v => do
    let v2 ← st s v
    if (vtable_get v2 result_i).isSome then pure v2
    else eval_body_stmts st rest v2

/-- Statement loops of eval_if and eval_while. -/
def eval_stmts (st : tree_t → vtable_t → eval_m vtable_t) :
    List tree_t → vtable_t → eval_m vtable_t
  | [], v => .ok v
  | s :: rest, v => do
    let v2 ← st s v
    eval_stmts st rest v2

def eval_ref (t : tree_t) (v : vtable_t) : eval_m tree_t :=
  match tree_ref t with
  | none => .error (.assert_failed "tree_ref: no referent")
  | some decl => do
    match vtable_get v (← tree_ident_key decl) with
    | none => .error (.fatal (tree_loc t) "cannot constant fold reference")
    | some binding => .ok binding

def eval_aggregate (t : tree_t) (_v : vtable_t) : eval_m tree_t :=
  if folded_agg t then .ok t
  else .error (.fatal (tree_loc t) "aggregate is not constant")

mutual
def eval_func_body : Nat → tree_t → vtable_t → eval_m vtable_t
  | 0, _, _ => .error .out_of_fuel
  | fuel + 1, t, v => do
    let v2 ← eval_decls (fun e w => eval_expr fuel e w) (tree_decls t) v
    eval_body_stmts (fun s w => eval_stmt fuel s w) (tree_stmts t) v2
def eval_fcall : Nat → tree_t → vtable_t → eval_m (tree_t × vtable_t)
  | 0, _, _ => .error .out_of_fuel
  | fuel + 1, t, v =>
    match tree_ref t with
    | none => .error (.assert_failed "tree_ref: no referent")
    | some decl =>
      if tree_kind decl ≠ .T_FUNC_DECL ∧ tree_kind decl ≠ .T_FUNC_BODY then
        .error (.assert_failed "T_FUNC_DECL || T_FUNC_BODY")
      else
        match tree_attr_str decl builtin_i with
        | none =>
          if tree_kind decl ≠ .T_FUNC_BODY then .ok (t, v)
          else do
            let v1 := vtable_push v
            match ← bind_ports (tree_ports decl) 0 t v1 with
            | none =>
              let v2 ← vtable_pop v1
              pure (t, v2)    -- Cannot fold this
            | some v2 =>
              let v3 ← eval_func_body fuel decl v2
              let result := vtable_get v3 result_i
              let v4 ← vtable_pop v3
              match result with
              | none => pure (t, v4)
              | some r => if ← folded r then pure (r, v4) else pure (t, v4)
        | some builtin =>
          if (tree_params t).length > MAX_BUILTIN_ARGS then .ok (t, v)
          else do
            let (a, v2) ← fold_args (fun e w => eval_expr fuel e w) (tree_params t)
              ⟨true, true, true, true, [], []⟩ v
            if a.can_fold_int then
              return (← simp_fcall_int t builtin a.largs, v2)
            else if a.can_fold_log then
              return (← simp_fcall_log t builtin a.bargs, v2)
            else if a.can_fold_agg then
              return (← simp_fcall_agg t builtin, v2)
            else if a.can_fold_real then
              return (← simp_fcall_real t builtin a.largs, v2)
            else
              return (t, v2)
def eval_expr : Nat → tree_t → vtable_t → eval_m (tree_t × vtable_t)
  | 0, _, _ => .error .out_of_fuel
  | fuel + 1, t, v =>
    match tree_kind t with
    | .T_FCALL => eval_fcall fuel t v
    | .T_REF => do return (← eval_ref t v, v)
    | .T_AGGREGATE => do return (← eval_aggregate t v, v)
    | .T_LITERAL => .ok (t, v)
    | _ => .error (.fatal (tree_loc t) "cannot evaluate expression %s")
def eval_return : Nat → tree_t → vtable_t → eval_m vtable_t
  | 0, _, _ => .error .out_of_fuel
  | fuel + 1, t, v =>
    match tree_value t with
    | some e => do
      let (val, v2) ← eval_expr fuel e v
      vtable_bind v2 result_i val
    | none => .ok v
def eval_if : Nat → tree_t → vtable_t → eval_m vtable_t
  | 0, _, _ => .error .out_of_fuel
  | fuel + 1, t, v =>
    match tree_value t with
    | none => .error (.assert_failed "tree_value: no value")
    | some e => do
      let (cond, v2) ← eval_expr fuel e v
      match ← folded_bool cond with
      | none => .error (.fatal (tree_loc cond) "cannot constant fold expression")
      | some cond_b =>
        if cond_b then
          eval_stmts (fun s w => eval_stmt fuel s w) (tree_stmts t) v2
        else
          eval_stmts (fun s w => eval_stmt fuel s w) (tree_else_stmts t) v2
def eval_while : Nat → tree_t → vtable_t → eval_m vtable_t
  | 0, _, _ => .error .out_of_fuel
  | fuel + 1, t, v =>
    match tree_value t with
    | none => .error (.assert_failed "tree_value: no value")
    | some value => do
      let (cond, v2) ← eval_expr fuel value v
      match ← folded_bool cond with
      | none => .error (.fatal (tree_loc value) "cannot constant fold expression")
      | some cond_b =>
        if !cond_b then pure v2
        else do
          let v3 ← eval_stmts (fun s w => eval_stmt fuel s w) (tree_stmts t) v2
          eval_while fuel t v3
def eval_var_assign : Nat → tree_t → vtable_t → eval_m vtable_t
  | 0, _, _ => .error .out_of_fuel
  | fuel + 1, t, v =>
    match t with
    | .T_VAR_ASSIGN _ _ target value =>
      if tree_kind target ≠ .T_REF then
        .error (.fatal (tree_loc target) "cannot evaluate this target")
      else do
        let (updated, v2) ← eval_expr fuel value v
        if !(← folded updated) then
          .error (.fatal (tree_loc value) "cannot constant fold expression")
        else
          match tree_ref target with
          | none => .error (.assert_failed "tree_ref: no referent")
          | some decl => do vtable_bind v2 (← tree_ident_key decl) updated
    | _ => .error (.assert_failed "tree_target: no target")
def eval_stmt : Nat → tree_t → vtable_t → eval_m vtable_t
  | 0, _, _ => .error .out_of_fuel
  | fuel + 1, t, v =>
    match tree_kind t with
    | .T_RETURN => eval_return fuel t v
    | .T_WHILE => eval_while fuel t v
    | .T_IF => eval_if fuel t v
    | .T_VAR_ASSIGN => eval_var_assign fuel t v
    | _ => .error (.fatal (tree_loc t) "cannot evaluate statement %s")
end

/-- Entry point: folds the call in a value-table without frames. -/
def eval (fuel : Nat) (fcall : tree_t) : eval_m tree_t :=
  if tree_kind fcall ≠ .T_FCALL then
    .error (.assert_failed "tree_kind(fcall) == T_FCALL")
  else do
    let vt : vtable_t := []
    return (← eval_fcall fuel fcall vt).1

/-! ## Parser (parse.c): tokens, lookahead buffer, diagnostics -/

/-- Terminals named in parse.c; tOTHER stands for the remaining terminals of
token.h. -/
inductive token_t
  | tEOF | tID | tINT | tREAL | tSTRING | tNULL | tLPAREN | tRPAREN | tSEMI
  | tCOLON | tCOMMA | tASSIGN | tLE | tEQ | tNEQ | tLT | tGT | tGE | tPLUS
  | tMINUS | tAMP | tTIMES | tOVER | tMOD | tREM | tTO | tDOWNTO | tENTITY
  | tIS | tEND | tGENERIC | tPORT | tCONSTANT | tARCHITECTURE | tOF | tBEGIN
  | tFOR | tIN | tOUT | tINOUT | tBUFFER | tLINKAGE | tBUS | tUNAFFECTED
  | tSIGNAL | tVARIABLE | tFILE | tPROCESS | tPOSTPONED | tWAIT | tREPORT
  | tASSERT | tSEVERITY | tON | tUNTIL | tAFTER | tIF | tTHEN | tELSE | tELSIF
  | tWHILE | tLOOP | tRETURN | tATTRIBUTE | tPROCEDURE | tLABEL | tLITERAL
  | tLIBRARY | tUSE
  | tOTHER
  deriving DecidableEq, Repr, Inhabited

/-- Modelled from the spec: one token as the scanner (lexer, not under src/)
produces it: its kind, the value it stores in yylval (text for identifiers
and strings, n for integers, d for reals) and the location begin_token
records for it. -/
structure lexeme_t where
  kind : token_t
  text : String
  n : Int
  d : Float
  loc : loc_t
  deriving Repr, Inhabited

/-- Ways in which a run of the parser does not return. -/
inductive parse_fail
  | assert_failed (what : String)
  | undefined_behaviour (what : String)
  | out_of_fuel
  deriving DecidableEq, Repr, Inhabited

/-- The file-scope variables of parse.c, with the tokens the scanner has
still to deliver and the set of interned identifiers. -/
structure pstate where
  input : List lexeme_t
  yylval_s : Option String
  yylval_n : Int
  yylval_d : Float
  yylloc : loc_t
  start_loc : loc_t
  n_errors : Nat
  n_correct : Nat
  peek_tok : token_t
  peek_valid : Bool
  peek2_tok : token_t
  peek2_valid : Bool
  hint_str : Option String
  assert_viol : Option tree_t
  interned : List ident_t
  deriving Inhabited

abbrev parse_m := StateT pstate (Except parse_fail)

def RECOVER_THRESH : Nat := 5

/-- State before the first call of parse: nothing pre-fetched, no error. -/
def pstate_init (input : List lexeme_t) : pstate :=
  { input := input, yylval_s := none, yylval_n := 0, yylval_d := 0.0,
    yylloc := LOC_INVALID, start_loc := LOC_INVALID, n_errors := 0,
    n_correct := 0, peek_tok := .tEOF, peek_valid := false,
    peek2_tok := .tEOF, peek2_valid := false, hint_str := none,
    assert_viol := none, interned := [] }

def parse_abort {α : Type} (e : parse_fail) : parse_m α :=
  fun _ => .error e

/-- Modelled from the spec: yylex delivers the next token, stores its value
in the global yylval and its location in yylloc; at the end of the input it
delivers end-of-file and stores nothing. -/
def yylex : parse_m token_t := do
  let st ← get
  match st.input with
  | [] => pure .tEOF
  | l :: rest =>
    set { st with
      input := rest
      yylloc := l.loc
      yylval_s :=
        if l.kind = token_t.tID ∨ l.kind = token_t.tSTRING then some l.text else st.yylval_s
      yylval_n := if l.kind = token_t.tINT then l.n else st.yylval_n
      yylval_d := if l.kind = token_t.tREAL then l.d else st.yylval_d }
    pure l.kind

/-- Interns a string; the identifier is its text. -/
def ident_new (s : String) : parse_m ident_t := do
  modify fun st =>
    if s ∈ st.interned then st else { st with interned := s :: st.interned }
  pure s

def ident_interned (s : String) : parse_m Bool := do
  return decide (s ∈ (← get).interned)

/-- Reads the string yylval.s points to; after free the pointer dangles. -/
def yylval_read_s : parse_m String := do
  match (← get).yylval_s with
  | some s => pure s
  | none => parse_abort (.undefined_behaviour "yylval.s is not a live string")

/-- The call free(yylval.s). -/
def yylval_free_s : parse_m Unit :=
  modify fun st => { st with yylval_s := none }

def peek : parse_m token_t := do
  let st ← get
  if st.peek_valid then
    pure st.peek_tok
  else if st.peek2_valid then
    parse_abort (.assert_failed "!peek2_valid")
  else do
    set { st with peek_valid := true }
    let t ← yylex
    modify fun st => { st with peek_tok := t }
    pure t

def peek2 : parse_m token_t := do
  let st ← get
  if !st.peek_valid then
    if st.peek2_valid then
      parse_abort (.assert_failed "!peek2_valid")
    else do
      let _ ← peek
  let st ← get
  if st.peek2_valid then
    pure st.peek2_tok
  else do
    set { st with peek2_valid := true }
    let t ← yylex
    modify fun st => { st with peek2_tok := t }
    pure t

/-- The messages of error_at go to the diagnostic printer and are not
modelled; the counters are. -/
def consume (tok : token_t) : parse_m Bool := do
  let got ← peek
  if tok ≠ got then
    modify fun st =>
      { st with
        n_errors :=
          if st.n_correct ≥ RECOVER_THRESH then st.n_errors + 1
          else st.n_errors
        n_correct := 0 }
  else
    modify fun st => { st with n_correct := st.n_correct + 1 }
  modify fun st =>
    if st.start_loc.linebuf = none then { st with start_loc := st.yylloc }
    else st
  let st ← get
  if st.peek2_valid then
    if !st.peek_valid then
      parse_abort (.assert_failed "peek_valid")
    else
      set { st with peek_tok := st.peek2_tok, peek2_valid := false }
  else
    set { st with peek_valid := false, peek2_valid := false }
  pure (decide (tok = got))

def optional (tok : token_t) : parse_m Bool := do
  if (← peek) = tok then
    let _ ← consume tok
    pure true
  else
    pure false

/-- The text buffer of _vexpect is only printed; the counters are
updated. -/
def _vexpect (_toks : List token_t) : parse_m Unit := do
  let _ ← peek
  modify fun st =>
    { st with
      n_errors :=
        if st.n_correct ≥ RECOVER_THRESH then st.n_errors + 1 else st.n_errors
      n_correct := 0 }

/-- The variadic arguments of expect, without the closing -1. -/
def expect (toks : List token_t) : parse_m Unit := _vexpect toks

def scan (toks : List token_t) : parse_m Bool := do
  let p ← peek
  pure (decide (p ∈ toks))

/-- The search loop of _one_of has no test for the closing -1: when the head
token is not in the set, va_arg reads past the arguments that were passed. -/
def one_of (toks : List token_t) : parse_m token_t := do
  let p ← peek
  if p ∈ toks then
    let _ ← consume p
    pure p
  else
    parse_abort (.undefined_behaviour "va_arg past the end of the arguments")

def _diff_loc (start : loc_t) (e : loc_t) : loc_t :=
  { first_line := start.first_line, first_column := start.first_column,
    last_line := e.last_line, last_column := e.last_column,
    file := start.file, linebuf := start.linebuf }

def CURRENT_LOC : parse_m loc_t := do
  let st ← get
  pure (_diff_loc st.start_loc st.yylloc)

/-- Scope of a production: sets the hint and restores hint and start
location when the scope is left (the cleanup handler _pop_state). -/
def EXTEND {α : Type} (s : String) (body : parse_m α) : parse_m α := do
  let st ← get
  let old_hint := st.hint_str
  let old_start_loc := st.start_loc
  set { st with hint_str := some s }
  let r ← body
  modify fun st => { st with hint_str := old_hint, start_loc := old_start_loc }
  pure r

def BEGIN {α : Type} (s : String) (body : parse_m α) : parse_m α :=
  EXTEND s (do
    modify fun st => { st with start_loc := LOC_INVALID }
    body)

/-! ## Parser: tree construction helpers and expressions -/

def tree_set_loc (t : tree_t) (l : loc_t) : tree_t :=
  match t with
  | .T_ENTITY _ a b c d e => .T_ENTITY l a b c d e
  | .T_ARCH _ a b c d => .T_ARCH l a b c d
  | .T_PORT_DECL _ a b c d e => .T_PORT_DECL l a b c d e
  | .T_SIGNAL_DECL _ a b c => .T_SIGNAL_DECL l a b c
  | .T_VAR_DECL _ a b c => .T_VAR_DECL l a b c
  | .T_ATTR_DECL _ a b => .T_ATTR_DECL l a b
  | .T_ATTR_SPEC _ a b c => .T_ATTR_SPEC l a b c
  | .T_PROCESS _ a b c d e => .T_PROCESS l a b c d e
  | .T_WAIT _ a b c d => .T_WAIT l a b c d
  | .T_ASSERT _ a b c d e => .T_ASSERT l a b c d e
  | .T_CASSERT _ a b c d e => .T_CASSERT l a b c d e
  | .T_SIGNAL_ASSIGN _ a b c => .T_SIGNAL_ASSIGN l a b c
  | .T_VAR_ASSIGN _ a b c => .T_VAR_ASSIGN l a b c
  | .T_WAVEFORM _ a b => .T_WAVEFORM l a b
  | .T_IF _ a b c d => .T_IF l a b c d
  | .T_WHILE _ a b c => .T_WHILE l a b c
  | .T_FOR _ a b => .T_FOR l a b
  | .T_RETURN _ a b => .T_RETURN l a b
  | .T_NULL _ a => .T_NULL l a
  | .T_FCALL _ a b c d => .T_FCALL l a b c d
  | .T_REF _ a b c => .T_REF l a b c
  | .T_LITERAL _ a b => .T_LITERAL l a b
  | .T_AGGREGATE _ a => .T_AGGREGATE l a
  | .T_ARRAY_SLICE _ a => .T_ARRAY_SLICE l a
  | .T_OPEN _ => .T_OPEN l
  | .T_BLOCK _ => .T_BLOCK l
  | .T_ENUM_LIT _ a b c => .T_ENUM_LIT l a b c
  | .T_FUNC_DECL _ a b c d => .T_FUNC_DECL l a b c d
  | .T_FUNC_BODY _ a b c d e f => .T_FUNC_BODY l a b c d e f

/-- Sets the label of a statement node. -/
def tree_set_ident (t : tree_t) (i : ident_t) : tree_t :=
  match t with
  | .T_PROCESS l _ b c d e => .T_PROCESS l (some i) b c d e
  | .T_WAIT l _ b c d => .T_WAIT l (some i) b c d
  | .T_ASSERT l _ b c d e => .T_ASSERT l (some i) b c d e
  | .T_CASSERT l _ b c d e => .T_CASSERT l (some i) b c d e
  | .T_SIGNAL_ASSIGN l _ b c => .T_SIGNAL_ASSIGN l (some i) b c
  | .T_VAR_ASSIGN l _ b c => .T_VAR_ASSIGN l (some i) b c
  | .T_IF l _ b c d => .T_IF l (some i) b c d
  | .T_WHILE l _ b c => .T_WHILE l (some i) b c
  | .T_FOR l _ b => .T_FOR l (some i) b
  | .T_RETURN l _ b => .T_RETURN l (some i) b
  | .T_NULL l _ => .T_NULL l (some i)
  | .T_FCALL l _ b c d => .T_FCALL l (some i) b c d
  | .T_REF l _ b c => .T_REF l (some i) b c
  | t => t

def tree_add_port (t : tree_t) (d : tree_t) : tree_t :=
  match t with
  | .T_ENTITY l i gs ps ds ss => .T_ENTITY l i gs (ps ++ [d]) ds ss
  | .T_FUNC_DECL l i ty ps a => .T_FUNC_DECL l i ty (ps ++ [d]) a
  | .T_FUNC_BODY l i ty ps ds ss a => .T_FUNC_BODY l i ty (ps ++ [d]) ds ss a
  | t => t

def tree_add_generic (t : tree_t) (d : tree_t) : tree_t :=
  match t with
  | .T_ENTITY l i gs ps ds ss => .T_ENTITY l i (gs ++ [d]) ps ds ss
  | t => t

def tree_add_decl (t : tree_t) (d : tree_t) : tree_t :=
  match t with
  | .T_ENTITY l i gs ps ds ss => .T_ENTITY l i gs ps (ds ++ [d]) ss
  | .T_ARCH l i i2 ds ss => .T_ARCH l i i2 (ds ++ [d]) ss
  | .T_PROCESS l i ts ds ss a => .T_PROCESS l i ts (ds ++ [d]) ss a
  | .T_FUNC_BODY l i ty ps ds ss a => .T_FUNC_BODY l i ty ps (ds ++ [d]) ss a
  | t => t

def tree_add_stmt (t : tree_t) (s : tree_t) : tree_t :=
  match t with
  | .T_ENTITY l i gs ps ds ss => .T_ENTITY l i gs ps ds (ss ++ [s])
  | .T_ARCH l i i2 ds ss => .T_ARCH l i i2 ds (ss ++ [s])
  | .T_PROCESS l i ts ds ss a => .T_PROCESS l i ts ds (ss ++ [s]) a
  | .T_IF l i v ss es => .T_IF l i v (ss ++ [s]) es
  | .T_WHILE l i v ss => .T_WHILE l i v (ss ++ [s])
  | .T_FOR l i ss => .T_FOR l i (ss ++ [s])
  | .T_FUNC_BODY l i ty ps ds ss a => .T_FUNC_BODY l i ty ps ds (ss ++ [s]) a
  | t => t

def tree_add_else_stmt (t : tree_t) (s : tree_t) : tree_t :=
  match t with
  | .T_IF l i v ss es => .T_IF l i v ss (es ++ [s])
  | t => t

def tree_add_waveform (t : tree_t) (w : tree_t) : tree_t :=
  match t with
  | .T_SIGNAL_ASSIGN l i tg ws => .T_SIGNAL_ASSIGN l i tg (ws ++ [w])
  | t => t

def tree_add_trigger (t : tree_t) (s : tree_t) : tree_t :=
  match t with
  | .T_PROCESS l i ts ds ss a => .T_PROCESS l i (ts ++ [s]) ds ss a
  | .T_WAIT l i ts v d => .T_WAIT l i (ts ++ [s]) v d
  | t => t

def tree_set_value (t : tree_t) (v : tree_t) : tree_t :=
  match t with
  | .T_WAIT l i ts _ d => .T_WAIT l i ts (some v) d
  | .T_RETURN l i _ => .T_RETURN l i (some v)
  | .T_PORT_DECL l i m ty c _ => .T_PORT_DECL l i m ty c (some v)
  | .T_SIGNAL_DECL l i ty _ => .T_SIGNAL_DECL l i ty (some v)
  | .T_VAR_DECL l i ty _ => .T_VAR_DECL l i ty (some v)
  | t => t

def tree_set_delay (t : tree_t) (d : tree_t) : tree_t :=
  match t with
  | .T_WAIT l i ts v _ => .T_WAIT l i ts v (some d)
  | .T_WAVEFORM l v _ => .T_WAVEFORM l v (some d)
  | t => t

def tree_add_attr_int (t : tree_t) (name : ident_t) (n : Int) : tree_t :=
  match t with
  | .T_PROCESS l i ts ds ss a => .T_PROCESS l i ts ds ss (a ++ [(name, .A_INT n)])
  | .T_ASSERT l i v m s a => .T_ASSERT l i v m s (a ++ [(name, .A_INT n)])
  | .T_CASSERT l i v m s a => .T_CASSERT l i v m s (a ++ [(name, .A_INT n)])
  | t => t

/-- The call tree_change_kind(s, T_CASSERT) on an assertion. -/
def tree_change_kind_cassert (t : tree_t) : tree_t :=
  match t with
  | .T_ASSERT l i v m s a => .T_CASSERT l i v m s a
  | t => t

def add_param (t : tree_t) (value : tree_t) (kind : param_kind_t) : tree_t :=
  match t with
  | .T_FCALL l i r ty ps => .T_FCALL l i r ty (ps ++ [.mk kind value])
  | t => t

/-- Loop of str_to_agg over the characters between start and end; each
character of the text stands for one byte. -/
def str_to_agg_loop (loc : loc_t) : List Char → List assoc_t → parse_m (List assoc_t)
  | [], acc => pure acc
  | c :: rest, acc =>
    if c.toNat = 0x81 then str_to_agg_loop loc rest acc
    else do
      let id ← ident_new (String.mk [Char.ofNat 39, c, Char.ofNat 39])
      let ref := tree_t.T_REF loc (some id) none none
      str_to_agg_loop loc rest (acc ++ [.A_POS ref])

def str_to_agg (chars : List Char) (loc : loc_t) : parse_m tree_t := do
  let assocs ← str_to_agg_loop loc chars []
  pure (.T_AGGREGATE loc assocs)

/-- Character stored at buf[nprint] in iteration i of loc_to_ident: the byte
'a' + i; the byte 0 ends the string right after the line number. -/
def loc_to_ident_buf (base : String) (i : Nat) : String :=
  if (97 + i) % 256 = 0 then base
  else base ++ String.mk [Char.ofNat ((97 + i) % 256)]

/-- Loop of loc_to_ident.  The candidates repeat with period 256, so the
loop does not end when 257 candidates in a row are interned. -/
def loc_to_ident_loop (base : String) : Nat → Nat → String → parse_m ident_t
  | 0, _, _ => parse_abort .out_of_fuel
  | n + 1, i, buf => do
    if ← ident_interned buf then
      loc_to_ident_loop base n (i + 1) (loc_to_ident_buf base i)
    else
      ident_new buf

def loc_to_ident (loc : loc_t) : parse_m ident_t :=
  let buf := "line_" ++ toString loc.first_line
  loc_to_ident_loop buf 258 0 buf

def set_label_and_loc (t : tree_t) (label : Option ident_t) (loc : loc_t) :
    parse_m tree_t := do
  let t := tree_set_loc t loc
  match label with
  | some l => pure (tree_set_ident t l)
  | none => do
    let l ← loc_to_ident loc
    pure (tree_set_ident t l)

def p_identifier : parse_m ident_t := do
  -- basic_identifier | extended_identifier
  if ← consume .tID then
    let i ← ident_new (← yylval_read_s)
    yylval_free_s
    pure i
  else
    ident_new "error"

def p_mode : parse_m port_mode_t := do
  -- in | out | inout | buffer | linkage
  match ← one_of [.tIN, .tOUT, .tINOUT, .tBUFFER, .tLINKAGE] with
  | .tIN => pure .PORT_IN
  | .tOUT => pure .PORT_OUT
  | .tINOUT => pure .PORT_INOUT
  | .tBUFFER => pure .PORT_BUFFER
  | .tLINKAGE => pure .PORT_LINKAGE
  | _ => pure .PORT_INVALID

def p_simple_name : parse_m tree_t := do
  -- identifier
  let i ← p_identifier
  pure (.T_REF (← CURRENT_LOC) (some i) none none)

def p_operator_symbol : parse_m ident_t := do
  -- string_literal
  let _ ← consume .tSTRING
  let s ← yylval_read_s
  let id ← ident_new (String.mk (s.toList.map Char.toLower))
  yylval_free_s
  pure id

def p_type_mark : parse_m type_t := do
  -- name
  let i ← p_identifier
  pure (.mk .T_UNRESOLVED (some i) none [] none none)

def p_abstract_literal : parse_m tree_t :=
  -- decimal_literal | based_literal
  BEGIN "abstract literal" do
    let tok ← one_of [.tINT, .tREAL]
    let st ← get
    let lit : Option literal_t :=
      match tok with
      | .tINT => some (.L_INT st.yylval_n)
      | .tREAL => some (.L_REAL st.yylval_d)
      | _ => none
    pure (.T_LITERAL (← CURRENT_LOC) none lit)

def p_physical_literal (mult : Option tree_t) : parse_m tree_t :=
  -- [ abstract_literal ] name
  EXTEND "physical literal" do
    let i ← p_identifier
    let unit := tree_t.T_REF (← CURRENT_LOC) (some i) none none
    let loc ← CURRENT_LOC
    let id ← ident_new "\"*\""
    match mult with
    | none => parse_abort (.undefined_behaviour "add_param: NULL value")
    | some m =>
      pure (.T_FCALL loc (some id) none none [.mk .P_POS m, .mk .P_POS unit])

def p_numeric_literal : parse_m (Option tree_t) :=
  -- abstract_literal | physical_literal
  BEGIN "numeric literal" do
    let abs ← if ← scan [.tINT, .tREAL] then do pure (some (← p_abstract_literal))
      else pure none
    if (← peek) = .tID then
      return some (← p_physical_literal abs)
    else
      return abs

def p_literal : parse_m tree_t :=
  -- numeric_literal | enumeration_literal | string_literal
  -- | bit_string_literal | null
  BEGIN "literal" do
    match ← peek with
    | .tNULL => do
      let _ ← consume .tNULL
      pure (.T_LITERAL (← CURRENT_LOC) none (some .L_NULL))
    | .tINT | .tREAL => do
      match ← p_numeric_literal with
      | some t => pure t
      | none => parse_abort (.undefined_behaviour "NULL tree returned")
    | .tSTRING => do
      let _ ← consume .tSTRING
      let p ← yylval_read_s
      if p.length = 0 then
        parse_abort (.undefined_behaviour "str_to_agg: start past the string")
      else do
        let t ← str_to_agg ((p.toList.drop 1).take (p.length - 2)) (← CURRENT_LOC)
        yylval_free_s
        pure t
    | _ => do
      expect [.tNULL, .tINT, .tREAL]
      pure (.T_OPEN LOC_INVALID)

def p_multiplying_operator : parse_m ident_t := do
  match ← one_of [.tTIMES, .tOVER, .tMOD, .tREM] with
  | .tTIMES => ident_new "\"*\""
  | .tOVER => ident_new "\"/\""
  | .tMOD => ident_new "\"mod\""
  | .tREM => ident_new "\"rem\""
  | _ => ident_new "error"

def p_adding_operator : parse_m ident_t := do
  match ← one_of [.tPLUS, .tMINUS, .tAMP] with
  | .tPLUS => ident_new "\"+\""
  | .tMINUS => ident_new "\"-\""
  | .tAMP => ident_new "\"&\""
  | _ => ident_new "error"

def p_relational_operator : parse_m ident_t := do
  match ← one_of [.tEQ, .tNEQ, .tLT, .tLE, .tGT, .tGE] with
  | .tEQ => ident_new "\"=\""
  | .tNEQ => ident_new "\"/=\""
  | .tLT => ident_new "\"<\""
  | .tLE => ident_new "\"<=\""
  | .tGT => ident_new "\">\""
  | .tGE => ident_new "\">=\""
  | _ => ident_new "error"

mutual
def p_slice_name : Nat → ident_t → tree_t → parse_m tree_t
  -- prefix ( discrete_range )
  | 0, _, _ => parse_abort .out_of_fuel
  | fuel + 1, _pfx, expr1 =>
    EXTEND "slice name" do
      let kind : range_kind_t :=
        match ← one_of [.tTO, .tDOWNTO] with
        | .tDOWNTO => .RANGE_DOWNTO
        | _ => .RANGE_TO
      let right ← p_expression fuel
      let _ ← consume .tRPAREN
      pure (.T_ARRAY_SLICE (← CURRENT_LOC) (.mk kind expr1 right))
def p_function_call_loop : Nat → tree_t → parse_m tree_t
  | 0, _ => parse_abort .out_of_fuel
  | fuel + 1, t => do
    if ← optional .tCOMMA then
      let e ← p_expression fuel
      p_function_call_loop fuel (add_param t e .P_POS)
    else
      pure t
def p_function_call : Nat → ident_t → tree_t → parse_m tree_t
  -- name [ ( actual_parameter_part ) ]
  | 0, _, _ => parse_abort .out_of_fuel
  | fuel + 1, _pfx, expr1 =>
    EXTEND "function call" do
      let t := add_param (.T_FCALL LOC_INVALID none none none []) expr1 .P_POS
      let t ← p_function_call_loop fuel t
      let _ ← consume .tRPAREN
      pure (tree_set_loc t (← CURRENT_LOC))
def p_name : Nat → parse_m tree_t
  -- simple_name | operator_symbol | selected_name | indexed_name
  --   | slice_name | attribute_name
  | 0 => parse_abort .out_of_fuel
  | fuel + 1 =>
    BEGIN "name" do
      match ← peek with
      | .tSTRING => do
        let op ← p_operator_symbol
        if ← optional .tLPAREN then
          let e ← p_expression fuel
          p_function_call fuel op e
        else
          pure (.T_REF (← CURRENT_LOC) (some op) none none)
      | .tID => do
        match ← peek2 with
        | .tLPAREN => do
          let pfx ← p_identifier
          let _ ← consume .tLPAREN
          let expr1 ← p_expression fuel
          match ← peek with
          | .tRPAREN | .tCOMMA => p_function_call fuel pfx expr1
          | .tTO | .tDOWNTO => p_slice_name fuel pfx expr1
          | _ => do
            expect [.tRPAREN, .tCOMMA, .tTO, .tDOWNTO]
            pure (.T_OPEN LOC_INVALID)
        | _ => p_simple_name
      | _ => do
        expect [.tSTRING, .tID]
        pure (.T_OPEN LOC_INVALID)
def p_primary : Nat → parse_m tree_t
  -- name | literal | aggregate | function_call | qualified_expression
  --   | type_conversion | allocator | ( expression )
  | 0 => parse_abort .out_of_fuel
  | fuel + 1 =>
    BEGIN "primary" do
      match ← peek with
      | .tLPAREN => do
        let _ ← consume .tLPAREN
        let sub ← p_expression fuel
        let _ ← consume .tRPAREN
        pure sub
      | .tINT | .tREAL | .tNULL => p_literal
      | .tSTRING => do
        if (← peek2) = .tLPAREN then p_name fuel else p_literal
      | .tID => p_name fuel
      | _ => do
        expect [.tLPAREN, .tLITERAL, .tINT, .tREAL, .tNULL, .tID, .tSTRING]
        pure (.T_OPEN LOC_INVALID)
def p_factor : Nat → parse_m tree_t
  -- primary [ ** primary ] | abs primary | not primary
  | 0 => parse_abort .out_of_fuel
  | fuel + 1 =>
    BEGIN "factor" do
      let operand ← p_primary fuel
      pure operand
def p_term_loop : Nat → tree_t → parse_m tree_t
  | 0, _ => parse_abort .out_of_fuel
  | fuel + 1, term => do
    if ← scan [.tTIMES, .tOVER, .tMOD, .tREM] then
      let op ← p_multiplying_operator
      let left := term
      let right ← p_factor fuel
      let loc ← CURRENT_LOC
      p_term_loop fuel
        (.T_FCALL loc (some op) none none [.mk .P_POS left, .mk .P_POS right])
    else
      pure term
def p_term : Nat → parse_m tree_t
  -- factor { multiplying_operator factor }
  | 0 => parse_abort .out_of_fuel
  | fuel + 1 =>
    BEGIN "term" do
      let term ← p_factor fuel
      p_term_loop fuel term
def p_simple_expression_loop : Nat → tree_t → parse_m tree_t
  | 0, _ => parse_abort .out_of_fuel
  | fuel + 1, expr => do
    if ← scan [.tPLUS, .tMINUS, .tAMP] then
      let op ← p_adding_operator
      let left := expr
      let right ← p_term fuel
      let loc ← CURRENT_LOC
      p_simple_expression_loop fuel
        (.T_FCALL loc (some op) none none [.mk .P_POS left, .mk .P_POS right])
    else
      pure expr
def p_simple_expression : Nat → parse_m tree_t
  -- [ sign ] term { adding_operator term }
  | 0 => parse_abort .out_of_fuel
  | fuel + 1 =>
    BEGIN "simple expression" do
      -- p_sign()
      let expr ← p_term fuel
      p_simple_expression_loop fuel expr
def p_shift_expression : Nat → parse_m tree_t
  -- simple_expression [ shift_operator simple_expression ]
  | 0 => parse_abort .out_of_fuel
  | fuel + 1 =>
    BEGIN "shift expression" do
      let left ← p_simple_expression fuel
      pure left
def p_relation_loop : Nat → tree_t → parse_m tree_t
  | 0, _ => parse_abort .out_of_fuel
  | fuel + 1, rel => do
    if ← scan [.tEQ, .tNEQ, .tLT, .tLE, .tGT, .tGE] then
      let op ← p_relational_operator
      let left := rel
      let right ← p_shift_expression fuel
      let loc ← CURRENT_LOC
      p_relation_loop fuel
        (.T_FCALL loc (some op) none none [.mk .P_POS left, .mk .P_POS right])
    else
      pure rel
def p_relation : Nat → parse_m tree_t
  -- shift_expression [ relational_operator shift_expression ]
  | 0 => parse_abort .out_of_fuel
  | fuel + 1 =>
    BEGIN "relation" do
      let rel ← p_shift_expression fuel
      p_relation_loop fuel rel
def p_expression : Nat → parse_m tree_t
  -- relation { and relation } | relation { or relation }
  --   | relation { xor relation } | relation [ nand relation ]
  --   | relation [ nor relation ] | relation { xnor relation }
  | 0 => parse_abort .out_of_fuel
  | fuel + 1 =>
    BEGIN "expression" do
      let left ← p_relation fuel
      pure left
end

/-! ## Parser: declarations, statements and design units -/

/-- Loop of p_identifier_list.  Modelled from the spec: the list functions
ident_list_add and ident_list_push are not under src/; the list is taken to
hold every identifier once, in source order. -/
def p_identifier_list_loop : Nat → List ident_t → parse_m (List ident_t)
  | 0, _ => parse_abort .out_of_fuel
  | fuel + 1, result => do
    if ← optional .tCOMMA then
      let i ← p_identifier
      p_identifier_list_loop fuel (result ++ [i])
    else
      pure result

def p_identifier_list (fuel : Nat) : parse_m (List ident_t) := do
  -- identifier { , identifier }
  let i ← p_identifier
  p_identifier_list_loop fuel [i]

def p_library_clause : parse_m Unit := pure ()

def p_use_clause : parse_m Unit := pure ()

def p_context_item : parse_m Unit :=
  -- library_clause | use_clause
  BEGIN "context item" do
    match ← peek with
    | .tLIBRARY => p_library_clause
    | .tUSE => p_use_clause
    | _ => expect [.tLIBRARY, .tUSE]

def p_context_clause_loop : Nat → parse_m Unit
  | 0 => parse_abort .out_of_fuel
  | fuel + 1 => do
    if ← scan [.tLIBRARY, .tUSE] then
      p_context_item
      p_context_clause_loop fuel
    else
      pure ()

def p_context_clause (fuel : Nat) : parse_m Unit :=
  -- { context_item }
  BEGIN "context clause" (p_context_clause_loop fuel)

def p_subtype_indication (fuel : Nat) : parse_m type_t :=
  -- [ name ] type_mark [ constraint ]
  BEGIN "subtype indication" do
    if (← peek) = .tID then
      if (← peek2) = .tID then
        let rname ← p_name fuel
        -- XXX: check name is resolution_function_name
        let base ← p_type_mark
        return .mk .T_SUBTYPE none none [] (some base) (some rname)
    p_type_mark
    -- p_constraint()

/-- Loop that creates one declaration per identifier of the list. -/
def add_each (addf : tree_t → tree_t → tree_t) (mk : ident_t → tree_t) :
    List ident_t → tree_t → tree_t
  | [], parent => parent
  | i :: rest, parent => add_each addf mk rest (addf parent (mk i))

def p_interface_constant_declaration (fuel : Nat) (parent : tree_t)
    (addf : tree_t → tree_t → tree_t) : parse_m tree_t :=
  -- [ constant ] identifier_list : [ in ] subtype_indication [ := expression ]
  BEGIN "interface constant declaration" do
    let _ ← optional .tCONSTANT
    let ids ← p_identifier_list fuel
    let _ ← consume .tCOLON
    let _ ← optional .tIN
    let type ← p_subtype_indication fuel
    let init ← if ← optional .tASSIGN then do pure (some (← p_expression fuel))
      else pure none
    let loc ← CURRENT_LOC
    pure (add_each addf
      (fun i => .T_PORT_DECL loc i .PORT_IN (some type) none init) ids parent)

def p_interface_signal_declaration (fuel : Nat) (parent : tree_t)
    (_addf : tree_t → tree_t → tree_t) : parse_m tree_t :=
  -- [signal] identifier_list : [ mode ] subtype_indication [ bus ]
  --    [ := expression ]
  BEGIN "interface signal declaration" do
    let _ ← optional .tSIGNAL
    let ids ← p_identifier_list fuel
    let _ ← consume .tCOLON
    let mode ← if ← scan [.tIN, .tOUT, .tINOUT, .tBUFFER, .tLINKAGE] then p_mode
      else pure .PORT_IN
    let type ← p_subtype_indication fuel
    let _ ← optional .tBUS
    let init ← if ← optional .tASSIGN then do pure (some (← p_expression fuel))
      else pure none
    let loc ← CURRENT_LOC
    pure (add_each tree_add_port
      (fun i => .T_PORT_DECL loc i mode (some type) (some .C_SIGNAL) init)
      ids parent)

def p_interface_variable_declaration (parent : tree_t) : parse_m tree_t :=
  -- [variable] identifier_list : [ mode ] subtype_indication [ := expression ]
  BEGIN "interface variable declaration" (pure parent)

def p_interface_file_declaration (parent : tree_t) : parse_m tree_t :=
  -- file identifier_list : subtype_indication
  BEGIN "interface file declaration" (pure parent)

def p_interface_declaration (fuel : Nat) (def_class : class_t)
    (parent : tree_t) (addf : tree_t → tree_t → tree_t) : parse_m tree_t :=
  -- interface_constant_declaration | interface_signal_declaration
  --   | interface_variable_declaration | interface_file_declaration
  BEGIN "interface declaration" do
    match ← peek with
    | .tCONSTANT => p_interface_constant_declaration fuel parent addf
    | .tSIGNAL => p_interface_signal_declaration fuel parent addf
    | .tVARIABLE => p_interface_variable_declaration parent
    | .tFILE => p_interface_file_declaration parent
    | .tID =>
      match def_class with
      | .C_CONSTANT => p_interface_constant_declaration fuel parent addf
      | .C_SIGNAL => p_interface_signal_declaration fuel parent addf
      | .C_VARIABLE => p_interface_variable_declaration parent
      | _ => parse_abort (.assert_failed "false")
    | _ => do
      expect [.tCONSTANT, .tSIGNAL, .tVARIABLE, .tFILE, .tID]
      pure parent

def p_interface_element (fuel : Nat) (def_class : class_t) (parent : tree_t)
    (addf : tree_t → tree_t → tree_t) : parse_m tree_t :=
  -- interface_declaration
  BEGIN "interface element" (p_interface_declaration fuel def_class parent addf)

def p_interface_list_loop (def_class : class_t)
    (addf : tree_t → tree_t → tree_t) : Nat → tree_t → parse_m tree_t
  | 0, _ => parse_abort .out_of_fuel
  | fuel + 1, parent => do
    if ← optional .tSEMI then
      let parent ← p_interface_element fuel def_class parent addf
      p_interface_list_loop def_class addf fuel parent
    else
      pure parent

def p_interface_list (fuel : Nat) (def_class : class_t) (parent : tree_t)
    (addf : tree_t → tree_t → tree_t) : parse_m tree_t :=
  -- interface_element { ; interface_element }
  BEGIN "interface list" do
    let parent ← p_interface_element fuel def_class parent addf
    p_interface_list_loop def_class addf fuel parent

def p_port_list (fuel : Nat) (parent : tree_t) : parse_m tree_t :=
  -- port_list ::= interface_list
  BEGIN "port list" (p_interface_list fuel .C_SIGNAL parent tree_add_port)

def p_port_clause (fuel : Nat) (parent : tree_t) : parse_m tree_t :=
  -- port ( port_list ) ;
  BEGIN "port clause" do
    let _ ← consume .tPORT
    let _ ← consume .tLPAREN
    let parent ← p_port_list fuel parent
    let _ ← consume .tRPAREN
    let _ ← consume .tSEMI
    pure parent

def p_generic_list (fuel : Nat) (parent : tree_t) : parse_m tree_t :=
  -- generic_list ::= interface_list
  BEGIN "generic list" (p_interface_list fuel .C_CONSTANT parent tree_add_generic)

def p_generic_clause (fuel : Nat) (parent : tree_t) : parse_m tree_t :=
  -- generic ( generic_list ) ;
  BEGIN "generic clause" do
    let _ ← consume .tGENERIC
    let _ ← consume .tLPAREN
    let parent ← p_generic_list fuel parent
    let _ ← consume .tRPAREN
    let _ ← consume .tSEMI
    pure parent

def p_entity_header (fuel : Nat) (entity : tree_t) : parse_m tree_t :=
  -- [ generic_clause ] [ port_clause ]
  BEGIN "entity header" do
    let entity ← if ← scan [.tGENERIC] then p_generic_clause fuel entity
      else pure entity
    if ← scan [.tPORT] then p_port_clause fuel entity
    else pure entity

def p_attribute_declaration (head : ident_t) (parent : tree_t) :
    parse_m tree_t :=
  -- attribute identifier : type_mark ;
  BEGIN "attribute declaration" do
    let ty ← p_type_mark
    let _ ← consume .tSEMI
    let t := tree_t.T_ATTR_DECL (← CURRENT_LOC) head (some ty)
    pure (tree_add_decl parent t)

def p_entity_class : parse_m class_t :=
  -- entity | procedure | type | signal | label | group | architecture
  --   | function | subtype | variable | literal | file | configuration
  --   | package | constant | component | units
  BEGIN "entity class" do
    match ← one_of [.tENTITY, .tPROCEDURE, .tSIGNAL, .tLABEL] with
    | .tENTITY => pure .C_ENTITY
    | .tPROCEDURE => pure .C_PROCEDURE
    | .tSIGNAL => pure .C_SIGNAL
    | .tLABEL => pure .C_LABEL
    | _ => pure .C_DEFAULT

def p_entity_specification (fuel : Nat) : parse_m (List ident_t × class_t) :=
  -- entity_name_list : entity_class
  BEGIN "entity specification" do
    let ids ← p_identifier_list fuel
    let _ ← consume .tCOLON
    let cls ← p_entity_class
    pure (ids, cls)

def p_attribute_specification (fuel : Nat) (head : ident_t) (parent : tree_t) :
    parse_m tree_t :=
  -- attribute attribute_designator of entity_specification is expression ;
  BEGIN "attribute specification" do
    let (ids, cls) ← p_entity_specification fuel
    let _ ← consume .tIS
    let value ← p_expression fuel
    let _ ← consume .tSEMI
    let loc ← CURRENT_LOC
    pure (add_each tree_add_decl (fun _ => .T_ATTR_SPEC loc head cls value)
      ids parent)

def p_entity_declarative_item (fuel : Nat) (entity : tree_t) : parse_m tree_t :=
  -- subprogram_declaration | subprogram_body | type_declaration
  --   | subtype_declaration | constant_declaration | signal_declaration
  --   | shared_variable_declaration | file_declaration | alias_declaration
  --   | attribute_declaration | attribute_specification
  --   | disconnection_specification | use_clause | group_template_declaration
  --   | group_declaration
  BEGIN "entity declarative item" do
    match ← peek with
    | .tATTRIBUTE => do
      let _ ← consume .tATTRIBUTE
      let head ← p_identifier
      match ← one_of [.tCOLON, .tOF] with
      | .tCOLON => p_attribute_declaration head entity
      | .tOF => p_attribute_specification fuel head entity
      | _ => pure entity
    | _ => do
      expect [.tATTRIBUTE]
      pure entity

def p_entity_declarative_part_loop : Nat → tree_t → parse_m tree_t
  | 0, _ => parse_abort .out_of_fuel
  | fuel + 1, entity => do
    if ← scan [.tATTRIBUTE] then
      let entity ← p_entity_declarative_item fuel entity
      p_entity_declarative_part_loop fuel entity
    else
      pure entity

def p_entity_declarative_part (fuel : Nat) (entity : tree_t) : parse_m tree_t :=
  -- { entity_declarative_item }
  BEGIN "entity declarative part" (p_entity_declarative_part_loop fuel entity)

/-- The text of the default message of an assertion. -/
def assertion_violation : String := "Assertion violation."

def p_assertion (fuel : Nat) : parse_m tree_t :=
  -- assert condition [ report expression ] [ severity expression ]
  BEGIN "assertion" do
    let _ ← consume .tASSERT
    let value ← p_expression fuel
    let message ←
      if ← optional .tREPORT then p_expression fuel
      else do
        match (← get).assert_viol with
        | some a => pure a
        | none => do
          let a ← str_to_agg assertion_violation.toList LOC_INVALID
          modify fun st => { st with assert_viol := some a }
          pure a
    let severity ←
      if ← optional .tSEVERITY then p_expression fuel
      else do
        let i ← ident_new "ERROR"
        pure (tree_t.T_REF LOC_INVALID (some i) none none)
    pure (.T_ASSERT (← CURRENT_LOC) none (some value) message severity [])

def p_concurrent_assertion_statement (fuel : Nat) : parse_m tree_t :=
  -- [ label : ] [ postponed ] assertion ;
  BEGIN "concurrent assertion statement" do
    let postponed ← optional .tPOSTPONED
    let s ← p_assertion fuel
    let s := tree_change_kind_cassert s
    let _ ← consume .tSEMI
    let s := tree_set_loc s (← CURRENT_LOC)
    if postponed then
      let i ← ident_new "postponed"
      pure (tree_add_attr_int s i 1)
    else
      pure s

def p_entity_statement (fuel : Nat) : parse_m tree_t :=
  -- concurrent_assertion_statement | concurrent_procedure_call_statement
  --   | process_statement
  BEGIN "entity statement" do
    match ← peek with
    | .tASSERT => p_concurrent_assertion_statement fuel
    | .tPOSTPONED => do
      let _ ← consume .tPOSTPONED
      match ← one_of [.tPROCESS, .tASSERT] with
      | .tPROCESS =>
        -- p_process_statement()
        pure (.T_NULL LOC_INVALID none)
      | .tASSERT => p_concurrent_assertion_statement fuel
      | _ => pure (.T_NULL LOC_INVALID none)
    | _ => do
      expect [.tASSERT, .tPOSTPONED]
      pure (.T_NULL LOC_INVALID none)

def p_entity_statement_part_loop : Nat → tree_t → parse_m tree_t
  | 0, _ => parse_abort .out_of_fuel
  | fuel + 1, entity => do
    if ← scan [.tASSERT, .tPROCESS, .tPOSTPONED] then
      let s ← p_entity_statement fuel
      p_entity_statement_part_loop fuel (tree_add_stmt entity s)
    else
      pure entity

def p_entity_statement_part (fuel : Nat) (entity : tree_t) : parse_m tree_t :=
  -- { entity_statement }
  BEGIN "entity statement part" (p_entity_statement_part_loop fuel entity)

def p_entity_declaration (fuel : Nat) : parse_m tree_t :=
  -- entity identifier is entity_header entity_declarative_part
  --   [ begin entity_statement_part ] end [ entity ] [ entity_simple_name ] ;
  BEGIN "entity declaration" do
    let _ ← consume .tENTITY
    let id ← p_identifier
    let t := tree_t.T_ENTITY LOC_INVALID id [] [] [] []
    let _ ← consume .tIS
    let t ← p_entity_header fuel t
    let t ← p_entity_declarative_part fuel t
    let t ← if ← optional .tBEGIN then p_entity_statement_part fuel t else pure t
    let _ ← consume .tEND
    let _ ← optional .tENTITY
    if (← peek) = .tID then
      let _tail_id ← p_identifier
      -- XXX: test me
    let _ ← consume .tSEMI
    pure (tree_set_loc t (← CURRENT_LOC))

def p_primary_unit (fuel : Nat) : parse_m (Option tree_t) :=
  -- entity_declaration | configuration_declaration | package_declaration
  BEGIN "primary unit" do
    match ← peek with
    | .tENTITY => do return some (← p_entity_declaration fuel)
    | _ => do
      expect [.tENTITY]
      return none

def p_signal_declaration (fuel : Nat) (parent : tree_t) : parse_m tree_t :=
  -- signal identifier_list : subtype_indication [ signal_kind ]
  --   [ := expression ] ;
  BEGIN "signal declaration" do
    let _ ← consume .tSIGNAL
    let ids ← p_identifier_list fuel
    let _ ← consume .tCOLON
    let type ← p_subtype_indication fuel
    -- [ signal_kind ]
    let init ← if ← optional .tASSIGN then do pure (some (← p_expression fuel))
      else pure none
    let _ ← consume .tSEMI
    let loc ← CURRENT_LOC
    pure (add_each tree_add_decl
      (fun i => .T_SIGNAL_DECL loc i (some type) init) ids parent)

def p_block_declarative_item (fuel : Nat) (parent : tree_t) : parse_m tree_t :=
  -- subprogram_declaration | subprogram_body | type_declaration
  --   | subtype_declaration | constant_declaration | signal_declaration
  --   | shared_variable_declaration | file_declaration | alias_declaration
  --   | component_declaration | attribute_declaration
  --   | attribute_specification | configuration_specification
  --   | disconnection_specification | use_clause | group_template_declaration
  --   | group_declaration
  BEGIN "block declarative item" do
    match ← peek with
    | .tSIGNAL => p_signal_declaration fuel parent
    | _ => do
      expect [.tSIGNAL]
      pure parent

def p_variable_declaration (fuel : Nat) (parent : tree_t) : parse_m tree_t :=
  -- [ shared ] variable identifier_list : subtype_indication
  --   [ := expression ] ;
  BEGIN "variable declaration" do
    let _ ← consume .tVARIABLE
    let ids ← p_identifier_list fuel
    let _ ← consume .tCOLON
    let type ← p_subtype_indication fuel
    let init ← if ← optional .tASSIGN then do pure (some (← p_expression fuel))
      else pure none
    let _ ← consume .tSEMI
    let loc ← CURRENT_LOC
    pure (add_each tree_add_decl
      (fun i => .T_VAR_DECL loc i (some type) init) ids parent)

def p_process_declarative_item (fuel : Nat) (proc : tree_t) : parse_m tree_t :=
  -- subprogram_declaration | subprogram_body | type_declaration
  --   | subtype_declaration | constant_declaration | variable_declaration
  --   | file_declaration | alias_declaration | attribute_declaration
  --   | attribute_specification | use_clause | group_template_declaration
  --   | group_declaration
  BEGIN "process declarative item" do
    match ← peek with
    | .tVARIABLE => p_variable_declaration fuel proc
    | _ => do
      expect [.tVARIABLE]
      pure proc

def p_process_declarative_part_loop : Nat → tree_t → parse_m tree_t
  | 0, _ => parse_abort .out_of_fuel
  | fuel + 1, proc => do
    if ← scan [.tVARIABLE] then
      let proc ← p_process_declarative_item fuel proc
      p_process_declarative_part_loop fuel proc
    else
      pure proc

def p_process_declarative_part (fuel : Nat) (proc : tree_t) : parse_m tree_t :=
  -- { process_declarative_item }
  BEGIN "process declarative part" (p_process_declarative_part_loop fuel proc)

def p_target (name : Option tree_t) : parse_m tree_t :=
  -- name | aggregate
  BEGIN "target" do
    match name with
    | none => parse_abort (.assert_failed "false") -- p_aggregate()
    | some n => pure n

def p_variable_assignment_statement (fuel : Nat) (label : Option ident_t)
    (name : Option tree_t) : parse_m tree_t :=
  -- [ label : ] target := expression ;
  EXTEND "variable assignment statement" do
    let target ← p_target name
    let _ ← consume .tASSIGN
    let value ← p_expression fuel
    let _ ← consume .tSEMI
    let loc ← CURRENT_LOC
    let label ← match label with
      | some l => pure l
      | none => loc_to_ident loc
    pure (.T_VAR_ASSIGN loc (some label) target value)

def p_waveform_element (fuel : Nat) : parse_m tree_t :=
  -- expression [ after expression ] | null [ after expression ]
  BEGIN "waveform element" do
    let value ← p_expression fuel
    let delay ← if ← optional .tAFTER then do pure (some (← p_expression fuel))
      else pure none
    pure (.T_WAVEFORM (← CURRENT_LOC) value delay)

def p_waveform_loop : Nat → tree_t → parse_m tree_t
  | 0, _ => parse_abort .out_of_fuel
  | fuel + 1, stmt => do
    if ← optional .tCOMMA then
      let w ← p_waveform_element fuel
      p_waveform_loop fuel (tree_add_waveform stmt w)
    else
      pure stmt

def p_waveform (fuel : Nat) (stmt : tree_t) : parse_m tree_t :=
  -- waveform_element { , waveform_element } | unaffected
  BEGIN "waveform" do
    if ← optional .tUNAFFECTED then
      pure stmt
    else do
      let w ← p_waveform_element fuel
      p_waveform_loop fuel (tree_add_waveform stmt w)

def p_signal_assignment_statement (fuel : Nat) (label : Option ident_t)
    (name : Option tree_t) : parse_m tree_t :=
  -- [ label : ] target <= [ delay_mechanism ] waveform ;
  EXTEND "signal assignment statement" do
    let target ← p_target name
    let t := tree_t.T_SIGNAL_ASSIGN LOC_INVALID none target []
    let _ ← consume .tLE
    let t ← p_waveform fuel t
    let _ ← consume .tSEMI
    let loc ← CURRENT_LOC
    let t := tree_set_loc t loc
    let label ← match label with
      | some l => pure l
      | none => loc_to_ident loc
    pure (tree_set_ident t label)

def p_sensitivity_list_loop : Nat → tree_t → parse_m tree_t
  | 0, _ => parse_abort .out_of_fuel
  | fuel + 1, proc => do
    if ← optional .tCOMMA then
      let n ← p_name fuel
      p_sensitivity_list_loop fuel (tree_add_trigger proc n)
    else
      pure proc

def p_sensitivity_list (fuel : Nat) (proc : tree_t) : parse_m tree_t :=
  -- name { , name }
  BEGIN "sensitivity list" do
    let n ← p_name fuel
    p_sensitivity_list_loop fuel (tree_add_trigger proc n)

def p_sensitivity_clause (fuel : Nat) (wait : tree_t) : parse_m tree_t :=
  -- on sensitivity_list
  BEGIN "sensitivity clause" do
    let _ ← consume .tON
    p_sensitivity_list fuel wait

def p_condition_clause (fuel : Nat) (wait : tree_t) : parse_m tree_t :=
  -- until condition
  BEGIN "condition clause" do
    let _ ← consume .tUNTIL
    pure (tree_set_value wait (← p_expression fuel))

def p_timeout_clause (fuel : Nat) (wait : tree_t) : parse_m tree_t :=
  -- for expression
  BEGIN "timeout clause" do
    let _ ← consume .tFOR
    pure (tree_set_delay wait (← p_expression fuel))

def p_wait_statement (fuel : Nat) (label : Option ident_t) : parse_m tree_t :=
  -- [ label : ] wait [ sensitivity_clause ] [ condition_clause ]
  --   [ timeout_clause ] ;
  EXTEND "wait statement" do
    let t := tree_t.T_WAIT LOC_INVALID none [] none none
    let _ ← consume .tWAIT
    let t ← if (← peek) = .tON then p_sensitivity_clause fuel t else pure t
    let t ← if (← peek) = .tUNTIL then p_condition_clause fuel t else pure t
    let t ← if (← peek) = .tFOR then p_timeout_clause fuel t else pure t
    let _ ← consume .tSEMI
    set_label_and_loc t label (← CURRENT_LOC)

def p_assertion_statement (fuel : Nat) (label : Option ident_t) :
    parse_m tree_t :=
  -- [ label : ] assertion ;
  EXTEND "assertion statement" do
    let t ← p_assertion fuel
    let _ ← consume .tSEMI
    set_label_and_loc t label (← CURRENT_LOC)

def p_report_statement (fuel : Nat) (label : Option ident_t) : parse_m tree_t :=
  -- [ label : ] report expression [ severity expression ] ;
  EXTEND "report statement" do
    let _ ← consume .tREPORT
    let message ← p_expression fuel
    let severity ←
      if ← optional .tSEVERITY then p_expression fuel
      else do
        let i ← ident_new "NOTE"
        pure (tree_t.T_REF LOC_INVALID (some i) none none)
    let _ ← consume .tSEMI
    let i ← ident_new "FALSE"
    let false_ref := tree_t.T_REF LOC_INVALID (some i) none none
    let t := tree_t.T_ASSERT LOC_INVALID none (some false_ref) message severity []
    let i ← ident_new "is_report"
    let t := tree_add_attr_int t i 1
    set_label_and_loc t label (← CURRENT_LOC)

def p_null_statement (label : Option ident_t) : parse_m tree_t :=
  -- [ label : ] null ;
  EXTEND "null statement" do
    let _ ← consume .tNULL
    let _ ← consume .tSEMI
    set_label_and_loc (.T_NULL LOC_INVALID none) label (← CURRENT_LOC)

def p_iteration_scheme (fuel : Nat) : parse_m tree_t :=
  -- while condition | for loop_parameter_specification
  BEGIN "iteration scheme" do
    if ← optional .tWHILE then
      pure (.T_WHILE LOC_INVALID none (← p_expression fuel) [])
    else if ← optional .tFOR then
      -- p_loop_parameter_specification(t);
      pure (.T_FOR LOC_INVALID none [])
    else do
      let i ← ident_new "TRUE"
      let true_ref := tree_t.T_REF LOC_INVALID (some i) none none
      pure (.T_WHILE LOC_INVALID none true_ref [])

def p_return_statement (fuel : Nat) (label : Option ident_t) : parse_m tree_t :=
  -- [ label : ] return [ expression ] ;
  EXTEND "return statement" do
    let _ ← consume .tRETURN
    let t := tree_t.T_RETURN LOC_INVALID none none
    let t ← if (← peek) ≠ .tSEMI then do pure (tree_set_value t (← p_expression fuel))
      else pure t
    let _ ← consume .tSEMI
    set_label_and_loc t label (← CURRENT_LOC)

/-- Tokens that start a sequential statement. -/
def sequential_statement_starts : List token_t :=
  [.tID, .tWAIT, .tASSERT, .tREPORT, .tIF, .tNULL, .tRETURN, .tWHILE, .tFOR,
   .tLOOP]

mutual
def p_sequence_of_statements_loop :
    Nat → tree_t → (tree_t → tree_t → tree_t) → parse_m tree_t
  | 0, _, _ => parse_abort .out_of_fuel
  | fuel + 1, parent, addf => do
    if ← scan sequential_statement_starts then
      let s ← p_sequential_statement fuel
      p_sequence_of_statements_loop fuel (addf parent s) addf
    else
      pure parent
def p_sequence_of_statements :
    Nat → tree_t → (tree_t → tree_t → tree_t) → parse_m tree_t
  -- { sequential_statement }
  | 0, _, _ => parse_abort .out_of_fuel
  | fuel + 1, parent, addf =>
    BEGIN "sequence of statements"
      (p_sequence_of_statements_loop fuel parent addf)
def p_if_statement_tail : Nat → tree_t → parse_m tree_t
  | 0, _ => parse_abort .out_of_fuel
  | fuel + 1, tail => do
    if ← optional .tELSIF then
      let i ← ident_new "elsif"
      let value ← p_expression fuel
      let elsif := tree_t.T_IF LOC_INVALID (some i) value [] []
      let _ ← consume .tTHEN
      let elsif ← p_sequence_of_statements fuel elsif tree_add_stmt
      let elsif := tree_set_loc elsif (← CURRENT_LOC)
      -- tail now points to elsif, which the rest of the chain extends
      let elsif ← p_if_statement_tail fuel elsif
      pure (tree_add_else_stmt tail elsif)
    else if ← optional .tELSE then
      p_sequence_of_statements fuel tail tree_add_else_stmt
    else
      pure tail
def p_if_statement : Nat → Option ident_t → parse_m tree_t
  -- [ label : ] if condition then sequence_of_statements
  --   { elsif condition then sequence_of_statements }
  --   [ else sequence_of_statements ] end if [ label ] ;
  | 0, _ => parse_abort .out_of_fuel
  | fuel + 1, label =>
    EXTEND "if statement" do
      let _ ← consume .tIF
      let value ← p_expression fuel
      let t := tree_t.T_IF LOC_INVALID none value [] []
      let _ ← consume .tTHEN
      let t ← p_sequence_of_statements fuel t tree_add_stmt
      let t ← p_if_statement_tail fuel t
      let _ ← consume .tEND
      let _ ← consume .tIF
      if (← peek) = .tID then
        let _tail_id ← p_identifier
        -- XXX: test me
      let _ ← consume .tSEMI
      set_label_and_loc t label (← CURRENT_LOC)
def p_loop_statement : Nat → Option ident_t → parse_m tree_t
  -- [ loop_label : ] [ iteration_scheme ] loop sequence_of_statements
  --   end loop [ loop_label ] ;
  | 0, _ => parse_abort .out_of_fuel
  | fuel + 1, label => do
    let t ← p_iteration_scheme fuel
    let _ ← consume .tLOOP
    let t ← p_sequence_of_statements fuel t tree_add_stmt
    let _ ← consume .tEND
    let _ ← consume .tLOOP
    if (← peek) = .tID then
      let _tail_id ← p_identifier
      -- XXX: test me
    let _ ← consume .tSEMI
    set_label_and_loc t label (← CURRENT_LOC)
def p_sequential_statement : Nat → parse_m tree_t
  -- wait_statement | assertion_statement | report_statement
  --   | signal_assignment_statement | variable_assignment_statement
  --   | procedure_call_statement | if_statement | case_statement
  --   | loop_statement | next_statement | exit_statement | return_statement
  --   | null_statement
  | 0 => parse_abort .out_of_fuel
  | fuel + 1 =>
    BEGIN "sequential statement" do
      let mut label : Option ident_t := none
      if (← peek) = .tID then
        if (← peek2) = .tCOLON then
          label := some (← p_identifier)
          let _ ← consume .tCOLON
      match ← peek with
      | .tWAIT => p_wait_statement fuel label
      | .tASSERT => p_assertion_statement fuel label
      | .tREPORT => p_report_statement fuel label
      | .tIF => p_if_statement fuel label
      | .tNULL => p_null_statement label
      | .tRETURN => p_return_statement fuel label
      | .tWHILE | .tLOOP | .tFOR => p_loop_statement fuel label
      | .tID => do
        let name ← p_name fuel
        match ← peek with
        | .tASSIGN => p_variable_assignment_statement fuel label (some name)
        | .tLE => p_signal_assignment_statement fuel label (some name)
        | _ => do
          expect [.tASSIGN, .tLE]
          pure (.T_NULL LOC_INVALID none)
      | _ => do
        expect [.tWAIT, .tID]
        pure (.T_NULL LOC_INVALID none)
end

def p_process_statement_part (fuel : Nat) (proc : tree_t) : parse_m tree_t :=
  -- { sequential_statement }
  BEGIN "process statement part"
    (p_sequence_of_statements fuel proc tree_add_stmt)

def p_process_statement (fuel : Nat) (label : Option ident_t) :
    parse_m tree_t :=
  -- [ process_label : ] [ postponed ] process [ ( sensitivity_list ) ] [ is ]
  --   process_declarative_part begin process_statement_part end [ postponed ]
  --   process [ process_label ] ;
  BEGIN "process statement" do
    let t := tree_t.T_PROCESS LOC_INVALID none [] [] [] []
    let postponed ← optional .tPOSTPONED
    let _ ← consume .tPROCESS
    let t ← if ← optional .tLPAREN then do
        let t ← p_sensitivity_list fuel t
        let _ ← consume .tRPAREN
        pure t
      else pure t
    let _ ← optional .tIS
    let t ← p_process_declarative_part fuel t
    let _ ← consume .tBEGIN
    let t ← p_process_statement_part fuel t
    let _ ← consume .tEND
    if postponed then
      let _ ← optional .tPOSTPONED
    let _ ← consume .tPROCESS
    if (← peek) = .tID then
      let _tail_id ← p_identifier
      -- XXX: test me
    let _ ← consume .tSEMI
    let loc ← CURRENT_LOC
    let t := tree_set_loc t loc
    let label ← match label with
      | some l => pure l
      | none => loc_to_ident loc
    let t := tree_set_ident t label
    if postponed then
      let i ← ident_new "postponed"
      pure (tree_add_attr_int t i 1)
    else
      pure t

def p_concurrent_statement (fuel : Nat) : parse_m tree_t :=
  -- block_statement | process_statement | concurrent_procedure_call_statement
  --   | concurrent_assertion_statement
  --   | concurrent_signal_assignment_statement
  --   | component_instantiation_statement | generate_statement
  BEGIN "concurrent statement" do
    let mut label : Option ident_t := none
    if (← peek) = .tID then
      if (← peek2) = .tCOLON then
        label := some (← p_identifier)
        let _ ← consume .tCOLON
    if (← peek) = .tID then
      let _name ← p_name fuel
    match ← peek with
    | .tPROCESS | .tPOSTPONED => p_process_statement fuel label
    | _ => do
      expect [.tPROCESS]
      pure (.T_BLOCK LOC_INVALID)

def p_architecture_declarative_part_loop : Nat → tree_t → parse_m tree_t
  | 0, _ => parse_abort .out_of_fuel
  | fuel + 1, arch => do
    if ← scan [.tSIGNAL, .tPROCESS] then
      let arch ← p_block_declarative_item fuel arch
      p_architecture_declarative_part_loop fuel arch
    else
      pure arch

def p_architecture_declarative_part (fuel : Nat) (arch : tree_t) :
    parse_m tree_t :=
  -- { block_declarative_item }
  BEGIN "architecture declarative part"
    (p_architecture_declarative_part_loop fuel arch)

def p_architecture_statement_part_loop : Nat → tree_t → parse_m tree_t
  | 0, _ => parse_abort .out_of_fuel
  | fuel + 1, arch => do
    if ← scan [.tID, .tPROCESS, .tPOSTPONED] then
      let s ← p_concurrent_statement fuel
      p_architecture_statement_part_loop fuel (tree_add_stmt arch s)
    else
      pure arch

def p_architecture_statement_part (fuel : Nat) (arch : tree_t) :
    parse_m tree_t :=
  -- { concurrent_statement }
  BEGIN "architecture statement part"
    (p_architecture_statement_part_loop fuel arch)

def p_architecture_body (fuel : Nat) : parse_m tree_t :=
  -- architecture identifier of entity_name is architecture_declarative_part
  --   begin architecture_statement_part end [ architecture ]
  --   [ architecture_simple_name ] ;
  BEGIN "architecture body" do
    let _ ← consume .tARCHITECTURE
    let id ← p_identifier
    let _ ← consume .tOF
    let id2 ← p_identifier
    let t := tree_t.T_ARCH LOC_INVALID id id2 [] []
    let _ ← consume .tIS
    let t ← p_architecture_declarative_part fuel t
    let _ ← consume .tBEGIN
    let t ← p_architecture_statement_part fuel t
    let _ ← consume .tEND
    let _ ← optional .tARCHITECTURE
    if (← peek) = .tID then
      let _tail_id ← p_identifier
      -- XXX: test me
    let _ ← consume .tSEMI
    pure (tree_set_loc t (← CURRENT_LOC))

def p_secondary_unit (fuel : Nat) : parse_m (Option tree_t) :=
  -- architecture_body | package_body
  BEGIN "secondary unit" do
    match ← peek with
    | .tARCHITECTURE => do return some (← p_architecture_body fuel)
    | _ => do
      expect [.tARCHITECTURE]
      return none

def p_library_unit (fuel : Nat) : parse_m (Option tree_t) :=
  -- primary_unit | secondary_unit
  BEGIN "library unit" do
    match ← peek with
    | .tENTITY => p_primary_unit fuel
    | .tARCHITECTURE => p_secondary_unit fuel
    | _ => do
      expect [.tENTITY, .tARCHITECTURE]
      return none

def p_design_unit (fuel : Nat) : parse_m (Option tree_t) :=
  BEGIN "design unit" do
    p_context_clause fuel
    let unit ← p_library_unit fuel
    pure unit

/-- Entry point: the next design unit, or NULL (none). -/
def parse (fuel : Nat) : parse_m (Option tree_t) := do
  modify fun st =>
    { st with n_errors := 0, n_correct := RECOVER_THRESH, assert_viol := none }
  if (← peek) = .tEOF then
    return none
  let unit ← p_design_unit fuel
  if (← get).n_errors > 0 then
    return none
  else
    return unit

def parse_errors : parse_m Nat := do
  return (← get).n_errors

/-! ## Trees used to state the properties of the constant folder -/

/-- Arithmetic built-ins of two arguments on integers. -/
inductive arith_op
  | add | sub | mul
  deriving DecidableEq, Repr

/-- Name under which the built-in is marked on the callee. -/
def arith_op.name : arith_op → ident_t
  | .add => "add"
  | .sub => "sub"
  | .mul => "mul"

/-- Mathematical operation of the built-in. -/
def arith_op.apply : arith_op → Int → Int → Int
  | .add, a, b => a + b
  | .sub, a, b => a - b
  | .mul, a, b => a * b

/-- Call trees whose leaves are integer literals and whose inner nodes are
two-argument calls of add, sub and mul, each with its value computed
bottom-up in signed 64-bit arithmetic. -/
inductive arith_tree : tree_t → Int → Prop
  | lit (loc : loc_t) (ty : Option type_t) (n : Int) :
      INT64_MIN ≤ n → n ≤ INT64_MAX →
      arith_tree (.T_LITERAL loc ty (some (.L_INT n))) n
  | call (loc : loc_t) (id : Option ident_t) (ty : Option type_t)
      (dloc : loc_t) (did : ident_t) (dty : Option type_t)
      (dports : List tree_t) (dattrs : attrs_t) (op : arith_op)
      (x y : tree_t) (a b : Int) :
      tree_attr_str (.T_FUNC_DECL dloc did dty dports dattrs) builtin_i
        = some op.name →
      arith_tree x a → arith_tree y b →
      arith_tree
        (.T_FCALL loc id (some (.T_FUNC_DECL dloc did dty dports dattrs)) ty
          [.mk .P_POS x, .mk .P_POS y])
        (wrap64 (op.apply a b))

def ex_loc : loc_t := ⟨1, 0, 1, 0, none, some 0⟩

def ex_integer : type_t :=
  .mk .T_OTHER (some "STD.STANDARD.INTEGER") none [] none none

/-- The type STD.STANDARD.BOOLEAN as seen from one of its literals (the
back reference keeps the name only). -/
def ex_bool_name : type_t := .mk .T_OTHER (some std_bool_i) none [] none none

def ex_false : tree_t := .T_ENUM_LIT ex_loc "FALSE" (some ex_bool_name) 0

def ex_true : tree_t := .T_ENUM_LIT ex_loc "TRUE" (some ex_bool_name) 1

def ex_boolean : type_t :=
  .mk .T_OTHER (some std_bool_i) none [ex_false, ex_true] none none

/-- Declaration of a built-in: a function declaration whose attribute map
holds the built-in name. -/
def ex_builtin (name : ident_t) (result : type_t) : tree_t :=
  .T_FUNC_DECL ex_loc name (some (.mk .T_OTHER none (some result) [] none none))
    [] [(builtin_i, .A_STRING name)]

def ex_int (n : Int) : tree_t :=
  .T_LITERAL ex_loc (some ex_integer) (some (.L_INT n))

/-- Call of a built-in with positional actuals. -/
def ex_call (name : ident_t) (result : type_t) (args : List tree_t) : tree_t :=
  .T_FCALL ex_loc (some name) (some (ex_builtin name result)) (some result)
    (args.map (fun a => .mk .P_POS a))

/-- The call "+"(1, "*"(2, 3)) with both callees marked. -/
def ex_1_plus_2_times_3 : tree_t :=
  ex_call "add" ex_integer [ex_int 1, ex_call "mul" ex_integer [ex_int 2, ex_int 3]]

/-! The function
`function f(x: integer) return integer is variable y: integer := x;
begin while y < 10 loop y := y + 1; end loop; return y; end;` -/

def f_port_x : tree_t :=
  .T_PORT_DECL ex_loc "x" .PORT_IN (some ex_integer) none none

def f_ref_x : tree_t := .T_REF ex_loc (some "x") (some f_port_x) (some ex_integer)

def f_var_y : tree_t := .T_VAR_DECL ex_loc "y" (some ex_integer) (some f_ref_x)

def f_ref_y : tree_t := .T_REF ex_loc (some "y") (some f_var_y) (some ex_integer)

def f_cond : tree_t := ex_call "lt" ex_boolean [f_ref_y, ex_int 10]

def f_incr : tree_t :=
  .T_VAR_ASSIGN ex_loc (some "line_1") f_ref_y
    (ex_call "add" ex_integer [f_ref_y, ex_int 1])

def f_while : tree_t := .T_WHILE ex_loc (some "line_2") f_cond [f_incr]

def f_return : tree_t := .T_RETURN ex_loc (some "line_3") (some f_ref_y)

def f_body : tree_t :=
  .T_FUNC_BODY ex_loc "f"
    (some (.mk .T_OTHER none (some ex_integer) [] none none))
    [f_port_x] [f_var_y] [f_while, f_return] []

def f_call (arg : tree_t) : tree_t :=
  .T_FCALL ex_loc (some "f") (some f_body) (some ex_integer) [.mk .P_POS arg]

/-- Frame of a call of f while its loop runs. -/
def f_frame (xv yv : tree_t) : vtframe_t := [(some "x", xv), (some "y", yv)]

/-- Index keys of one association whose key is an integer literal (named) or
whose endpoints are integer literals (ranged); none for any other
association. -/
def assoc_keys : assoc_t → Option (List Int)
  | .A_NAMED (.T_LITERAL _ _ (some (.L_INT n))) _ => some [n]
  | .A_RANGE (.mk _ (.T_LITERAL _ _ (some (.L_INT l)))
      (.T_LITERAL _ _ (some (.L_INT r)))) _ => some [l, r]
  | _ => none

/-- All index keys of an aggregate whose associations are all named or
ranged with integer literals. -/
def agg_keys : List assoc_t → Option (List Int)
  | [] => some []
  | a :: rest =>
    match assoc_keys a, agg_keys rest with
    | some k, some ks => some (k ++ ks)
    | _, _ => none

/-- Reference to a character literal, as an element of an aggregate. -/
def ex_chr (c : String) : tree_t := .T_REF ex_loc (some c) none none

/-- The aggregate (1 => 'a', 5 to 7 => 'b', 3 => 'c'). -/
def ex_agg : tree_t :=
  .T_AGGREGATE ex_loc
    [.A_NAMED (ex_int 1) (ex_chr "'a'"),
     .A_RANGE (.mk .RANGE_TO (ex_int 5) (ex_int 7)) (ex_chr "'b'"),
     .A_NAMED (ex_int 3) (ex_chr "'c'")]

def ex_true_ref : tree_t :=
  .T_REF ex_loc (some "TRUE") (some ex_true) (some ex_boolean)

def ex_false_ref : tree_t :=
  .T_REF ex_loc (some "FALSE") (some ex_false) (some ex_boolean)

/-- The call `not true`, true being the ordinal-1 literal of BOOLEAN. -/
def ex_not_true : tree_t := ex_call "not" ex_boolean [ex_true_ref]

def ex_add_1_2 : tree_t := ex_call "add" ex_integer [ex_int 1, ex_int 2]

def ex_eq_1_2 : tree_t := ex_call "eq" ex_boolean [ex_int 1, ex_int 2]

def ex_div_1_0 : tree_t := ex_call "div" ex_integer [ex_int 1, ex_int 0]

/-- Kinds of the nodes that folding a call produces. -/
def not_fcall (r : tree_t) : Prop :=
  tree_kind r = .T_LITERAL ∨ tree_kind r = .T_REF ∨ tree_kind r = .T_AGGREGATE

/-- Arithmetic built-ins of two arguments. -/
inductive num_op2
  | mul | div | add | sub
  deriving DecidableEq, Repr

/-- Arithmetic built-ins of one argument. -/
inductive num_op1
  | neg | identity
  deriving DecidableEq, Repr

def num_op2.name : num_op2 → ident_t
  | .mul => "mul"
  | .div => "div"
  | .add => "add"
  | .sub => "sub"

def num_op1.name : num_op1 → ident_t
  | .neg => "neg"
  | .identity => "identity"

/-- Value of the built-in on signed 64-bit integers. -/
def num_op2.int_apply : num_op2 → Int → Int → Int
  | .mul, a, b => wrap64 (a * b)
  | .div, a, b => wrap64 (Int.tdiv a b)
  | .add, a, b => wrap64 (a + b)
  | .sub, a, b => wrap64 (a - b)

def num_op1.int_apply : num_op1 → Int → Int
  | .neg, a => wrap64 (-a)
  | .identity, a => a

/-- Call trees over integer literals and the arithmetic built-ins mul, div,
add, sub (two arguments), neg, identity (one argument), where no division has
a divisor of value 0 and none divides -2^63 by -1; each tree with its
value. -/
inductive int_num_tree : tree_t → Int → Prop
  | lit (loc : loc_t) (ty : Option type_t) (n : Int) :
      INT64_MIN ≤ n → n ≤ INT64_MAX →
      int_num_tree (.T_LITERAL loc ty (some (.L_INT n))) n
  | bin (loc : loc_t) (id : Option ident_t) (ty : Option type_t)
      (dloc : loc_t) (did : ident_t) (dty : Option type_t)
      (dports : List tree_t) (dattrs : attrs_t) (op : num_op2)
      (x y : tree_t) (a b : Int) :
      tree_attr_str (.T_FUNC_DECL dloc did dty dports dattrs) builtin_i
        = some op.name →
      int_num_tree x a → int_num_tree y b →
      (op = .div → b ≠ 0 ∧ ¬ (a = INT64_MIN ∧ b = -1)) →
      int_num_tree
        (.T_FCALL loc id (some (.T_FUNC_DECL dloc did dty dports dattrs)) ty
          [.mk .P_POS x, .mk .P_POS y])
        (op.int_apply a b)
  | un (loc : loc_t) (id : Option ident_t) (ty : Option type_t)
      (dloc : loc_t) (did : ident_t) (dty : Option type_t)
      (dports : List tree_t) (dattrs : attrs_t) (op : num_op1)
      (x : tree_t) (a : Int) :
      tree_attr_str (.T_FUNC_DECL dloc did dty dports dattrs) builtin_i
        = some op.name →
      int_num_tree x a →
      int_num_tree
        (.T_FCALL loc id (some (.T_FUNC_DECL dloc did dty dports dattrs)) ty
          [.mk .P_POS x])
        (op.int_apply a)

/-- Call trees over real literals and the arithmetic built-ins mul, div, add,
sub (two arguments), neg, identity (one argument). -/
inductive real_num_tree : tree_t → Prop
  | lit (loc : loc_t) (ty : Option type_t) (r : Float) :
      real_num_tree (.T_LITERAL loc ty (some (.L_REAL r)))
  | bin (loc : loc_t) (id : Option ident_t) (ty : Option type_t)
      (dloc : loc_t) (did : ident_t) (dty : Option type_t)
      (dports : List tree_t) (dattrs : attrs_t) (op : num_op2)
      (x y : tree_t) :
      tree_attr_str (.T_FUNC_DECL dloc did dty dports dattrs) builtin_i
        = some op.name →
      real_num_tree x → real_num_tree y →
      real_num_tree
        (.T_FCALL loc id (some (.T_FUNC_DECL dloc did dty dports dattrs)) ty
          [.mk .P_POS x, .mk .P_POS y])
  | un (loc : loc_t) (id : Option ident_t) (ty : Option type_t)
      (dloc : loc_t) (did : ident_t) (dty : Option type_t)
      (dports : List tree_t) (dattrs : attrs_t) (op : num_op1)
      (x : tree_t) :
      tree_attr_str (.T_FUNC_DECL dloc did dty dports dattrs) builtin_i
        = some op.name →
      real_num_tree x →
      real_num_tree
        (.T_FCALL loc id (some (.T_FUNC_DECL dloc did dty dports dattrs)) ty
          [.mk .P_POS x])

def ex_real_ty : type_t :=
  .mk .T_OTHER (some "STD.STANDARD.REAL") none [] none none

def ex_real (r : Float) : tree_t :=
  .T_LITERAL ex_loc (some ex_real_ty) (some (.L_REAL r))

/-- The call "-"("/"(7, 2)) on integers: neg of div. -/
def ex_neg_div : tree_t :=
  ex_call "neg" ex_integer [ex_call "div" ex_integer [ex_int 7, ex_int 2]]

/-- The call "*"(1.5, 2.0) on reals. -/
def ex_real_mul : tree_t := ex_call "mul" ex_real_ty [ex_real 1.5, ex_real 2.0]

/-! ## States and trees used to state the properties of the parser -/

/-- The state seen from another production scope: the two variables that
BEGIN and EXTEND save and restore are replaced. -/
def set_frame (h : Option String) (l : loc_t) (s : pstate) : pstate :=
  { s with hint_str := h, start_loc := l }

/-- Scanner side of the state after yylex has delivered one more token. -/
def lexed (s : pstate) : pstate :=
  match s.input with
  | [] => s
  | l :: rest =>
    { s with
      input := rest
      yylloc := l.loc
      yylval_s :=
        if l.kind = token_t.tID ∨ l.kind = token_t.tSTRING then some l.text
        else s.yylval_s
      yylval_n := if l.kind = token_t.tINT then l.n else s.yylval_n
      yylval_d := if l.kind = token_t.tREAL then l.d else s.yylval_d }

/-- Kind of the next token the scanner delivers. -/
def lexed_tok (s : pstate) : token_t :=
  match s.input with
  | [] => .tEOF
  | l :: _ => l.kind

/-- The state once the head token has been fetched into the peek slot. -/
def force_peek (s : pstate) : pstate :=
  if s.peek_valid then s
  else { lexed s with peek_valid := true, peek_tok := lexed_tok s }

/-- The head token: the token that the next consume removes. -/
def next_tok (s : pstate) : token_t := (force_peek s).peek_tok

/-- The state after a consume that matched the head token, the start
location apart (no second token pre-fetched). -/
def advance (s : pstate) : pstate :=
  { force_peek s with
    n_correct := (force_peek s).n_correct + 1
    peek_valid := false
    peek2_valid := false }

/-- The state after ident_new. -/
def intern (x : ident_t) (s : pstate) : pstate :=
  if x ∈ s.interned then s else { s with interned := x :: s.interned }

/-- Start location after a consume in a scope whose start location is l. -/
def start_after (l : loc_t) (s : pstate) : loc_t :=
  if l.linebuf = none then (force_peek s).yylloc else l

/-- Multiplying operators. -/
inductive mul_op
  | times | over | mod | rem
  deriving DecidableEq, Repr

/-- Adding operators. -/
inductive add_op
  | plus | minus | amp
  deriving DecidableEq, Repr

/-- Relational operators. -/
inductive rel_op
  | eq | neq | lt | le | gt | ge
  deriving DecidableEq, Repr

def mul_op.token : mul_op → token_t
  | .times => .tTIMES
  | .over => .tOVER
  | .mod => .tMOD
  | .rem => .tREM

/-- Identifier of the call node: the operator spelling in double quotes. -/
def mul_op.ident : mul_op → ident_t
  | .times => "\"*\""
  | .over => "\"/\""
  | .mod => "\"mod\""
  | .rem => "\"rem\""

def add_op.token : add_op → token_t
  | .plus => .tPLUS
  | .minus => .tMINUS
  | .amp => .tAMP

def add_op.ident : add_op → ident_t
  | .plus => "\"+\""
  | .minus => "\"-\""
  | .amp => "\"&\""

def rel_op.token : rel_op → token_t
  | .eq => .tEQ
  | .neq => .tNEQ
  | .lt => .tLT
  | .le => .tLE
  | .gt => .tGT
  | .ge => .tGE

def rel_op.ident : rel_op → ident_t
  | .eq => "\"=\""
  | .neq => "\"/=\""
  | .lt => "\"<\""
  | .le => "\"<=\""
  | .gt => "\">\""
  | .ge => "\">=\""

def mul_tokens : List token_t := [.tTIMES, .tOVER, .tMOD, .tREM]

def add_tokens : List token_t := [.tPLUS, .tMINUS, .tAMP]

def rel_tokens : List token_t := [.tEQ, .tNEQ, .tLT, .tLE, .tGT, .tGE]

/-- State after an operator token was consumed and its spelling interned. -/
def after_op (id : ident_t) (s : pstate) : pstate := intern id (advance s)

/-- Call node of a binary operator: two positional parameters, left operand
first. -/
def binop (loc : loc_t) (id : ident_t) (x y : tree_t) : tree_t :=
  .T_FCALL loc (some id) none none [.mk .P_POS x, .mk .P_POS y]

/-- The production P, started in state s inside any production scope,
returns the tree x and leaves the state s2 in the same scope, for every
sufficient fuel. -/
def parses (P : Nat → parse_m tree_t) (s : pstate) (x : tree_t)
    (s2 : pstate) : Prop :=
  ∃ N, ∀ f, N ≤ f → ∀ h l, P f (set_frame h l s) = .ok (x, set_frame h l s2)

def ex_tok_loc (col : Nat) : loc_t := ⟨1, col, 1, col, none, some 0⟩

def ex_lx (k : token_t) (col : Nat) : lexeme_t := ⟨k, "", 0, 0.0, ex_tok_loc col⟩

def ex_lx_int (n : Int) (col : Nat) : lexeme_t :=
  ⟨.tINT, "", n, 0.0, ex_tok_loc col⟩

def ex_lx_id (s : String) (col : Nat) : lexeme_t :=
  ⟨.tID, s, 0, 0.0, ex_tok_loc col⟩

/-- The tokens of `1 + 2 * 3`. -/
def ex_tokens_1_plus_2_times_3 : List lexeme_t :=
  [ex_lx_int 1 0, ex_lx .tPLUS 2, ex_lx_int 2 4, ex_lx .tTIMES 6, ex_lx_int 3 8]

def ex_parsed_int (n : Int) (col : Nat) : tree_t :=
  .T_LITERAL (ex_tok_loc col) none (some (.L_INT n))

/-- The tree "+"(1, "*"(2, 3)) as the parser builds it. -/
def ex_parsed_1_plus_2_times_3 : tree_t :=
  binop ⟨1, 2, 1, 8, none, some 0⟩ "\"+\"" (ex_parsed_int 1 0)
    (binop ⟨1, 6, 1, 8, none, some 0⟩ "\"*\"" (ex_parsed_int 2 4)
      (ex_parsed_int 3 8))

def ex_s0 : pstate := pstate_init ex_tokens_1_plus_2_times_3

def ex_s1 : pstate := force_peek (advance ex_s0)

def ex_s3 : pstate := force_peek (advance (after_op "\"+\"" ex_s1))

def ex_s5 : pstate := force_peek (advance (after_op "\"*\"" ex_s3))

/-- Modelled from the spec: the tokens the scanner (not under src/) delivers
for the decimal text of N.  The digits are one integer literal token whose
value is stored in yylval; a leading minus sign is a token of its own (the
grammar comment of p_simple_expression places the sign in the parser). -/
def lex_decimal (N : Int) (loc : loc_t) : List lexeme_t :=
  if N < 0 then
    [⟨.tMINUS, "", 0, 0.0, loc⟩, ⟨.tINT, "", -N, 0.0, loc⟩]
  else
    [⟨.tINT, "", N, 0.0, loc⟩]

/-- The tree that p_expression builds for the text `-5`: the minus sign as an
adding operator whose left operand is the open node of the failed primary. -/
def ex_minus_5 : tree_t :=
  binop (ex_tok_loc 0) "\"-\"" (.T_OPEN LOC_INVALID)
    (.T_LITERAL (ex_tok_loc 0) none (some (.L_INT 5)))

/-- The state after expect has reported the head token as unexpected. -/
def mismatch (s : pstate) : pstate :=
  { force_peek s with
    n_errors :=
      if (force_peek s).n_correct ≥ RECOVER_THRESH then (force_peek s).n_errors + 1
      else (force_peek s).n_errors
    n_correct := 0 }

/-- The state after the first statement of parse: counters reset. -/
def parse_reset (st : pstate) : pstate :=
  { st with n_errors := 0, n_correct := RECOVER_THRESH, assert_viol := none }

/-- A call of parse followed by a call of parse_errors. -/
def parse_then_errors (fuel : Nat) : parse_m (Option tree_t × Nat) := do
  let r ← parse fuel
  let n ← parse_errors
  pure (r, n)

/-- The tokens of `entity e is end;`. -/
def ex_entity_tokens : List lexeme_t :=
  [ex_lx .tENTITY 0, ex_lx_id "e" 7, ex_lx .tIS 9, ex_lx .tEND 12, ex_lx .tSEMI 15]

/-- The entity node for `entity e is end;`. -/
def ex_entity : tree_t := .T_ENTITY ⟨1, 0, 1, 15, none, some 0⟩ "e" [] [] [] []

/-- The call div(-2^63, -1) of the built-in div. -/
def ex_div_min : tree_t :=
  ex_call "div" ex_integer [ex_int INT64_MIN, ex_int (-1)]

/-- The comparison built-ins of simp_fcall_int. -/
inductive cmp_op
  | eq | neq | gt | lt | leq | geq
  deriving DecidableEq, Repr

def cmp_op.name : cmp_op → ident_t
  | .eq => "eq"
  | .neq => "neq"
  | .gt => "gt"
  | .lt => "lt"
  | .leq => "leq"
  | .geq => "geq"

/-- The signed comparison a built-in name stands for. -/
def cmp_op.holds : cmp_op → Int → Int → Prop
  | .eq, a, b => a = b
  | .neq, a, b => a ≠ b
  | .gt, a, b => a > b
  | .lt, a, b => a < b
  | .leq, a, b => a ≤ b
  | .geq, a, b => a ≥ b

instance cmp_op.decHolds : (op : cmp_op) → (a b : Int) → Decidable (op.holds a b)
  | .eq, a, b => inferInstanceAs (Decidable (a = b))
  | .neq, a, b => inferInstanceAs (Decidable (a ≠ b))
  | .gt, a, b => inferInstanceAs (Decidable (a > b))
  | .lt, a, b => inferInstanceAs (Decidable (a < b))
  | .leq, a, b => inferInstanceAs (Decidable (a ≤ b))
  | .geq, a, b => inferInstanceAs (Decidable (a ≥ b))

/-- Reference to an enumeration literal, as get_bool_lit builds it for the
call at loc. -/
def bool_ref (loc : loc_t) (ty : type_t) (lit : tree_t) : tree_t :=
  .T_REF loc (tree_ident lit) (some lit) (some ty)

/-- The logical built-ins of simp_fcall_log. -/
inductive log_op
  | not | and | nand | or | nor | xor | xnor
  deriving DecidableEq, Repr

def log_op.name : log_op → ident_t
  | .not => "not"
  | .and => "and"
  | .nand => "nand"
  | .or => "or"
  | .nor => "nor"
  | .xor => "xor"
  | .xnor => "xnor"

/-- Truth value a logical built-in stands for (not reads its first operand
only). -/
def log_op.apply : log_op → Bool → Bool → Bool
  | .not, a, _ => !a
  | .and, a, b => a && b
  | .nand, a, b => !(a && b)
  | .or, a, b => a || b
  | .nor, a, b => !(a || b)
  | .xor, a, b => a != b
  | .xnor, a, b => a == b

/-- A port declaration of class, mode and type left open. -/
def ex_port (name : ident_t) : tree_t :=
  .T_PORT_DECL ex_loc name .PORT_IN (some ex_integer) none none

/-- A function body of 18 ports p0 .. p17 without the builtin attribute,
whose only statement returns 0. -/
def ex_f18 : tree_t :=
  .T_FUNC_BODY ex_loc "f18" (some (.mk .T_OTHER none (some ex_integer) [] none none))
    ((List.range 18).map (fun i => ex_port ("p" ++ toString i))) []
    [.T_RETURN ex_loc (some "line_1") (some (ex_int 0))] []

/-- The call of f18 with seventeen integer literals followed by an
aggregate. -/
def ex_f18_call : tree_t :=
  .T_FCALL ex_loc (some "f18") (some ex_f18) (some ex_integer)
    (((List.range 17).map (fun i => param_t.mk .P_POS (ex_int i)))
      ++ [.mk .P_POS ex_agg])

/-- Precedence levels whose operators are parsed in a loop. -/
inductive level
  | multiplying | adding | relational
  deriving DecidableEq, Repr

/-- Operator tokens of a level, each with the identifier of its call node:
the operator spelling in double quotes. -/
def level.ops : level → List (token_t × ident_t)
  | .multiplying =>
    [(.tTIMES, "\"*\""), (.tOVER, "\"/\""), (.tMOD, "\"mod\""), (.tREM, "\"rem\"")]
  | .adding => [(.tPLUS, "\"+\""), (.tMINUS, "\"-\""), (.tAMP, "\"&\"")]
  | .relational =>
    [(.tEQ, "\"=\""), (.tNEQ, "\"/=\""), (.tLT, "\"<\""), (.tLE, "\"<=\""),
     (.tGT, "\">\""), (.tGE, "\">=\"")]

/-- Production of the operands of a level. -/
def level.operand : level → Nat → parse_m tree_t
  | .multiplying => p_factor
  | .adding => p_term
  | .relational => p_shift_expression

/-- Production of the chains of a level. -/
def level.production : level → Nat → parse_m tree_t
  | .multiplying => p_term
  | .adding => p_simple_expression
  | .relational => p_relation

/-- One further operand of a chain: the identifier of the operator before it,
its tree and the state in which its production leaves the parser. -/
structure link where
  id : ident_t
  operand : tree_t
  state : pstate

/-- From state s the tokens are op2 x2 ... opn xn of level L and no operator
of L follows: the head token of s is the operator of the first link, the
operand production returns the operand of the link from the state after the
operator, and so on from the state of the link. -/
def chain_ok (L : level) : pstate → List link → Prop
  | s, [] => s.peek2_valid = false ∧ next_tok s ∉ L.ops.map Prod.fst
  | s, k :: rest =>
    s.peek2_valid = false ∧ (next_tok s, k.id) ∈ L.ops ∧
    parses L.operand (after_op k.id s) k.operand k.state ∧ chain_ok L k.state rest

/-- The tree of a chain whose part read so far is t, in a scope with start
location l: each link puts its operator above the tree read so far. -/
def chain_tree (l : loc_t) (s : pstate) (t : tree_t) : List link → tree_t
  | [] => t
  | k :: rest =>
    chain_tree (start_after l s) k.state
      (binop (_diff_loc (start_after l s) k.state.yylloc) k.id t k.operand) rest

/-- Start location of the scope after the chain. -/
def chain_loc (l : loc_t) (s : pstate) : List link → loc_t
  | [] => l
  | k :: rest => chain_loc (start_after l s) k.state rest

/-- State after the chain: the token after the last operand is fetched. -/
def chain_end (s : pstate) : List link → pstate
  | [] => force_peek s
  | k :: rest => chain_end k.state rest

/-- The tokens of `8 / 4 * 2`. -/
def ex_tokens_8_over_4_times_2 : List lexeme_t :=
  [ex_lx_int 8 0, ex_lx .tOVER 2, ex_lx_int 4 4, ex_lx .tTIMES 6, ex_lx_int 2 8]

def ex_c0 : pstate := pstate_init ex_tokens_8_over_4_times_2

def ex_c1 : pstate := force_peek (advance ex_c0)

def ex_c3 : pstate := force_peek (advance (after_op "\"/\"" ex_c1))

def ex_c5 : pstate := force_peek (advance (after_op "\"*\"" ex_c3))

/-- The links of `8 / 4 * 2` after the first operand. -/
def ex_links : List link :=
  [⟨"\"/\"", ex_parsed_int 4 4, ex_c3⟩, ⟨"\"*\"", ex_parsed_int 2 8, ex_c5⟩]

/-- The tree "*"("/"(8, 4), 2) as the parser builds it. -/
def ex_parsed_8_over_4_times_2 : tree_t :=
  binop ⟨1, 2, 1, 8, none, some 0⟩ "\"*\""
    (binop ⟨1, 2, 1, 6, none, some 0⟩ "\"/\"" (ex_parsed_int 8 0) (ex_parsed_int 4 4))
    (ex_parsed_int 2 8)

/-- The production P without fuel, started in state s inside any production
scope, returns x and leaves the state s2 in the same scope. -/
def returns {α : Type} (P : parse_m α) (s : pstate) (x : α) (s2 : pstate) : Prop :=
  ∀ h l, P (set_frame h l s) = .ok (x, set_frame h l s2)

/-- The state after free(yylval.s). -/
def freed (s : pstate) : pstate := { s with yylval_s := none }

/-- The state after p_identifier has consumed an identifier token of text
u. -/
def after_ident (u : ident_t) (s : pstate) : pstate := freed (intern u (advance s))

/-- The identifier of a character literal: the character between two
apostrophes. -/
def char_ident (c : Char) : ident_t := String.mk [Char.ofNat 39, c, Char.ofNat 39]

/-- The positional association str_to_agg appends for the character c. -/
def char_assoc (loc : loc_t) (c : Char) : assoc_t :=
  .A_POS (.T_REF loc (some (char_ident c)) none none)

/-- The characters that str_to_agg does not skip. -/
def shown (cs : List Char) : List Char := cs.filter (fun c => c.toNat ≠ 0x81)

/-- The state after str_to_agg has interned the identifiers of the
characters. -/
def intern_chars : List Char → pstate → pstate
  | [], s => s
  | c :: rest, s =>
    if c.toNat = 0x81 then intern_chars rest s
    else intern_chars rest (intern (char_ident c) s)

/-- The literal node p_abstract_literal builds from the head token. -/
def abstract_literal_of (s : pstate) : tree_t :=
  .T_LITERAL (_diff_loc (force_peek s).yylloc (force_peek s).yylloc) none
    (match next_tok s with
     | .tINT => some (.L_INT (force_peek s).yylval_n)
     | .tREAL => some (.L_REAL (force_peek s).yylval_d)
     | _ => none)

/-- The tokens of the physical literal `10 ns`. -/
def ex_tokens_10_ns : List lexeme_t := [ex_lx_int 10 0, ex_lx_id "ns" 3]

/-- The call "*"(10, ns) as p_numeric_literal builds it. -/
def ex_parsed_10_ns : tree_t :=
  .T_FCALL (ex_tok_loc 3) (some "\"*\"") none none
    [.mk .P_POS (ex_parsed_int 10 0),
     .mk .P_POS (.T_REF (ex_tok_loc 3) (some "ns") none none)]

/-- The default message of an assertion: the aggregate of the positional
character references spelling "Assertion violation.". -/
def assert_viol_agg : tree_t :=
  .T_AGGREGATE LOC_INVALID (assertion_violation.toList.map (char_assoc LOC_INVALID))

/-- The default severity of an assertion: a reference with identifier
ERROR. -/
def severity_error : tree_t := .T_REF LOC_INVALID (some "ERROR") none none

/-- The state after the assignment assert_viol = a. -/
def set_assert_viol (a : tree_t) (s : pstate) : pstate := { s with assert_viol := some a }

/-- The state after p_assertion has taken the default message, s1 being the
state after the condition: the aggregate is built and kept in assert_viol at
the first use, and taken from there afterwards. -/
def msg_state (s1 : pstate) : pstate :=
  match s1.assert_viol with
  | some _ => force_peek s1
  | none =>
    set_assert_viol assert_viol_agg (intern_chars assertion_violation.toList (force_peek s1))

/-- The message part of an assertion read from state s1 gives the message m
and leaves the state sm: either the head token is `report` and m is the
expression after it, or it is not and m is the default message. -/
def message_part (s1 : pstate) (m : tree_t) (sm : pstate) : Prop :=
  (next_tok s1 = .tREPORT ∧ parses p_expression (advance s1) m sm) ∨
  (next_tok s1 ≠ .tREPORT ∧ m = assert_viol_agg ∧ sm = msg_state s1 ∧
    (s1.assert_viol = none ∨ s1.assert_viol = some assert_viol_agg))

/-- The severity part of an assertion read from state sm gives the severity
v and leaves the state sv: either the head token is `severity` and v is the
expression after it, or it is not and v is the reference to ERROR. -/
def severity_part (sm : pstate) (v : tree_t) (sv : pstate) : Prop :=
  (next_tok sm = .tSEVERITY ∧ parses p_expression (advance sm) v sv) ∨
  (next_tok sm ≠ .tSEVERITY ∧ v = severity_error ∧ sv = intern "ERROR" (force_peek sm))

/-- The tokens of `assert 1 ;`. -/
def ex_tokens_assert : List lexeme_t := [ex_lx .tASSERT 0, ex_lx_int 1 7, ex_lx .tSEMI 9]

def ex_a0 : pstate := pstate_init ex_tokens_assert

/-- The state after the condition of `assert 1 ;`. -/
def ex_a1 : pstate := force_peek (advance (advance ex_a0))

/-- The state once the second token has been fetched into the second peek
slot. -/
def force_peek2 (s : pstate) : pstate :=
  if (force_peek s).peek2_valid then force_peek s
  else
    { lexed (force_peek s) with
      peek2_valid := true
      peek2_tok := lexed_tok (force_peek s) }

/-- The token after the head token. -/
def next_tok2 (s : pstate) : token_t := (force_peek2 s).peek2_tok

/-- The state after a consume that matched the head token while the second
token was pre-fetched (the start location apart): the second token becomes
the head token. -/
def shift (s : pstate) : pstate :=
  { s with n_correct := s.n_correct + 1, peek_tok := s.peek2_tok, peek2_valid := false }

/-- The state after p_name has read `u (`: the identifier u was consumed with
the left parenthesis pre-fetched, interned and freed, and the parenthesis was
consumed. -/
def after_lparen (u : ident_t) (s : pstate) : pstate :=
  advance (freed (intern u (shift (force_peek2 s))))

/-- One further actual of a call: its tree and the state in which
p_expression leaves the parser. -/
structure arg where
  value : tree_t
  state : pstate

/-- From state s the tokens are `, e2 , e3 ... )`: each actual follows a
comma and the token after the last one is the right parenthesis. -/
def args_ok : pstate → List arg → Prop
  | s, [] => s.peek2_valid = false ∧ next_tok s = .tRPAREN
  | s, a :: rest =>
    s.peek2_valid = false ∧ next_tok s = .tCOMMA ∧
    parses p_expression (advance s) a.value a.state ∧ args_ok a.state rest

/-- The state after the last actual. -/
def args_end (s : pstate) : List arg → pstate
  | [] => s
  | a :: rest => args_end a.state rest

/-- Start location of the scope after the actuals. -/
def args_loc (l : loc_t) (s : pstate) : List arg → loc_t
  | [] => l
  | a :: rest => args_loc (start_after l s) a.state rest

/-- The tokens of `f ( 1 , 2 )`. -/
def ex_tokens_call : List lexeme_t :=
  [ex_lx_id "f" 0, ex_lx .tLPAREN 2, ex_lx_int 1 3, ex_lx .tCOMMA 4, ex_lx_int 2 6,
    ex_lx .tRPAREN 7]

def ex_n0 : pstate := pstate_init ex_tokens_call

/-- The state after the first actual of `f ( 1 , 2 )`. -/
def ex_n1 : pstate := force_peek (advance (after_lparen "f" ex_n0))

/-- The state after the second actual of `f ( 1 , 2 )`. -/
def ex_n2 : pstate := force_peek (advance (advance ex_n1))

/-- An association without index key: positional or others. -/
def assoc_unkeyed : assoc_t → Bool
  | .A_POS _ | .A_OTHERS _ => true
  | _ => false

/-- The aggregate (1 => 'a', 'b'): a named association followed by a
positional one. -/
def ex_agg_mixed : tree_t :=
  .T_AGGREGATE ex_loc [.A_NAMED (ex_int 1) (ex_chr "'a'"), .A_POS (ex_chr "'b'")]

/-- The aggregate (3 => 'a', others => 'b'). -/
def ex_agg_others : tree_t :=
  .T_AGGREGATE ex_loc [.A_NAMED (ex_int 3) (ex_chr "'a'"), .A_OTHERS (ex_chr "'b'")]

/-! The function
`function h return integer is variable a: string := (1 => 'a', 5 to 7 => 'b', 3 => 'c');
begin return agg_low(a); end;` and its sibling with agg_high. -/

def h_var_a : tree_t := .T_VAR_DECL ex_loc "a" none (some ex_agg)

def h_ref_a : tree_t := .T_REF ex_loc (some "a") (some h_var_a) none

def h_body (bn : ident_t) : tree_t :=
  .T_FUNC_BODY ex_loc "h"
    (some (.mk .T_OTHER none (some ex_integer) [] none none))
    [] [h_var_a] [.T_RETURN ex_loc (some "line_1") (some (ex_call bn ex_integer [h_ref_a]))] []

def h_call (bn : ident_t) : tree_t :=
  .T_FCALL ex_loc (some "h") (some (h_body bn)) (some ex_integer) []

/-! The function `function g return string is begin
return (1 => 'a', 5 to 7 => 'b', 3 => 'c'); end;` -/

def g_body : tree_t :=
  .T_FUNC_BODY ex_loc "g" (some (.mk .T_OTHER none none [] none none))
    [] [] [.T_RETURN ex_loc (some "line_1") (some ex_agg)] []

def g_call : tree_t := .T_FCALL ex_loc (some "g") (some g_body) none []

/-- A node is an integer literal. -/
def is_int_literal : tree_t → Bool
  | .T_LITERAL _ _ (some (.L_INT _)) => true
  | _ => false

/-- Every named key and every range endpoint of the associations is an
integer literal; positional and others associations have no key. -/
def keys_are_int_literals (assocs : List assoc_t) : Bool :=
  assocs.all fun a =>
    match a with
    | .A_NAMED name _ => is_int_literal name
    | .A_RANGE (.mk _ left right) _ => is_int_literal left && is_int_literal right
    | _ => true

/-- The frame of index n is the nearest frame that binds the name: no frame
above it holds a binding of that name, and b is the binding of that name
with the least index in it. -/
def nearest_binding (v : vtable_t) (name : vtkey_t) (b : vtkey_t × tree_t) : Prop :=
  ∃ above f below, v = above ++ f :: below ∧
    (∀ g ∈ above, ∀ c ∈ g, c.1 ≠ name) ∧
    ∃ pre post, f = pre ++ b :: post ∧ b.1 = name ∧ ∀ c ∈ pre, c.1 ≠ name

/-- No frame binds the name. -/
def unbound (v : vtable_t) (name : vtkey_t) : Prop :=
  ∀ f ∈ v, ∀ c ∈ f, c.1 ≠ name

/-- The tables v and v2 have the same frames below the top frame and the
same number of frames: only the top frame may differ. -/
def same_below (v v2 : vtable_t) : Prop :=
  v2.tail = v.tail ∧ v2.length = v.length

/-- Frame balance of all the evaluator functions at one fuel: expressions
and calls leave the value-table as it was, statements and bodies change the
top frame only. -/
structure balanced (fuel : Nat) : Prop where
  expr : ∀ t v r v2, eval_expr fuel t v = .ok (r, v2) → v2 = v
  fcall : ∀ t v r v2, eval_fcall fuel t v = .ok (r, v2) → v2 = v
  body : ∀ t v v2, eval_func_body fuel t v = .ok v2 → same_below v v2
  stmt : ∀ t v v2, eval_stmt fuel t v = .ok v2 → same_below v v2
  ret : ∀ t v v2, eval_return fuel t v = .ok v2 → same_below v v2
  cond : ∀ t v v2, eval_if fuel t v = .ok v2 → same_below v v2
  loop : ∀ t v v2, eval_while fuel t v = .ok v2 → same_below v v2
  assign : ∀ t v v2, eval_var_assign fuel t v = .ok v2 → same_below v v2

/-- A value-table of one caller frame, in which k is bound to 0. -/
def ex_table : vtable_t := [[(some "k", ex_int 0)]]

/-- The statements run one after the other from the table v to the table w
and none of them leaves a result binding visible. -/
def runs_unset (st : tree_t → vtable_t → eval_m vtable_t) :
    List tree_t → vtable_t → vtable_t → Prop
  | [], v, w => w = v
  | s :: rest, v, w =>
    ∃ v2, st s v = .ok v2 ∧ vtable_get v2 result_i = none ∧ runs_unset st rest v2 w

/-- The statement `return n;`. -/
def ex_return (n : Int) : tree_t := .T_RETURN ex_loc (some "line_1") (some (ex_int n))

/-- A function body without ports and declarations, with the given
statements. -/
def ex_body (stmts : List tree_t) : tree_t :=
  .T_FUNC_BODY ex_loc "r" (some (.mk .T_OTHER none (some ex_integer) [] none none))
    [] [] stmts []

/-- The call of the body with the given statements, without actuals. -/
def ex_body_call (stmts : List tree_t) : tree_t :=
  .T_FCALL ex_loc (some "r") (some (ex_body stmts)) (some ex_integer) []

/-- The name loc_to_ident starts from: line_ followed by the first line of
the location in decimal. -/
def line_name (loc : loc_t) : String := "line_" ++ toString loc.first_line

/-- The name that loc_to_ident tests in iteration m of its loop: the base
name first, then the base name with the one character of code 'a' + (m - 1)
put after it (the character is overwritten in place, never appended to). -/
def candidate (base : String) : Nat → String
  | 0 => base
  | m + 1 => loc_to_ident_buf base m

/-- A state in which line_5 and line_5a to line_5z are interned. -/
def ex_interned_27 : pstate :=
  { pstate_init [] with
    interned :=
      ["line_5", "line_5a", "line_5b", "line_5c", "line_5d", "line_5e", "line_5f", "line_5g",
       "line_5h", "line_5i", "line_5j", "line_5k", "line_5l", "line_5m", "line_5n", "line_5o",
       "line_5p", "line_5q", "line_5r", "line_5s", "line_5t", "line_5u", "line_5v", "line_5w",
       "line_5x", "line_5y", "line_5z"] }

/-- A location on line 5. -/
def ex_line_5 : loc_t := ⟨5, 0, 5, 7, none, some 0⟩

/-- The severity part of a report statement read from state sm gives the
severity v and leaves the state sv: either the head token is `severity` and
v is the expression after it, or it is not and v is the reference to NOTE. -/
def report_severity_part (sm : pstate) (v : tree_t) (sv : pstate) : Prop :=
  (next_tok sm = .tSEVERITY ∧ parses p_expression (advance sm) v sv) ∨
  (next_tok sm ≠ .tSEVERITY ∧ v = .T_REF LOC_INVALID (some "NOTE") none none ∧
    sv = intern "NOTE" (force_peek sm))

/-- The label of a statement can be settled in state s: it is written, or
for every line one of the names loc_to_ident tests is not interned. -/
def label_settles (label : Option ident_t) (s : pstate) : Prop :=
  label.isSome = true ∨
  ∀ n : Nat, ∃ m, m < 258 ∧ candidate ("line_" ++ toString n) m ∉ s.interned

/-- The tokens of `report 1 ;`. -/
def ex_tokens_report : List lexeme_t := [ex_lx .tREPORT 0, ex_lx_int 1 7, ex_lx .tSEMI 9]

def ex_r0 : pstate := pstate_init ex_tokens_report

/-- The state after the message of `report 1 ;`. -/
def ex_r1 : pstate := force_peek (advance (advance ex_r0))

/-- The statements S are read by p_sequence_of_statements from state a,
which leaves state b: whatever the parent and the function that adds to it,
the statements are added to the parent in source order. -/
def sequence_parses (a : pstate) (S : List tree_t) (b : pstate) : Prop :=
  ∃ N, ∀ f, N ≤ f → ∀ (parent : tree_t) (addf : tree_t → tree_t → tree_t)
      (h : Option String) (l : loc_t),
    p_sequence_of_statements f parent addf (set_frame h l a)
      = .ok (S.foldl addf parent, set_frame h l b)

/-- One elsif branch: its condition, its statements, and the states in which
the parser is after the condition and after the statements. -/
structure branch where
  cond : tree_t
  stmts : List tree_t
  after_cond : pstate
  after_stmts : pstate

/-- From state s the tokens are `elsif c1 then S1 ... elsif ck then Sk` and
the token after them is not `elsif`. -/
def branches_ok : pstate → List branch → Prop
  | s, [] => s.peek2_valid = false ∧ next_tok s ≠ .tELSIF
  | s, b :: rest =>
    s.peek2_valid = false ∧ next_tok s = .tELSIF ∧
    parses p_expression (intern "elsif" (advance s)) b.cond b.after_cond ∧
    b.after_cond.peek2_valid = false ∧ next_tok b.after_cond = .tTHEN ∧
    sequence_parses (advance b.after_cond) b.stmts b.after_stmts ∧
    branches_ok b.after_stmts rest

/-- The state after the last elsif branch. -/
def branches_end (s : pstate) : List branch → pstate
  | [] => s
  | b :: rest => branches_end b.after_stmts rest

/-- Start location of the scope after the elsif branches. -/
def branches_loc (l : loc_t) (s : pstate) : List branch → loc_t
  | [] => l
  | b :: rest => branches_loc (start_after (start_after l s) b.after_cond) b.after_stmts rest

/-- The else part read from state s gives the statements E and leaves the
state s2: either the head token is `else` and E are the statements after
it, or it is not and E is empty. -/
def else_part (s : pstate) (E : List tree_t) (s2 : pstate) : Prop :=
  (next_tok s = .tELSE ∧ sequence_parses (advance s) E s2) ∨
  (next_tok s ≠ .tELSE ∧ E = [] ∧ s2 = force_peek s)

/-- Start location of the scope after the else part. -/
def else_loc (l : loc_t) (s : pstate) : loc_t :=
  if next_tok s = .tELSE then start_after l s else l

/-- The else-branch of an if node that is followed by the given elsif
branches and the else statements E: without a branch it is E; otherwise it
is the single if node of the first branch, with the identifier elsif, the
condition and statements of that branch, and as its else-branch the
else-branch made of the remaining branches and E. -/
def else_chain (l : loc_t) (s : pstate) : List branch → List tree_t → List tree_t
  | [], E => E
  | b :: rest, E =>
    [.T_IF (_diff_loc (start_after (start_after l s) b.after_cond) b.after_stmts.yylloc)
      (some "elsif") b.cond b.stmts
      (else_chain (start_after (start_after l s) b.after_cond) b.after_stmts rest E)]

/-- The tokens of
`if 1 then null ; elsif 2 then null ; else null ; end if ;`. -/
def ex_tokens_if : List lexeme_t :=
  [ex_lx .tIF 0, ex_lx_int 1 3, ex_lx .tTHEN 5, ex_lx .tNULL 10, ex_lx .tSEMI 14,
   ex_lx .tELSIF 16, ex_lx_int 2 22, ex_lx .tTHEN 24, ex_lx .tNULL 29, ex_lx .tSEMI 33,
   ex_lx .tELSE 35, ex_lx .tNULL 40, ex_lx .tSEMI 44, ex_lx .tEND 46, ex_lx .tIF 50,
   ex_lx .tSEMI 52]

def ex_i0 : pstate := pstate_init ex_tokens_if

/-- The state after the condition 1. -/
def ex_i1 : pstate := force_peek (advance (advance ex_i0))

/-- The state after the statements of the if branch. -/
def ex_i2 : pstate := force_peek (intern "line_1" (advance (advance (advance ex_i1))))

/-- The state after the condition 2. -/
def ex_i3 : pstate := force_peek (advance (intern "elsif" (advance ex_i2)))

/-- The state after the statements of the elsif branch. -/
def ex_i4 : pstate := force_peek (intern "line_1a" (advance (advance (advance ex_i3))))

/-- The state after the statements of the else part. -/
def ex_i5 : pstate := force_peek (intern "line_1b" (advance (advance (advance ex_i4))))

/-- The null statement at the given column of line 1 with the given
label. -/
def ex_null (col : Nat) (x : ident_t) : tree_t :=
  .T_NULL ⟨1, col, 1, col + 4, none, some 0⟩ (some x)

/-- The elsif branch of the example. -/
def ex_branch : branch := ⟨ex_parsed_int 2 22, [ex_null 29 "line_1a"], ex_i3, ex_i4⟩

/-- From state s the tokens are `, u1 , u2 ... , un` and the token after
them is not a comma. -/
def idents_ok : pstate → List ident_t → Prop
  | s, [] => s.peek2_valid = false ∧ next_tok s ≠ .tCOMMA
  | s, u :: rest =>
    s.peek2_valid = false ∧ next_tok s = .tCOMMA ∧ next_tok (advance s) = .tID ∧
    (force_peek (advance s)).yylval_s = some u ∧ idents_ok (after_ident u (advance s)) rest

/-- The state after the last identifier of the list. -/
def idents_end (s : pstate) : List ident_t → pstate
  | [] => s
  | u :: rest => idents_end (after_ident u (advance s)) rest

/-- Start location of the scope after the identifiers. -/
def idents_loc (l : loc_t) (s : pstate) : List ident_t → loc_t
  | [] => l
  | u :: rest =>
    idents_loc (start_after (start_after l s) (advance s)) (after_ident u (advance s)) rest

/-- The state after optional(tok): the token is consumed when it is the head
token. -/
def skip_optional (tok : token_t) (s : pstate) : pstate :=
  if next_tok s = tok then advance s else force_peek s

/-- Start location of the scope after optional(tok). -/
def optional_loc (tok : token_t) (l : loc_t) (s : pstate) : loc_t :=
  if next_tok s = tok then start_after l s else l

/-- The tokens that are a mode. -/
def mode_tokens : List token_t := [.tIN, .tOUT, .tINOUT, .tBUFFER, .tLINKAGE]

/-- The mode a mode token stands for. -/
def token_mode : token_t → port_mode_t
  | .tIN => .PORT_IN
  | .tOUT => .PORT_OUT
  | .tINOUT => .PORT_INOUT
  | .tBUFFER => .PORT_BUFFER
  | .tLINKAGE => .PORT_LINKAGE
  | _ => .PORT_INVALID

/-- The mode part of an interface signal declaration read from state c gives
the mode and leaves the state d: the written mode, its token consumed, or IN
when the head token is not a mode. -/
def mode_part (c : pstate) (mode : port_mode_t) (d : pstate) : Prop :=
  (next_tok c ∈ mode_tokens ∧ mode = token_mode (next_tok c) ∧ d = advance c) ∨
  (next_tok c ∉ mode_tokens ∧ mode = .PORT_IN ∧ d = force_peek c)

/-- Start location of the scope after the mode part. -/
def mode_loc (l : loc_t) (c : pstate) : loc_t :=
  if next_tok c ∈ mode_tokens then start_after l c else l

/-- The subtype indication read from state a is the type ty, and the parser
is left in state b. -/
def type_parses (a : pstate) (ty : type_t) (b : pstate) : Prop :=
  ∃ N, ∀ f, N ≤ f → ∀ (h : Option String) (l : loc_t),
    p_subtype_indication f (set_frame h l a) = .ok (ty, set_frame h l b)

/-- The port declaration made for one identifier of the list. -/
def signal_port (loc : loc_t) (mode : port_mode_t) (ty : type_t) (i : ident_t) : tree_t :=
  .T_PORT_DECL loc i mode (some ty) (some .C_SIGNAL) none

/-- The tokens of `a , b : in bit )`. -/
def ex_tokens_ports : List lexeme_t :=
  [ex_lx_id "a" 0, ex_lx .tCOMMA 1, ex_lx_id "b" 3, ex_lx .tCOLON 4, ex_lx .tIN 6,
   ex_lx_id "bit" 9, ex_lx .tRPAREN 12]

def ex_p0 : pstate := pstate_init ex_tokens_ports

/-- The state after the first identifier. -/
def ex_p1 : pstate := after_ident "a" ex_p0

/-- The state after the identifier list, the colon fetched. -/
def ex_p2 : pstate := force_peek (after_ident "b" (advance ex_p1))

/-- The state after the mode. -/
def ex_p3 : pstate := advance (advance ex_p2)

/-- The state after the type mark. -/
def ex_p4 : pstate := freed (intern "bit" (shift (force_peek2 ex_p3)))

/-- The type the type mark bit names. -/
def ex_bit : type_t := .mk .T_UNRESOLVED (some "bit") none [] none none

/-- The state after a statement label `u :` has been read: the identifier u
was consumed with the colon pre-fetched, interned and freed, and the colon
was consumed. -/
def after_label (u : ident_t) (s : pstate) : pstate :=
  advance (freed (intern u (shift (force_peek2 s))))

/-- The tokens that start a concurrent statement in
p_architecture_statement_part. -/
def concurrent_statement_starts : List token_t := [.tID, .tPROCESS, .tPOSTPONED]

/-- The process statement with the given label is read from state a as the
node p, and the parser is left in state b. -/
def process_parses (label : Option ident_t) (a : pstate) (p : tree_t) (b : pstate) : Prop :=
  ∃ N, ∀ f, N ≤ f → ∀ (h : Option String) (l : loc_t),
    p_process_statement f label (set_frame h l a) = .ok (p, set_frame h l b)

/-- The tokens of `a1 : assert 1 ;`. -/
def ex_tokens_cassert : List lexeme_t :=
  [ex_lx_id "a1" 0, ex_lx .tCOLON 3, ex_lx .tASSERT 5, ex_lx_int 1 12, ex_lx .tSEMI 14]

/-- The state at `a1 : assert 1 ;` with the counters as parse sets them. -/
def ex_q0 : pstate := parse_reset (pstate_init ex_tokens_cassert)

/-- An architecture without declarations and statements. -/
def ex_arch : tree_t := .T_ARCH ex_loc "rtl" "e" [] []

/-- The tokens of `p1 : process begin end process ;`. -/
def ex_tokens_process : List lexeme_t :=
  [ex_lx_id "p1" 0, ex_lx .tCOLON 3, ex_lx .tPROCESS 5, ex_lx .tBEGIN 13, ex_lx .tEND 19,
   ex_lx .tPROCESS 23, ex_lx .tSEMI 30]

def ex_w0 : pstate := pstate_init ex_tokens_process

/-- The state after the process statement of the example. -/
def ex_w1 : pstate :=
  advance (advance (advance (advance (advance (force_peek (after_label "p1" ex_w0))))))

/-- A sequence of calls of vtable_bind on the same table, in order; a call
that fails its assertion ends the run. -/
def vtable_binds : vtable_t → List (vtkey_t × tree_t) → eval_m vtable_t
  | v, [] => .ok v
  | v, (name, value) :: rest =>
    match vtable_bind v name value with
    | .ok v2 => vtable_binds v2 rest
    | .error e => .error e

/-- The frame holds a binding of the name. -/
def bound_in (f : vtframe_t) (name : vtkey_t) : Bool :=
  f.any (fun b => decide (b.1 = name))

/-- The table with one frame that binds x to 1 and y to 2, over a frame that
binds x to 7 and z to 9. -/
def ex_scopes : vtable_t :=
  [[(some "x", ex_int 1), (some "y", ex_int 2)], [(some "x", ex_int 7), (some "z", ex_int 9)]]


/-- The condition 1 = 1. -/
def ex_eq_1_1 : tree_t := ex_call "eq" ex_boolean [ex_int 1, ex_int 1]

/-- The statement `if 1 = 1 then return 1; return 2; end if;`. -/
def ex_if_returns : tree_t :=
  .T_IF ex_loc (some "line_1") ex_eq_1_1 [ex_return 1, ex_return 2] []

/-! The function
`function w return integer is variable y: integer := 0;
begin while y < 3 loop return y; y := y + 1; end loop; end;` -/

def w_var_y : tree_t := .T_VAR_DECL ex_loc "y" (some ex_integer) (some (ex_int 0))

def w_ref_y : tree_t := .T_REF ex_loc (some "y") (some w_var_y) (some ex_integer)

def w_cond : tree_t := ex_call "lt" ex_boolean [w_ref_y, ex_int 3]

def w_return : tree_t := .T_RETURN ex_loc (some "line_2") (some w_ref_y)

def w_incr : tree_t :=
  .T_VAR_ASSIGN ex_loc (some "line_3") w_ref_y (ex_call "add" ex_integer [w_ref_y, ex_int 1])

def w_while : tree_t := .T_WHILE ex_loc (some "line_1") w_cond [w_return, w_incr]

def w_body : tree_t :=
  .T_FUNC_BODY ex_loc "w" (some (.mk .T_OTHER none (some ex_integer) [] none none))
    [] [w_var_y] [w_while] []

def w_call : tree_t := .T_FCALL ex_loc (some "w") (some w_body) (some ex_integer) []


/-- Invariant of the lookahead buffer: the second slot holds a token only
while the first slot holds one. -/
def lookahead_ok (s : pstate) : Prop := s.peek2_valid = true → s.peek_valid = true

instance lookahead_ok.dec (s : pstate) : Decidable (lookahead_ok s) := by
  unfold lookahead_ok; infer_instance

/-- The tokens held in the two slots, the head token first. -/
def buffered (s : pstate) : List token_t :=
  (if s.peek_valid then [s.peek_tok] else []) ++ (if s.peek2_valid then [s.peek2_tok] else [])

/-- The tokens that have not been consumed: those in the slots, then those
the scanner has still to deliver. -/
def pending (s : pstate) : List token_t := buffered s ++ s.input.map (fun l => l.kind)

/-- Token number n of a token list that is read past its end: the scanner
delivers end-of-file from there on. -/
def token_at (ts : List token_t) (n : Nat) : token_t := ts.getD n .tEOF

/-- The counters after a token was compared with the expected one. -/
def count_event (c : Nat × Nat) (matched : Bool) : Nat × Nat :=
  if matched then (c.1, c.2 + 1)
  else (if c.2 ≥ RECOVER_THRESH then c.1 + 1 else c.1, 0)

/-- The pair (n_errors, n_correct) of a state. -/
def counters (s : pstate) : Nat × Nat := (s.n_errors, s.n_correct)

/-- The state after consume tok. -/
def after_consume (tok : token_t) (s : pstate) : pstate :=
  { force_peek s with
    n_errors := (count_event (counters (force_peek s)) (decide (tok = next_tok s))).1
    n_correct := (count_event (counters (force_peek s)) (decide (tok = next_tok s))).2
    start_loc :=
      if (force_peek s).start_loc.linebuf = none then (force_peek s).yylloc
      else (force_peek s).start_loc
    peek_tok := if s.peek2_valid then s.peek2_tok else next_tok s
    peek_valid := s.peek2_valid
    peek2_valid := false }

/-- Accounting of the token source: of the tokens i0 the scanner had to
deliver, the first c have been consumed, those in the slots have been
fetched, and the scanner still holds all the others. -/
def fetched_ok (i0 : List lexeme_t) (c : Nat) (s : pstate) : Prop :=
  s.input = i0.drop (c + (buffered s).length)

/-- The calls of the lookahead buffer and of the diagnostic counters. -/
inductive la_call
  | peek
  | peek2
  | consume (tok : token_t)
  | optional (tok : token_t)
  | scan (toks : List token_t)
  | expect (toks : List token_t)
  | one_of (toks : List token_t)
  deriving DecidableEq, Repr

/-- What a call returned: a token, a truth value, or nothing. -/
inductive la_ret
  | tok (t : token_t)
  | flag (b : Bool)
  | unit
  deriving DecidableEq, Repr

/-- The call as the parser makes it. -/
def run_call : la_call → parse_m la_ret
  | .peek => do return .tok (← peek)
  | .peek2 => do return .tok (← peek2)
  | .consume tok => do return .flag (← consume tok)
  | .optional tok => do return .flag (← optional tok)
  | .scan toks => do return .flag (← scan toks)
  | .expect toks => do expect toks; return .unit
  | .one_of toks => do return .tok (← one_of toks)

/-- A sequence of calls, in order; the results are collected. -/
def run_calls : List la_call → parse_m (List la_ret)
  | [] => pure []
  | c :: cs => do
    let r ← run_call c
    let rs ← run_calls cs
    pure (r :: rs)

/-- The buffer as the specification describes it: the position in the token
stream (the number of tokens consumed) and the two counters. -/
structure la_spec where
  pos : Nat
  n_errors : Nat
  n_correct : Nat
  deriving DecidableEq, Repr

/-- The counters after a comparison, the position unchanged. -/
def la_spec.event (a : la_spec) (matched : Bool) : la_spec :=
  { a with
    n_errors := (count_event (a.n_errors, a.n_correct) matched).1
    n_correct := (count_event (a.n_errors, a.n_correct) matched).2 }

/-- The head token is removed. -/
def la_spec.step (a : la_spec) : la_spec := { a with pos := a.pos + 1 }

/-- One call in the words of the specification, on the token stream tokens
(token number n is tokens n): peek returns the head token and peek2 the
token after it; consume removes the head token whether it matches or not,
notifies the diagnostics on a mismatch and returns whether it matched;
optional consumes the head token iff it equals the given one; scan tells
whether the head token belongs to the set; expect reports an error; one_of
consumes the head token iff it belongs to the set, otherwise reports an
error, and returns the actual token. -/
def spec_call (tokens : Nat → token_t) (a : la_spec) : la_call → la_ret × la_spec
  | .peek => (.tok (tokens a.pos), a)
  | .peek2 => (.tok (tokens (a.pos + 1)), a)
  | .consume tok =>
    (.flag (decide (tok = tokens a.pos)), (a.event (decide (tok = tokens a.pos))).step)
  | .optional tok =>
    if tokens a.pos = tok then (.flag true, (a.event true).step) else (.flag false, a)
  | .scan toks => (.flag (decide (tokens a.pos ∈ toks)), a)
  | .expect _ => (.unit, a.event false)
  | .one_of toks =>
    if tokens a.pos ∈ toks then (.tok (tokens a.pos), (a.event true).step)
    else (.tok (tokens a.pos), a.event false)

/-- A sequence of calls in the words of the specification. -/
def spec_calls (tokens : Nat → token_t) : la_spec → List la_call → List la_ret × la_spec
  | a, [] => ([], a)
  | a, c :: cs =>
    ((spec_call tokens a c).1 :: (spec_calls tokens (spec_call tokens a c).2 cs).1,
     (spec_calls tokens (spec_call tokens a c).2 cs).2)

/-- The call is a one_of whose head token is outside its set. -/
def one_of_misses (tokens : Nat → token_t) (a : la_spec) : la_call → Bool
  | .one_of toks => decide (tokens a.pos ∉ toks)
  | _ => false

/-- No one_of of the sequence meets a head token outside its set. -/
def one_of_hits (tokens : Nat → token_t) : la_spec → List la_call → Bool
  | _, [] => true
  | a, c :: cs =>
    !one_of_misses tokens a c && one_of_hits tokens (spec_call tokens a c).2 cs

/-- The state s of the parser shows the specification state a on the token
stream tokens. -/
def views (tokens : Nat → token_t) (a : la_spec) (s : pstate) : Prop :=
  lookahead_ok s ∧ (∀ n, token_at (pending s) n = tokens (a.pos + n)) ∧
  counters s = (a.n_errors, a.n_correct)

/-- The specification state before any call: nothing consumed, the counters
as they are. -/
def la_start (s : pstate) : la_spec := ⟨0, s.n_errors, s.n_correct⟩

/-- The token stream the scanner delivers from state s on. -/
def source_tokens (s : pstate) : Nat → token_t :=
  token_at (s.input.map (fun l => l.kind))

/-- The call is one of peek, peek2 and consume. -/
def basic_call : la_call → Bool
  | .peek | .peek2 | .consume _ => true
  | _ => false

/-- Number of consume calls of a sequence. -/
def consumes : List la_call → Nat
  | [] => 0
  | .consume _ :: cs => consumes cs + 1
  | _ :: cs => consumes cs

/-- The comparison a call made, read off its result: a consume compared the
head token with the expected one, an optional or one_of that consumed found
the head token as wanted, an expect reports a token that was not wanted. -/
def call_event : la_call → la_ret → Option Bool
  | .consume _, .flag b => some b
  | .optional _, .flag true => some true
  | .expect _, _ => some false
  | .one_of _, .tok _ => some true
  | _, _ => none

/-- The comparisons of a sequence of calls, in order. -/
def call_events : List la_call → List la_ret → List Bool
  | c :: cs, r :: rs =>
    match call_event c r with
    | some b => b :: call_events cs rs
    | none => call_events cs rs
  | _, _ => []

/-- The counters after a sequence of comparisons. -/
def count_events (c : Nat × Nat) (evs : List Bool) : Nat × Nat := evs.foldl count_event c

/-- Calls made on the tokens of `entity e is end;`: the second consume
expects `is` while the head token is the identifier. -/
def ex_lookahead_calls : List la_call :=
  [.peek, .peek2, .consume .tENTITY, .peek, .consume .tIS, .peek2, .consume .tIS]

/-- Calls made on the tokens of `entity e is end;` that end with two tokens
pre-fetched. -/
def ex_invariant_calls : List la_call :=
  [.scan [.tENTITY], .optional .tENTITY, .one_of [.tID, .tSTRING], .peek2]

/-- The tokens of `library ieee;`. -/
def ex_tokens_library : List lexeme_t :=
  [ex_lx .tLIBRARY 0, ex_lx_id "ieee" 8, ex_lx .tSEMI 12]

/-- The tokens of the subtype indication `resolved bit`. -/
def ex_tokens_resolved : List lexeme_t := [ex_lx_id "resolved" 0, ex_lx_id "bit" 9]

/-- The state with the pair (n_errors, n_correct) replaced. -/
def set_counters (p : Nat × Nat) (s : pstate) : pstate :=
  { s with n_errors := p.1, n_correct := p.2 }

/-- The computation m makes a fixed sequence of comparisons in each of its
runs: a run that returns from state s made comparisons evs such that, from
the state s with any other values of the counters, m returns the same
result and the same state, the counters apart, and the counters are those
after evs.  So the counters are written only by the comparisons and read by
nothing that decides what m does. -/
class tracked {α : Type} (m : parse_m α) : Prop where
  runs : ∀ s x s2, m s = .ok (x, s2) →
    ∃ evs : List Bool, ∀ p, m (set_counters p s) = .ok (x, set_counters (count_events p evs) s2)

/-! The function
`function n return integer is variable x: integer := 0;
begin x := 9; return 7; end;` and a caller whose body is
`if 1 = 1 then return 5; return n; end if;`. -/

def n_var_x : tree_t := .T_VAR_DECL ex_loc "x" (some ex_integer) (some (ex_int 0))

def n_ref_x : tree_t := .T_REF ex_loc (some "x") (some n_var_x) (some ex_integer)

def n_assign : tree_t := .T_VAR_ASSIGN ex_loc (some "line_1") n_ref_x (ex_int 9)

def n_body : tree_t :=
  .T_FUNC_BODY ex_loc "n" (some (.mk .T_OTHER none (some ex_integer) [] none none))
    [] [n_var_x] [n_assign, ex_return 7] []

def n_call : tree_t := .T_FCALL ex_loc (some "n") (some n_body) (some ex_integer) []

/-- The statement `if 1 = 1 then return 5; return n; end if;`. -/
def ex_if_calls : tree_t :=
  .T_IF ex_loc (some "line_1") ex_eq_1_1
    [ex_return 5, .T_RETURN ex_loc (some "line_2") (some n_call)] []

/-- The tokens of `entity e is attribute a ;`. -/
def ex_tokens_attribute : List lexeme_t :=
  [ex_lx .tENTITY 0, ex_lx_id "e" 7, ex_lx .tIS 9, ex_lx .tATTRIBUTE 12, ex_lx_id "a" 22,
   ex_lx .tSEMI 24]

/-- The tokens of `entity e is attribute a : t ; end ;`. -/
def ex_tokens_attribute_decl : List lexeme_t :=
  [ex_lx .tENTITY 0, ex_lx_id "e" 7, ex_lx .tIS 9, ex_lx .tATTRIBUTE 12, ex_lx_id "a" 22,
   ex_lx .tCOLON 24, ex_lx_id "t" 26, ex_lx .tSEMI 28, ex_lx .tEND 30, ex_lx .tSEMI 33]

/-- The entity node for `entity e is attribute a : t ; end ;`. -/
def ex_entity_attribute : tree_t :=
  .T_ENTITY ⟨1, 0, 1, 33, none, some 0⟩ "e" [] []
    [.T_ATTR_DECL ⟨1, 26, 1, 28, none, some 0⟩ "a"
      (some (.mk .T_UNRESOLVED (some "t") none [] none none))] []

/-- One interface signal declaration of a port list as it is read: the first
identifier and the further ones, the mode, the type, the state after the mode
part and the state after the subtype indication. -/
structure port_item where
  u0 : ident_t
  us : List ident_t
  mode : port_mode_t
  ty : type_t
  d : pstate
  e : pstate

/-- The location span CURRENT_LOC gives at the end of the declaration: from
the first token of the declaration to the last token delivered by the
scanner. -/
def item_loc (s : pstate) (it : port_item) : loc_t :=
  _diff_loc
    (mode_loc
      (start_after
        (idents_loc (start_after (optional_loc .tSIGNAL LOC_INVALID s) (skip_optional .tSIGNAL s))
          (after_ident it.u0 (skip_optional .tSIGNAL s)) it.us)
        (idents_end (after_ident it.u0 (skip_optional .tSIGNAL s)) it.us))
      (advance (idents_end (after_ident it.u0 (skip_optional .tSIGNAL s)) it.us)))
    (force_peek it.e).yylloc

/-- The port declarations of one interface signal declaration. -/
def item_ports (s : pstate) (it : port_item) : List tree_t :=
  (it.u0 :: it.us).map (signal_port (item_loc s it) it.mode it.ty)

/-- The port declarations of the further declarations, in source order. -/
def rest_ports : pstate → List port_item → List tree_t
  | _, [] => []
  | e, it :: rest => item_ports (advance e) it ++ rest_ports it.e rest

/-- The tokens of `port (a, b : in bit; c : out bit; d : bit);`. -/
def ex_tokens_port_clause : List lexeme_t :=
  [ex_lx .tPORT 0, ex_lx .tLPAREN 5, ex_lx_id "a" 6, ex_lx .tCOMMA 7, ex_lx_id "b" 9,
   ex_lx .tCOLON 11, ex_lx .tIN 13, ex_lx_id "bit" 16, ex_lx .tSEMI 19, ex_lx_id "c" 21,
   ex_lx .tCOLON 23, ex_lx .tOUT 25, ex_lx_id "bit" 29, ex_lx .tSEMI 32, ex_lx_id "d" 34,
   ex_lx .tCOLON 36, ex_lx_id "bit" 38, ex_lx .tRPAREN 41, ex_lx .tSEMI 42]

/-- The state before the port clause. -/
def ex_pc0 : pstate := pstate_init ex_tokens_port_clause

/-- The state after the type mark read from state d. -/
def after_mark (u : ident_t) (d : pstate) : pstate := freed (intern u (shift (force_peek2 d)))

/-- The state after `a, b : in`. -/
def ex_pc1 : pstate :=
  advance (advance (after_ident "b" (advance (after_ident "a" (advance (advance ex_pc0))))))

/-- The declaration `a, b : in bit`. -/
def ex_item_ab : port_item := ⟨"a", ["b"], .PORT_IN, ex_bit, ex_pc1, after_mark "bit" ex_pc1⟩

/-- The state after `; c : out`. -/
def ex_pc2 : pstate := advance (advance (after_ident "c" (advance ex_item_ab.e)))

/-- The declaration `c : out bit`. -/
def ex_item_c : port_item := ⟨"c", [], .PORT_OUT, ex_bit, ex_pc2, after_mark "bit" ex_pc2⟩

/-- The state after `; d :`, the type mark fetched. -/
def ex_pc3 : pstate := force_peek (advance (after_ident "d" (advance ex_item_c.e)))

/-- The declaration `d : bit`. -/
def ex_item_d : port_item := ⟨"d", [], .PORT_IN, ex_bit, ex_pc3, after_mark "bit" ex_pc3⟩

theorem wrap64_id (x : Int) (h1 : INT64_MIN ≤ x) (h2 : x ≤ INT64_MAX) :
    wrap64 x = x := by
  unfold wrap64 INT64_MIN INT64_MAX at *
  omega

theorem eval_expr_arith (t : tree_t) (n : Int) (h : arith_tree t n) :
    ∃ N, ∀ fuel, N ≤ fuel → ∀ v, eval_expr fuel t v =
      .ok (.T_LITERAL (tree_loc t) (tree_type t) (some (.L_INT n)), v) := by
  induction h with
  | lit loc ty n _ _ =>
    refine ⟨1, fun fuel hf v => ?_⟩
    obtain ⟨k, rfl⟩ := Nat.exists_eq_add_of_le hf
    rw [Nat.add_comm]
    simp [eval_expr, tree_kind, tree_loc, tree_type]
  | call loc id ty dloc did dty dports dattrs op x y a b hb _ _ ihx ihy =>
    obtain ⟨Nx, hx⟩ := ihx
    obtain ⟨Ny, hy⟩ := ihy
    refine ⟨max Nx Ny + 2, fun fuel hf v => ?_⟩
    obtain ⟨k, rfl⟩ := Nat.exists_eq_add_of_le hf
    have e : max Nx Ny + 2 + k = (max Nx Ny + k) + 1 + 1 := by omega
    rw [e]
    have hx2 := hx (max Nx Ny + k) (by omega)
    have hy2 := hy (max Nx Ny + k) (by omega)
    simp only [eval_expr, tree_kind, eval_fcall, tree_ref, hb]
    simp [MAX_BUILTIN_ARGS, tree_params, fold_args, hx2, hy2, fold_arg,
      folded_int, tree_kind, tree_literal, folded_bool, folded_agg,
      folded_real, bind, Except.bind, pure, Except.pure]
    cases op <;>
      simp [arith_op.name, arith_op.apply, simp_fcall_int, icmp, larg_i,
        get_int_lit, get_fdecl, tree_ref, tree_kind, tree_loc, tree_type,
        bind, Except.bind, pure, Except.pure]

/-- A call node is evaluated by eval as eval_expr evaluates it in a
value-table without frames. -/
theorem eval_eq_eval_expr (fuel : Nat) (t : tree_t)
    (hk : tree_kind t = .T_FCALL) :
    eval fuel t = (eval_expr (fuel + 1) t []).map Prod.fst := by
  simp [eval, eval_expr, hk, Except.map, bind, Except.bind, pure, Except.pure]

/-- C1: for every call tree whose leaves are integer literals and whose inner
nodes are two-argument calls of the built-ins add, sub and mul, eval returns
(for every sufficient fuel) an integer literal whose value is the expression
evaluated bottom-up in signed 64-bit arithmetic. -/
theorem eval_folds_arith_tree (t : tree_t) (n : Int) (h : arith_tree t n)
    (hk : tree_kind t = .T_FCALL) :
    ∃ N, ∀ fuel, N ≤ fuel →
      eval fuel t = .ok (.T_LITERAL (tree_loc t) (tree_type t) (some (.L_INT n))) := by
  obtain ⟨N, hN⟩ := eval_expr_arith t n h
  refine ⟨N, fun fuel hf => ?_⟩
  rw [eval_eq_eval_expr fuel t hk, hN (fuel + 1) (by omega) []]
  rfl

theorem ex_1_plus_2_times_3_arith : arith_tree ex_1_plus_2_times_3 7 :=
  arith_tree.call ex_loc (some "add") (some ex_integer) ex_loc "add" _ [] _ .add
    (ex_int 1) _ 1 6 rfl
    (arith_tree.lit _ _ 1 (by decide) (by decide))
    (arith_tree.call ex_loc (some "mul") (some ex_integer) ex_loc "mul" _ [] _ .mul
      (ex_int 2) (ex_int 3) 2 3 rfl
      (arith_tree.lit _ _ 2 (by decide) (by decide))
      (arith_tree.lit _ _ 3 (by decide) (by decide)))

/-- C1 at the call "+"(1, "*"(2, 3)): it folds to the literal 7. -/
theorem eval_folds_arith_tree_witness :
    arith_tree ex_1_plus_2_times_3 7 ∧ tree_kind ex_1_plus_2_times_3 = .T_FCALL ∧
    ∃ N, ∀ fuel, N ≤ fuel → eval fuel ex_1_plus_2_times_3 = .ok (ex_int 7) :=
  ⟨ex_1_plus_2_times_3_arith, rfl,
    eval_folds_arith_tree ex_1_plus_2_times_3 7 ex_1_plus_2_times_3_arith rfl⟩

/-- The loop of f leaves the value-table unchanged once y has reached 10. -/
theorem f_while_exit (k : Nat) (xv : tree_t) (yloc : loc_t)
    (yty : Option type_t) (m : Int) (rest : vtable_t) (hm : 10 ≤ m) :
    eval_while (k + 4) f_while
        (f_frame xv (.T_LITERAL yloc yty (some (.L_INT m))) :: rest)
      = .ok (f_frame xv (.T_LITERAL yloc yty (some (.L_INT m))) :: rest) := by
  have hm2 : ¬ m < 10 := by omega
  simp [eval_while, f_while, tree_value, f_cond, ex_call, eval_expr, tree_kind,
    eval_fcall, tree_ref, ex_builtin, tree_attr_str, tree_attrs, builtin_i,
    MAX_BUILTIN_ARGS, tree_params, fold_args, f_ref_y, eval_ref, f_var_y,
    tree_ident_key, tree_ident, vtable_get, vtframe_get, f_frame, fold_arg,
    folded_int, ex_int, tree_literal, folded_bool, folded_agg, folded_real,
    simp_fcall_int, icmp, larg_i, get_bool_lit, get_fdecl, tree_type,
    type_result, ex_boolean, type_ident, type_enum_literals, std_bool_i,
    ex_false, ex_true, ex_bool_name, tree_pos, tree_loc, hm2, bind,
    Except.bind, pure, Except.pure]

/-- One iteration of the loop of f while y is below 10: y is bound to the
literal that folding y + 1 creates. -/
theorem f_while_step (k : Nat) (xv : tree_t) (yloc : loc_t)
    (yty : Option type_t) (m : Int) (rest : vtable_t) (hm : m < 10) :
    eval_while (k + 6) f_while
        (f_frame xv (.T_LITERAL yloc yty (some (.L_INT m))) :: rest)
      = eval_while (k + 5) f_while
          (f_frame xv (.T_LITERAL ex_loc (some ex_integer)
            (some (.L_INT (wrap64 (m + 1))))) :: rest) := by
  conv => lhs; rw [eval_while]
  simp [f_while, tree_value, f_cond, ex_call, eval_expr, tree_kind, eval_fcall,
    tree_ref, ex_builtin, tree_attr_str, tree_attrs, builtin_i,
    MAX_BUILTIN_ARGS, tree_params, fold_args, f_ref_y, eval_ref, f_var_y,
    tree_ident_key, tree_ident, vtable_get, vtframe_get, f_frame, fold_arg,
    folded_int, ex_int, tree_literal, folded_bool, folded_agg, folded_real,
    simp_fcall_int, icmp, larg_i, get_bool_lit, get_int_lit, get_fdecl,
    tree_type, type_result, ex_boolean, type_ident, type_enum_literals,
    std_bool_i, ex_false, ex_true, ex_bool_name, tree_pos, tree_loc,
    tree_stmts, eval_stmts, eval_stmt, f_incr, eval_var_assign, folded,
    vtable_bind, vtframe_set, hm, bind, Except.bind, pure, Except.pure,
    Except.map]

/-- The loop of f terminates with y bound to a literal of value max(m, 10),
with one unit of fuel per iteration. -/
theorem f_while_runs (j : Nat) : ∀ (m : Int) (yloc : loc_t)
    (yty : Option type_t) (xv : tree_t) (rest : vtable_t) (k : Nat),
    10 - m ≤ j → INT64_MIN ≤ m →
    ∃ yloc2 yty2,
      eval_while (k + j + 5) f_while
          (f_frame xv (.T_LITERAL yloc yty (some (.L_INT m))) :: rest)
        = .ok (f_frame xv
            (.T_LITERAL yloc2 yty2 (some (.L_INT (max m 10)))) :: rest) := by
  induction j with
  | zero =>
    intro m yloc yty xv rest k hj _
    have hm : 10 ≤ m := by omega
    refine ⟨yloc, yty, ?_⟩
    have h := f_while_exit (k + 1) xv yloc yty m rest hm
    rw [max_eq_left hm]
    exact h
  | succ j ih =>
    intro m yloc yty xv rest k hj hlo
    by_cases hm : 10 ≤ m
    · refine ⟨yloc, yty, ?_⟩
      have h := f_while_exit (k + j + 2) xv yloc yty m rest hm
      rw [max_eq_left hm]
      exact h
    · have hm2 : m < 10 := by omega
      have hw : wrap64 (m + 1) = m + 1 :=
        wrap64_id _ (by omega) (by unfold INT64_MAX; omega)
      have hs := f_while_step (k + j) xv yloc yty m rest hm2
      rw [hw] at hs
      obtain ⟨yloc2, yty2, h⟩ :=
        ih (m + 1) ex_loc (some ex_integer) xv rest k (by omega) (by omega)
      refine ⟨yloc2, yty2, ?_⟩
      have e : k + (j + 1) + 5 = k + j + 6 := by omega
      rw [e, hs, h]
      have hmax : max (m + 1) 10 = max m 10 := by
        rw [max_eq_right (by omega), max_eq_right (by omega)]
      rw [hmax]

/-- C2: for every integer literal argument n, eval of the call f(n) of the
function f with `variable y := x`, `while y < 10 loop y := y + 1; end loop;`
and `return y;` terminates (every fuel from (10 - n) + 8 on suffices) and
returns an integer literal of value max(n, 10). -/
theorem eval_f_max (n : Int) (loc : loc_t) (ty : Option type_t)
    (h1 : INT64_MIN ≤ n) (_h2 : n ≤ INT64_MAX) :
    ∀ fuel, (10 - n).toNat + 8 ≤ fuel → ∃ rloc rty,
      eval fuel (f_call (.T_LITERAL loc ty (some (.L_INT n))))
        = .ok (.T_LITERAL rloc rty (some (.L_INT (max n 10)))) := by
  intro fuel hf
  obtain ⟨k, rfl⟩ := Nat.exists_eq_add_of_le hf
  obtain ⟨yloc2, yty2, hw⟩ := f_while_runs (10 - n).toNat n loc ty
    (.T_LITERAL loc ty (some (.L_INT n))) [] k (by omega) h1
  refine ⟨yloc2, yty2, ?_⟩
  have e : (10 - n).toNat + 8 + k = (k + (10 - n).toNat + 5) + 1 + 1 + 1 := by
    omega
  rw [e]
  simp [eval, f_call, tree_kind, eval_fcall, tree_ref, f_body, tree_attr_str,
    tree_attrs, vtable_push, tree_ports, bind_ports, tree_params, f_port_x,
    tree_ident_key, tree_ident, vtable_bind, vtframe_set, VTABLE_SZ,
    eval_func_body, tree_decls, eval_decls, f_var_y, tree_value, eval_expr,
    f_ref_x, eval_ref, vtable_get, vtframe_get, tree_stmts, eval_body_stmts,
    eval_stmt, f_while, f_return, bind, Except.bind, pure, Except.pure,
    Except.map]
  simp only [f_while, f_frame] at hw
  rw [hw]
  simp [vtframe_get, result_i, eval_return, tree_value, eval_expr, f_ref_y,
    tree_kind, eval_ref, tree_ref, f_var_y, tree_ident_key, tree_ident,
    vtable_get, vtable_bind, vtframe_set, VTABLE_SZ, vtable_pop, folded, bind,
    Except.bind, pure, Except.pure, Except.map]

/-- C2 at f(3): the call folds to a literal of value 10. -/
theorem eval_f_max_witness :
    ∃ rloc rty, eval 15 (f_call (ex_int 3))
      = .ok (.T_LITERAL rloc rty (some (.L_INT 10))) :=
  eval_f_max 3 ex_loc (some ex_integer) (by decide) (by decide) 15 (by decide)

theorem assoc_keys_shape (a : assoc_t) (k : List Int) (h : assoc_keys a = some k) :
    (∃ loc ty n v, a = .A_NAMED (.T_LITERAL loc ty (some (.L_INT n))) v ∧ k = [n]) ∨
    (∃ d l1 t1 l l2 t2 r v, a = .A_RANGE (.mk d (.T_LITERAL l1 t1 (some (.L_INT l)))
        (.T_LITERAL l2 t2 (some (.L_INT r)))) v ∧ k = [l, r]) := by
  unfold assoc_keys at h
  split at h
  · left; cases h; exact ⟨_, _, _, _, rfl, rfl⟩
  · right; cases h; exact ⟨_, _, _, _, _, _, _, _, rfl, rfl⟩
  · cases h

theorem agg_keys_cons (a : assoc_t) (rest : List assoc_t) (ks : List Int)
    (h : agg_keys (a :: rest) = some ks) :
    ∃ k ks2, assoc_keys a = some k ∧ agg_keys rest = some ks2 ∧ ks = k ++ ks2 := by
  unfold agg_keys at h
  split at h
  · rename_i k ks2 h1 h2
    cases h
    exact ⟨k, ks2, h1, h2, rfl⟩
  · cases h

theorem agg_keys_folded : ∀ (assocs : List assoc_t) (ks : List Int),
    agg_keys assocs = some ks → folded_agg_assocs assocs = true := by
  intro assocs
  induction assocs with
  | nil => intro ks _; rfl
  | cons a rest ih =>
    intro ks h
    obtain ⟨k, ks2, h1, h2, _⟩ := agg_keys_cons a rest ks h
    rcases assoc_keys_shape a k h1 with ⟨loc, ty, n, v, rfl, _⟩ | ⟨d, l1, t1, l, l2, t2, r, v, rfl, _⟩
    · simp [folded_agg_assocs, folded_int, tree_kind, tree_literal, ih ks2 h2]
    · simp [folded_agg_assocs, folded_int, tree_kind, tree_literal, ih ks2 h2]

/-- The loop of simp_fcall_agg computes the running minimum and maximum of
the index keys. -/
theorem agg_loop_spec : ∀ (assocs : List assoc_t) (ks : List Int) (low high : Int),
    agg_keys assocs = some ks →
    ∃ lo hi, simp_fcall_agg_loop assocs low high = .ok (lo, hi) ∧
      (lo = low ∨ lo ∈ ks) ∧ lo ≤ low ∧ (∀ k ∈ ks, lo ≤ k) ∧
      (hi = high ∨ hi ∈ ks) ∧ high ≤ hi ∧ (∀ k ∈ ks, k ≤ hi) := by
  intro assocs
  induction assocs with
  | nil =>
    intro ks low high h
    cases h
    exact ⟨low, high, rfl, Or.inl rfl, le_refl _, by simp, Or.inl rfl, le_refl _, by simp⟩
  | cons a rest ih =>
    intro ks low high h
    obtain ⟨k, ks2, h1, h2, rfl⟩ := agg_keys_cons a rest ks h
    rcases assoc_keys_shape a k h1 with ⟨loc, ty, n, v, rfl, rfl⟩ | ⟨d, l1, t1, l, l2, t2, r, v, rfl, rfl⟩
    · obtain ⟨lo, hi, he, hlo1, hlo2, hlo3, hhi1, hhi2, hhi3⟩ :=
        ih ks2 (if n < low then n else low) (if n > high then n else high) h2
      refine ⟨lo, hi, ?_, ?_, ?_, ?_, ?_, ?_, ?_⟩
      · simp [simp_fcall_agg_loop, assume_int, tree_literal, bind, Except.bind, he]
      · rcases hlo1 with h | h
        · split at h
          · right; simp [h]
          · left; exact h
        · right; simp [h]
      · split at hlo2 <;> omega
      · intro k hk
        simp at hk
        rcases hk with rfl | hk
        · split at hlo2 <;> omega
        · exact hlo3 k hk
      · rcases hhi1 with h | h
        · split at h
          · right; simp [h]
          · left; exact h
        · right; simp [h]
      · split at hhi2 <;> omega
      · intro k hk
        simp at hk
        rcases hk with rfl | hk
        · split at hhi2 <;> omega
        · exact hhi3 k hk
    · obtain ⟨lo, hi, he, hlo1, hlo2, hlo3, hhi1, hhi2, hhi3⟩ :=
        ih ks2 (if min l r < low then min l r else low) (if max l r > high then max l r else high) h2
      refine ⟨lo, hi, ?_, ?_, ?_, ?_, ?_, ?_, ?_⟩
      · simpa [simp_fcall_agg_loop, range_bounds, assume_int, tree_literal, bind, Except.bind,
          pure, Except.pure] using he
      · rcases hlo1 with h | h
        · split at h
          · right
            rcases min_choice l r with hc | hc <;> simp [h, hc]
          · left; exact h
        · right; simp [h]
      · split at hlo2 <;> omega
      · intro k hk
        simp at hk
        have := min_le_left l r
        have := min_le_right l r
        rcases hk with rfl | rfl | hk
        · split at hlo2 <;> omega
        · split at hlo2 <;> omega
        · exact hlo3 k hk
      · rcases hhi1 with h | h
        · split at h
          · right
            rcases max_choice l r with hc | hc <;> simp [h, hc]
          · left; exact h
        · right; simp [h]
      · split at hhi2 <;> omega
      · intro k hk
        simp at hk
        have := le_max_left l r
        have := le_max_right l r
        rcases hk with rfl | rfl | hk
        · split at hhi2 <;> omega
        · split at hhi2 <;> omega
        · exact hhi3 k hk

/-- C4: for every non-empty aggregate passed directly as the single argument
of agg_low (respectively agg_high), all of whose associations are named with
an integer literal key or ranged with integer literal endpoints, eval returns
an integer literal whose value is one of the index keys and is below
(respectively above) every index key, both endpoints of every range counted
whatever its direction. -/
theorem eval_agg_bounds (loc : loc_t) (id : Option ident_t)
    (ty : Option type_t) (dloc : loc_t) (did : ident_t) (dty : Option type_t)
    (dports : List tree_t) (dattrs : attrs_t) (bn : ident_t) (aloc : loc_t)
    (assocs : List assoc_t) (ks : List Int)
    (hbn : tree_attr_str (.T_FUNC_DECL dloc did dty dports dattrs) builtin_i
      = some bn)
    (hks : agg_keys assocs = some ks) (hne : ks ≠ [])
    (hr : ∀ k ∈ ks, INT64_MIN ≤ k ∧ k ≤ INT64_MAX) (fuel : Nat)
    (hf : 2 ≤ fuel) :
    (bn = "agg_low" →
      ∃ lo, eval fuel
          (.T_FCALL loc id (some (.T_FUNC_DECL dloc did dty dports dattrs)) ty
            [.mk .P_POS (.T_AGGREGATE aloc assocs)])
        = .ok (.T_LITERAL loc ty (some (.L_INT lo))) ∧
        lo ∈ ks ∧ ∀ k ∈ ks, lo ≤ k) ∧
    (bn = "agg_high" →
      ∃ hi, eval fuel
          (.T_FCALL loc id (some (.T_FUNC_DECL dloc did dty dports dattrs)) ty
            [.mk .P_POS (.T_AGGREGATE aloc assocs)])
        = .ok (.T_LITERAL loc ty (some (.L_INT hi))) ∧
        hi ∈ ks ∧ ∀ k ∈ ks, k ≤ hi) := by
  obtain ⟨k, rfl⟩ := Nat.exists_eq_add_of_le hf
  have e : 2 + k = k + 1 + 1 := by omega
  rw [e]
  obtain ⟨lo, hi, he, hlo1, hlo2, hlo3, hhi1, hhi2, hhi3⟩ :=
    agg_loop_spec assocs ks INT64_MAX INT64_MIN hks
  have hfold := agg_keys_folded assocs ks hks
  obtain ⟨k0, hk0⟩ := List.exists_mem_of_ne_nil ks hne
  have hlo : lo ∈ ks := by
    rcases hlo1 with h | h
    · have h3 := hlo3 k0 hk0
      have h4 := (hr k0 hk0).2
      have h5 : k0 = lo := by omega
      rw [← h5]; exact hk0
    · exact h
  have hhi : hi ∈ ks := by
    rcases hhi1 with h | h
    · have h3 := hhi3 k0 hk0
      have h4 := (hr k0 hk0).1
      have h5 : k0 = hi := by omega
      rw [← h5]; exact hk0
    · exact h
  constructor
  · rintro rfl
    refine ⟨lo, ?_, hlo, hlo3⟩
    simp [eval, tree_kind, eval_fcall, tree_ref, hbn, MAX_BUILTIN_ARGS,
      tree_params, fold_args, eval_expr, eval_aggregate, folded_agg,
      tree_assocs, hfold, fold_arg, folded_int, folded_bool, folded_real,
      simp_fcall_agg, icmp, he, get_int_lit, get_fdecl, tree_loc, tree_type,
      bind, Except.bind, pure, Except.pure]
  · rintro rfl
    refine ⟨hi, ?_, hhi, hhi3⟩
    simp [eval, tree_kind, eval_fcall, tree_ref, hbn, MAX_BUILTIN_ARGS,
      tree_params, fold_args, eval_expr, eval_aggregate, folded_agg,
      tree_assocs, hfold, fold_arg, folded_int, folded_bool, folded_real,
      simp_fcall_agg, icmp, he, get_int_lit, get_fdecl, tree_loc, tree_type,
      bind, Except.bind, pure, Except.pure]

/-- C4 at the aggregate (1 => 'a', 5 to 7 => 'b', 3 => 'c'): agg_low folds to
1 and agg_high folds to 7. -/
theorem eval_agg_bounds_witness :
    (∃ lo, eval 2 (ex_call "agg_low" ex_integer [ex_agg]) = .ok (ex_int lo) ∧
      lo ∈ [1, 5, 7, 3] ∧ ∀ k ∈ [1, 5, 7, 3], lo ≤ k) ∧
    (∃ hi, eval 2 (ex_call "agg_high" ex_integer [ex_agg]) = .ok (ex_int hi) ∧
      hi ∈ [1, 5, 7, 3] ∧ ∀ k ∈ [1, 5, 7, 3], k ≤ hi) ∧
    eval 2 (ex_call "agg_low" ex_integer [ex_agg]) = .ok (ex_int 1) ∧
    eval 2 (ex_call "agg_high" ex_integer [ex_agg]) = .ok (ex_int 7) :=
  ⟨(eval_agg_bounds ex_loc (some "agg_low") (some ex_integer) ex_loc "agg_low"
      (some (.mk .T_OTHER none (some ex_integer) [] none none)) [] [(builtin_i, .A_STRING "agg_low")] "agg_low" ex_loc
      (tree_assocs ex_agg) [1, 5, 7, 3] rfl rfl (by decide) (by decide) 2
      (by decide)).1 rfl,
   (eval_agg_bounds ex_loc (some "agg_high") (some ex_integer) ex_loc "agg_high"
      (some (.mk .T_OTHER none (some ex_integer) [] none none)) [] [(builtin_i, .A_STRING "agg_high")] "agg_high" ex_loc
      (tree_assocs ex_agg) [1, 5, 7, 3] rfl rfl (by decide) (by decide) 2
      (by decide)).2 rfl,
   rfl, rfl⟩

/-- C5 (the code departs from the claim): eval of `not true` does not return
a reference to the ordinal-0 literal.  The argument is a reference node, so
eval_expr hands it to eval_ref, which looks its referent up in the
value-table; eval starts with a value-table without frames, so the lookup
fails and the evaluation is fatal. -/
theorem eval_not_true_fatal (k : Nat) :
    eval (k + 2) ex_not_true
      = .error (.fatal ex_loc "cannot constant fold reference") := by
  simp [eval, ex_not_true, ex_call, tree_kind, eval_fcall, tree_ref,
    ex_builtin, tree_attr_str, tree_attrs, builtin_i, MAX_BUILTIN_ARGS,
    tree_params, fold_args, eval_expr, ex_true_ref, eval_ref, ex_true,
    tree_ident_key, tree_ident, vtable_get, vtframe_get, tree_loc, bind,
    Except.bind, pure, Except.pure]

theorem get_int_lit_kind (t : tree_t) (i : Int) (r : tree_t) (h : get_int_lit t i = .ok r) :
    tree_kind r = .T_LITERAL := by
  unfold get_int_lit at h
  cases hf : get_fdecl t with
  | error e => simp [hf, bind, Except.bind] at h
  | ok d =>
    simp [hf, bind, Except.bind, pure, Except.pure] at h
    rw [← h]; rfl

theorem get_real_lit_kind (t : tree_t) (x : Float) (r : tree_t) (h : get_real_lit t x = .ok r) :
    tree_kind r = .T_LITERAL := by
  unfold get_real_lit at h
  cases hf : get_fdecl t with
  | error e => simp [hf, bind, Except.bind] at h
  | ok d =>
    simp [hf, bind, Except.bind, pure, Except.pure] at h
    rw [← h]; rfl

theorem get_bool_lit_kind (t : tree_t) (b : Bool) (r : tree_t) (h : get_bool_lit t b = .ok r) :
    tree_kind r = .T_REF := by
  unfold get_bool_lit at h
  cases hf : get_fdecl t with
  | error e => simp [hf, bind, Except.bind] at h
  | ok d =>
    simp only [hf, bind, Except.bind, pure, Except.pure] at h
    split at h
    · cases h
    · split at h
      · cases h
      · split at h
        · cases h
        · split at h
          · cases h
          · cases h; rfl

theorem bind_ok {α β : Type} (x : eval_m α) (f : α → eval_m β) (r : β)
    (h : (x >>= f) = .ok r) : ∃ a, x = .ok a ∧ f a = .ok r := by
  cases x with
  | error e => cases h
  | ok a => exact ⟨a, rfl, h⟩

theorem ite_ok {α : Type} {c : Prop} [Decidable c] {x y : eval_m α} {r : α}
    (h : (if c then x else y) = .ok r) : x = .ok r ∨ y = .ok r := by
  by_cases hc : c
  · rw [if_pos hc] at h; exact Or.inl h
  · rw [if_neg hc] at h; exact Or.inr h

theorem simp_fcall_int_result (t : tree_t) (b : ident_t) (args : List (Option literal_t))
    (r : tree_t) (h : simp_fcall_int t b args = .ok r) : r = t ∨ not_fcall r := by
  unfold simp_fcall_int at h
  split at h
  · iterate 12
      rcases ite_ok h with h | h
      · first
        | exact Or.inr (Or.inl (get_int_lit_kind _ _ _ h))
        | (obtain ⟨a, _, h2⟩ := bind_ok _ _ _ h
           first
            | exact Or.inr (Or.inl (get_int_lit_kind _ _ _ h2))
            | exact Or.inr (Or.inr (Or.inl (get_bool_lit_kind _ _ _ h2)))
            | (rcases ite_ok h2 with h3 | h3
               · cases h3
               · rcases ite_ok h3 with h4 | h4
                 · cases h4
                 · exact Or.inr (Or.inl (get_int_lit_kind _ _ _ h4))))
    cases h; exact Or.inl rfl
  · cases h
  · cases h

theorem simp_fcall_real_result (t : tree_t) (b : ident_t) (args : List (Option literal_t))
    (r : tree_t) (h : simp_fcall_real t b args = .ok r) : r = t ∨ not_fcall r := by
  unfold simp_fcall_real at h
  split at h
  · iterate 10
      rcases ite_ok h with h | h
      · first
        | exact Or.inr (Or.inl (get_real_lit_kind _ _ _ h))
        | (obtain ⟨a, _, h2⟩ := bind_ok _ _ _ h
           first
            | exact Or.inr (Or.inl (get_real_lit_kind _ _ _ h2))
            | exact Or.inr (Or.inr (Or.inl (get_bool_lit_kind _ _ _ h2))))
    cases h; exact Or.inl rfl
  · cases h
  · cases h

theorem simp_fcall_log_result (t : tree_t) (b : ident_t) (args : List (Option Bool))
    (r : tree_t) (h : simp_fcall_log t b args = .ok r) : r = t ∨ not_fcall r := by
  unfold simp_fcall_log at h
  iterate 7
    rcases ite_ok h with h | h
    · obtain ⟨a, _, h2⟩ := bind_ok _ _ _ h
      first
        | exact Or.inr (Or.inr (Or.inl (get_bool_lit_kind _ _ _ h2)))
        | (obtain ⟨a3, _, h3⟩ := bind_ok _ _ _ h2
           exact Or.inr (Or.inr (Or.inl (get_bool_lit_kind _ _ _ h3))))
  cases h; exact Or.inl rfl

theorem simp_fcall_agg_result (t : tree_t) (b : ident_t)
    (r : tree_t) (h : simp_fcall_agg t b = .ok r) : r = t ∨ not_fcall r := by
  unfold simp_fcall_agg at h
  simp only at h
  split at h
  · split at h
    · cases h
    · obtain ⟨a, _, h2⟩ := bind_ok _ _ _ h
      exact Or.inr (Or.inl (get_int_lit_kind _ _ _ h2))
  · cases h; exact Or.inl rfl

theorem folded_not_fcall (r : tree_t) (h : folded r = .ok true) : not_fcall r := by
  unfold folded at h
  simp only at h
  split at h
  · exact Or.inl (by assumption)
  · split at h
    · exact Or.inr (Or.inr (by assumption))
    · split at h
      · exact Or.inr (Or.inl (by assumption))
      · cases h

theorem eval_fcall_result (fuel : Nat) (t : tree_t) (v : vtable_t) (r : tree_t) (v2 : vtable_t)
    (h : eval_fcall fuel t v = .ok (r, v2)) : r = t ∨ not_fcall r := by
  cases fuel with
  | zero => simp [eval_fcall] at h
  | succ fuel =>
    rw [eval_fcall] at h
    split at h
    · cases h
    · split at h
      · cases h
      · split at h
        · split at h
          · cases h; exact Or.inl rfl
          · obtain ⟨a, _, h2⟩ := bind_ok _ _ _ h
            split at h2
            · obtain ⟨a3, _, h3⟩ := bind_ok _ _ _ h2
              cases h3; exact Or.inl rfl
            · obtain ⟨a3, _, h3⟩ := bind_ok _ _ _ h2
              obtain ⟨a4, _, h4⟩ := bind_ok _ _ _ h3
              split at h4
              · cases h4; exact Or.inl rfl
              · obtain ⟨a5, h5, h6⟩ := bind_ok _ _ _ h4
                split at h6
                · cases h6
                  subst_vars
                  exact Or.inr (folded_not_fcall _ h5)
                · cases h6; exact Or.inl rfl
        · split at h
          · cases h; exact Or.inl rfl
          · obtain ⟨a, _, h2⟩ := bind_ok _ _ _ h
            obtain ⟨a1, a2⟩ := a
            simp only at h2
            repeat' split at h2
            all_goals first
              | (cases h2; exact Or.inl rfl)
              | (obtain ⟨a3, h3, h4⟩ := bind_ok _ _ _ h2
                 cases h4
                 first
                  | exact simp_fcall_int_result _ _ _ _ h3
                  | exact simp_fcall_log_result _ _ _ _ h3
                  | exact simp_fcall_agg_result _ _ _ h3
                  | exact simp_fcall_real_result _ _ _ _ h3)

/-- C6 (amended): for every tree t on which eval returns r, either r is the
call t itself, and then eval of r returns r again, or r is not a function
call (the call was folded to a literal, a boolean reference or an aggregate),
and then eval of r fails its assertion on the node kind for every fuel. -/
theorem eval_twice (fuel : Nat) (t r : tree_t) (h : eval fuel t = .ok r) :
    (r = t ∧ eval fuel r = .ok r) ∨
    (not_fcall r ∧
      ∀ fuel2, eval fuel2 r
        = .error (.assert_failed "tree_kind(fcall) == T_FCALL")) := by
  have h0 := h
  unfold eval at h
  split at h
  · cases h
  · obtain ⟨a, h1, h2⟩ := bind_ok _ _ _ h
    obtain ⟨r1, v1⟩ := a
    cases h2
    rcases eval_fcall_result fuel t [] r1 v1 h1 with h3 | h3
    · left
      subst h3
      exact ⟨rfl, h0⟩
    · right
      have hk : tree_kind r1 ≠ .T_FCALL := by
        rcases h3 with h3 | h3 | h3 <;> rw [h3] <;> decide
      refine ⟨h3, fun fuel2 => ?_⟩
      simp [eval, hk]

/-- C6 at the call "+"(1, 2), which folds to the literal 3. -/
theorem eval_twice_witness :
    (ex_int 3 = ex_add_1_2 ∧ eval 2 (ex_int 3) = .ok (ex_int 3)) ∨
    (not_fcall (ex_int 3) ∧
      ∀ fuel2, eval fuel2 (ex_int 3)
        = .error (.assert_failed "tree_kind(fcall) == T_FCALL")) :=
  eval_twice 2 ex_add_1_2 (ex_int 3) rfl

/-- C6 as stated fails: the call "+"(1, 2) folds to the literal 3, and eval
is defined on no literal, whatever the fuel. -/
theorem eval_not_idempotent :
    ¬ ∀ (fuel : Nat) (t r : tree_t), eval fuel t = .ok r →
        ∃ fuel2, eval fuel2 r = .ok r := by
  intro h
  obtain ⟨fuel2, h2⟩ := h 2 ex_add_1_2 (ex_int 3) rfl
  simp [eval, ex_int, tree_kind] at h2

theorem eval_expr_int_num (t : tree_t) (n : Int) (h : int_num_tree t n) :
    ∃ N, ∀ fuel, N ≤ fuel → ∀ v, eval_expr fuel t v =
      .ok (.T_LITERAL (tree_loc t) (tree_type t) (some (.L_INT n)), v) := by
  induction h with
  | lit loc ty n _ _ =>
    refine ⟨1, fun fuel hf v => ?_⟩
    obtain ⟨k, rfl⟩ := Nat.exists_eq_add_of_le hf
    rw [Nat.add_comm]
    simp [eval_expr, tree_kind, tree_loc, tree_type]
  | bin loc id ty dloc did dty dports dattrs op x y a b hb _ _ hz ihx ihy =>
    obtain ⟨Nx, hx⟩ := ihx
    obtain ⟨Ny, hy⟩ := ihy
    refine ⟨max Nx Ny + 2, fun fuel hf v => ?_⟩
    obtain ⟨k, rfl⟩ := Nat.exists_eq_add_of_le hf
    have e : max Nx Ny + 2 + k = (max Nx Ny + k) + 1 + 1 := by omega
    rw [e]
    have hx2 := hx (max Nx Ny + k) (by omega)
    have hy2 := hy (max Nx Ny + k) (by omega)
    simp only [eval_expr, tree_kind, eval_fcall, tree_ref, hb]
    simp [MAX_BUILTIN_ARGS, tree_params, fold_args, hx2, hy2, fold_arg,
      folded_int, tree_kind, tree_literal, folded_bool, folded_agg,
      folded_real, bind, Except.bind, pure, Except.pure]
    cases op
    case div =>
      have hz2 : b ≠ 0 := (hz rfl).1
      have hz3 : ¬ (a = INT64_MIN ∧ b = -1) := (hz rfl).2
      simp [num_op2.name, num_op2.int_apply, simp_fcall_int, icmp, larg_i,
        get_int_lit, get_fdecl, tree_ref, tree_kind, tree_loc, tree_type, hz2, hz3,
        bind, Except.bind, pure, Except.pure]
    all_goals
      simp [num_op2.name, num_op2.int_apply, simp_fcall_int, icmp, larg_i,
        get_int_lit, get_fdecl, tree_ref, tree_kind, tree_loc, tree_type,
        bind, Except.bind, pure, Except.pure]
  | un loc id ty dloc did dty dports dattrs op x a hb _ ihx =>
    obtain ⟨Nx, hx⟩ := ihx
    refine ⟨Nx + 2, fun fuel hf v => ?_⟩
    obtain ⟨k, rfl⟩ := Nat.exists_eq_add_of_le hf
    have e : Nx + 2 + k = (Nx + k) + 1 + 1 := by omega
    rw [e]
    have hx2 := hx (Nx + k) (by omega)
    simp only [eval_expr, tree_kind, eval_fcall, tree_ref, hb]
    simp [MAX_BUILTIN_ARGS, tree_params, fold_args, hx2, fold_arg,
      folded_int, tree_kind, tree_literal, folded_bool, folded_agg,
      folded_real, bind, Except.bind, pure, Except.pure]
    cases op <;>
      simp [num_op1.name, num_op1.int_apply, simp_fcall_int, icmp, larg_i,
        get_int_lit, get_fdecl, tree_ref, tree_kind, tree_loc, tree_type,
        bind, Except.bind, pure, Except.pure]

theorem eval_expr_real_num (t : tree_t) (h : real_num_tree t) :
    ∃ N, ∀ fuel, N ≤ fuel → ∀ v, ∃ r, eval_expr fuel t v =
      .ok (.T_LITERAL (tree_loc t) (tree_type t) (some (.L_REAL r)), v) := by
  induction h with
  | lit loc ty r =>
    refine ⟨1, fun fuel hf v => ⟨r, ?_⟩⟩
    obtain ⟨k, rfl⟩ := Nat.exists_eq_add_of_le hf
    rw [Nat.add_comm]
    simp [eval_expr, tree_kind, tree_loc, tree_type]
  | bin loc id ty dloc did dty dports dattrs op x y hb _ _ ihx ihy =>
    obtain ⟨Nx, hx⟩ := ihx
    obtain ⟨Ny, hy⟩ := ihy
    refine ⟨max Nx Ny + 2, fun fuel hf v => ?_⟩
    obtain ⟨k, rfl⟩ := Nat.exists_eq_add_of_le hf
    have e : max Nx Ny + 2 + k = (max Nx Ny + k) + 1 + 1 := by omega
    rw [e]
    obtain ⟨rx, hx2⟩ := hx (max Nx Ny + k) (by omega) v
    obtain ⟨ry, hy2⟩ := hy (max Nx Ny + k) (by omega) v
    simp only [eval_expr, tree_kind, eval_fcall, tree_ref, hb]
    simp [MAX_BUILTIN_ARGS, tree_params, fold_args, hx2, hy2, fold_arg,
      folded_int, tree_kind, tree_literal, folded_bool, folded_agg,
      folded_real, bind, Except.bind, pure, Except.pure]
    cases op <;>
      simp [num_op2.name, simp_fcall_real, icmp, larg_r,
        get_real_lit, get_fdecl, tree_ref, tree_kind, tree_loc, tree_type,
        bind, Except.bind, pure, Except.pure]
  | un loc id ty dloc did dty dports dattrs op x hb _ ihx =>
    obtain ⟨Nx, hx⟩ := ihx
    refine ⟨Nx + 2, fun fuel hf v => ?_⟩
    obtain ⟨k, rfl⟩ := Nat.exists_eq_add_of_le hf
    have e : Nx + 2 + k = (Nx + k) + 1 + 1 := by omega
    rw [e]
    obtain ⟨rx, hx2⟩ := hx (Nx + k) (by omega) v
    simp only [eval_expr, tree_kind, eval_fcall, tree_ref, hb]
    simp [MAX_BUILTIN_ARGS, tree_params, fold_args, hx2, fold_arg,
      folded_int, tree_kind, tree_literal, folded_bool, folded_agg,
      folded_real, bind, Except.bind, pure, Except.pure]
    cases op <;>
      simp [num_op1.name, simp_fcall_real, icmp, larg_r,
        get_real_lit, get_fdecl, tree_ref, tree_kind, tree_loc, tree_type,
        bind, Except.bind, pure, Except.pure]

/-- C7 (amended): for every call tree whose leaves are all integer literals
(respectively all real literals) and whose inner nodes are calls of the
arithmetic built-ins mul, div, add, sub with two arguments and neg, identity
with one argument, no integer division having a divisor of value 0 or
dividing -2^63 by -1, eval terminates and returns a literal node whose
subkind is integer (respectively real). -/
theorem eval_folds_num_tree (t : tree_t) (hk : tree_kind t = .T_FCALL) :
    (∀ n, int_num_tree t n → ∃ N, ∀ fuel, N ≤ fuel →
      eval fuel t
        = .ok (.T_LITERAL (tree_loc t) (tree_type t) (some (.L_INT n)))) ∧
    (real_num_tree t → ∃ N, ∀ fuel, N ≤ fuel → ∃ r,
      eval fuel t
        = .ok (.T_LITERAL (tree_loc t) (tree_type t) (some (.L_REAL r)))) := by
  constructor
  · intro n h
    obtain ⟨N, hN⟩ := eval_expr_int_num t n h
    refine ⟨N, fun fuel hf => ?_⟩
    rw [eval_eq_eval_expr fuel t hk, hN (fuel + 1) (by omega) []]
    rfl
  · intro h
    obtain ⟨N, hN⟩ := eval_expr_real_num t h
    refine ⟨N, fun fuel hf => ?_⟩
    obtain ⟨r, hr⟩ := hN (fuel + 1) (by omega) []
    refine ⟨r, ?_⟩
    rw [eval_eq_eval_expr fuel t hk, hr]
    rfl

theorem ex_neg_div_num : int_num_tree ex_neg_div (-3) :=
  int_num_tree.un ex_loc (some "neg") (some ex_integer) ex_loc "neg" _ [] _ .neg
    _ 3 rfl
    (int_num_tree.bin ex_loc (some "div") (some ex_integer) ex_loc "div" _ [] _
      .div (ex_int 7) (ex_int 2) 7 2 rfl
      (int_num_tree.lit _ _ 7 (by decide) (by decide))
      (int_num_tree.lit _ _ 2 (by decide) (by decide))
      (fun _ => by decide))

theorem ex_real_mul_num : real_num_tree ex_real_mul :=
  real_num_tree.bin ex_loc (some "mul") (some ex_real_ty) ex_loc "mul" _ [] _
    .mul (ex_real 1.5) (ex_real 2.0) rfl
    (real_num_tree.lit _ _ _) (real_num_tree.lit _ _ _)

/-- C7 at the integer call neg(div(7, 2)), which folds to the integer literal
-3, and at the real call mul(1.5, 2.0), which folds to a real literal. -/
theorem eval_folds_num_tree_witness :
    (∃ N, ∀ fuel, N ≤ fuel → eval fuel ex_neg_div = .ok (ex_int (-3))) ∧
    (∃ N, ∀ fuel, N ≤ fuel → ∃ r, eval fuel ex_real_mul
      = .ok (.T_LITERAL ex_loc (some ex_real_ty) (some (.L_REAL r)))) :=
  ⟨(eval_folds_num_tree ex_neg_div rfl).1 (-3) ex_neg_div_num,
   (eval_folds_num_tree ex_real_mul rfl).2 ex_real_mul_num⟩

/-- C7 as stated fails: the comparison eq on the integer literals 1 and 2
folds to a reference to the enumeration literal FALSE, for no fuel to a
literal node; and the division of 1 by 0 returns nothing at all. -/
theorem eval_comparison_not_literal :
    (∀ k, eval (k + 2) ex_eq_1_2 = .ok ex_false_ref) ∧
    (∀ fuel r, eval fuel ex_eq_1_2 = .ok r → tree_kind r ≠ .T_LITERAL) ∧
    (∀ fuel r, eval fuel ex_div_1_0 ≠ .ok r) := by
  have h1 : ∀ k, eval (k + 2) ex_eq_1_2 = .ok ex_false_ref := by
    intro k
    simp [eval, ex_eq_1_2, ex_call, tree_kind, eval_fcall, tree_ref, ex_builtin, tree_attr_str,
      tree_attrs, builtin_i, MAX_BUILTIN_ARGS, tree_params, fold_args, eval_expr, ex_int,
      fold_arg, folded_int, tree_literal, folded_bool, folded_agg, folded_real,
      simp_fcall_int, icmp, larg_i, get_bool_lit, get_fdecl, tree_type, type_result, ex_boolean,
      type_ident, type_enum_literals, std_bool_i, ex_false, ex_true, ex_bool_name, tree_loc,
      tree_ident, ex_false_ref, bind, Except.bind, pure, Except.pure]
  refine ⟨h1, ?_, ?_⟩
  · intro fuel r h
    rcases fuel with _ | _ | k
    · simp [eval, ex_eq_1_2, ex_call, tree_kind, eval_fcall, bind, Except.bind] at h
    · simp [eval, ex_eq_1_2, ex_call, tree_kind, eval_fcall, tree_ref, ex_builtin, tree_attr_str,
        tree_attrs, builtin_i, MAX_BUILTIN_ARGS, tree_params, fold_args, eval_expr,
        bind, Except.bind] at h
    · rw [h1 k] at h
      cases h
      decide
  · intro fuel r h
    rcases fuel with _ | _ | k
    · simp [eval, ex_div_1_0, ex_call, tree_kind, eval_fcall, bind, Except.bind] at h
    · simp [eval, ex_div_1_0, ex_call, tree_kind, eval_fcall, tree_ref, ex_builtin, tree_attr_str,
        tree_attrs, builtin_i, MAX_BUILTIN_ARGS, tree_params, fold_args, eval_expr,
        bind, Except.bind] at h
    · simp [eval, ex_div_1_0, ex_call, tree_kind, eval_fcall, tree_ref, ex_builtin, tree_attr_str,
        tree_attrs, builtin_i, MAX_BUILTIN_ARGS, tree_params, fold_args, eval_expr, ex_int,
        fold_arg, folded_int, tree_literal, folded_bool, folded_agg, folded_real,
        simp_fcall_int, icmp, larg_i, bind, Except.bind, pure, Except.pure] at h

/-- The wrapped value lies in the signed 64-bit range and differs from the
mathematical value by a multiple of 2^64. -/
theorem wrap64_spec (x : Int) :
    INT64_MIN ≤ wrap64 x ∧ wrap64 x ≤ INT64_MAX ∧ (2 ^ 64 : Int) ∣ (wrap64 x - x) := by
  unfold wrap64 INT64_MIN INT64_MAX
  refine ⟨by omega, by omega, ?_⟩
  omega

/-- C10: for all signed 64-bit integers a and b, folding add, sub, mul on the
literals a and b and neg on a yields an integer literal whose value lies in
the signed 64-bit range and is congruent modulo 2^64 to the mathematical
result (no overflow is reported); identity on a yields the literal a. -/
theorem fold_int_wraps (loc : loc_t) (id : Option ident_t)
    (ty : Option type_t) (dloc : loc_t) (did : ident_t) (dty : Option type_t)
    (dports : List tree_t) (dattrs : attrs_t) (l1 l2 : loc_t)
    (t1 t2 : Option type_t) (a b : Int) (bn : ident_t)
    (hbn : tree_attr_str (.T_FUNC_DECL dloc did dty dports dattrs) builtin_i
      = some bn)
    (_ha : INT64_MIN ≤ a ∧ a ≤ INT64_MAX)
    (_hb : INT64_MIN ≤ b ∧ b ≤ INT64_MAX) (k : Nat) :
    (bn = "add" →
      ∃ r, eval (k + 2)
          (.T_FCALL loc id (some (.T_FUNC_DECL dloc did dty dports dattrs)) ty
            [.mk .P_POS (.T_LITERAL l1 t1 (some (.L_INT a))),
             .mk .P_POS (.T_LITERAL l2 t2 (some (.L_INT b)))])
        = .ok (.T_LITERAL loc ty (some (.L_INT r))) ∧
        INT64_MIN ≤ r ∧ r ≤ INT64_MAX ∧ (2 ^ 64 : Int) ∣ (r - (a + b))) ∧
    (bn = "sub" →
      ∃ r, eval (k + 2)
          (.T_FCALL loc id (some (.T_FUNC_DECL dloc did dty dports dattrs)) ty
            [.mk .P_POS (.T_LITERAL l1 t1 (some (.L_INT a))),
             .mk .P_POS (.T_LITERAL l2 t2 (some (.L_INT b)))])
        = .ok (.T_LITERAL loc ty (some (.L_INT r))) ∧
        INT64_MIN ≤ r ∧ r ≤ INT64_MAX ∧ (2 ^ 64 : Int) ∣ (r - (a - b))) ∧
    (bn = "mul" →
      ∃ r, eval (k + 2)
          (.T_FCALL loc id (some (.T_FUNC_DECL dloc did dty dports dattrs)) ty
            [.mk .P_POS (.T_LITERAL l1 t1 (some (.L_INT a))),
             .mk .P_POS (.T_LITERAL l2 t2 (some (.L_INT b)))])
        = .ok (.T_LITERAL loc ty (some (.L_INT r))) ∧
        INT64_MIN ≤ r ∧ r ≤ INT64_MAX ∧ (2 ^ 64 : Int) ∣ (r - a * b)) ∧
    (bn = "neg" →
      ∃ r, eval (k + 2)
          (.T_FCALL loc id (some (.T_FUNC_DECL dloc did dty dports dattrs)) ty
            [.mk .P_POS (.T_LITERAL l1 t1 (some (.L_INT a)))])
        = .ok (.T_LITERAL loc ty (some (.L_INT r))) ∧
        INT64_MIN ≤ r ∧ r ≤ INT64_MAX ∧ (2 ^ 64 : Int) ∣ (r - (-a))) ∧
    (bn = "identity" →
      eval (k + 2)
          (.T_FCALL loc id (some (.T_FUNC_DECL dloc did dty dports dattrs)) ty
            [.mk .P_POS (.T_LITERAL l1 t1 (some (.L_INT a)))])
        = .ok (.T_LITERAL loc ty (some (.L_INT a)))) := by
  refine ⟨?_, ?_, ?_, ?_, ?_⟩
  · rintro rfl
    refine ⟨wrap64 (a + b), ?_, wrap64_spec _⟩
    simp [eval, tree_kind, eval_fcall, tree_ref, hbn, MAX_BUILTIN_ARGS,
      tree_params, fold_args, eval_expr, fold_arg, folded_int, tree_literal,
      folded_bool, folded_agg, folded_real, simp_fcall_int, icmp, larg_i,
      get_int_lit, get_fdecl, tree_loc, tree_type, bind, Except.bind, pure,
      Except.pure]
  · rintro rfl
    refine ⟨wrap64 (a - b), ?_, wrap64_spec _⟩
    simp [eval, tree_kind, eval_fcall, tree_ref, hbn, MAX_BUILTIN_ARGS,
      tree_params, fold_args, eval_expr, fold_arg, folded_int, tree_literal,
      folded_bool, folded_agg, folded_real, simp_fcall_int, icmp, larg_i,
      get_int_lit, get_fdecl, tree_loc, tree_type, bind, Except.bind, pure,
      Except.pure]
  · rintro rfl
    refine ⟨wrap64 (a * b), ?_, wrap64_spec _⟩
    simp [eval, tree_kind, eval_fcall, tree_ref, hbn, MAX_BUILTIN_ARGS,
      tree_params, fold_args, eval_expr, fold_arg, folded_int, tree_literal,
      folded_bool, folded_agg, folded_real, simp_fcall_int, icmp, larg_i,
      get_int_lit, get_fdecl, tree_loc, tree_type, bind, Except.bind, pure,
      Except.pure]
  · rintro rfl
    refine ⟨wrap64 (-a), ?_, wrap64_spec _⟩
    simp [eval, tree_kind, eval_fcall, tree_ref, hbn, MAX_BUILTIN_ARGS,
      tree_params, fold_args, eval_expr, fold_arg, folded_int, tree_literal,
      folded_bool, folded_agg, folded_real, simp_fcall_int, icmp, larg_i,
      get_int_lit, get_fdecl, tree_loc, tree_type, bind, Except.bind, pure,
      Except.pure]
  · rintro rfl
    simp [eval, tree_kind, eval_fcall, tree_ref, hbn, MAX_BUILTIN_ARGS,
      tree_params, fold_args, eval_expr, fold_arg, folded_int, tree_literal,
      folded_bool, folded_agg, folded_real, simp_fcall_int, icmp, larg_i,
      get_int_lit, get_fdecl, tree_loc, tree_type, bind, Except.bind, pure,
      Except.pure]

/-- C10 at a = 2^63 - 1, b = 1: the sum overflows and the folded literal
holds the wrapped value -2^63. -/
theorem fold_int_wraps_witness :
    (∃ r, eval 2 (ex_call "add" ex_integer [ex_int (2 ^ 63 - 1), ex_int 1])
        = .ok (ex_int r) ∧
      INT64_MIN ≤ r ∧ r ≤ INT64_MAX ∧
      (2 ^ 64 : Int) ∣ (r - (2 ^ 63 - 1 + 1))) ∧
    eval 2 (ex_call "add" ex_integer [ex_int (2 ^ 63 - 1), ex_int 1])
      = .ok (ex_int (-(2 ^ 63))) :=
  ⟨(fold_int_wraps ex_loc (some "add") (some ex_integer) ex_loc "add"
      (some (.mk .T_OTHER none (some ex_integer) [] none none)) [] [(builtin_i, .A_STRING "add")]
      ex_loc ex_loc (some ex_integer) (some ex_integer) (2 ^ 63 - 1) 1 "add"
      rfl (by decide) (by decide) 0).1 rfl,
   rfl⟩

/-! ### Parser -/

theorem yylex_run (s : pstate) : yylex.run s = .ok (lexed_tok s, lexed s) := by
  rcases s with ⟨input, ys, yn, yd, yl, sl, ne, nc, pt, pv, p2t, p2v, hs, av, itn⟩
  cases input <;>
  simp [yylex, lexed, lexed_tok, StateT.run, bind, StateT.bind, get, getThe, MonadStateOf.get,
    StateT.get, pure, StateT.pure, Except.pure, Except.bind, set, StateT.set]

theorem peek_run (s : pstate) (h2 : s.peek2_valid = false) :
    peek.run s = .ok (next_tok s, force_peek s) := by
  rcases s with ⟨input, ys, yn, yd, yl, sl, ne, nc, pt, pv, p2t, p2v, hs, av, itn⟩
  simp only at h2
  subst h2
  cases pv <;> cases input <;>
  simp [peek, yylex, next_tok, force_peek, lexed, lexed_tok, StateT.run, bind, StateT.bind, get,
    getThe, MonadStateOf.get, StateT.get, pure, StateT.pure, Except.pure, Except.bind, set,
    StateT.set, modify, modifyGet, MonadStateOf.modifyGet, StateT.modifyGet]

theorem peek_run_frame (h : Option String) (l : loc_t) (s : pstate) (h2 : s.peek2_valid = false) :
    peek.run (set_frame h l s) = .ok (next_tok s, set_frame h l (force_peek s)) := by
  rcases s with ⟨input, ys, yn, yd, yl, sl, ne, nc, pt, pv, p2t, p2v, hs, av, itn⟩
  simp only at h2
  subst h2
  cases pv <;> cases input <;>
  simp [peek, yylex, next_tok, force_peek, lexed, lexed_tok, set_frame, StateT.run, bind, StateT.bind, get,
    getThe, MonadStateOf.get, StateT.get, pure, StateT.pure, Except.pure, Except.bind, set,
    StateT.set, modify, modifyGet, MonadStateOf.modifyGet, StateT.modifyGet]

theorem scan_run_frame (toks : List token_t) (h : Option String) (l : loc_t) (s : pstate)
    (h2 : s.peek2_valid = false) :
    (scan toks).run (set_frame h l s) = .ok (decide (next_tok s ∈ toks), set_frame h l (force_peek s)) := by
  have hp := peek_run_frame h l s h2
  simp only [StateT.run] at hp
  simp [scan, StateT.run, bind, StateT.bind, hp, pure, StateT.pure, Except.pure, Except.bind]

theorem consume_run_frame (tok : token_t) (h : Option String) (l : loc_t) (s : pstate)
    (h2 : s.peek2_valid = false) (ht : next_tok s = tok) :
    (consume tok).run (set_frame h l s) = .ok (true, set_frame h (start_after l s) (advance s)) := by
  subst ht
  rcases s with ⟨input, ys, yn, yd, yl, sl, ne, nc, pt, pv, p2t, p2v, hs, av, itn⟩
  simp only at h2
  subst h2
  by_cases hl : l.linebuf = none <;> cases pv <;> cases input <;>
  simp [consume, peek, yylex, next_tok, force_peek, lexed, lexed_tok, set_frame, start_after, advance,
    StateT.run, bind, StateT.bind, get,
    getThe, MonadStateOf.get, StateT.get, pure, StateT.pure, Except.pure, Except.bind, set,
    StateT.set, modify, modifyGet, MonadStateOf.modifyGet, StateT.modifyGet, hl]

theorem ident_new_run_frame (x : ident_t) (h : Option String) (l : loc_t) (s : pstate) :
    (ident_new x).run (set_frame h l s) = .ok (x, set_frame h l (intern x s)) := by
  by_cases hx : x ∈ s.interned <;>
  simp [ident_new, intern, set_frame, StateT.run, bind, StateT.bind, pure, StateT.pure, Except.pure,
    Except.bind, modify, modifyGet, MonadStateOf.modifyGet, StateT.modifyGet, hx]

theorem force_peek_valid (s : pstate) : (force_peek s).peek_valid = true := by
  unfold force_peek; split <;> simp_all

theorem force_peek_idem (s : pstate) : force_peek (force_peek s) = force_peek s := by
  have h := force_peek_valid s
  generalize force_peek s = t at h
  unfold force_peek
  simp [h]

theorem force_peek_peek2 (s : pstate) : (force_peek s).peek2_valid = s.peek2_valid := by
  unfold force_peek lexed
  split
  · rfl
  · split <;> rfl

theorem next_tok_force_peek (s : pstate) : next_tok (force_peek s) = next_tok s := by
  unfold next_tok; rw [force_peek_idem]

theorem advance_force_peek (s : pstate) : advance (force_peek s) = advance s := by
  unfold advance; rw [force_peek_idem]

theorem start_after_force_peek (l : loc_t) (s : pstate) :
    start_after l (force_peek s) = start_after l s := by
  unfold start_after; rw [force_peek_idem]

theorem one_of_run_frame (toks : List token_t) (h : Option String) (l : loc_t) (s : pstate)
    (h2 : s.peek2_valid = false) (ht : next_tok s ∈ toks) :
    (one_of toks).run (set_frame h l s)
      = .ok (next_tok s, set_frame h (start_after l s) (advance s)) := by
  have hp := peek_run_frame h l s h2
  simp only [StateT.run] at hp
  have h2f : (force_peek s).peek2_valid = false := by rw [force_peek_peek2, h2]
  have hc := consume_run_frame (next_tok s) h l (force_peek s) h2f (next_tok_force_peek s)
  simp only [StateT.run] at hc
  rw [advance_force_peek, start_after_force_peek] at hc
  simp [one_of, StateT.run, bind, StateT.bind, hp, ht, hc, pure, StateT.pure, Except.pure, Except.bind]

theorem BEGIN_run_frame {α : Type} (n : String) (body : parse_m α) (h : Option String)
    (l : loc_t) (s : pstate) :
    (BEGIN n body).run (set_frame h l s) =
      match body.run (set_frame (some n) LOC_INVALID s) with
      | .ok (a, s2) => .ok (a, set_frame h l s2)
      | .error e => .error e := by
  simp only [BEGIN, EXTEND, set_frame, StateT.run, bind, StateT.bind, get,
    getThe, MonadStateOf.get, StateT.get, pure, StateT.pure, Except.pure, Except.bind, set,
    StateT.set, modify, modifyGet, MonadStateOf.modifyGet, StateT.modifyGet]
  cases body _ <;> rfl

theorem CURRENT_LOC_run_frame (h : Option String) (l : loc_t) (s : pstate) :
    CURRENT_LOC.run (set_frame h l s) = .ok (_diff_loc l s.yylloc, set_frame h l s) := by
  simp [CURRENT_LOC, set_frame, StateT.run, bind, StateT.bind, get,
    getThe, MonadStateOf.get, StateT.get, pure, StateT.pure, Except.pure, Except.bind]

theorem set_frame_set_frame (h h2 : Option String) (l l2 : loc_t) (s : pstate) :
    set_frame h l (set_frame h2 l2 s) = set_frame h l s := rfl

theorem peek_app (h : Option String) (l : loc_t) (s : pstate) (h2 : s.peek2_valid = false) :
    peek (set_frame h l s) = .ok (next_tok s, set_frame h l (force_peek s)) :=
  peek_run_frame h l s h2

theorem scan_app (toks : List token_t) (h : Option String) (l : loc_t) (s : pstate)
    (h2 : s.peek2_valid = false) :
    scan toks (set_frame h l s) = .ok (decide (next_tok s ∈ toks), set_frame h l (force_peek s)) :=
  scan_run_frame toks h l s h2

theorem one_of_app (toks : List token_t) (h : Option String) (l : loc_t) (s : pstate)
    (h2 : s.peek2_valid = false) (ht : next_tok s ∈ toks) :
    one_of toks (set_frame h l s)
      = .ok (next_tok s, set_frame h (start_after l s) (advance s)) :=
  one_of_run_frame toks h l s h2 ht

theorem ident_new_app (x : ident_t) (h : Option String) (l : loc_t) (s : pstate) :
    ident_new x (set_frame h l s) = .ok (x, set_frame h l (intern x s)) :=
  ident_new_run_frame x h l s

theorem BEGIN_app {α : Type} (n : String) (body : parse_m α) (h : Option String)
    (l : loc_t) (s : pstate) :
    BEGIN n body (set_frame h l s) =
      match body (set_frame (some n) LOC_INVALID s) with
      | .ok (a, s2) => .ok (a, set_frame h l s2)
      | .error e => .error e :=
  BEGIN_run_frame n body h l s

theorem CURRENT_LOC_app (h : Option String) (l : loc_t) (s : pstate) :
    CURRENT_LOC (set_frame h l s) = .ok (_diff_loc l s.yylloc, set_frame h l s) :=
  CURRENT_LOC_run_frame h l s

theorem p_multiplying_operator_app (M : mul_op) (h : Option String) (l : loc_t) (s : pstate)
    (h2 : s.peek2_valid = false) (ht : next_tok s = M.token) :
    p_multiplying_operator (set_frame h l s)
      = .ok (M.ident, set_frame h (start_after l s) (after_op M.ident s)) := by
  have hm : next_tok s ∈ [token_t.tTIMES, .tOVER, .tMOD, .tREM] := by
    rw [ht]; cases M <;> simp [mul_op.token]
  have ho := one_of_app _ h l s h2 hm
  cases M <;>
  simp [p_multiplying_operator, bind, StateT.bind, ho, ht, mul_op.token, mul_op.ident, after_op,
    ident_new_app, Except.bind]

theorem p_adding_operator_app (A : add_op) (h : Option String) (l : loc_t) (s : pstate)
    (h2 : s.peek2_valid = false) (ht : next_tok s = A.token) :
    p_adding_operator (set_frame h l s)
      = .ok (A.ident, set_frame h (start_after l s) (after_op A.ident s)) := by
  have hm : next_tok s ∈ [token_t.tPLUS, .tMINUS, .tAMP] := by
    rw [ht]; cases A <;> simp [add_op.token]
  have ho := one_of_app _ h l s h2 hm
  cases A <;>
  simp [p_adding_operator, bind, StateT.bind, ho, ht, add_op.token, add_op.ident, after_op,
    ident_new_app, Except.bind]

theorem p_relational_operator_app (R : rel_op) (h : Option String) (l : loc_t) (s : pstate)
    (h2 : s.peek2_valid = false) (ht : next_tok s = R.token) :
    p_relational_operator (set_frame h l s)
      = .ok (R.ident, set_frame h (start_after l s) (after_op R.ident s)) := by
  have hm : next_tok s ∈ [token_t.tEQ, .tNEQ, .tLT, .tLE, .tGT, .tGE] := by
    rw [ht]; cases R <;> simp [rel_op.token]
  have ho := one_of_app _ h l s h2 hm
  cases R <;>
  simp [p_relational_operator, bind, StateT.bind, ho, ht, rel_op.token, rel_op.ident, after_op,
    ident_new_app, Except.bind]

theorem advance_peek2 (s : pstate) : (advance s).peek2_valid = false := rfl

theorem intern_peek2 (x : ident_t) (s : pstate) : (intern x s).peek2_valid = s.peek2_valid := by
  unfold intern; split <;> rfl

theorem intern_yylloc (x : ident_t) (s : pstate) : (intern x s).yylloc = s.yylloc := by
  unfold intern; split <;> rfl

theorem p_term_loop_stop (f : Nat) (t : tree_t) (h : Option String) (l : loc_t) (s : pstate)
    (h2 : s.peek2_valid = false) (hn : next_tok s ∉ mul_tokens) :
    p_term_loop (f + 1) t (set_frame h l s) = .ok (t, set_frame h l (force_peek s)) := by
  have hn2 : next_tok s ∉ [token_t.tTIMES, .tOVER, .tMOD, .tREM] := hn
  simp [p_term_loop, bind, StateT.bind, scan_app _ h l s h2, hn2, Except.bind, pure, StateT.pure,
    Except.pure]

theorem p_term_of_factor_1 (s s1 : pstate) (x : tree_t)
    (hx : parses p_factor s x s1) (h2 : s1.peek2_valid = false)
    (hn : next_tok s1 ∉ mul_tokens) :
    parses p_term s x (force_peek s1) := by
  obtain ⟨N, hN⟩ := hx
  refine ⟨N + 2, fun f hf h l => ?_⟩
  obtain ⟨k, rfl⟩ := Nat.exists_eq_add_of_le hf
  have e : N + 2 + k = (N + k + 1) + 1 := by omega
  rw [e]
  simp only [p_term, BEGIN_app, bind, StateT.bind, hN (N + k + 1) (by omega), Except.bind]
  rw [p_term_loop_stop (N + k) x _ _ s1 h2 hn]
  rfl

theorem p_term_of_factor_2 (s s1 s3 : pstate) (x y : tree_t) (M : mul_op)
    (hx : parses p_factor s x s1) (h2 : s1.peek2_valid = false)
    (ht : next_tok s1 = M.token)
    (hy : parses p_factor (after_op M.ident s1) y s3) (h4 : s3.peek2_valid = false)
    (hn : next_tok s3 ∉ mul_tokens) :
    parses p_term s (binop (_diff_loc (force_peek s1).yylloc s3.yylloc) M.ident x y)
      (force_peek s3) := by
  obtain ⟨N, hN⟩ := hx
  obtain ⟨N2, hN2⟩ := hy
  refine ⟨N + N2 + 3, fun f hf h l => ?_⟩
  obtain ⟨k, rfl⟩ := Nat.exists_eq_add_of_le hf
  have e : N + N2 + 3 + k = (N + N2 + k + 1 + 1) + 1 := by omega
  rw [e]
  have hm : next_tok s1 ∈ [token_t.tTIMES, .tOVER, .tMOD, .tREM] := by
    rw [ht]; cases M <;> simp [mul_op.token]
  have h2f : (force_peek s1).peek2_valid = false := by rw [force_peek_peek2, h2]
  have hop := p_multiplying_operator_app M (some "term") LOC_INVALID (force_peek s1) h2f
    (by rw [next_tok_force_peek]; exact ht)
  have hsa : start_after LOC_INVALID (force_peek s1) = (force_peek s1).yylloc := by
    simp [start_after, LOC_INVALID, force_peek_idem]
  have hao : after_op M.ident (force_peek s1) = after_op M.ident s1 := by
    simp [after_op, advance_force_peek]
  rw [hsa, hao] at hop
  simp only [p_term, BEGIN_app, bind, StateT.bind, hN (N + N2 + k + 1 + 1) (by omega), Except.bind]
  rw [p_term_loop]
  simp only [bind, StateT.bind, scan_app _ _ _ s1 h2, hm, decide_True, Except.bind, ite_true, hop,
    hN2 (N + N2 + k + 1) (by omega), CURRENT_LOC_app]
  rw [p_term_loop_stop (N + N2 + k) _ _ _ s3 h4 hn]
  rfl

theorem p_simple_expression_loop_stop (f : Nat) (t : tree_t) (h : Option String) (l : loc_t) (s : pstate)
    (h2 : s.peek2_valid = false) (hn : next_tok s ∉ add_tokens) :
    p_simple_expression_loop (f + 1) t (set_frame h l s) = .ok (t, set_frame h l (force_peek s)) := by
  have hn2 : next_tok s ∉ [token_t.tPLUS, .tMINUS, .tAMP] := hn
  simp [p_simple_expression_loop, bind, StateT.bind, scan_app _ h l s h2, hn2, Except.bind, pure, StateT.pure,
    Except.pure]

theorem p_simple_of_term_1 (s s1 : pstate) (x : tree_t)
    (hx : parses p_term s x s1) (h2 : s1.peek2_valid = false)
    (hn : next_tok s1 ∉ add_tokens) :
    parses p_simple_expression s x (force_peek s1) := by
  obtain ⟨N, hN⟩ := hx
  refine ⟨N + 2, fun f hf h l => ?_⟩
  obtain ⟨k, rfl⟩ := Nat.exists_eq_add_of_le hf
  have e : N + 2 + k = (N + k + 1) + 1 := by omega
  rw [e]
  simp only [p_simple_expression, BEGIN_app, bind, StateT.bind, hN (N + k + 1) (by omega), Except.bind]
  rw [p_simple_expression_loop_stop (N + k) x _ _ s1 h2 hn]
  rfl

theorem p_simple_of_term_2 (s s1 s3 : pstate) (x y : tree_t) (M : add_op)
    (hx : parses p_term s x s1) (h2 : s1.peek2_valid = false)
    (ht : next_tok s1 = M.token)
    (hy : parses p_term (after_op M.ident s1) y s3) (h4 : s3.peek2_valid = false)
    (hn : next_tok s3 ∉ add_tokens) :
    parses p_simple_expression s (binop (_diff_loc (force_peek s1).yylloc s3.yylloc) M.ident x y)
      (force_peek s3) := by
  obtain ⟨N, hN⟩ := hx
  obtain ⟨N2, hN2⟩ := hy
  refine ⟨N + N2 + 3, fun f hf h l => ?_⟩
  obtain ⟨k, rfl⟩ := Nat.exists_eq_add_of_le hf
  have e : N + N2 + 3 + k = (N + N2 + k + 1 + 1) + 1 := by omega
  rw [e]
  have hm : next_tok s1 ∈ [token_t.tPLUS, .tMINUS, .tAMP] := by
    rw [ht]; cases M <;> simp [add_op.token]
  have h2f : (force_peek s1).peek2_valid = false := by rw [force_peek_peek2, h2]
  have hop := p_adding_operator_app M (some "simple expression") LOC_INVALID (force_peek s1) h2f
    (by rw [next_tok_force_peek]; exact ht)
  have hsa : start_after LOC_INVALID (force_peek s1) = (force_peek s1).yylloc := by
    simp [start_after, LOC_INVALID, force_peek_idem]
  have hao : after_op M.ident (force_peek s1) = after_op M.ident s1 := by
    simp [after_op, advance_force_peek]
  rw [hsa, hao] at hop
  simp only [p_simple_expression, BEGIN_app, bind, StateT.bind, hN (N + N2 + k + 1 + 1) (by omega), Except.bind]
  rw [p_simple_expression_loop]
  simp only [bind, StateT.bind, scan_app _ _ _ s1 h2, hm, decide_True, Except.bind, ite_true, hop,
    hN2 (N + N2 + k + 1) (by omega), CURRENT_LOC_app]
  rw [p_simple_expression_loop_stop (N + N2 + k) _ _ _ s3 h4 hn]
  rfl

theorem p_relation_loop_stop (f : Nat) (t : tree_t) (h : Option String) (l : loc_t) (s : pstate)
    (h2 : s.peek2_valid = false) (hn : next_tok s ∉ rel_tokens) :
    p_relation_loop (f + 1) t (set_frame h l s) = .ok (t, set_frame h l (force_peek s)) := by
  have hn2 : next_tok s ∉ [token_t.tEQ, .tNEQ, .tLT, .tLE, .tGT, .tGE] := hn
  simp [p_relation_loop, bind, StateT.bind, scan_app _ h l s h2, hn2, Except.bind, pure, StateT.pure,
    Except.pure]

theorem p_relation_of_shift_1 (s s1 : pstate) (x : tree_t)
    (hx : parses p_shift_expression s x s1) (h2 : s1.peek2_valid = false)
    (hn : next_tok s1 ∉ rel_tokens) :
    parses p_relation s x (force_peek s1) := by
  obtain ⟨N, hN⟩ := hx
  refine ⟨N + 2, fun f hf h l => ?_⟩
  obtain ⟨k, rfl⟩ := Nat.exists_eq_add_of_le hf
  have e : N + 2 + k = (N + k + 1) + 1 := by omega
  rw [e]
  simp only [p_relation, BEGIN_app, bind, StateT.bind, hN (N + k + 1) (by omega), Except.bind]
  rw [p_relation_loop_stop (N + k) x _ _ s1 h2 hn]
  rfl

theorem p_relation_of_shift_2 (s s1 s3 : pstate) (x y : tree_t) (M : rel_op)
    (hx : parses p_shift_expression s x s1) (h2 : s1.peek2_valid = false)
    (ht : next_tok s1 = M.token)
    (hy : parses p_shift_expression (after_op M.ident s1) y s3) (h4 : s3.peek2_valid = false)
    (hn : next_tok s3 ∉ rel_tokens) :
    parses p_relation s (binop (_diff_loc (force_peek s1).yylloc s3.yylloc) M.ident x y)
      (force_peek s3) := by
  obtain ⟨N, hN⟩ := hx
  obtain ⟨N2, hN2⟩ := hy
  refine ⟨N + N2 + 3, fun f hf h l => ?_⟩
  obtain ⟨k, rfl⟩ := Nat.exists_eq_add_of_le hf
  have e : N + N2 + 3 + k = (N + N2 + k + 1 + 1) + 1 := by omega
  rw [e]
  have hm : next_tok s1 ∈ [token_t.tEQ, .tNEQ, .tLT, .tLE, .tGT, .tGE] := by
    rw [ht]; cases M <;> simp [rel_op.token]
  have h2f : (force_peek s1).peek2_valid = false := by rw [force_peek_peek2, h2]
  have hop := p_relational_operator_app M (some "relation") LOC_INVALID (force_peek s1) h2f
    (by rw [next_tok_force_peek]; exact ht)
  have hsa : start_after LOC_INVALID (force_peek s1) = (force_peek s1).yylloc := by
    simp [start_after, LOC_INVALID, force_peek_idem]
  have hao : after_op M.ident (force_peek s1) = after_op M.ident s1 := by
    simp [after_op, advance_force_peek]
  rw [hsa, hao] at hop
  simp only [p_relation, BEGIN_app, bind, StateT.bind, hN (N + N2 + k + 1 + 1) (by omega), Except.bind]
  rw [p_relation_loop]
  simp only [bind, StateT.bind, scan_app _ _ _ s1 h2, hm, decide_True, Except.bind, ite_true, hop,
    hN2 (N + N2 + k + 1) (by omega), CURRENT_LOC_app]
  rw [p_relation_loop_stop (N + N2 + k) _ _ _ s3 h4 hn]
  rfl

theorem p_shift_of_simple (s s1 : pstate) (x : tree_t)
    (hx : parses p_simple_expression s x s1) : parses p_shift_expression s x s1 := by
  obtain ⟨N, hN⟩ := hx
  refine ⟨N + 1, fun f hf h l => ?_⟩
  obtain ⟨k, rfl⟩ := Nat.exists_eq_add_of_le hf
  have e : N + 1 + k = (N + k) + 1 := by omega
  rw [e]
  simp only [p_shift_expression, BEGIN_app, bind, StateT.bind, hN (N + k) (by omega), Except.bind,
    pure, StateT.pure, Except.pure]
  rfl

theorem p_expression_of_relation (s s1 : pstate) (x : tree_t)
    (hx : parses p_relation s x s1) : parses p_expression s x s1 := by
  obtain ⟨N, hN⟩ := hx
  refine ⟨N + 1, fun f hf h l => ?_⟩
  obtain ⟨k, rfl⟩ := Nat.exists_eq_add_of_le hf
  have e : N + 1 + k = (N + k) + 1 := by omega
  rw [e]
  simp only [p_expression, BEGIN_app, bind, StateT.bind, hN (N + k) (by omega), Except.bind,
    pure, StateT.pure, Except.pure]
  rfl

theorem p_factor_int_literal (s : pstate) (h2 : s.peek2_valid = false)
    (ht : next_tok s = .tINT) (hn : next_tok (advance s) ≠ .tID) :
    parses p_factor s
      (.T_LITERAL (_diff_loc (force_peek s).yylloc (force_peek s).yylloc) none
        (some (.L_INT (force_peek s).yylval_n)))
      (force_peek (advance s)) := by
  refine ⟨2, fun f hf h l => ?_⟩
  obtain ⟨k, rfl⟩ := Nat.exists_eq_add_of_le hf
  have e : 2 + k = k + 1 + 1 := by omega
  rw [e]
  have h2f : (force_peek s).peek2_valid = false := by rw [force_peek_peek2, h2]
  have htf : next_tok (force_peek s) = .tINT := by rw [next_tok_force_peek, ht]
  have hm : next_tok (force_peek s) ∈ [token_t.tINT, .tREAL] := by rw [htf]; simp
  have hsa : start_after LOC_INVALID (force_peek s) = (force_peek s).yylloc := by
    simp [start_after, LOC_INVALID, force_peek_idem]
  simp only [p_factor, p_primary, BEGIN_app, bind, StateT.bind, peek_app _ _ s h2, Except.bind, ht,
    p_literal, peek_app _ _ (force_peek s) h2f, htf, force_peek_idem, p_numeric_literal,
    scan_app _ _ _ (force_peek s) h2f, hm, decide_True, ite_true, p_abstract_literal,
    one_of_app _ _ _ (force_peek s) h2f hm, hsa, advance_force_peek,
    get, getThe, MonadStateOf.get, StateT.get, pure, StateT.pure, Except.pure, CURRENT_LOC_app,
    peek_app _ _ (advance s) (advance_peek2 s)]
  have hd : decide (token_t.tINT ∈ [token_t.tINT, token_t.tREAL]) = true := rfl
  have hm2 : token_t.tINT ∈ [token_t.tINT, token_t.tREAL] := by simp
  have ho := one_of_app [token_t.tINT, token_t.tREAL] (some "abstract literal") LOC_INVALID
    (force_peek s) h2f hm
  rw [hsa, advance_force_peek, htf] at ho
  simp only [hd, ite_true, StateT.bind, BEGIN_app, bind, ho, Except.bind, StateT.get, pure,
    Except.pure, CURRENT_LOC_app, StateT.pure, set_frame_set_frame,
    peek_app _ _ (advance s) (advance_peek2 s), hn, ite_false]
  rfl

theorem not_mem_append3 {t : token_t} {a b c : List token_t} (h : t ∉ a ++ b ++ c) :
    t ∉ a ∧ t ∉ b ∧ t ∉ c := by
  simp only [List.mem_append, not_or] at h
  exact ⟨h.1.1, h.1.2, h.2⟩

theorem add_token_not_mul (A : add_op) : A.token ∉ mul_tokens := by
  cases A <;> decide

theorem rel_token_not_mul (R : rel_op) : R.token ∉ mul_tokens := by
  cases R <;> decide

theorem rel_token_not_add (R : rel_op) : R.token ∉ add_tokens := by
  cases R <;> decide

/-- C3: operator precedence in p_expression.  Let x, y, z be any primaries:
p_factor returns x from s0 and leaves s1, returns y after the first operator
and leaves s3, returns z after the second operator and leaves s5, where no
operator follows.  Then for every adding operator A, multiplying operator M
and relational operator R the token sequence `x A y M z` parses to
A(x, M(y, z)), `x M y A z` parses to A(M(x, y), z) and `x R y A z` parses to
R(x, A(y, z)). -/
theorem p_expression_precedence (s0 s1 s3 s5 : pstate) (x y z : tree_t)
    (hx : parses p_factor s0 x s1) (h1 : s1.peek2_valid = false)
    (h3 : s3.peek2_valid = false) (h5 : s5.peek2_valid = false)
    (hend : next_tok s5 ∉ mul_tokens ++ add_tokens ++ rel_tokens) :
    (∀ (A : add_op) (M : mul_op), next_tok s1 = A.token →
      parses p_factor (after_op A.ident s1) y s3 → next_tok s3 = M.token →
      parses p_factor (after_op M.ident s3) z s5 →
      parses p_expression s0
        (binop (_diff_loc (force_peek s1).yylloc (force_peek s5).yylloc) A.ident x
          (binop (_diff_loc (force_peek s3).yylloc s5.yylloc) M.ident y z))
        (force_peek s5)) ∧
    (∀ (M : mul_op) (A : add_op), next_tok s1 = M.token →
      parses p_factor (after_op M.ident s1) y s3 → next_tok s3 = A.token →
      parses p_factor (after_op A.ident s3) z s5 →
      parses p_expression s0
        (binop (_diff_loc (force_peek s3).yylloc (force_peek s5).yylloc) A.ident
          (binop (_diff_loc (force_peek s1).yylloc s3.yylloc) M.ident x y) z)
        (force_peek s5)) ∧
    (∀ (R : rel_op) (A : add_op), next_tok s1 = R.token →
      parses p_factor (after_op R.ident s1) y s3 → next_tok s3 = A.token →
      parses p_factor (after_op A.ident s3) z s5 →
      parses p_expression s0
        (binop (_diff_loc (force_peek s1).yylloc (force_peek s5).yylloc) R.ident x
          (binop (_diff_loc (force_peek s3).yylloc (force_peek s5).yylloc) A.ident y z))
        (force_peek s5)) := by
  obtain ⟨hem, hea, her⟩ := not_mem_append3 hend
  have hf1 : (force_peek s1).peek2_valid = false := by rw [force_peek_peek2, h1]
  have hf3 : (force_peek s3).peek2_valid = false := by rw [force_peek_peek2, h3]
  have hf5 : (force_peek s5).peek2_valid = false := by rw [force_peek_peek2, h5]
  refine ⟨?_, ?_, ?_⟩
  · intro A M ht1 hy ht3 hz
    have tx := p_term_of_factor_1 s0 s1 x hx h1 (by rw [ht1]; exact add_token_not_mul A)
    have tyz := p_term_of_factor_2 (after_op A.ident s1) s3 s5 y z M hy h3 ht3 hz h5 hem
    have hao : after_op A.ident (force_peek s1) = after_op A.ident s1 := by
      simp [after_op, advance_force_peek]
    rw [← hao] at tyz
    have se := p_simple_of_term_2 s0 (force_peek s1) (force_peek s5) x _ A tx hf1
      (by rw [next_tok_force_peek]; exact ht1) tyz hf5 (by rw [next_tok_force_peek]; exact hea)
    have re := p_relation_of_shift_1 s0 _ _ (p_shift_of_simple _ _ _ se)
      (by rw [force_peek_peek2]; exact hf5) (by simp only [next_tok_force_peek]; exact her)
    have ex := p_expression_of_relation _ _ _ re
    simpa only [force_peek_idem] using ex
  · intro M A ht1 hy ht3 hz
    have txy := p_term_of_factor_2 s0 s1 s3 x y M hx h1 ht1 hy h3
      (by rw [ht3]; exact add_token_not_mul A)
    have hao : after_op A.ident (force_peek s3) = after_op A.ident s3 := by
      simp [after_op, advance_force_peek]
    have tz := p_term_of_factor_1 (after_op A.ident s3) s5 z hz h5 hem
    rw [← hao] at tz
    have se := p_simple_of_term_2 s0 (force_peek s3) (force_peek s5) _ z A txy hf3
      (by rw [next_tok_force_peek]; exact ht3) tz hf5 (by rw [next_tok_force_peek]; exact hea)
    have re := p_relation_of_shift_1 s0 _ _ (p_shift_of_simple _ _ _ se)
      (by rw [force_peek_peek2]; exact hf5) (by simp only [next_tok_force_peek]; exact her)
    have ex := p_expression_of_relation _ _ _ re
    simpa only [force_peek_idem] using ex
  · intro R A ht1 hy ht3 hz
    have tx := p_term_of_factor_1 s0 s1 x hx h1 (by rw [ht1]; exact rel_token_not_mul R)
    have sx := p_simple_of_term_1 s0 (force_peek s1) x tx hf1
      (by rw [next_tok_force_peek, ht1]; exact rel_token_not_add R)
    have shx := p_shift_of_simple _ _ _ sx
    have ty := p_term_of_factor_1 (after_op R.ident s1) s3 y hy h3
      (by rw [ht3]; exact add_token_not_mul A)
    have hao : after_op A.ident (force_peek s3) = after_op A.ident s3 := by
      simp [after_op, advance_force_peek]
    have tz := p_term_of_factor_1 (after_op A.ident s3) s5 z hz h5 hem
    rw [← hao] at tz
    have syz := p_simple_of_term_2 (after_op R.ident s1) (force_peek s3) (force_peek s5) y z A ty
      hf3 (by rw [next_tok_force_peek]; exact ht3) tz hf5
      (by rw [next_tok_force_peek]; exact hea)
    have shyz := p_shift_of_simple _ _ _ syz
    have hao2 : after_op R.ident (force_peek (force_peek s1)) = after_op R.ident s1 := by
      simp [after_op, advance_force_peek]
    rw [← hao2] at shyz
    have re := p_relation_of_shift_2 s0 (force_peek (force_peek s1)) (force_peek (force_peek s5))
      x _ R shx (by rw [force_peek_peek2]; exact hf1)
      (by simp only [next_tok_force_peek]; exact ht1) shyz
      (by rw [force_peek_peek2]; exact hf5) (by simp only [next_tok_force_peek]; exact her)
    have ex := p_expression_of_relation _ _ _ re
    simpa only [force_peek_idem] using ex

theorem ex_parses_1 : parses p_factor ex_s0 (ex_parsed_int 1 0) ex_s1 :=
  p_factor_int_literal ex_s0 rfl rfl (by decide)

theorem ex_parses_2 : parses p_factor (after_op "\"+\"" ex_s1) (ex_parsed_int 2 4) ex_s3 :=
  p_factor_int_literal (after_op "\"+\"" ex_s1) rfl rfl (by decide)

theorem ex_parses_3 : parses p_factor (after_op "\"*\"" ex_s3) (ex_parsed_int 3 8) ex_s5 :=
  p_factor_int_literal (after_op "\"*\"" ex_s3) rfl rfl (by decide)

/-- C3 at the tokens of `1 + 2 * 3`: they parse to "+"(1, "*"(2, 3)). -/
theorem p_expression_precedence_witness :
    parses p_expression ex_s0 ex_parsed_1_plus_2_times_3 (force_peek ex_s5) :=
  (p_expression_precedence ex_s0 ex_s1 ex_s3 ex_s5 (ex_parsed_int 1 0) (ex_parsed_int 2 4)
      (ex_parsed_int 3 8) ex_parses_1 rfl rfl rfl (by decide)).1 .plus .times rfl
      ex_parses_2 rfl ex_parses_3

theorem p_expression_of_factor (s s1 : pstate) (x : tree_t) (hx : parses p_factor s x s1)
    (h1 : s1.peek2_valid = false)
    (hend : next_tok s1 ∉ mul_tokens ++ add_tokens ++ rel_tokens) :
    parses p_expression s x (force_peek s1) := by
  obtain ⟨hem, hea, her⟩ := not_mem_append3 hend
  have hf1 : (force_peek s1).peek2_valid = false := by rw [force_peek_peek2, h1]
  have tx := p_term_of_factor_1 s s1 x hx h1 hem
  have sx := p_simple_of_term_1 s (force_peek s1) x tx hf1 (by rw [next_tok_force_peek]; exact hea)
  have re := p_relation_of_shift_1 s _ _ (p_shift_of_simple _ _ _ sx)
    (by rw [force_peek_peek2]; exact hf1) (by simp only [next_tok_force_peek]; exact her)
  have ex := p_expression_of_relation _ _ _ re
  simpa only [force_peek_idem] using ex

/-- C9 (amended): for every integer N with 0 <= N < 2^63, parsing the decimal
text of N with p_expression yields an integer literal node whose value is
N. -/
theorem p_expression_int_round_trip (N : Int) (hN : 0 ≤ N) (_hN2 : N < 2 ^ 63) (loc : loc_t)
    (s : pstate) (hv : s.peek_valid = false) (hv2 : s.peek2_valid = false)
    (hi : s.input = lex_decimal N loc) :
    parses p_expression s (.T_LITERAL (_diff_loc loc loc) none (some (.L_INT N)))
      (force_peek (advance s)) := by
  have hlex : lex_decimal N loc = [⟨.tINT, "", N, 0.0, loc⟩] := by
    unfold lex_decimal; rw [if_neg (by omega)]
  rw [hlex] at hi
  have ht : next_tok s = .tINT := by
    simp [next_tok, force_peek, hv, lexed_tok, hi]
  have hn : next_tok (advance s) = .tEOF := by
    simp [next_tok, force_peek, advance, hv, lexed_tok, lexed, hi]
  have hy : (force_peek s).yylloc = loc := by
    simp [force_peek, hv, lexed, hi]
  have hval : (force_peek s).yylval_n = N := by
    simp [force_peek, hv, lexed, hi]
  have hf := p_factor_int_literal s hv2 ht (by rw [hn]; decide)
  rw [hy, hval] at hf
  have he := p_expression_of_factor s _ _ hf (by rw [force_peek_peek2]; rfl)
    (by rw [next_tok_force_peek, hn]; decide)
  simpa only [force_peek_idem] using he

theorem expect_run_frame (toks : List token_t) (h : Option String) (l : loc_t) (s : pstate)
    (h2 : s.peek2_valid = false) :
    (expect toks).run (set_frame h l s) = .ok ((), set_frame h l (mismatch s)) := by
  rcases s with ⟨input, ys, yn, yd, yl, sl, ne, nc, pt, pv, p2t, p2v, hs, av, itn⟩
  simp only at h2
  subst h2
  cases pv <;> cases input <;>
  simp [expect, _vexpect, mismatch, peek, yylex, next_tok, force_peek, lexed, lexed_tok, set_frame,
    StateT.run, bind, StateT.bind, get,
    getThe, MonadStateOf.get, StateT.get, pure, StateT.pure, Except.pure, Except.bind, set,
    StateT.set, modify, modifyGet, MonadStateOf.modifyGet, StateT.modifyGet]

theorem expect_app (toks : List token_t) (h : Option String) (l : loc_t) (s : pstate)
    (h2 : s.peek2_valid = false) :
    expect toks (set_frame h l s) = .ok ((), set_frame h l (mismatch s)) :=
  expect_run_frame toks h l s h2

theorem mismatch_peek2 (s : pstate) : (mismatch s).peek2_valid = s.peek2_valid := by
  simp [mismatch, force_peek_peek2]

theorem p_factor_open (s : pstate) (h2 : s.peek2_valid = false)
    (ht : next_tok s ∉ [token_t.tLPAREN, .tINT, .tREAL, .tNULL, .tSTRING, .tID]) :
    parses p_factor s (.T_OPEN LOC_INVALID) (mismatch s) := by
  refine ⟨2, fun f hf h l => ?_⟩
  obtain ⟨k, rfl⟩ := Nat.exists_eq_add_of_le hf
  have e : 2 + k = k + 1 + 1 := by omega
  rw [e]
  have h2f : (force_peek s).peek2_valid = false := by rw [force_peek_peek2, h2]
  have hmm : mismatch (force_peek s) = mismatch s := by
    simp [mismatch, force_peek_idem]
  simp only [p_factor, p_primary, BEGIN_app, bind, StateT.bind, peek_app _ _ s h2, Except.bind]
  generalize hq : next_tok s = q at ht
  cases q <;> simp at ht <;>
  simp only [expect_app _ _ _ (force_peek s) h2f, bind, StateT.bind, Except.bind, pure, StateT.pure,
    Except.pure, hmm, set_frame_set_frame]

theorem parses_unique {P : Nat → parse_m tree_t} {s s2 s3 : pstate} {x y : tree_t}
    (hx : parses P s x s2) (hy : parses P s y s3) : x = y := by
  obtain ⟨N, hN⟩ := hx
  obtain ⟨M, hM⟩ := hy
  have h1 := hN (N + M) (by omega) none LOC_INVALID
  have h2 := hM (N + M) (by omega) none LOC_INVALID
  rw [h1] at h2
  injection h2 with h3
  exact congrArg Prod.fst h3


/-- C9 (amended) at N = 42. -/
theorem p_expression_int_round_trip_witness :
    parses p_expression (pstate_init (lex_decimal 42 (ex_tok_loc 0)))
      (.T_LITERAL (_diff_loc (ex_tok_loc 0) (ex_tok_loc 0)) none (some (.L_INT 42)))
      (force_peek (advance (pstate_init (lex_decimal 42 (ex_tok_loc 0))))) :=
  p_expression_int_round_trip 42 (by decide) (by decide) (ex_tok_loc 0)
    (pstate_init (lex_decimal 42 (ex_tok_loc 0))) rfl rfl rfl

theorem lex_decimal_minus_5 :
    lex_decimal (-5) (ex_tok_loc 0) = [ex_lx .tMINUS 0, ex_lx_int 5 0] := by
  simp [lex_decimal, ex_lx, ex_lx_int]

/-- C9 refuted at N = -5: the text `-5` parses to the call "-"(open, 5), and
to no literal node. -/
theorem p_expression_negative_not_literal :
    (∃ s2, parses p_expression (pstate_init (lex_decimal (-5) (ex_tok_loc 0))) ex_minus_5 s2) ∧
    ∀ l ty lit s2, ¬ parses p_expression (pstate_init (lex_decimal (-5) (ex_tok_loc 0)))
      (.T_LITERAL l ty lit) s2 := by
  rw [lex_decimal_minus_5]
  have hx := p_factor_open (pstate_init [ex_lx .tMINUS 0, ex_lx_int 5 0]) rfl (by decide)
  have tx := p_term_of_factor_1 _ _ _ hx rfl (by decide)
  have hy := p_factor_int_literal
    (after_op "\"-\"" (force_peek (mismatch (pstate_init [ex_lx .tMINUS 0, ex_lx_int 5 0]))))
    rfl rfl (by decide)
  have ty := p_term_of_factor_1 _ _ _ hy rfl (by decide)
  have sx := p_simple_of_term_2 _ _ _ _ _ .minus tx rfl rfl ty rfl (by decide)
  have re := p_relation_of_shift_1 _ _ _ (p_shift_of_simple _ _ _ sx) rfl (by decide)
  have ex := p_expression_of_relation _ _ _ re
  have main : parses p_expression (pstate_init [ex_lx .tMINUS 0, ex_lx_int 5 0]) ex_minus_5 _ := ex
  refine ⟨⟨_, main⟩, fun l ty lit s2 hl => ?_⟩
  have := parses_unique main hl
  simp [ex_minus_5, binop] at this

/-! ### The entry point parse -/

theorem peek_ok {s s1 : pstate} {t : token_t} (h : peek s = .ok (t, s1)) :
    t = next_tok s ∧ s1 = force_peek s := by
  rcases s with ⟨input, ys, yn, yd, yl, sl, ne, nc, pt, pv, p2t, p2v, hs, av, itn⟩
  cases pv <;> cases p2v <;> cases input <;>
  simp [peek, parse_abort, yylex, next_tok, force_peek, lexed, lexed_tok, bind, StateT.bind, get,
    getThe, MonadStateOf.get, StateT.get, pure, StateT.pure, Except.pure, Except.bind, set,
    StateT.set, modify, modifyGet, MonadStateOf.modifyGet, StateT.modifyGet] at h ⊢ <;>
  (obtain ⟨rfl, rfl⟩ := h; simp)

theorem peek_ready (s : pstate) (hv : s.peek_valid = true) : peek s = .ok (s.peek_tok, s) := by
  simp [peek, hv, bind, StateT.bind, get, getThe, MonadStateOf.get, StateT.get, pure,
    StateT.pure, Except.pure, Except.bind]

theorem BEGIN_eq {α : Type} (n : String) (body : parse_m α) (s : pstate) :
    BEGIN n body s =
      match body (set_frame (some n) LOC_INVALID s) with
      | .ok (a, s2) => .ok (a, set_frame s.hint_str s.start_loc s2)
      | .error e => .error e :=
  BEGIN_app n body s.hint_str s.start_loc s

theorem BEGIN_ok {α : Type} {n : String} {body : parse_m α} {s s2 : pstate} {a : α}
    (h : BEGIN n body s = .ok (a, s2)) :
    ∃ s1, body (set_frame (some n) LOC_INVALID s) = .ok (a, s1) ∧
      s2 = set_frame s.hint_str s.start_loc s1 := by
  rw [BEGIN_eq] at h
  cases hb : body (set_frame (some n) LOC_INVALID s) with
  | error e => rw [hb] at h; cases h
  | ok p =>
    obtain ⟨a1, s1⟩ := p
    rw [hb] at h
    simp only [Except.ok.injEq, Prod.mk.injEq] at h
    obtain ⟨rfl, rfl⟩ := h
    exact ⟨s1, rfl, rfl⟩

theorem expect_ready (toks : List token_t) (s : pstate) (hv : s.peek_valid = true) :
    expect toks s = .ok ((), { s with
      n_errors := if s.n_correct ≥ RECOVER_THRESH then s.n_errors + 1 else s.n_errors
      n_correct := 0 }) := by
  simp [expect, _vexpect, peek_ready s hv, bind, StateT.bind, Except.bind, modify, modifyGet,
    MonadStateOf.modifyGet, StateT.modifyGet, pure, StateT.pure, Except.pure]

theorem p_context_clause_loop_ready (fuel : Nat) (s s2 : pstate) (hv : s.peek_valid = true)
    (h : p_context_clause_loop fuel s = .ok ((), s2)) :
    s2 = s ∧ s.peek_tok ∉ [token_t.tLIBRARY, .tUSE] := by
  induction fuel with
  | zero => simp [p_context_clause_loop, parse_abort] at h
  | succ k ih =>
    by_cases hm : s.peek_tok ∈ [token_t.tLIBRARY, .tUSE]
    · exfalso
      have hci : p_context_item s = .ok ((), s) := by
        rw [p_context_item, BEGIN_eq]
        have hv2 : (set_frame (some "context item") LOC_INVALID s).peek_valid = true := hv
        simp only [bind, StateT.bind, peek_ready _ hv2, Except.bind]
        have ht : (set_frame (some "context item") LOC_INVALID s).peek_tok = s.peek_tok := rfl
        rw [ht]
        simp at hm
        rcases hm with hm | hm <;> rw [hm] <;> rfl
      simp only [p_context_clause_loop, scan, bind, StateT.bind, peek_ready s hv, Except.bind, pure,
        StateT.pure, Except.pure, hm, decide_True, ite_true, hci] at h
      exact (ih h).2 hm
    · simp only [p_context_clause_loop, scan, bind, StateT.bind, peek_ready s hv, Except.bind, pure,
        StateT.pure, Except.pure, hm, decide_False, ite_false] at h
      simp [StateT.pure, pure, Except.pure] at h
      exact ⟨h.symm, hm⟩

theorem p_context_clause_ready (fuel : Nat) (s s2 : pstate) (hv : s.peek_valid = true)
    (h : p_context_clause fuel s = .ok ((), s2)) :
    s2 = s ∧ s.peek_tok ∉ [token_t.tLIBRARY, .tUSE] := by
  obtain ⟨s1, h1, rfl⟩ := BEGIN_ok h
  obtain ⟨rfl, hm⟩ := p_context_clause_loop_ready fuel (set_frame (some "context clause") LOC_INVALID s) s1 hv h1
  exact ⟨rfl, hm⟩

theorem p_primary_unit_none (fuel : Nat) (s s2 : pstate) (hv : s.peek_valid = true)
    (hc : RECOVER_THRESH ≤ s.n_correct)
    (h : p_primary_unit fuel s = .ok (none, s2)) : 0 < s2.n_errors := by
  obtain ⟨s1, h1, rfl⟩ := BEGIN_ok h
  clear h
  have hv2 : (set_frame (some "primary unit") LOC_INVALID s).peek_valid = true := hv
  simp only [bind, StateT.bind, peek_ready _ hv2, Except.bind] at h1
  generalize hq : (set_frame (some "primary unit") LOC_INVALID s).peek_tok = q at h1
  cases q
  case tENTITY =>
    simp only [StateT.bind, bind, Except.bind] at h1
    cases hE : p_entity_declaration fuel (set_frame (some "primary unit") LOC_INVALID s) with
    | error e => rw [hE] at h1; cases h1
    | ok p => rw [hE] at h1; simp [bind, Except.bind, pure, StateT.pure, Except.pure] at h1
  all_goals
    simp only [StateT.bind, expect_ready _ _ hv2, bind, Except.bind, pure, StateT.pure,
      Except.pure, Except.ok.injEq, Prod.mk.injEq, true_and] at h1
    subst h1
    simp [set_frame, hc]

theorem p_secondary_unit_none (fuel : Nat) (s s2 : pstate) (hv : s.peek_valid = true)
    (hc : RECOVER_THRESH ≤ s.n_correct)
    (h : p_secondary_unit fuel s = .ok (none, s2)) : 0 < s2.n_errors := by
  obtain ⟨s1, h1, rfl⟩ := BEGIN_ok h
  clear h
  have hv2 : (set_frame (some "secondary unit") LOC_INVALID s).peek_valid = true := hv
  simp only [bind, StateT.bind, peek_ready _ hv2, Except.bind] at h1
  generalize hq : (set_frame (some "secondary unit") LOC_INVALID s).peek_tok = q at h1
  cases q
  case tARCHITECTURE =>
    simp only [StateT.bind, bind, Except.bind] at h1
    cases hE : p_architecture_body fuel (set_frame (some "secondary unit") LOC_INVALID s) with
    | error e => rw [hE] at h1; cases h1
    | ok p => rw [hE] at h1; simp [bind, Except.bind, pure, StateT.pure, Except.pure] at h1
  all_goals
    simp only [StateT.bind, expect_ready _ _ hv2, bind, Except.bind, pure, StateT.pure,
      Except.pure, Except.ok.injEq, Prod.mk.injEq, true_and] at h1
    subst h1
    simp [set_frame, hc]

theorem p_library_unit_none (fuel : Nat) (s s2 : pstate) (hv : s.peek_valid = true)
    (hc : RECOVER_THRESH ≤ s.n_correct)
    (h : p_library_unit fuel s = .ok (none, s2)) : 0 < s2.n_errors := by
  obtain ⟨s1, h1, rfl⟩ := BEGIN_ok h
  clear h
  have hv2 : (set_frame (some "library unit") LOC_INVALID s).peek_valid = true := hv
  simp only [bind, StateT.bind, peek_ready _ hv2, Except.bind] at h1
  generalize hq : (set_frame (some "library unit") LOC_INVALID s).peek_tok = q at h1
  cases q
  case tENTITY => exact p_primary_unit_none fuel _ s1 hv2 hc h1
  case tARCHITECTURE => exact p_secondary_unit_none fuel _ s1 hv2 hc h1
  all_goals
    simp only [StateT.bind, expect_ready _ _ hv2, bind, Except.bind, pure, StateT.pure,
      Except.pure, Except.ok.injEq, Prod.mk.injEq, true_and] at h1
    subst h1
    simp [set_frame, hc]

theorem p_design_unit_none (fuel : Nat) (s s2 : pstate) (hv : s.peek_valid = true)
    (hc : RECOVER_THRESH ≤ s.n_correct)
    (h : p_design_unit fuel s = .ok (none, s2)) : 0 < s2.n_errors := by
  obtain ⟨s1, h1, rfl⟩ := BEGIN_ok h
  clear h
  have hv2 : (set_frame (some "design unit") LOC_INVALID s).peek_valid = true := hv
  simp only [bind, StateT.bind, Except.bind] at h1
  cases hC : p_context_clause fuel (set_frame (some "design unit") LOC_INVALID s) with
  | error e => rw [hC] at h1; cases h1
  | ok p =>
    obtain ⟨u, s3⟩ := p
    obtain ⟨rfl, _⟩ := p_context_clause_ready fuel _ s3 hv2 hC
    rw [hC] at h1
    simp only [bind, Except.bind] at h1
    cases hL : p_library_unit fuel (set_frame (some "design unit") LOC_INVALID s) with
    | error e => rw [hL] at h1; cases h1
    | ok p =>
      obtain ⟨r, s4⟩ := p
      rw [hL] at h1
      simp only [pure, StateT.pure, Except.pure, Except.ok.injEq, Prod.mk.injEq] at h1
      obtain ⟨rfl, rfl⟩ := h1
      exact p_library_unit_none fuel _ s4 hv2 hc hL

theorem peek_reset (st : pstate) (hp : st.peek_valid = true ∨ st.peek2_valid = false) :
    peek (parse_reset st) = .ok (next_tok st, force_peek (parse_reset st)) := by
  rcases st with ⟨input, ys, yn, yd, yl, sl, ne, nc, pt, pv, p2t, p2v, hs, av, itn⟩
  cases pv <;> cases p2v <;> cases input <;> simp at hp <;>
  simp [parse_reset, peek, parse_abort, yylex, next_tok, force_peek, lexed, lexed_tok, bind,
    StateT.bind, get, getThe, MonadStateOf.get, StateT.get, pure, StateT.pure, Except.pure,
    Except.bind, set, StateT.set, modify, modifyGet, MonadStateOf.modifyGet, StateT.modifyGet]

theorem force_peek_reset (st : pstate) :
    (force_peek (parse_reset st)).n_errors = 0 ∧
    (force_peek (parse_reset st)).n_correct = RECOVER_THRESH ∧
    (force_peek (parse_reset st)).peek_tok = next_tok st := by
  rcases st with ⟨input, ys, yn, yd, yl, sl, ne, nc, pt, pv, p2t, p2v, hs, av, itn⟩
  cases pv <;> cases input <;>
  simp [parse_reset, next_tok, force_peek, lexed, lexed_tok]

theorem parse_then_errors_eq (fuel : Nat) (st : pstate)
    (hp : st.peek_valid = true ∨ st.peek2_valid = false) :
    parse_then_errors fuel st =
      if next_tok st = .tEOF then .ok ((none, 0), force_peek (parse_reset st))
      else match p_design_unit fuel (force_peek (parse_reset st)) with
        | .error e => .error e
        | .ok (u, s2) =>
          if 0 < s2.n_errors then .ok ((none, s2.n_errors), s2)
          else .ok ((u, s2.n_errors), s2) := by
  simp only [parse_then_errors, parse, parse_errors, bind, StateT.bind, modify, modifyGet,
    MonadStateOf.modifyGet, StateT.modifyGet, pure, StateT.pure, Except.pure, Except.bind,
    get, getThe, MonadStateOf.get, StateT.get]
  have hrs : ({ st with n_errors := 0, n_correct := RECOVER_THRESH, assert_viol := none } : pstate)
      = parse_reset st := rfl
  rw [hrs, peek_reset st hp]
  simp only []
  by_cases he : next_tok st = .tEOF
  · simp [he, (force_peek_reset st).1, StateT.pure, StateT.bind, StateT.get, pure, Except.pure,
      bind, Except.bind]
  · simp only [he, if_false]
    cases hD : p_design_unit fuel (force_peek (parse_reset st)) with
    | error e =>
      simp [hD, StateT.pure, StateT.bind, StateT.get, pure, Except.pure, bind, Except.bind]
    | ok p =>
      obtain ⟨u, s2⟩ := p
      by_cases hn : 0 < s2.n_errors
      · simp [hD, hn, StateT.pure, StateT.bind, StateT.get, pure, Except.pure, bind, Except.bind]
      · simp [hD, hn, StateT.pure, StateT.bind, StateT.get, pure, Except.pure, bind, Except.bind]

theorem p_design_unit_junk (fuel : Nat) (s : pstate) (hv : s.peek_valid = true)
    (hc : RECOVER_THRESH ≤ s.n_correct)
    (hj : s.peek_tok ∉ [token_t.tLIBRARY, .tUSE, .tENTITY, .tARCHITECTURE]) :
    p_design_unit (fuel + 1) s
      = .ok (none, { s with n_errors := s.n_errors + 1, n_correct := 0 }) := by
  rcases s with ⟨input, ys, yn, yd, yl, sl, ne, nc, pt, pv, p2t, p2v, hs, av, itn⟩
  simp only at hv hc hj
  subst hv
  cases pt <;> simp at hj <;>
  simp [p_design_unit, p_context_clause, p_context_clause_loop, scan, peek, p_library_unit, expect,
    _vexpect, BEGIN, EXTEND, hc, bind, StateT.bind, get, getThe, MonadStateOf.get, StateT.get,
    pure, StateT.pure, Except.pure, Except.bind, set, StateT.set, modify, modifyGet,
    MonadStateOf.modifyGet, StateT.modifyGet]

theorem ex_entity_parses :
    ∃ s2, parse_then_errors 3 (pstate_init ex_entity_tokens) = .ok ((some ex_entity, 0), s2) := by
  simp +decide [parse_then_errors, parse_errors, parse, pstate_init, ex_entity_tokens, ex_lx,
    ex_lx_id, ex_tok_loc, p_design_unit,
    p_context_clause, p_context_clause_loop, p_library_unit, p_primary_unit, p_entity_declaration,
    p_entity_header, p_entity_declarative_part, p_entity_declarative_part_loop, p_identifier,
    ident_new, yylval_read_s, yylval_free_s, optional, consume, peek, yylex, scan, BEGIN, EXTEND,
    CURRENT_LOC, _diff_loc, tree_set_loc, RECOVER_THRESH, LOC_INVALID, ex_entity,
    StateT.run, bind, StateT.bind, get,
    getThe, MonadStateOf.get, StateT.get, pure, StateT.pure, Except.pure, Except.bind, set,
    StateT.set, modify, modifyGet, MonadStateOf.modifyGet, StateT.modifyGet, Except.map]

/-! ### Built-in folding: division, comparisons, logical operators, unfolded calls -/

theorem tdiv_in_range (a b : Int) (ha : INT64_MIN ≤ a ∧ a ≤ INT64_MAX)
    (hb0 : b ≠ 0) (hov : ¬ (a = INT64_MIN ∧ b = -1)) :
    INT64_MIN ≤ Int.tdiv a b ∧ Int.tdiv a b ≤ INT64_MAX := by
  have hq : (Int.tdiv a b).natAbs = a.natAbs / b.natAbs := Int.natAbs_tdiv a b
  unfold INT64_MIN INT64_MAX at *
  by_cases h1 : b = 1
  · subst h1; simp [Int.tdiv_one]; omega
  by_cases h2 : b = -1
  · subst h2
    have : Int.tdiv a (-1) = -a := by rw [Int.tdiv_neg, Int.tdiv_one]
    rw [this]; omega
  have hb2 : 2 ≤ b.natAbs := by omega
  have hle : a.natAbs / b.natAbs ≤ a.natAbs / 2 :=
    Nat.div_le_div_left hb2 (by decide)
  omega

/-- C11 (amended): for all signed 64-bit integers a and b with b != 0, the
overflowing pair a = -2^63, b = -1 apart, folding div on the literals a and b
yields the integer literal of the quotient truncated toward zero: its
absolute value is |a| / |b| rounded down and its sign is that of a * b. -/
theorem fold_div_truncates (loc : loc_t) (id : Option ident_t)
    (ty : Option type_t) (dloc : loc_t) (did : ident_t) (dty : Option type_t)
    (dports : List tree_t) (dattrs : attrs_t) (l1 l2 : loc_t)
    (t1 t2 : Option type_t) (a b : Int)
    (hbn : tree_attr_str (.T_FUNC_DECL dloc did dty dports dattrs) builtin_i
      = some "div")
    (ha : INT64_MIN ≤ a ∧ a ≤ INT64_MAX)
    (_hb : INT64_MIN ≤ b ∧ b ≤ INT64_MAX) (hb0 : b ≠ 0)
    (hov : ¬ (a = INT64_MIN ∧ b = -1)) (k : Nat) :
    eval (k + 2)
        (.T_FCALL loc id (some (.T_FUNC_DECL dloc did dty dports dattrs)) ty
          [.mk .P_POS (.T_LITERAL l1 t1 (some (.L_INT a))),
           .mk .P_POS (.T_LITERAL l2 t2 (some (.L_INT b)))])
      = .ok (.T_LITERAL loc ty (some (.L_INT (Int.tdiv a b)))) ∧
    (Int.tdiv a b).natAbs = a.natAbs / b.natAbs ∧
    (0 ≤ a → 0 ≤ b → 0 ≤ Int.tdiv a b) ∧ (0 ≤ a → b ≤ 0 → Int.tdiv a b ≤ 0) ∧
    (a ≤ 0 → 0 ≤ b → Int.tdiv a b ≤ 0) ∧ (a ≤ 0 → b ≤ 0 → 0 ≤ Int.tdiv a b) := by
  obtain ⟨h1, h2⟩ := tdiv_in_range a b ha hb0 hov
  refine ⟨?_, Int.natAbs_tdiv a b, fun h3 h4 => Int.tdiv_nonneg h3 h4,
    fun h3 h4 => Int.tdiv_nonpos h3 h4, fun h3 h4 => ?_, fun h3 h4 => ?_⟩
  · simp [eval, tree_kind, eval_fcall, tree_ref, hbn, MAX_BUILTIN_ARGS,
      tree_params, fold_args, eval_expr, fold_arg, folded_int, tree_literal,
      folded_bool, folded_agg, folded_real, simp_fcall_int, icmp, larg_i,
      get_int_lit, get_fdecl, tree_loc, tree_type, bind, Except.bind, pure,
      Except.pure, hb0, hov, wrap64_id _ h1 h2]
  · have h5 : 0 ≤ (-a).tdiv b := Int.tdiv_nonneg (by omega) h4
    rw [Int.neg_tdiv] at h5
    omega
  · have h5 : (-a).tdiv b ≤ 0 := Int.tdiv_nonpos (by omega) h4
    rw [Int.neg_tdiv] at h5
    omega

/-- C11 (amended) at div(-7, 2) and div(7, -2): both fold to -3. -/
theorem fold_div_truncates_witness :
    eval 2 (ex_call "div" ex_integer [ex_int (-7), ex_int 2]) = .ok (ex_int (-3)) ∧
    eval 2 (ex_call "div" ex_integer [ex_int 7, ex_int (-2)]) = .ok (ex_int (-3)) :=
  ⟨(fold_div_truncates ex_loc (some "div") (some ex_integer) ex_loc "div"
      (some (.mk .T_OTHER none (some ex_integer) [] none none)) []
      [(builtin_i, .A_STRING "div")] ex_loc ex_loc (some ex_integer) (some ex_integer)
      (-7) 2 rfl (by decide) (by decide) (by decide) (by decide) 0).1,
   (fold_div_truncates ex_loc (some "div") (some ex_integer) ex_loc "div"
      (some (.mk .T_OTHER none (some ex_integer) [] none none)) []
      [(builtin_i, .A_STRING "div")] ex_loc ex_loc (some ex_integer) (some ex_integer)
      7 (-2) rfl (by decide) (by decide) (by decide) (by decide) 0).1⟩

/-- C11 as stated fails at the overflowing pair: the division of -2^63 by -1
does not wrap, it is undefined in C and eval returns nothing. -/
theorem fold_div_overflow :
    (∀ k, eval (k + 2) ex_div_min
      = .error (.undefined_behaviour "overflow of the division")) ∧
    ∀ fuel r, eval fuel ex_div_min ≠ .ok r := by
  have h : ∀ k, eval (k + 2) ex_div_min
      = .error (.undefined_behaviour "overflow of the division") := fun k => rfl
  refine ⟨h, fun fuel r hr => ?_⟩
  match fuel with
  | 0 => cases hr
  | 1 => cases hr
  | k + 2 => rw [h k] at hr; cases hr

theorem get_bool_lit_ok (loc : loc_t) (id : Option ident_t)
    (ty : Option type_t) (dloc : loc_t) (did : ident_t) (dk : type_kind_t)
    (di : Option ident_t) (B : type_t) (de : List tree_t) (db : Option type_t)
    (dr : Option tree_t) (dports : List tree_t) (dattrs : attrs_t)
    (l0 l1 : tree_t) (ps : List param_t)
    (hB : type_ident B = some std_bool_i)
    (hE : type_enum_literals B = [l0, l1]) (v : Bool) :
    get_bool_lit
        (.T_FCALL loc id
          (some (.T_FUNC_DECL dloc did (some (.mk dk di (some B) de db dr))
            dports dattrs)) ty ps) v
      = .ok (bool_ref loc B (if v then l1 else l0)) := by
  cases v <;>
  simp [get_bool_lit, get_fdecl, tree_ref, tree_kind, tree_type, type_result, hB, hE,
    bool_ref, tree_loc, bind, Except.bind, pure, Except.pure, Option.bind]

/-- C12: for all signed 64-bit integers a and b and a callee whose result
type B is STD.STANDARD.BOOLEAN with the two enumeration literals l0 and l1,
folding eq, neq, gt, lt, leq, geq on the integer literals a and b yields a
reference to l1 (ordinal 1) when the signed comparison holds and to l0
(ordinal 0) otherwise. -/
theorem fold_int_compare (op : cmp_op) (loc : loc_t) (id : Option ident_t)
    (ty : Option type_t) (dloc : loc_t) (did : ident_t) (dk : type_kind_t)
    (di : Option ident_t) (B : type_t) (de : List tree_t) (db : Option type_t)
    (dr : Option tree_t) (dports : List tree_t) (dattrs : attrs_t)
    (l0 l1 : tree_t) (p1 p2 : loc_t) (t1 t2 : Option type_t) (a b : Int)
    (hbn : tree_attr_str
      (.T_FUNC_DECL dloc did (some (.mk dk di (some B) de db dr)) dports dattrs)
      builtin_i = some op.name)
    (hB : type_ident B = some std_bool_i)
    (hE : type_enum_literals B = [l0, l1])
    (_ha : INT64_MIN ≤ a ∧ a ≤ INT64_MAX)
    (_hb : INT64_MIN ≤ b ∧ b ≤ INT64_MAX) (k : Nat) :
    eval (k + 2)
        (.T_FCALL loc id
          (some (.T_FUNC_DECL dloc did (some (.mk dk di (some B) de db dr))
            dports dattrs)) ty
          [.mk .P_POS (.T_LITERAL p1 t1 (some (.L_INT a))),
           .mk .P_POS (.T_LITERAL p2 t2 (some (.L_INT b)))])
      = .ok (bool_ref loc B (if op.holds a b then l1 else l0)) := by
  have hg := get_bool_lit_ok loc id ty dloc did dk di B de db dr dports dattrs l0 l1
    [.mk .P_POS (.T_LITERAL p1 t1 (some (.L_INT a))),
     .mk .P_POS (.T_LITERAL p2 t2 (some (.L_INT b)))] hB hE
  cases op <;>
  simp only [cmp_op.name] at hbn <;>
  simp [eval, tree_kind, eval_fcall, tree_ref, hbn, MAX_BUILTIN_ARGS,
      tree_params, fold_args, eval_expr, fold_arg, folded_int, tree_literal,
      folded_bool, folded_agg, folded_real, simp_fcall_int, icmp, larg_i,
      hg, cmp_op.holds, bind, Except.bind, pure, Except.pure]

/-- C12 at lt(1, 2), which folds to a reference to TRUE, and at eq(1, 2),
which folds to a reference to FALSE. -/
theorem fold_int_compare_witness :
    eval 2 (ex_call "lt" ex_boolean [ex_int 1, ex_int 2]) = .ok ex_true_ref ∧
    eval 2 (ex_call "eq" ex_boolean [ex_int 1, ex_int 2]) = .ok ex_false_ref :=
  ⟨fold_int_compare .lt ex_loc (some "lt") (some ex_boolean) ex_loc "lt" .T_OTHER none
      ex_boolean [] none none [] [(builtin_i, .A_STRING "lt")] ex_false ex_true ex_loc
      ex_loc (some ex_integer) (some ex_integer) 1 2 rfl rfl rfl (by decide) (by decide) 0,
   fold_int_compare .eq ex_loc (some "eq") (some ex_boolean) ex_loc "eq" .T_OTHER none
      ex_boolean [] none none [] [(builtin_i, .A_STRING "eq")] ex_false ex_true ex_loc
      ex_loc (some ex_integer) (some ex_integer) 1 2 rfl rfl rfl (by decide) (by decide) 0⟩

/-- C13: for all booleans a and b and a call t whose callee has the result
type B, STD.STANDARD.BOOLEAN with the enumeration literals l0 (position 0)
and l1 (position 1), simp_fcall_log returns for not, and, nand, or, nor, xor,
xnor the reference to l1 when !a, a && b, !(a && b), a || b, !(a || b),
a != b, a == b respectively is true and to l0 otherwise, and folded_bool
reads exactly that truth value back; for every other built-in name it returns
the call t. -/
theorem simp_fcall_log_table (loc : loc_t) (id : Option ident_t)
    (ty : Option type_t) (dloc : loc_t) (did : ident_t) (dk : type_kind_t)
    (di : Option ident_t) (B : type_t) (de : List tree_t) (db : Option type_t)
    (dr : Option tree_t) (dports : List tree_t) (dattrs : attrs_t)
    (ps : List param_t) (c0 c1 : loc_t) (i0 i1 : ident_t) (y0 y1 : type_t)
    (hB : type_ident B = some std_bool_i)
    (hE : type_enum_literals B
      = [.T_ENUM_LIT c0 i0 (some y0) 0, .T_ENUM_LIT c1 i1 (some y1) 1])
    (h0 : type_ident y0 = some std_bool_i) (h1 : type_ident y1 = some std_bool_i) :
    (∀ (op : log_op) (a b : Bool),
      simp_fcall_log
          (.T_FCALL loc id
            (some (.T_FUNC_DECL dloc did (some (.mk dk di (some B) de db dr))
              dports dattrs)) ty ps) op.name [some a, some b]
        = .ok (bool_ref loc B
            (if op.apply a b then .T_ENUM_LIT c1 i1 (some y1) 1
             else .T_ENUM_LIT c0 i0 (some y0) 0)) ∧
      folded_bool (bool_ref loc B
            (if op.apply a b then .T_ENUM_LIT c1 i1 (some y1) 1
             else .T_ENUM_LIT c0 i0 (some y0) 0))
        = .ok (some (op.apply a b))) ∧
    (∀ (bn : ident_t) (args : List (Option Bool)),
      bn ∉ ["not", "and", "nand", "or", "nor", "xor", "xnor"] →
      simp_fcall_log
          (.T_FCALL loc id
            (some (.T_FUNC_DECL dloc did (some (.mk dk di (some B) de db dr))
              dports dattrs)) ty ps) bn args
        = .ok (.T_FCALL loc id
            (some (.T_FUNC_DECL dloc did (some (.mk dk di (some B) de db dr))
              dports dattrs)) ty ps)) := by
  have hg := get_bool_lit_ok loc id ty dloc did dk di B de db dr dports dattrs
    (.T_ENUM_LIT c0 i0 (some y0) 0) (.T_ENUM_LIT c1 i1 (some y1) 1) ps hB hE
  refine ⟨fun op a b => ⟨?_, ?_⟩, fun bn args hn => ?_⟩
  · cases op <;> cases a <;> cases b <;>
    simp [simp_fcall_log, log_op.name, log_op.apply, icmp, barg, hg, bind, Except.bind]
  · cases hv : op.apply a b <;>
    simp [folded_bool, bool_ref, tree_kind, tree_ref, tree_type, tree_pos, h0, h1]
  · simp only [List.mem_cons, List.mem_singleton, not_or, List.not_mem_nil, not_false_eq_true,
      and_true] at hn
    obtain ⟨n1, n2, n3, n4, n5, n6, n7⟩ := hn
    simp [simp_fcall_log, icmp, n1, n2, n3, n4, n5, n6, n7, pure, Except.pure]

/-- C13 at or(false, true) with the type BOOLEAN of STD.STANDARD: the result
is the reference to TRUE, which folded_bool reads as true. -/
theorem simp_fcall_log_table_witness :
    simp_fcall_log (ex_call "or" ex_boolean [ex_false_ref, ex_true_ref]) "or"
        [some false, some true] = .ok ex_true_ref ∧
    folded_bool ex_true_ref = .ok (some true) :=
  ((simp_fcall_log_table ex_loc (some "or") (some ex_boolean) ex_loc "or" .T_OTHER none
    ex_boolean [] none none [] [(builtin_i, .A_STRING "or")]
    [.mk .P_POS ex_false_ref, .mk .P_POS ex_true_ref] ex_loc ex_loc "FALSE" "TRUE"
    ex_bool_name ex_bool_name rfl rfl rfl rfl).1 .or false true)

/-- C14: for every built-in name and every two-argument call of a callee
marked with it in which one argument is an integer literal and the other a
real literal, in either order, eval returns the call node itself. -/
theorem eval_mixed_unfolded (loc : loc_t) (id : Option ident_t) (ty : Option type_t)
    (decl : tree_t) (bn : ident_t) (p1 p2 : loc_t) (t1 t2 : Option type_t)
    (n : Int) (r : Float)
    (hk : tree_kind decl = .T_FUNC_DECL ∨ tree_kind decl = .T_FUNC_BODY)
    (hbn : tree_attr_str decl builtin_i = some bn) (k : Nat) :
    eval (k + 2)
        (.T_FCALL loc id (some decl) ty
          [.mk .P_POS (.T_LITERAL p1 t1 (some (.L_INT n))),
           .mk .P_POS (.T_LITERAL p2 t2 (some (.L_REAL r)))])
      = .ok (.T_FCALL loc id (some decl) ty
          [.mk .P_POS (.T_LITERAL p1 t1 (some (.L_INT n))),
           .mk .P_POS (.T_LITERAL p2 t2 (some (.L_REAL r)))]) ∧
    eval (k + 2)
        (.T_FCALL loc id (some decl) ty
          [.mk .P_POS (.T_LITERAL p2 t2 (some (.L_REAL r))),
           .mk .P_POS (.T_LITERAL p1 t1 (some (.L_INT n)))])
      = .ok (.T_FCALL loc id (some decl) ty
          [.mk .P_POS (.T_LITERAL p2 t2 (some (.L_REAL r))),
           .mk .P_POS (.T_LITERAL p1 t1 (some (.L_INT n)))]) := by
  cases decl <;> simp [tree_kind] at hk <;>
  (constructor <;>
    simp [eval, tree_kind, eval_fcall, tree_ref, hbn, MAX_BUILTIN_ARGS,
      tree_params, fold_args, eval_expr, fold_arg, folded_int, tree_literal,
      folded_bool, folded_agg, folded_real, bind, Except.bind, pure,
      Except.pure])

/-- C14 at add(1, 2.5) and add(2.5, 1). -/
theorem eval_mixed_unfolded_witness :
    eval 2 (ex_call "add" ex_integer [ex_int 1, ex_real 2.5])
      = .ok (ex_call "add" ex_integer [ex_int 1, ex_real 2.5]) ∧
    eval 2 (ex_call "add" ex_integer [ex_real 2.5, ex_int 1])
      = .ok (ex_call "add" ex_integer [ex_real 2.5, ex_int 1]) :=
  eval_mixed_unfolded ex_loc (some "add") (some ex_integer) (ex_builtin "add" ex_integer)
    "add" ex_loc ex_loc (some ex_integer) (some ex_real_ty) 1 2.5 (Or.inl rfl) rfl 0

theorem vtframe_set_length (f f2 : vtframe_t) (name : vtkey_t) (value : tree_t)
    (h : vtframe_set f name value = some f2) : f2.length = f.length := by
  induction f generalizing f2 with
  | nil => simp [vtframe_set] at h
  | cons b bs ih =>
    unfold vtframe_set at h
    split at h
    · cases h; rfl
    · cases hs : vtframe_set bs name value with
      | none => simp [hs] at h
      | some bs2 =>
        simp [hs] at h
        subst h
        simp [ih bs2 hs]

theorem bind_ports_stops (t : tree_t) (ports : List tree_t) :
    ∀ (i j : Nat) (f : vtframe_t) (down : vtable_t) (kind : param_kind_t) (value : tree_t),
      (∀ p ∈ ports, tree_kind p = .T_PORT_DECL) →
      j < ports.length → f.length + j ≤ VTABLE_SZ →
      (tree_params t).get? (i + j) = some (.mk kind value) →
      tree_kind value ≠ .T_LITERAL →
      bind_ports ports i t (f :: down) = .ok none := by
  induction ports with
  | nil => intro i j f down kind value _ hj; simp at hj
  | cons port rest ih =>
    intro i j f down kind value hp hj hf hg hn
    have hlt : i < (tree_params t).length := by
      have := List.get?_eq_some.1 hg
      obtain ⟨h, _⟩ := this
      omega
    obtain ⟨p0, hp0⟩ : ∃ p0, (tree_params t).get? i = some p0 :=
      ⟨_, List.get?_eq_get hlt⟩
    obtain ⟨k0, v0⟩ := p0
    by_cases hl : tree_kind v0 = .T_LITERAL
    · have hj0 : j ≠ 0 := by
        rintro rfl
        rw [Nat.add_zero, hp0] at hg
        cases hg
        exact hn hl
      obtain ⟨j2, rfl⟩ : ∃ j2, j = j2 + 1 := ⟨j - 1, by omega⟩
      have hport : tree_kind port = .T_PORT_DECL := hp port (List.mem_cons_self _ _)
      obtain ⟨pid, hpid⟩ : ∃ pid, tree_ident port = some pid := by
        cases port <;> simp [tree_kind] at hport
        exact ⟨_, rfl⟩
      have hrest : ∀ p ∈ rest, tree_kind p = .T_PORT_DECL :=
        fun p hm => hp p (List.mem_cons_of_mem _ hm)
      have hg2 : (tree_params t).get? (i + 1 + j2) = some (.mk kind value) := by
        rw [← hg]; congr 1; omega
      simp only [bind_ports, hp0, hl, ne_eq, not_true_eq_false, if_false, tree_ident_key, hpid,
        vtable_bind, bind, Except.bind]
      cases hs : vtframe_set f (some pid) v0 with
      | some f2 =>
        have := vtframe_set_length f f2 _ _ hs
        simp only []
        exact ih (i + 1) j2 f2 down kind value hrest (by simpa using hj) (by omega) hg2 hn
      | none =>
        have hlen : f.length < VTABLE_SZ := by omega
        simp only [hlen, if_true]
        exact ih (i + 1) j2 _ down kind value hrest (by simpa using hj)
          (by simp; omega) hg2 hn
    · simp only [bind_ports, hp0, ne_eq, hl, not_false_eq_true, if_true]

/-- C15 (amended): for a call whose callee has no builtin attribute: if the
callee is a function declaration without a body, eval returns the same call
node; if the callee is a function body whose ports are port declarations and
the argument of one of its ports, at an index of at most VTABLE_SZ = 16, is
not itself a literal node, eval returns the same call node, whatever the
declarations and statements of the body are and with fuel for no statement
(none of them is executed). -/
theorem eval_user_call_unfolded (loc : loc_t) (id : Option ident_t)
    (ty : Option type_t) (params : List param_t) (dloc : loc_t) (did : ident_t)
    (dty : Option type_t) (dports ddecls dstmts : List tree_t) (dattrs : attrs_t)
    (k : Nat) :
    (tree_attr_str (.T_FUNC_DECL dloc did dty dports dattrs) builtin_i = none →
      eval (k + 1)
          (.T_FCALL loc id (some (.T_FUNC_DECL dloc did dty dports dattrs)) ty params)
        = .ok (.T_FCALL loc id (some (.T_FUNC_DECL dloc did dty dports dattrs)) ty
            params)) ∧
    (tree_attr_str (.T_FUNC_BODY dloc did dty dports ddecls dstmts dattrs) builtin_i
        = none →
      (∀ p ∈ dports, tree_kind p = .T_PORT_DECL) →
      ∀ (j : Nat) (kind : param_kind_t) (value : tree_t),
        j < dports.length → j ≤ VTABLE_SZ →
        params.get? j = some (.mk kind value) → tree_kind value ≠ .T_LITERAL →
        eval (k + 1)
            (.T_FCALL loc id
              (some (.T_FUNC_BODY dloc did dty dports ddecls dstmts dattrs)) ty params)
          = .ok (.T_FCALL loc id
              (some (.T_FUNC_BODY dloc did dty dports ddecls dstmts dattrs)) ty
              params)) := by
  refine ⟨fun hb => ?_, fun hb hp j kind value hj hv hg hn => ?_⟩
  · simp [eval, tree_kind, eval_fcall, tree_ref, hb, bind, Except.bind, pure, Except.pure]
  · have hs := bind_ports_stops
      (.T_FCALL loc id (some (.T_FUNC_BODY dloc did dty dports ddecls dstmts dattrs)) ty
        params) dports 0 j [] [] kind value hp hj (by simpa using hv)
      (by simpa [tree_params] using hg) hn
    simp [eval, tree_kind, eval_fcall, tree_ref, hb, tree_ports, vtable_push, hs,
      vtable_pop, bind, Except.bind, pure, Except.pure]

/-- The function body f with the builtin attribute absent, called with an
aggregate: the call is returned with fuel for no statement. -/
theorem eval_user_call_unfolded_witness :
    eval 1 (.T_FCALL ex_loc (some "g") (some (.T_FUNC_DECL ex_loc "g" none [] [])) none [])
      = .ok (.T_FCALL ex_loc (some "g") (some (.T_FUNC_DECL ex_loc "g" none [] [])) none [])
      ∧
    eval 1 (f_call ex_agg) = .ok (f_call ex_agg) :=
  ⟨(eval_user_call_unfolded ex_loc (some "g") none [] ex_loc "g" none [] [] [] [] 0).1 rfl,
   (eval_user_call_unfolded ex_loc (some "f") (some ex_integer) [.mk .P_POS ex_agg] ex_loc
      "f" (some (.mk .T_OTHER none (some ex_integer) [] none none)) [f_port_x] [f_var_y]
      [f_while, f_return] [] 0).2 rfl (by decide) 0 .P_POS ex_agg (by decide) (by decide)
      rfl (by decide)⟩

theorem ex_f18_call_fails (k : Nat) :
    eval (k + 1) ex_f18_call = .error (.assert_failed "f->size < VTABLE_SZ") :=
  rfl

/-- C15 as stated fails for a function of 18 ports called with seventeen
literals and an aggregate: binding the seventeenth literal fails the assertion
on the size of the frame, so the call is not returned; the fuel plays no
part. -/
theorem eval_user_call_frame_overflow :
    tree_attr_str ex_f18 builtin_i = none ∧
    eval 1 ex_f18_call = .error (.assert_failed "f->size < VTABLE_SZ") ∧
    eval 1000 ex_f18_call = .error (.assert_failed "f->size < VTABLE_SZ") ∧
    eval 1000 ex_f18_call ≠ .ok ex_f18_call :=
  ⟨rfl, ex_f18_call_fails 0, ex_f18_call_fails 999,
    by rw [ex_f18_call_fails 999]; exact fun h => nomatch h⟩

/-! ### Chains of operators of one level -/

theorem mul_op_of_mem (tok : token_t) (id : ident_t) (h : (tok, id) ∈ level.ops .multiplying) :
    ∃ M : mul_op, tok = M.token ∧ id = M.ident := by
  simp only [level.ops, List.mem_cons, Prod.mk.injEq, List.mem_singleton, List.not_mem_nil,
    or_false] at h
  rcases h with ⟨rfl, rfl⟩ | ⟨rfl, rfl⟩ | ⟨rfl, rfl⟩ | ⟨rfl, rfl⟩
  · exact ⟨.times, rfl, rfl⟩
  · exact ⟨.over, rfl, rfl⟩
  · exact ⟨.mod, rfl, rfl⟩
  · exact ⟨.rem, rfl, rfl⟩

theorem p_term_loop_chain (links : List link) :
    ∀ (l : loc_t) (s : pstate) (t : tree_t), chain_ok .multiplying s links →
      ∃ N, ∀ f, N ≤ f → ∀ h,
        p_term_loop f t (set_frame h l s)
          = .ok (chain_tree l s t links, set_frame h (chain_loc l s links) (chain_end s links)) := by
  induction links with
  | nil =>
    intro l s t hc
    refine ⟨1, fun f hf h => ?_⟩
    obtain ⟨k, rfl⟩ := Nat.exists_eq_add_of_le hf
    rw [Nat.add_comm]
    exact p_term_loop_stop k t h l s hc.1 hc.2
  | cons k rest ih =>
    intro l s t hc
    obtain ⟨h2, hmem, ⟨N1, hN1⟩, hrest⟩ := hc
    obtain ⟨M, hM1, hM2⟩ := mul_op_of_mem _ _ hmem
    obtain ⟨N2, hN2⟩ := ih (start_after l s) k.state
      (binop (_diff_loc (start_after l s) k.state.yylloc) k.id t k.operand) hrest
    refine ⟨N1 + N2 + 1, fun f hf h => ?_⟩
    obtain ⟨j, rfl⟩ := Nat.exists_eq_add_of_le hf
    have e : N1 + N2 + 1 + j = (N1 + N2 + j) + 1 := by omega
    rw [e]
    have hm : next_tok s ∈ [token_t.tTIMES, .tOVER, .tMOD, .tREM] := by
      rw [hM1]; cases M <;> simp [mul_op.token]
    have h2f : (force_peek s).peek2_valid = false := by rw [force_peek_peek2, h2]
    have hop := p_multiplying_operator_app M h l (force_peek s) h2f
      (by rw [next_tok_force_peek]; exact hM1)
    have hao : after_op M.ident (force_peek s) = after_op M.ident s := by
      simp [after_op, advance_force_peek]
    rw [start_after_force_peek, hao, ← hM2] at hop
    have hy := hN1 (N1 + N2 + j) (by omega) h (start_after l s)
    simp only [level.operand] at hy
    rw [p_term_loop]
    simp only [bind, StateT.bind, scan_app _ h l s h2, hm, decide_True, Except.bind, ite_true, hop,
      hy, CURRENT_LOC_app]
    exact hN2 (N1 + N2 + j) (by omega) h

theorem p_term_chain (s0 s1 : pstate) (x1 : tree_t) (links : List link)
    (hx : parses p_factor s0 x1 s1) (hc : chain_ok .multiplying s1 links) :
    parses p_term s0 (chain_tree LOC_INVALID s1 x1 links) (chain_end s1 links) := by
  obtain ⟨N, hN⟩ := hx
  obtain ⟨N2, hN2⟩ := p_term_loop_chain links LOC_INVALID s1 x1 hc
  refine ⟨N + N2 + 1, fun f hf h l => ?_⟩
  obtain ⟨k, rfl⟩ := Nat.exists_eq_add_of_le hf
  have e : N + N2 + 1 + k = (N + N2 + k) + 1 := by omega
  rw [e]
  simp only [p_term, BEGIN_app, bind, StateT.bind, hN (N + N2 + k) (by omega), Except.bind,
    hN2 (N + N2 + k) (by omega)]
  rfl

theorem add_op_of_mem (tok : token_t) (id : ident_t) (h : (tok, id) ∈ level.ops .adding) :
    ∃ M : add_op, tok = M.token ∧ id = M.ident := by
  simp only [level.ops, List.mem_cons, Prod.mk.injEq, List.mem_singleton, List.not_mem_nil,
    or_false] at h
  rcases h with ⟨rfl, rfl⟩ | ⟨rfl, rfl⟩ | ⟨rfl, rfl⟩
  · exact ⟨.plus, rfl, rfl⟩
  · exact ⟨.minus, rfl, rfl⟩
  · exact ⟨.amp, rfl, rfl⟩

theorem p_simple_expression_loop_chain (links : List link) :
    ∀ (l : loc_t) (s : pstate) (t : tree_t), chain_ok .adding s links →
      ∃ N, ∀ f, N ≤ f → ∀ h,
        p_simple_expression_loop f t (set_frame h l s)
          = .ok (chain_tree l s t links, set_frame h (chain_loc l s links) (chain_end s links)) := by
  induction links with
  | nil =>
    intro l s t hc
    refine ⟨1, fun f hf h => ?_⟩
    obtain ⟨k, rfl⟩ := Nat.exists_eq_add_of_le hf
    rw [Nat.add_comm]
    exact p_simple_expression_loop_stop k t h l s hc.1 hc.2
  | cons k rest ih =>
    intro l s t hc
    obtain ⟨h2, hmem, ⟨N1, hN1⟩, hrest⟩ := hc
    obtain ⟨M, hM1, hM2⟩ := add_op_of_mem _ _ hmem
    obtain ⟨N2, hN2⟩ := ih (start_after l s) k.state
      (binop (_diff_loc (start_after l s) k.state.yylloc) k.id t k.operand) hrest
    refine ⟨N1 + N2 + 1, fun f hf h => ?_⟩
    obtain ⟨j, rfl⟩ := Nat.exists_eq_add_of_le hf
    have e : N1 + N2 + 1 + j = (N1 + N2 + j) + 1 := by omega
    rw [e]
    have hm : next_tok s ∈ [token_t.tPLUS, .tMINUS, .tAMP] := by
      rw [hM1]; cases M <;> simp [add_op.token]
    have h2f : (force_peek s).peek2_valid = false := by rw [force_peek_peek2, h2]
    have hop := p_adding_operator_app M h l (force_peek s) h2f
      (by rw [next_tok_force_peek]; exact hM1)
    have hao : after_op M.ident (force_peek s) = after_op M.ident s := by
      simp [after_op, advance_force_peek]
    rw [start_after_force_peek, hao, ← hM2] at hop
    have hy := hN1 (N1 + N2 + j) (by omega) h (start_after l s)
    simp only [level.operand] at hy
    rw [p_simple_expression_loop]
    simp only [bind, StateT.bind, scan_app _ h l s h2, hm, decide_True, Except.bind, ite_true, hop,
      hy, CURRENT_LOC_app]
    exact hN2 (N1 + N2 + j) (by omega) h

theorem p_simple_expression_chain (s0 s1 : pstate) (x1 : tree_t) (links : List link)
    (hx : parses p_term s0 x1 s1) (hc : chain_ok .adding s1 links) :
    parses p_simple_expression s0 (chain_tree LOC_INVALID s1 x1 links) (chain_end s1 links) := by
  obtain ⟨N, hN⟩ := hx
  obtain ⟨N2, hN2⟩ := p_simple_expression_loop_chain links LOC_INVALID s1 x1 hc
  refine ⟨N + N2 + 1, fun f hf h l => ?_⟩
  obtain ⟨k, rfl⟩ := Nat.exists_eq_add_of_le hf
  have e : N + N2 + 1 + k = (N + N2 + k) + 1 := by omega
  rw [e]
  simp only [p_simple_expression, BEGIN_app, bind, StateT.bind, hN (N + N2 + k) (by omega), Except.bind,
    hN2 (N + N2 + k) (by omega)]
  rfl

theorem rel_op_of_mem (tok : token_t) (id : ident_t) (h : (tok, id) ∈ level.ops .relational) :
    ∃ M : rel_op, tok = M.token ∧ id = M.ident := by
  simp only [level.ops, List.mem_cons, Prod.mk.injEq, List.mem_singleton, List.not_mem_nil,
    or_false] at h
  rcases h with ⟨rfl, rfl⟩ | ⟨rfl, rfl⟩ | ⟨rfl, rfl⟩ | ⟨rfl, rfl⟩ | ⟨rfl, rfl⟩ | ⟨rfl, rfl⟩
  · exact ⟨.eq, rfl, rfl⟩
  · exact ⟨.neq, rfl, rfl⟩
  · exact ⟨.lt, rfl, rfl⟩
  · exact ⟨.le, rfl, rfl⟩
  · exact ⟨.gt, rfl, rfl⟩
  · exact ⟨.ge, rfl, rfl⟩

theorem p_relation_loop_chain (links : List link) :
    ∀ (l : loc_t) (s : pstate) (t : tree_t), chain_ok .relational s links →
      ∃ N, ∀ f, N ≤ f → ∀ h,
        p_relation_loop f t (set_frame h l s)
          = .ok (chain_tree l s t links, set_frame h (chain_loc l s links) (chain_end s links)) := by
  induction links with
  | nil =>
    intro l s t hc
    refine ⟨1, fun f hf h => ?_⟩
    obtain ⟨k, rfl⟩ := Nat.exists_eq_add_of_le hf
    rw [Nat.add_comm]
    exact p_relation_loop_stop k t h l s hc.1 hc.2
  | cons k rest ih =>
    intro l s t hc
    obtain ⟨h2, hmem, ⟨N1, hN1⟩, hrest⟩ := hc
    obtain ⟨M, hM1, hM2⟩ := rel_op_of_mem _ _ hmem
    obtain ⟨N2, hN2⟩ := ih (start_after l s) k.state
      (binop (_diff_loc (start_after l s) k.state.yylloc) k.id t k.operand) hrest
    refine ⟨N1 + N2 + 1, fun f hf h => ?_⟩
    obtain ⟨j, rfl⟩ := Nat.exists_eq_add_of_le hf
    have e : N1 + N2 + 1 + j = (N1 + N2 + j) + 1 := by omega
    rw [e]
    have hm : next_tok s ∈ [token_t.tEQ, .tNEQ, .tLT, .tLE, .tGT, .tGE] := by
      rw [hM1]; cases M <;> simp [rel_op.token]
    have h2f : (force_peek s).peek2_valid = false := by rw [force_peek_peek2, h2]
    have hop := p_relational_operator_app M h l (force_peek s) h2f
      (by rw [next_tok_force_peek]; exact hM1)
    have hao : after_op M.ident (force_peek s) = after_op M.ident s := by
      simp [after_op, advance_force_peek]
    rw [start_after_force_peek, hao, ← hM2] at hop
    have hy := hN1 (N1 + N2 + j) (by omega) h (start_after l s)
    simp only [level.operand] at hy
    rw [p_relation_loop]
    simp only [bind, StateT.bind, scan_app _ h l s h2, hm, decide_True, Except.bind, ite_true, hop,
      hy, CURRENT_LOC_app]
    exact hN2 (N1 + N2 + j) (by omega) h

theorem p_relation_chain (s0 s1 : pstate) (x1 : tree_t) (links : List link)
    (hx : parses p_shift_expression s0 x1 s1) (hc : chain_ok .relational s1 links) :
    parses p_relation s0 (chain_tree LOC_INVALID s1 x1 links) (chain_end s1 links) := by
  obtain ⟨N, hN⟩ := hx
  obtain ⟨N2, hN2⟩ := p_relation_loop_chain links LOC_INVALID s1 x1 hc
  refine ⟨N + N2 + 1, fun f hf h l => ?_⟩
  obtain ⟨k, rfl⟩ := Nat.exists_eq_add_of_le hf
  have e : N + N2 + 1 + k = (N + N2 + k) + 1 := by omega
  rw [e]
  simp only [p_relation, BEGIN_app, bind, StateT.bind, hN (N + N2 + k) (by omega), Except.bind,
    hN2 (N + N2 + k) (by omega)]
  rfl

theorem chain_ids (L : level) (links : List link) :
    ∀ s, chain_ok L s links → ∀ k ∈ links, k.id ∈
      ["\"*\"", "\"/\"", "\"mod\"", "\"rem\"", "\"+\"", "\"-\"", "\"&\"", "\"=\"", "\"/=\"",
       "\"<\"", "\"<=\"", "\">\"", "\">=\""] := by
  induction links with
  | nil => intro s _ k hk; cases hk
  | cons k0 rest ih =>
    intro s hc k hk
    obtain ⟨_, hmem, _, hrest⟩ := hc
    rcases List.mem_cons.1 hk with rfl | hk2
    · cases L
      · obtain ⟨M, _, hM⟩ := mul_op_of_mem _ _ hmem
        rw [hM]; cases M <;> simp [mul_op.ident]
      · obtain ⟨M, _, hM⟩ := add_op_of_mem _ _ hmem
        rw [hM]; cases M <;> simp [add_op.ident]
      · obtain ⟨M, _, hM⟩ := rel_op_of_mem _ _ hmem
        rw [hM]; cases M <;> simp [rel_op.ident]
    · exact ih _ hrest k hk2

theorem chain_tree_snoc (pre : List link) (k : link) :
    ∀ (l : loc_t) (s : pstate) (t : tree_t), ∃ loc,
      chain_tree l s t (pre ++ [k]) = binop loc k.id (chain_tree l s t pre) k.operand := by
  induction pre with
  | nil => intro l s t; exact ⟨_, rfl⟩
  | cons k0 rest ih =>
    intro l s t
    exact ih (start_after l s) k0.state _

/-- C16: binary operators are left-associative and encoded as calls.  For
every level L (multiplying, adding, relational) and every chain
x1 op1 x2 ... xn of operands of L separated by operators of L, the
production of L returns the tree in which each further operand is put, with
its operator, above the tree read so far; the node of the last operator is
the root, its first positional parameter is the tree of the chain before it
and its second the last operand; every operator identifier is the spelling
in double quotes. -/
theorem chain_left_assoc (L : level) (s0 s1 : pstate) (x1 : tree_t) (links : List link)
    (hx : parses L.operand s0 x1 s1) (hc : chain_ok L s1 links) :
    parses L.production s0 (chain_tree LOC_INVALID s1 x1 links) (chain_end s1 links) ∧
    (∀ k ∈ links, k.id ∈
      ["\"*\"", "\"/\"", "\"mod\"", "\"rem\"", "\"+\"", "\"-\"", "\"&\"", "\"=\"", "\"/=\"",
       "\"<\"", "\"<=\"", "\">\"", "\">=\""]) ∧
    (∀ (pre : List link) (k : link), links = pre ++ [k] → ∃ loc,
      chain_tree LOC_INVALID s1 x1 links
        = .T_FCALL loc (some k.id) none none
            [.mk .P_POS (chain_tree LOC_INVALID s1 x1 pre), .mk .P_POS k.operand]) := by
  refine ⟨?_, chain_ids L links s1 hc, fun pre k hk => ?_⟩
  · cases L
    · exact p_term_chain s0 s1 x1 links hx hc
    · exact p_simple_expression_chain s0 s1 x1 links hx hc
    · exact p_relation_chain s0 s1 x1 links hx hc
  · subst hk
    exact chain_tree_snoc pre k LOC_INVALID s1 x1

theorem ex_chain_1 : parses p_factor ex_c0 (ex_parsed_int 8 0) ex_c1 :=
  p_factor_int_literal ex_c0 rfl rfl (by decide)

theorem ex_chain_2 : parses p_factor (after_op "\"/\"" ex_c1) (ex_parsed_int 4 4) ex_c3 :=
  p_factor_int_literal (after_op "\"/\"" ex_c1) rfl rfl (by decide)

theorem ex_chain_3 : parses p_factor (after_op "\"*\"" ex_c3) (ex_parsed_int 2 8) ex_c5 :=
  p_factor_int_literal (after_op "\"*\"" ex_c3) rfl rfl (by decide)

/-- C16 at the tokens of `8 / 4 * 2`: p_term returns "*"("/"(8, 4), 2). -/
theorem chain_left_assoc_witness :
    parses p_term ex_c0 ex_parsed_8_over_4_times_2 (force_peek ex_c5) :=
  (chain_left_assoc .multiplying ex_c0 ex_c1 (ex_parsed_int 8 0) ex_links ex_chain_1
    ⟨rfl, by decide, ex_chain_2, rfl, by decide, ex_chain_3, rfl, by decide⟩).1

/-! ### Physical literals, string literals and assertions -/

theorem EXTEND_app {α : Type} (n : String) (body : parse_m α) (h : Option String)
    (l : loc_t) (s : pstate) :
    EXTEND n body (set_frame h l s) =
      match body (set_frame (some n) l s) with
      | .ok (a, s2) => .ok (a, set_frame h l s2)
      | .error e => .error e := by
  simp only [EXTEND, set_frame, bind, StateT.bind, get,
    getThe, MonadStateOf.get, StateT.get, pure, StateT.pure, Except.pure, Except.bind, set,
    StateT.set, modify, modifyGet, MonadStateOf.modifyGet, StateT.modifyGet]
  cases body _ <;> rfl

theorem consume_app (tok : token_t) (h : Option String) (l : loc_t) (s : pstate)
    (h2 : s.peek2_valid = false) (ht : next_tok s = tok) :
    consume tok (set_frame h l s) = .ok (true, set_frame h (start_after l s) (advance s)) :=
  consume_run_frame tok h l s h2 ht

theorem optional_app_hit (tok : token_t) (h : Option String) (l : loc_t) (s : pstate)
    (h2 : s.peek2_valid = false) (ht : next_tok s = tok) :
    optional tok (set_frame h l s) = .ok (true, set_frame h (start_after l s) (advance s)) := by
  have h2f : (force_peek s).peek2_valid = false := by rw [force_peek_peek2, h2]
  have hc := consume_app tok h l (force_peek s) h2f (by rw [next_tok_force_peek, ht])
  rw [start_after_force_peek, advance_force_peek] at hc
  simp [optional, bind, StateT.bind, peek_app h l s h2, ht, hc, Except.bind, pure, StateT.pure,
    Except.pure]

theorem optional_app_miss (tok : token_t) (h : Option String) (l : loc_t) (s : pstate)
    (h2 : s.peek2_valid = false) (ht : next_tok s ≠ tok) :
    optional tok (set_frame h l s) = .ok (false, set_frame h l (force_peek s)) := by
  simp [optional, bind, StateT.bind, peek_app h l s h2, ht, Except.bind, pure, StateT.pure,
    Except.pure]

theorem yylval_read_s_app (u : String) (h : Option String) (l : loc_t) (s : pstate)
    (hu : s.yylval_s = some u) :
    yylval_read_s (set_frame h l s) = .ok (u, set_frame h l s) := by
  have hu2 : (set_frame h l s).yylval_s = some u := hu
  simp [yylval_read_s, bind, StateT.bind, get, getThe, MonadStateOf.get, StateT.get, hu2,
    pure, StateT.pure, Except.pure, Except.bind]

theorem yylval_free_s_app (h : Option String) (l : loc_t) (s : pstate) :
    yylval_free_s (set_frame h l s) = .ok ((), set_frame h l (freed s)) := by
  simp [yylval_free_s, freed, set_frame, modify, modifyGet, MonadStateOf.modifyGet,
    StateT.modifyGet, pure, Except.pure]

theorem advance_yylval_s (s : pstate) : (advance s).yylval_s = (force_peek s).yylval_s := rfl

theorem p_identifier_app (u : String) (h : Option String) (l : loc_t) (s : pstate)
    (h2 : s.peek2_valid = false) (ht : next_tok s = .tID)
    (hu : (force_peek s).yylval_s = some u) :
    p_identifier (set_frame h l s)
      = .ok (u, set_frame h (start_after l s) (after_ident u s)) := by
  simp [p_identifier, bind, StateT.bind, consume_app _ h l s h2 ht, Except.bind,
    yylval_read_s_app u h _ (advance s) hu, ident_new_app, yylval_free_s_app, after_ident,
    pure, StateT.pure, Except.pure]

theorem str_to_agg_loop_app (loc : loc_t) (h : Option String) (l : loc_t) (cs : List Char) :
    ∀ (acc : List assoc_t) (s : pstate),
      str_to_agg_loop loc cs acc (set_frame h l s)
        = .ok (acc ++ (shown cs).map (char_assoc loc), set_frame h l (intern_chars cs s)) := by
  induction cs with
  | nil => intro acc s; simp [str_to_agg_loop, shown, intern_chars, pure, StateT.pure, Except.pure]
  | cons c rest ih =>
    intro acc s
    by_cases hc : c.toNat = 0x81
    · simp [str_to_agg_loop, shown, intern_chars, hc, ih]
    · simp [str_to_agg_loop, shown, intern_chars, hc, ih, bind, StateT.bind, ident_new_app,
        Except.bind, char_ident, char_assoc]

theorem str_to_agg_app (loc : loc_t) (h : Option String) (l : loc_t) (cs : List Char)
    (s : pstate) :
    str_to_agg cs loc (set_frame h l s)
      = .ok (.T_AGGREGATE loc ((shown cs).map (char_assoc loc)),
          set_frame h l (intern_chars cs s)) := by
  simp [str_to_agg, bind, StateT.bind, str_to_agg_loop_app, Except.bind, pure, StateT.pure,
    Except.pure]

theorem p_abstract_literal_app (h : Option String) (l : loc_t) (s : pstate)
    (h2 : s.peek2_valid = false) (ht : next_tok s = .tINT ∨ next_tok s = .tREAL) :
    p_abstract_literal (set_frame h l s)
      = .ok (abstract_literal_of s, set_frame h l (advance s)) := by
  have hm : next_tok s ∈ [token_t.tINT, .tREAL] := by
    rcases ht with ht | ht <;> simp [ht]
  have hsa : start_after LOC_INVALID s = (force_peek s).yylloc := by
    simp [start_after, LOC_INVALID]
  have hy : (advance s).yylloc = (force_peek s).yylloc := rfl
  have hn : (advance s).yylval_n = (force_peek s).yylval_n := rfl
  have hd : (advance s).yylval_d = (force_peek s).yylval_d := rfl
  rcases ht with ht | ht <;>
  simp [p_abstract_literal, BEGIN_app, bind, StateT.bind, one_of_app _ _ _ s h2 hm, Except.bind,
    get, getThe, MonadStateOf.get, StateT.get, pure, StateT.pure, Except.pure, CURRENT_LOC_app,
    hsa, ht, abstract_literal_of, set_frame_set_frame, hy, hn, hd] <;> rfl

theorem p_physical_literal_app (u : String) (m : tree_t) (h : Option String) (s : pstate)
    (h2 : s.peek2_valid = false) (ht : next_tok s = .tID)
    (hu : (force_peek s).yylval_s = some u) :
    p_physical_literal (some m) (set_frame h LOC_INVALID s)
      = .ok (.T_FCALL (_diff_loc (force_peek s).yylloc (force_peek s).yylloc)
              (some "\"*\"") none none
              [.mk .P_POS m,
               .mk .P_POS (.T_REF (_diff_loc (force_peek s).yylloc (force_peek s).yylloc)
                 (some u) none none)],
            set_frame h LOC_INVALID (intern "\"*\"" (after_ident u s))) := by
  have hsa : start_after LOC_INVALID s = (force_peek s).yylloc := by
    simp [start_after, LOC_INVALID]
  have hy : (after_ident u s).yylloc = (force_peek s).yylloc := by
    simp [after_ident, freed, intern_yylloc]; rfl
  simp [p_physical_literal, EXTEND_app, bind, StateT.bind, p_identifier_app u _ _ s h2 ht hu,
    Except.bind, CURRENT_LOC_app, ident_new_app, hsa, hy, pure, StateT.pure, Except.pure,
    set_frame_set_frame]

/-- C17: for every abstract literal token N (integer or real), p_numeric_literal
returns, when an identifier token of text u follows immediately, a call node
with identifier "*" and exactly two positional parameters, first the
literal node for N and second a reference node with identifier u; when no
identifier follows it returns the literal node for N itself. -/
theorem p_numeric_literal_physical (s : pstate) (h2 : s.peek2_valid = false)
    (ht : next_tok s = .tINT ∨ next_tok s = .tREAL) :
    (∀ u, next_tok (advance s) = .tID → (force_peek (advance s)).yylval_s = some u →
      returns p_numeric_literal s
        (some (.T_FCALL
          (_diff_loc (force_peek (advance s)).yylloc (force_peek (advance s)).yylloc)
          (some "\"*\"") none none
          [.mk .P_POS (abstract_literal_of s),
           .mk .P_POS (.T_REF
             (_diff_loc (force_peek (advance s)).yylloc (force_peek (advance s)).yylloc)
             (some u) none none)]))
        (intern "\"*\"" (after_ident u (advance s)))) ∧
    (next_tok (advance s) ≠ .tID →
      returns p_numeric_literal s (some (abstract_literal_of s)) (force_peek (advance s))) ∧
    (∃ lit, abstract_literal_of s =
        .T_LITERAL (_diff_loc (force_peek s).yylloc (force_peek s).yylloc) none (some lit) ∧
      (next_tok s = .tINT → lit = .L_INT (force_peek s).yylval_n) ∧
      (next_tok s = .tREAL → lit = .L_REAL (force_peek s).yylval_d)) := by
  have hm : next_tok s ∈ [token_t.tINT, .tREAL] := by
    rcases ht with ht | ht <;> simp [ht]
  have h2a : (advance s).peek2_valid = false := rfl
  have h2f : (force_peek s).peek2_valid = false := by rw [force_peek_peek2, h2]
  have hmf : next_tok (force_peek s) = .tINT ∨ next_tok (force_peek s) = .tREAL := by
    rw [next_tok_force_peek]; exact ht
  have hal : abstract_literal_of (force_peek s) = abstract_literal_of s := by
    simp [abstract_literal_of, force_peek_idem, next_tok_force_peek]
  have hab := p_abstract_literal_app (some "numeric literal") LOC_INVALID (force_peek s) h2f hmf
  rw [advance_force_peek, hal] at hab
  refine ⟨fun u hid hu h l => ?_, fun hid h l => ?_, ?_⟩
  · have h2ff : (force_peek (advance s)).peek2_valid = false := by rw [force_peek_peek2]; rfl
    have hp := p_physical_literal_app u (abstract_literal_of s) (some "numeric literal")
      (force_peek (advance s)) h2ff (by rw [next_tok_force_peek]; exact hid)
      (by rw [force_peek_idem]; exact hu)
    have hai : after_ident u (force_peek (advance s)) = after_ident u (advance s) := by
      simp [after_ident, advance_force_peek]
    rw [force_peek_idem, hai] at hp
    simp [p_numeric_literal, BEGIN_app, bind, StateT.bind, scan_app _ _ _ s h2, hm, Except.bind,
      hab, pure, StateT.pure, Except.pure, peek_app _ _ (advance s) h2a, hid, hp,
      set_frame_set_frame]
  · simp [p_numeric_literal, BEGIN_app, bind, StateT.bind, scan_app _ _ _ s h2, hm, Except.bind,
      hab, pure, StateT.pure, Except.pure, peek_app _ _ (advance s) h2a, hid,
      set_frame_set_frame]
  · rcases ht with ht | ht
    · exact ⟨_, by simp [abstract_literal_of, ht], fun _ => rfl, fun hh => by simp [ht] at hh⟩
    · exact ⟨_, by simp [abstract_literal_of, ht], fun hh => by simp [ht] at hh, fun _ => rfl⟩

/-- C17 at the tokens of `10 ns`, which give the call "*"(10, ns), and at the
single token `10`, which gives the literal 10. -/
theorem p_numeric_literal_physical_witness :
    returns p_numeric_literal (pstate_init ex_tokens_10_ns) (some ex_parsed_10_ns)
      (intern "\"*\"" (after_ident "ns" (advance (pstate_init ex_tokens_10_ns)))) ∧
    returns p_numeric_literal (pstate_init [ex_lx_int 10 0]) (some (ex_parsed_int 10 0))
      (force_peek (advance (pstate_init [ex_lx_int 10 0]))) :=
  ⟨(p_numeric_literal_physical (pstate_init ex_tokens_10_ns) rfl (Or.inl rfl)).1 "ns" rfl rfl,
   (p_numeric_literal_physical (pstate_init [ex_lx_int 10 0]) rfl (Or.inl rfl)).2.1
     (by decide)⟩

theorem force_peek_assert_viol (s : pstate) : (force_peek s).assert_viol = s.assert_viol := by
  unfold force_peek lexed
  split
  · rfl
  · split <;> rfl

theorem shown_assertion_violation :
    shown assertion_violation.toList = assertion_violation.toList := by
  decide

theorem get_app (h : Option String) (l : loc_t) (x : pstate) :
    (get : parse_m pstate) (set_frame h l x) = .ok (set_frame h l x, set_frame h l x) := rfl

theorem set_frame_assert_viol (h : Option String) (l : loc_t) (x : pstate) :
    (set_frame h l x).assert_viol = x.assert_viol := rfl

theorem set_assert_viol_app (a : tree_t) (h : Option String) (l : loc_t) (x : pstate) :
    (modify fun st => { st with assert_viol := some a } : parse_m Unit) (set_frame h l x)
      = .ok ((), set_frame h l (set_assert_viol a x)) := rfl

theorem msg_state_none (s1 : pstate) (hav : s1.assert_viol = none) :
    set_assert_viol assert_viol_agg (intern_chars assertion_violation.toList (force_peek s1))
      = msg_state s1 := by
  unfold msg_state
  rw [hav]

theorem msg_state_some (s1 : pstate) (a : tree_t) (hav : s1.assert_viol = some a) :
    force_peek s1 = msg_state s1 := by
  unfold msg_state
  rw [hav]

theorem default_agg_shown :
    tree_t.T_AGGREGATE LOC_INVALID
        ((shown assertion_violation.toList).map (char_assoc LOC_INVALID))
      = assert_viol_agg := by
  rw [shown_assertion_violation]
  rfl

theorem msg_state_peek2 (s1 : pstate) : (msg_state s1).peek2_valid = s1.peek2_valid := by
  have hi : ∀ (cs : List Char) (s : pstate), (intern_chars cs s).peek2_valid = s.peek2_valid := by
    intro cs
    induction cs with
    | nil => intro s; rfl
    | cons c rest ih =>
      intro s
      unfold intern_chars
      split
      · exact ih s
      · rw [ih, intern_peek2]
  unfold msg_state
  split
  · exact force_peek_peek2 s1
  · have hg := hi assertion_violation.toList (force_peek s1)
    rw [force_peek_peek2] at hg
    generalize intern_chars assertion_violation.toList (force_peek s1) = x at hg
    exact hg

/-- C20: every assertion node returned by p_assertion has a message and a
severity.  After the condition, which p_expression returns from the state
after `assert`, the message is the expression after `report` when that token
follows and else the aggregate of the 20 positional character references
spelling "Assertion violation."; the severity is the expression after
`severity` when that token follows and else a reference node with
identifier ERROR. -/
theorem p_assertion_defaults (s s1 sm sv : pstate) (cond m v : tree_t)
    (h2 : s.peek2_valid = false) (ht : next_tok s = .tASSERT)
    (hc : parses p_expression (advance s) cond s1) (h21 : s1.peek2_valid = false)
    (hm : message_part s1 m sm) (h2m : sm.peek2_valid = false)
    (hv : severity_part sm v sv) :
    (∃ loc, parses p_assertion s (.T_ASSERT loc none (some cond) m v []) sv) ∧
    tree_assocs assert_viol_agg
      = "Assertion violation.".toList.map (fun c =>
          .A_POS (.T_REF LOC_INVALID (some (String.mk [Char.ofNat 39, c, Char.ofNat 39]))
            none none)) ∧
    (tree_assocs assert_viol_agg).length = 20 := by
  refine ⟨?_, rfl, rfl⟩
  obtain ⟨Nc, hNc⟩ := hc
  have hcs := consume_app .tASSERT (some "assertion") LOC_INVALID s h2 ht
  rcases hm with ⟨hr, ⟨Nm, hNm⟩⟩ | ⟨hr, rfl, rfl, hav⟩
  · rcases hv with ⟨hs, ⟨Nv, hNv⟩⟩ | ⟨hs, rfl, rfl⟩
    · refine ⟨_diff_loc (start_after (start_after (start_after LOC_INVALID s) s1) sm) sv.yylloc,
        Nc + Nm + Nv, fun f hf h l => ?_⟩
      simp only [p_assertion, BEGIN_app, bind, StateT.bind, hcs, Except.bind,
        hNc f (by omega), optional_app_hit _ _ _ s1 h21 hr, ite_true, hNm f (by omega),
        optional_app_hit _ _ _ sm h2m hs, hNv f (by omega), CURRENT_LOC_app, pure, StateT.pure,
        Except.pure, set_frame_set_frame]
    · refine ⟨_diff_loc (start_after (start_after LOC_INVALID s) s1) (force_peek sm).yylloc,
        Nc + Nm, fun f hf h l => ?_⟩
      simp only [p_assertion, BEGIN_app, bind, StateT.bind, hcs, Except.bind,
        hNc f (by omega), optional_app_hit _ _ _ s1 h21 hr, ite_true, hNm f (by omega),
        optional_app_miss _ _ _ sm h2m hs, ident_new_app, CURRENT_LOC_app, pure, StateT.pure,
        Except.pure, set_frame_set_frame, severity_error, Bool.false_eq_true, if_false,
        intern_yylloc]
  · have h2ms : (msg_state s1).peek2_valid = false := by rw [msg_state_peek2, h21]
    rcases hv with ⟨hs, ⟨Nv, hNv⟩⟩ | ⟨hs, rfl, rfl⟩
    · refine ⟨_diff_loc (start_after (start_after LOC_INVALID s) (msg_state s1)) sv.yylloc,
        Nc + Nv, fun f hf h l => ?_⟩
      simp only [p_assertion, BEGIN_app, bind, StateT.bind, hcs, Except.bind,
        hNc f (by omega), optional_app_miss _ _ _ s1 h21 hr, Bool.false_eq_true, if_false]
      rcases hav with hav | hav
      · simp only [get_app, set_frame_assert_viol, force_peek_assert_viol, hav, bind, StateT.bind,
          Except.bind, str_to_agg_app, set_assert_viol_app, default_agg_shown,
          msg_state_none s1 hav, pure, StateT.pure, Except.pure, optional_app_hit _ _ _ (msg_state s1) h2ms hs, ite_true, hNv f (by omega),
          CURRENT_LOC_app, set_frame_set_frame]
      · simp only [get_app, set_frame_assert_viol, force_peek_assert_viol, hav, bind, StateT.bind,
          Except.bind, pure, StateT.pure, Except.pure]
        simp only [msg_state_some s1 _ hav, bind, optional_app_hit _ _ _ (msg_state s1) h2ms hs, ite_true, hNv f (by omega), StateT.bind, Except.bind,
          CURRENT_LOC_app, pure, StateT.pure, Except.pure, set_frame_set_frame]
    · refine ⟨_diff_loc (start_after LOC_INVALID s) (force_peek (msg_state s1)).yylloc,
        Nc, fun f hf h l => ?_⟩
      simp only [p_assertion, BEGIN_app, bind, StateT.bind, hcs, Except.bind,
        hNc f (by omega), optional_app_miss _ _ _ s1 h21 hr, Bool.false_eq_true, if_false]
      rcases hav with hav | hav
      · simp only [get_app, set_frame_assert_viol, force_peek_assert_viol, hav, bind, StateT.bind,
          Except.bind, str_to_agg_app, set_assert_viol_app, default_agg_shown,
          msg_state_none s1 hav, pure, StateT.pure, Except.pure, optional_app_miss _ _ _ (msg_state s1) h2ms hs, ident_new_app,
          CURRENT_LOC_app, set_frame_set_frame,
          severity_error, Bool.false_eq_true, if_false, intern_yylloc]
      · simp only [get_app, set_frame_assert_viol, force_peek_assert_viol, hav, bind, StateT.bind,
          Except.bind, pure, StateT.pure, Except.pure]
        simp only [msg_state_some s1 _ hav, bind, optional_app_miss _ _ _ (msg_state s1) h2ms hs, ident_new_app, StateT.bind, Except.bind,
          CURRENT_LOC_app, pure, StateT.pure, Except.pure, set_frame_set_frame,
          severity_error, Bool.false_eq_true, if_false, intern_yylloc]

theorem intern_chars_peek (cs : List Char) :
    ∀ s : pstate, (intern_chars cs s).peek_valid = s.peek_valid ∧
      (intern_chars cs s).peek_tok = s.peek_tok := by
  induction cs with
  | nil => intro s; exact ⟨rfl, rfl⟩
  | cons c rest ih =>
    intro s
    unfold intern_chars
    split
    · exact ih s
    · obtain ⟨h1, h2⟩ := ih (intern (char_ident c) s)
      rw [h1, h2]
      unfold intern
      split <;> exact ⟨rfl, rfl⟩

theorem msg_state_next_tok (s1 : pstate) : next_tok (msg_state s1) = next_tok s1 := by
  unfold msg_state
  split
  · exact next_tok_force_peek s1
  · obtain ⟨h1, h2⟩ := intern_chars_peek assertion_violation.toList (force_peek s1)
    rw [force_peek_valid] at h1
    generalize intern_chars assertion_violation.toList (force_peek s1) = x at h1 h2
    have hv : (set_assert_viol assert_viol_agg x).peek_valid = true := h1
    unfold next_tok
    rw [show force_peek (set_assert_viol assert_viol_agg x) = set_assert_viol assert_viol_agg x
      from by unfold force_peek; rw [if_pos hv]]
    exact h2

theorem ex_assert_cond : parses p_expression (advance ex_a0) (ex_parsed_int 1 7) ex_a1 := by
  have hf := p_factor_int_literal (advance ex_a0) rfl rfl (by decide)
  have he := p_expression_of_factor _ _ _ hf rfl (by decide)
  simpa only [force_peek_idem] using he

/-- C20 at the tokens of `assert 1 ;`: the message is the default aggregate
and the severity the reference to ERROR. -/
theorem p_assertion_defaults_witness :
    ∃ loc, parses p_assertion ex_a0
      (.T_ASSERT loc none (some (ex_parsed_int 1 7)) assert_viol_agg severity_error [])
      (intern "ERROR" (force_peek (msg_state ex_a1))) :=
  (p_assertion_defaults ex_a0 ex_a1 (msg_state ex_a1)
    (intern "ERROR" (force_peek (msg_state ex_a1))) (ex_parsed_int 1 7) assert_viol_agg
    severity_error rfl rfl ex_assert_cond rfl
    (Or.inr ⟨by decide, rfl, rfl, Or.inl rfl⟩)
    (by rw [msg_state_peek2]; rfl)
    (Or.inr ⟨by rw [msg_state_next_tok]; decide, rfl, rfl⟩)).1

/-! ### Name disambiguation -/

theorem peek2_app (h : Option String) (l : loc_t) (s : pstate) (h2 : s.peek2_valid = false) :
    peek2 (set_frame h l s) = .ok (next_tok2 s, set_frame h l (force_peek2 s)) := by
  rcases s with ⟨input, ys, yn, yd, yl, sl, ne, nc, pt, pv, p2t, p2v, hs, av, itn⟩
  simp only at h2
  subst h2
  cases pv <;> rcases input with _ | ⟨a, _ | ⟨b, rest⟩⟩ <;>
  simp [peek2, peek, yylex, next_tok2, force_peek2, force_peek, lexed, lexed_tok, set_frame,
    bind, StateT.bind, get, getThe, MonadStateOf.get, StateT.get, pure, StateT.pure,
    Except.pure, Except.bind, set, StateT.set, modify, modifyGet, MonadStateOf.modifyGet,
    StateT.modifyGet]

theorem consume_app2 (tok : token_t) (h : Option String) (l : loc_t) (x : pstate)
    (hv : x.peek_valid = true) (h2 : x.peek2_valid = true) (ht : x.peek_tok = tok) :
    consume tok (set_frame h l x)
      = .ok (true, set_frame h (if l.linebuf = none then x.yylloc else l) (shift x)) := by
  subst ht
  rcases x with ⟨input, ys, yn, yd, yl, sl, ne, nc, pt, pv, p2t, p2v, hs, av, itn⟩
  simp only at hv h2
  subst hv h2
  by_cases hl : l.linebuf = none <;>
  simp [consume, peek, set_frame, shift, bind, StateT.bind, get, getThe, MonadStateOf.get,
    StateT.get, pure, StateT.pure, Except.pure, Except.bind, set, StateT.set, modify,
    modifyGet, MonadStateOf.modifyGet, StateT.modifyGet, hl]

theorem force_peek2_valid (s : pstate) (h2 : s.peek2_valid = false) :
    (force_peek2 s).peek_valid = true ∧ (force_peek2 s).peek2_valid = true ∧
    (force_peek2 s).peek_tok = next_tok s := by
  have hv := force_peek_valid s
  have hp := force_peek_peek2 s
  rw [h2] at hp
  unfold force_peek2 next_tok
  rw [hp]
  simp only [Bool.false_eq_true, if_false]
  generalize force_peek s = x at hv
  rcases x with ⟨input, ys, yn, yd, yl, sl, ne, nc, pt, pv, p2t, p2v, hs, av, itn⟩
  cases input <;> simp_all [lexed]

theorem p_identifier_app2 (u : String) (h : Option String) (l : loc_t) (x : pstate)
    (hv : x.peek_valid = true) (h2 : x.peek2_valid = true) (ht : x.peek_tok = .tID)
    (hu : x.yylval_s = some u) :
    p_identifier (set_frame h l x)
      = .ok (u, set_frame h (if l.linebuf = none then x.yylloc else l)
          (freed (intern u (shift x)))) := by
  have hus : (shift x).yylval_s = some u := hu
  simp [p_identifier, bind, StateT.bind, consume_app2 _ h l x hv h2 ht, Except.bind,
    yylval_read_s_app u h _ (shift x) hus, ident_new_app, yylval_free_s_app,
    pure, StateT.pure, Except.pure]

theorem after_ident2_facts (u : ident_t) (x : pstate) (hv : x.peek_valid = true) :
    (freed (intern u (shift x))).peek2_valid = false ∧
    next_tok (freed (intern u (shift x))) = x.peek2_tok := by
  have h1 : (freed (intern u (shift x))).peek_valid = true := by
    unfold freed intern; split <;> exact hv
  have h2 : (freed (intern u (shift x))).peek_tok = x.peek2_tok := by
    unfold freed intern; split <;> rfl
  refine ⟨by unfold freed intern; split <;> rfl, ?_⟩
  unfold next_tok force_peek
  rw [if_pos h1]
  exact h2

theorem args_ok_force_peek (s : pstate) (args : List arg) (h : args_ok s args) :
    args_ok (force_peek s) args ∧ force_peek (args_end (force_peek s) args)
      = force_peek (args_end s args) ∧
    ∀ l, args_loc l (force_peek s) args = args_loc l s args := by
  cases args with
  | nil =>
    obtain ⟨h2, ht⟩ := h
    exact ⟨⟨by rw [force_peek_peek2, h2], by rw [next_tok_force_peek, ht]⟩,
      force_peek_idem s, fun _ => rfl⟩
  | cons a rest =>
    obtain ⟨h2, ht, hp, hr⟩ := h
    refine ⟨⟨by rw [force_peek_peek2, h2], by rw [next_tok_force_peek, ht],
      by rw [advance_force_peek]; exact hp, hr⟩, rfl, fun l => ?_⟩
    show args_loc (start_after l (force_peek s)) a.state rest = _
    rw [start_after_force_peek]
    rfl

theorem p_function_call_loop_args (args : List arg) :
    ∀ (s : pstate), args_ok s args →
      ∃ N, ∀ f, N ≤ f → ∀ h (l lc : loc_t) (ps : List param_t),
        p_function_call_loop f (.T_FCALL lc none none none ps) (set_frame h l s)
          = .ok (.T_FCALL lc none none none (ps ++ args.map (fun a => .mk .P_POS a.value)),
              set_frame h (args_loc l s args) (force_peek (args_end s args))) := by
  induction args with
  | nil =>
    intro s hc
    obtain ⟨h2, ht⟩ := hc
    refine ⟨1, fun f hf h l lc ps => ?_⟩
    obtain ⟨k, rfl⟩ := Nat.exists_eq_add_of_le hf
    rw [Nat.add_comm]
    have hne : next_tok s ≠ .tCOMMA := by rw [ht]; decide
    simp [p_function_call_loop, bind, StateT.bind, optional_app_miss _ h l s h2 hne, Except.bind,
      pure, StateT.pure, Except.pure, args_loc, args_end]
  | cons a rest ih =>
    intro s hc
    obtain ⟨h2, ht, ⟨N1, hN1⟩, hrest⟩ := hc
    obtain ⟨N2, hN2⟩ := ih a.state hrest
    refine ⟨N1 + N2 + 1, fun f hf h l lc ps => ?_⟩
    obtain ⟨j, rfl⟩ := Nat.exists_eq_add_of_le hf
    have e : N1 + N2 + 1 + j = (N1 + N2 + j) + 1 := by omega
    rw [e, p_function_call_loop]
    simp only [bind, StateT.bind, optional_app_hit _ h l s h2 ht, Except.bind, ite_true,
      hN1 (N1 + N2 + j) (by omega), add_param, hN2 (N1 + N2 + j) (by omega) h]
    simp [args_loc, args_end]

theorem p_function_call_app (s : pstate) (e1 : tree_t) (args : List arg)
    (hc : args_ok s args) :
    ∃ N, ∀ f, N ≤ f → ∀ h l pfx,
      p_function_call f pfx e1 (set_frame h l s)
        = .ok (.T_FCALL
              (_diff_loc (start_after (args_loc l s args) (args_end s args))
                (force_peek (args_end s args)).yylloc)
              none none none (.mk .P_POS e1 :: args.map (fun a => .mk .P_POS a.value)),
            set_frame h l (advance (args_end s args))) := by
  have hend : ∀ (args : List arg) (s : pstate), args_ok s args →
      (args_end s args).peek2_valid = false ∧ next_tok (args_end s args) = .tRPAREN := by
    intro args
    induction args with
    | nil => intro s hc; exact hc
    | cons a rest ih => intro s hc; exact ih a.state hc.2.2.2
  obtain ⟨he2, het⟩ := hend args s hc
  obtain ⟨N, hN⟩ := p_function_call_loop_args args s hc
  have he2f : (force_peek (args_end s args)).peek2_valid = false := by
    rw [force_peek_peek2, he2]
  refine ⟨N + 1, fun f hf h l pfx => ?_⟩
  obtain ⟨k, rfl⟩ := Nat.exists_eq_add_of_le hf
  have e : N + 1 + k = (N + k) + 1 := by omega
  have hcs := consume_app .tRPAREN (some "function call") (args_loc l s args)
    (force_peek (args_end s args)) he2f (by rw [next_tok_force_peek, het])
  rw [start_after_force_peek, advance_force_peek] at hcs
  have hy : (advance (args_end s args)).yylloc = (force_peek (args_end s args)).yylloc := rfl
  rw [e]
  simp only [p_function_call, EXTEND_app, bind, StateT.bind, add_param, List.nil_append,
    hN (N + k) (by omega), Except.bind, hcs, CURRENT_LOC_app, tree_set_loc, hy, pure,
    StateT.pure, Except.pure, List.singleton_append, List.cons_append, set_frame_set_frame]

theorem p_slice_name_app (s s2 : pstate) (e1 r : tree_t) (kind : range_kind_t)
    (h2 : s.peek2_valid = false)
    (ht : next_tok s = .tTO ∧ kind = .RANGE_TO ∨ next_tok s = .tDOWNTO ∧ kind = .RANGE_DOWNTO)
    (hr : parses p_expression (advance s) r s2) (h22 : s2.peek2_valid = false)
    (hp : next_tok s2 = .tRPAREN) :
    ∃ N, ∀ f, N ≤ f → ∀ h l pfx,
      p_slice_name f pfx e1 (set_frame h l s)
        = .ok (.T_ARRAY_SLICE
              (_diff_loc (start_after (start_after l s) s2) (force_peek s2).yylloc)
              (.mk kind e1 r),
            set_frame h l (advance s2)) := by
  obtain ⟨N, hN⟩ := hr
  refine ⟨N + 1, fun f hf h l pfx => ?_⟩
  obtain ⟨k, rfl⟩ := Nat.exists_eq_add_of_le hf
  have e : N + 1 + k = (N + k) + 1 := by omega
  have hm : next_tok s ∈ [token_t.tTO, .tDOWNTO] := by
    rcases ht with ⟨ht, _⟩ | ⟨ht, _⟩ <;> simp [ht]
  have hcs := consume_app .tRPAREN (some "slice name") (start_after l s) s2 h22 hp
  have hy : (advance s2).yylloc = (force_peek s2).yylloc := rfl
  rw [e]
  rcases ht with ⟨ht, rfl⟩ | ⟨ht, rfl⟩ <;>
  simp only [p_slice_name, EXTEND_app, bind, StateT.bind, one_of_app _ _ _ s h2 hm, ht,
    Except.bind, hN (N + k) (by omega), hcs, CURRENT_LOC_app, hy, pure, StateT.pure,
    Except.pure, set_frame_set_frame]

theorem force_peek2_force_peek (s : pstate) :
    force_peek2 (force_peek s) = force_peek2 s ∧ next_tok2 (force_peek s) = next_tok2 s := by
  unfold next_tok2 force_peek2
  rw [force_peek_idem]
  exact ⟨rfl, rfl⟩

theorem mismatch_force_peek (s : pstate) : mismatch (force_peek s) = mismatch s := by
  simp [mismatch, force_peek_idem]

theorem advance_congr (a b : pstate) (h : force_peek a = force_peek b) :
    advance a = advance b := by
  rw [← advance_force_peek a, ← advance_force_peek b, h]

/-- The part of p_name up to the token after the first expression. -/
theorem p_name_head (s s1 : pstate) (u : ident_t) (e1 : tree_t)
    (h2 : s.peek2_valid = false) (ht : next_tok s = .tID) (ht2 : next_tok2 s = .tLPAREN)
    (hu : (force_peek2 s).yylval_s = some u)
    (he : parses p_expression (after_lparen u s) e1 s1) :
    ∃ N l1, ∀ f, N ≤ f → ∀ h l,
      p_name (f + 1) (set_frame h l s) =
        match (do
          match ← peek with
          | .tRPAREN | .tCOMMA => p_function_call f u e1
          | .tTO | .tDOWNTO => p_slice_name f u e1
          | _ => do
            expect [.tRPAREN, .tCOMMA, .tTO, .tDOWNTO]
            pure (.T_OPEN LOC_INVALID) : parse_m tree_t) (set_frame (some "name") l1 s1) with
        | .ok (a, s2) => .ok (a, set_frame h l s2)
        | .error e => .error e := by
  obtain ⟨N, hN⟩ := he
  obtain ⟨hv, hp2, hpt⟩ := force_peek2_valid s h2
  have h2f : (force_peek s).peek2_valid = false := by rw [force_peek_peek2, h2]
  obtain ⟨hf2, hn2⟩ := force_peek2_force_peek s
  obtain ⟨hy2, hyt⟩ := after_ident2_facts u (force_peek2 s) hv
  refine ⟨N, start_after (force_peek2 s).yylloc (freed (intern u (shift (force_peek2 s)))),
    fun f hf h l => ?_⟩
  have hid := p_identifier_app2 u (some "name") LOC_INVALID (force_peek2 s) hv hp2
    (by rw [hpt, ht]) hu
  have hli : LOC_INVALID.linebuf = none := rfl
  rw [if_pos hli] at hid
  have hcs := consume_app .tLPAREN (some "name") (force_peek2 s).yylloc
    (freed (intern u (shift (force_peek2 s)))) hy2 (by rw [hyt]; exact ht2)
  simp only [p_name, BEGIN_app, bind, StateT.bind, peek_app _ _ s h2, ht, Except.bind,
    peek2_app _ _ (force_peek s) h2f, hf2, hn2, ht2, hid, hcs]
  have hx := hN f hf (some "name")
    (start_after (force_peek2 s).yylloc (freed (intern u (shift (force_peek2 s)))))
  unfold after_lparen at hx
  rw [hx]
  simp only []
  generalize peek (set_frame (some "name")
    (start_after (force_peek2 s).yylloc (freed (intern u (shift (force_peek2 s))))) s1) = r
  rcases r with e | ⟨tk, st⟩
  · rfl
  · cases tk <;>
      simp only [bind, StateT.bind, Except.bind, pure, StateT.pure, Except.pure] <;>
      split <;> (rename_i hq; simp only [hq])

/-- C18: name disambiguation in p_name.  On the tokens of u ( e1, u an
identifier and e1 the tree p_expression returns after the left parenthesis,
the token after e1 decides.  If the actuals , e2 ... , en and then ) follow
(n = 1: the token is the right parenthesis), the result is a function-call
node whose positional parameters are e1, e2, ..., en in source order, and
the closing parenthesis is consumed.  If it is to or downto, followed by an
expression r and a right parenthesis, the result is an array-slice node
whose range has left e1, that direction and right r, and the closing
parenthesis is consumed.  For any other token the mismatch is signalled to
the diagnostic controller through expect (the count of consecutive correct
tokens is reset to 0, and the error is counted when that count had reached
RECOVER_THRESH), no token is consumed and an open node is returned. -/
theorem p_name_disambiguation (s s1 : pstate) (u : ident_t) (e1 : tree_t)
    (h2 : s.peek2_valid = false) (ht : next_tok s = .tID) (ht2 : next_tok2 s = .tLPAREN)
    (hu : (force_peek2 s).yylval_s = some u)
    (he : parses p_expression (after_lparen u s) e1 s1) (h21 : s1.peek2_valid = false) :
    (∀ args : List arg, args_ok s1 args →
      ∃ loc, parses p_name s
        (.T_FCALL loc none none none
          (.mk .P_POS e1 :: args.map (fun a => .mk .P_POS a.value)))
        (advance (args_end s1 args))) ∧
    (∀ (kind : range_kind_t) (r : tree_t) (s2 : pstate),
      (next_tok s1 = .tTO ∧ kind = .RANGE_TO ∨
        next_tok s1 = .tDOWNTO ∧ kind = .RANGE_DOWNTO) →
      parses p_expression (advance s1) r s2 → s2.peek2_valid = false →
      next_tok s2 = .tRPAREN →
      ∃ loc, parses p_name s (.T_ARRAY_SLICE loc (.mk kind e1 r)) (advance s2)) ∧
    (next_tok s1 ∉ [token_t.tRPAREN, .tCOMMA, .tTO, .tDOWNTO] →
      parses p_name s (.T_OPEN LOC_INVALID) (mismatch s1) ∧
      (mismatch s1).input = (force_peek s1).input ∧
      next_tok (mismatch s1) = next_tok s1 ∧
      (mismatch s1).n_correct = 0 ∧
      (mismatch s1).n_errors =
        (if RECOVER_THRESH ≤ (force_peek s1).n_correct then (force_peek s1).n_errors + 1
         else (force_peek s1).n_errors)) := by
  obtain ⟨N0, l1, hpre⟩ := p_name_head s s1 u e1 h2 ht ht2 hu he
  have h21f : (force_peek s1).peek2_valid = false := by rw [force_peek_peek2, h21]
  refine ⟨fun args hc => ?_, fun kind r s2 hk hr h22 hp => ?_, fun hn => ⟨?_, ?_, ?_, ?_, ?_⟩⟩
  · obtain ⟨hcf, hef, hlf⟩ := args_ok_force_peek s1 args hc
    obtain ⟨N, hN⟩ := p_function_call_app (force_peek s1) e1 args hcf
    have hadv : advance (args_end (force_peek s1) args) = advance (args_end s1 args) :=
      advance_congr _ _ hef
    have hnt : next_tok s1 = .tRPAREN ∨ next_tok s1 = .tCOMMA := by
      cases args with
      | nil => exact Or.inl hc.2
      | cons a rest => exact Or.inr hc.2.1
    refine ⟨_diff_loc (start_after (args_loc l1 s1 args) (args_end (force_peek s1) args))
        (force_peek (args_end s1 args)).yylloc, N0 + N + 1, fun f hf h l => ?_⟩
    obtain ⟨k, rfl⟩ := Nat.exists_eq_add_of_le hf
    have e : N0 + N + 1 + k = (N0 + N + k) + 1 := by omega
    rw [e, hpre (N0 + N + k) (by omega) h l]
    rcases hnt with hnt | hnt <;>
    simp only [bind, StateT.bind, peek_app _ _ s1 h21, hnt, Except.bind,
      hN (N0 + N + k) (by omega), hadv, hef, hlf, set_frame_set_frame]
  · obtain ⟨N, hN⟩ := p_slice_name_app (force_peek s1) s2 e1 r kind h21f
      (by rw [next_tok_force_peek]; exact hk) (by rw [advance_force_peek]; exact hr) h22 hp
    refine ⟨_diff_loc (start_after (start_after l1 s1) s2) (force_peek s2).yylloc,
      N0 + N + 1, fun f hf h l => ?_⟩
    obtain ⟨k, rfl⟩ := Nat.exists_eq_add_of_le hf
    have e : N0 + N + 1 + k = (N0 + N + k) + 1 := by omega
    rw [e, hpre (N0 + N + k) (by omega) h l]
    rcases hk with ⟨hnt, _⟩ | ⟨hnt, _⟩ <;>
    simp only [bind, StateT.bind, peek_app _ _ s1 h21, hnt, Except.bind,
      hN (N0 + N + k) (by omega), start_after_force_peek, set_frame_set_frame]
  · refine ⟨N0 + 1, fun f hf h l => ?_⟩
    obtain ⟨k, rfl⟩ := Nat.exists_eq_add_of_le hf
    have e : N0 + 1 + k = (N0 + k) + 1 := by omega
    rw [e, hpre (N0 + k) (by omega) h l]
    simp only [bind, StateT.bind, peek_app _ _ s1 h21, Except.bind]
    generalize hq : next_tok s1 = q at hn
    cases q <;> simp at hn <;>
    simp only [expect_app _ _ _ (force_peek s1) h21f, bind, StateT.bind, Except.bind, pure,
      StateT.pure, Except.pure, mismatch_force_peek, set_frame_set_frame]
  · rfl
  · have hv : (mismatch s1).peek_valid = true := force_peek_valid s1
    have hfm : force_peek (mismatch s1) = mismatch s1 := by
      unfold force_peek
      rw [if_pos hv]
    show (force_peek (mismatch s1)).peek_tok = (force_peek s1).peek_tok
    rw [hfm]
    rfl
  · rfl
  · simp [mismatch]

theorem ex_call_first : parses p_expression (after_lparen "f" ex_n0) (ex_parsed_int 1 3) ex_n1 := by
  have hf := p_factor_int_literal (after_lparen "f" ex_n0) rfl rfl (by decide)
  have he := p_expression_of_factor _ _ _ hf rfl (by decide)
  simpa only [force_peek_idem] using he

theorem ex_call_second : parses p_expression (advance ex_n1) (ex_parsed_int 2 6) ex_n2 := by
  have hf := p_factor_int_literal (advance ex_n1) rfl rfl (by decide)
  have he := p_expression_of_factor _ _ _ hf rfl (by decide)
  simpa only [force_peek_idem] using he

/-- C18 at the tokens of `f ( 1 , 2 )`: a function call with the positional
parameters 1 and 2, all six tokens consumed. -/
theorem p_name_disambiguation_witness :
    ∃ loc, parses p_name ex_n0
      (.T_FCALL loc none none none
        [.mk .P_POS (ex_parsed_int 1 3), .mk .P_POS (ex_parsed_int 2 6)])
      (advance ex_n2) :=
  (p_name_disambiguation ex_n0 ex_n1 "f" (ex_parsed_int 1 3) rfl rfl rfl rfl ex_call_first
    rfl).1 [⟨ex_parsed_int 2 6, ex_n2⟩] ⟨rfl, rfl, ex_call_second, rfl, rfl⟩

/-! ### Aggregates and leaves of the evaluator -/

theorem agg_loop_unkeyed : ∀ (assocs : List assoc_t) (low high : Int),
    folded_agg_assocs assocs = true → (∃ a ∈ assocs, assoc_unkeyed a = true) →
    simp_fcall_agg_loop assocs low high = .error (.assert_failed "false") := by
  intro assocs
  induction assocs with
  | nil => intro _ _ _ ⟨a, ha, _⟩; cases ha
  | cons a rest ih =>
    intro low high hf ⟨x, hx, hu⟩
    cases a with
    | A_POS v => rfl
    | A_OTHERS v => rfl
    | A_NAMED name v =>
      have hx2 : ∃ a ∈ rest, assoc_unkeyed a = true := by
        rcases List.mem_cons.1 hx with rfl | h
        · cases hu
        · exact ⟨x, h, hu⟩
      simp only [folded_agg_assocs] at hf
      cases name <;> simp [folded_int, tree_kind] at hf
      rename_i l ty lit
      obtain ⟨hl, hr⟩ := hf
      cases lit with
      | none => simp [tree_literal] at hl
      | some lit =>
        cases lit <;> simp [tree_literal] at hl
        simp [simp_fcall_agg_loop, assume_int, tree_literal, bind, Except.bind, ih _ _ hr hx2]
    | A_RANGE range v =>
      have hx2 : ∃ a ∈ rest, assoc_unkeyed a = true := by
        rcases List.mem_cons.1 hx with rfl | h
        · cases hu
        · exact ⟨x, h, hu⟩
      obtain ⟨kind, left, right⟩ := range
      simp only [folded_agg_assocs] at hf
      cases left <;> simp [folded_int, tree_kind] at hf
      rename_i l1 ty1 lit1
      cases right <;> simp [folded_int, tree_kind] at hf
      rename_i l2 ty2 lit2
      obtain ⟨⟨hl, hr⟩, hrest⟩ := hf
      cases lit1 with
      | none => simp [tree_literal] at hl
      | some lit1 =>
        cases lit1 <;> simp [tree_literal] at hl
        cases lit2 with
        | none => simp [tree_literal] at hr
        | some lit2 =>
          cases lit2 <;> simp [tree_literal] at hr
          simp [simp_fcall_agg_loop, range_bounds, assume_int, tree_literal, bind, Except.bind,
            pure, Except.pure, ih _ _ hrest hx2]

/-- C26 (amended): for every foldable aggregate that holds a positional or
others association, eval of agg_low and of agg_high on it does not return:
folded_agg accepts such associations, and the loop of simp_fcall_agg fails
its assertion at the first of them, whatever keyed associations the
aggregate also holds. -/
theorem eval_agg_unkeyed_asserts (loc : loc_t) (id : Option ident_t)
    (ty : Option type_t) (dloc : loc_t) (did : ident_t) (dty : Option type_t)
    (dports : List tree_t) (dattrs : attrs_t) (bn : ident_t) (aloc : loc_t)
    (assocs : List assoc_t)
    (hbn : tree_attr_str (.T_FUNC_DECL dloc did dty dports dattrs) builtin_i = some bn)
    (hb : bn = "agg_low" ∨ bn = "agg_high")
    (hf : folded_agg (.T_AGGREGATE aloc assocs) = true)
    (hu : ∃ a ∈ assocs, assoc_unkeyed a = true) (k : Nat) :
    eval (k + 2)
        (.T_FCALL loc id (some (.T_FUNC_DECL dloc did dty dports dattrs)) ty
          [.mk .P_POS (.T_AGGREGATE aloc assocs)])
      = .error (.assert_failed "false") := by
  have hfa : folded_agg_assocs assocs = true := by
    simpa [folded_agg, tree_kind, tree_assocs] using hf
  have hl := agg_loop_unkeyed assocs INT64_MAX INT64_MIN hfa hu
  rcases hb with rfl | rfl <;>
  simp [eval, tree_kind, eval_fcall, tree_ref, hbn, MAX_BUILTIN_ARGS,
    tree_params, fold_args, eval_expr, eval_aggregate, folded_agg,
    tree_assocs, hfa, fold_arg, folded_int, folded_bool, folded_real,
    simp_fcall_agg, icmp, hl, bind, Except.bind, pure, Except.pure]

/-- C26 at the aggregates (1 => 'a', 'b') and (3 => 'a', others => 'b'). -/
theorem eval_agg_unkeyed_asserts_witness :
    eval 2 (ex_call "agg_low" ex_integer [ex_agg_mixed]) = .error (.assert_failed "false") ∧
    eval 2 (ex_call "agg_high" ex_integer [ex_agg_others]) = .error (.assert_failed "false") :=
  ⟨eval_agg_unkeyed_asserts ex_loc (some "agg_low") (some ex_integer) ex_loc "agg_low"
      (some (.mk .T_OTHER none (some ex_integer) [] none none)) []
      [(builtin_i, .A_STRING "agg_low")] "agg_low" ex_loc (tree_assocs ex_agg_mixed) rfl
      (Or.inl rfl) rfl ⟨.A_POS (ex_chr "'b'"), by simp [tree_assocs, ex_agg_mixed], rfl⟩ 0,
   eval_agg_unkeyed_asserts ex_loc (some "agg_high") (some ex_integer) ex_loc "agg_high"
      (some (.mk .T_OTHER none (some ex_integer) [] none none)) []
      [(builtin_i, .A_STRING "agg_high")] "agg_high" ex_loc (tree_assocs ex_agg_others) rfl
      (Or.inr rfl) rfl ⟨.A_OTHERS (ex_chr "'b'"), by simp [tree_assocs, ex_agg_others], rfl⟩ 0⟩

theorem ex_agg_mixed_fails (k : Nat) :
    eval (k + 2) (ex_call "agg_low" ex_integer [ex_agg_mixed])
      = .error (.assert_failed "false") :=
  rfl

/-- C26 as stated fails at the aggregate (1 => 'a', 'b'), which is foldable
and holds the named key 1: agg_low on it does not fold to 1, the assertion
of the default case fails. -/
theorem eval_agg_positional_asserts :
    folded_agg ex_agg_mixed = true ∧
    eval 2 (ex_call "agg_low" ex_integer [ex_agg_mixed]) = .error (.assert_failed "false") ∧
    eval 1000 (ex_call "agg_low" ex_integer [ex_agg_mixed])
      = .error (.assert_failed "false") ∧
    eval 1000 (ex_call "agg_low" ex_integer [ex_agg_mixed]) ≠ .ok (ex_int 1) :=
  ⟨rfl, ex_agg_mixed_fails 0, ex_agg_mixed_fails 998,
    by rw [ex_agg_mixed_fails 998]; exact fun h => nomatch h⟩

/-- C27 (the code departs from the claim): inside the body of h the variable
a is bound to the aggregate (1 => 'a', 5 to 7 => 'b', 3 => 'c'), and the
argument a of agg_low evaluates to it; simp_fcall_agg reads the associations
of the argument node of the call, the reference, not of the value it
evaluated to, so its loop runs over nothing and the call folds to the start
value INT64_MAX of low (INT64_MIN of high for agg_high), not to the keys 1
and 7.  The same holds for the argument g(), a call that folds to that
aggregate. -/
theorem eval_agg_of_reference (k : Nat) :
    eval (k + 7) (h_call "agg_low") = .ok (ex_int INT64_MAX) ∧
    eval (k + 7) (h_call "agg_high") = .ok (ex_int INT64_MIN) ∧
    eval (k + 7) (ex_call "agg_low" ex_integer [g_call]) = .ok (ex_int INT64_MAX) ∧
    eval (k + 2) (ex_call "agg_low" ex_integer [ex_agg]) = .ok (ex_int 1) ∧
    eval (k + 2) (ex_call "agg_high" ex_integer [ex_agg]) = .ok (ex_int 7) :=
  ⟨rfl, rfl, rfl, rfl, rfl⟩

theorem is_int_literal_folded_int (t : tree_t) : (folded_int t).1 = is_int_literal t := by
  cases t <;> simp [folded_int, tree_kind, is_int_literal]
  rename_i l ty lit
  cases lit with
  | none => simp [tree_literal]
  | some lit => cases lit <;> simp [tree_literal]

theorem folded_agg_assocs_keys (assocs : List assoc_t) :
    folded_agg_assocs assocs = keys_are_int_literals assocs := by
  induction assocs with
  | nil => rfl
  | cons a rest ih =>
    unfold keys_are_int_literals at ih ⊢
    cases a with
    | A_POS v => simp [folded_agg_assocs, ih]
    | A_OTHERS v => simp [folded_agg_assocs, ih]
    | A_NAMED name v =>
      simp only [folded_agg_assocs, is_int_literal_folded_int, ih, List.all_cons]
      cases is_int_literal name <;> simp
    | A_RANGE range v =>
      obtain ⟨kind, left, right⟩ := range
      simp only [folded_agg_assocs, is_int_literal_folded_int, ih, List.all_cons]
      cases is_int_literal left <;> cases is_int_literal right <;> simp

theorem vtframe_get_unbound (v : vtable_t) (name : vtkey_t) :
    vtframe_get v name = none ↔ unbound v name := by
  induction v with
  | nil => simp [vtframe_get, unbound]
  | cons f down ih =>
    unfold vtframe_get
    cases hf : f.find? (fun b => decide (b.1 = name)) with
    | some b =>
      simp only [unbound, List.mem_cons, forall_eq_or_imp]
      have hm := List.mem_of_find?_eq_some hf
      have hp := List.find?_some hf
      simp at hp
      constructor
      · intro h; cases h
      · intro h; exact absurd hp (h.1 b hm)
    | none =>
      simp only [unbound, List.mem_cons, forall_eq_or_imp]
      rw [ih]
      have hn := List.find?_eq_none.1 hf
      constructor
      · intro h
        exact ⟨fun c hc => by simpa using hn c hc, h⟩
      · intro h; exact h.2

theorem vtframe_get_nearest (v : vtable_t) (name : vtkey_t) (b : vtkey_t × tree_t)
    (h : nearest_binding v name b) : vtframe_get v name = some b.2 := by
  obtain ⟨above, f, below, rfl, ha, pre, post, rfl, hb, hpre⟩ := h
  induction above with
  | nil =>
    simp only [List.nil_append, vtframe_get]
    have : List.find? (fun c => decide (c.1 = name)) (pre ++ b :: post) = some b := by
      rw [List.find?_append]
      have h1 : List.find? (fun c => decide (c.1 = name)) pre = none :=
        List.find?_eq_none.2 (fun c hc => by simpa using hpre c hc)
      rw [h1]
      simp [hb]
    rw [this]
  | cons g rest ih =>
    simp only [List.cons_append, vtframe_get]
    have h1 : List.find? (fun c => decide (c.1 = name)) g = none :=
      List.find?_eq_none.2 (fun c hc => by simpa using ha g (List.mem_cons_self _ _) c hc)
    rw [h1]
    exact ih (fun g2 hg2 => ha g2 (List.mem_cons_of_mem _ hg2))

theorem frame_first_binding (name : vtkey_t) (f : vtframe_t) :
    (∀ c ∈ f, c.1 ≠ name) ∨
    ∃ pre b post, f = pre ++ b :: post ∧ b.1 = name ∧ ∀ c ∈ pre, c.1 ≠ name := by
  induction f with
  | nil => exact Or.inl (fun c hc => by cases hc)
  | cons a rest ih =>
    by_cases ha : a.1 = name
    · exact Or.inr ⟨[], a, rest, rfl, ha, fun c hc => by cases hc⟩
    · rcases ih with h | ⟨pre, b, post, rfl, hb, hpre⟩
      · left
        intro c hc
        rcases List.mem_cons.1 hc with rfl | hc
        · exact ha
        · exact h c hc
      · right
        refine ⟨a :: pre, b, post, rfl, hb, fun c hc => ?_⟩
        rcases List.mem_cons.1 hc with rfl | hc
        · exact ha
        · exact hpre c hc

theorem unbound_or_nearest (name : vtkey_t) (v : vtable_t) :
    unbound v name ∨ ∃ b, nearest_binding v name b := by
  induction v with
  | nil => exact Or.inl (fun f hf => by cases hf)
  | cons f down ih =>
    rcases frame_first_binding name f with hf | ⟨pre, b, post, rfl, hb, hpre⟩
    · rcases ih with h | ⟨b, above, g, below, rfl, ha, hg⟩
      · left
        intro g hg
        rcases List.mem_cons.1 hg with rfl | hg
        · exact hf
        · exact h g hg
      · right
        refine ⟨b, f :: above, g, below, rfl, fun g2 hg2 => ?_, hg⟩
        rcases List.mem_cons.1 hg2 with rfl | hg2
        · exact hf
        · exact ha g2 hg2
    · exact Or.inr ⟨b, [], _, down, rfl, (fun g hg => by cases hg), pre, post, rfl, hb, hpre⟩

/-- C28: eval_expr on a node that is not a call.  A literal is returned as
the same node.  A reference whose referent has the identifier i returns the
value of the binding of i in the nearest frame that binds i, and is fatal
exactly when no frame binds i.  An aggregate is returned as the same node
when every named key and every range endpoint in it is an integer literal
and is fatal otherwise.  A node of any other kind is fatal.  The value-table
is left as it was. -/
theorem eval_expr_leaf (k : Nat) (v : vtable_t) :
    (∀ t, tree_kind t = .T_LITERAL → eval_expr (k + 1) t v = .ok (t, v)) ∧
    (∀ loc id decl ty i, tree_ident decl = some i →
      (∀ b, nearest_binding v (some i) b →
        eval_expr (k + 1) (.T_REF loc id (some decl) ty) v = .ok (b.2, v)) ∧
      (eval_expr (k + 1) (.T_REF loc id (some decl) ty) v
          = .error (.fatal loc "cannot constant fold reference") ↔ unbound v (some i)) ∧
      (unbound v (some i) ∨ ∃ b, nearest_binding v (some i) b)) ∧
    (∀ loc assocs,
      eval_expr (k + 1) (.T_AGGREGATE loc assocs) v =
        if keys_are_int_literals assocs then .ok (.T_AGGREGATE loc assocs, v)
        else .error (.fatal loc "aggregate is not constant")) ∧
    (∀ t, tree_kind t ∉ [tree_kind_t.T_FCALL, .T_REF, .T_AGGREGATE, .T_LITERAL] →
      eval_expr (k + 1) t v = .error (.fatal (tree_loc t) "cannot evaluate expression %s")) := by
  refine ⟨fun t ht => ?_, fun loc id decl ty i hi => ⟨fun b hb => ?_, ?_, ?_⟩,
    fun loc assocs => ?_, fun t ht => ?_⟩
  · simp [eval_expr, ht]
  · simp [eval_expr, tree_kind, eval_ref, tree_ref, tree_ident_key, hi, vtable_get,
      vtframe_get_nearest v (some i) b hb, bind, Except.bind, pure, Except.pure]
  · rw [← vtframe_get_unbound]
    cases hg : vtframe_get v (some i) <;>
    simp [eval_expr, tree_kind, eval_ref, tree_ref, tree_ident_key, hi, vtable_get, hg,
      tree_loc, bind, Except.bind, pure, Except.pure]
  · exact unbound_or_nearest (some i) v
  · rw [← folded_agg_assocs_keys]
    cases hf : folded_agg_assocs assocs <;>
    simp [eval_expr, tree_kind, eval_aggregate, folded_agg, tree_assocs, hf, tree_loc,
      bind, Except.bind, pure, Except.pure]
  · cases t <;> simp [tree_kind] at ht <;> simp [eval_expr, tree_kind]

/-- C28 at a value-table of two frames in which y is bound in the lower
frame only and x in both: the reference to x yields the binding of the upper
frame, the reference to y the one of the lower frame, a reference to z is
fatal; a literal and the aggregate (1 => 'a', 5 to 7 => 'b', 3 => 'c') are
returned as they are. -/
theorem eval_expr_leaf_witness :
    eval_expr 1 (ex_int 4) [f_frame (ex_int 1) (ex_int 2)]
      = .ok (ex_int 4, [f_frame (ex_int 1) (ex_int 2)]) ∧
    eval_expr 1 f_ref_x [[(some "x", ex_int 5)], f_frame (ex_int 1) (ex_int 2)]
      = .ok (ex_int 5, [[(some "x", ex_int 5)], f_frame (ex_int 1) (ex_int 2)]) ∧
    eval_expr 1 f_ref_y [[(some "x", ex_int 5)], f_frame (ex_int 1) (ex_int 2)]
      = .ok (ex_int 2, [[(some "x", ex_int 5)], f_frame (ex_int 1) (ex_int 2)]) ∧
    eval_expr 1 (.T_REF ex_loc (some "z") (some (.T_VAR_DECL ex_loc "z" none none)) none)
        [[(some "x", ex_int 5)], f_frame (ex_int 1) (ex_int 2)]
      = .error (.fatal ex_loc "cannot constant fold reference") ∧
    eval_expr 1 ex_agg [] = .ok (ex_agg, []) :=
  ⟨(eval_expr_leaf 0 _).1 (ex_int 4) rfl,
   ((eval_expr_leaf 0 _).2.1 ex_loc (some "x") f_port_x (some ex_integer) "x" rfl).1
     (some "x", ex_int 5)
     ⟨[], [(some "x", ex_int 5)], [f_frame (ex_int 1) (ex_int 2)], rfl,
       (fun g hg => by cases hg), [], [], rfl, rfl, (fun c hc => by cases hc)⟩,
   ((eval_expr_leaf 0 _).2.1 ex_loc (some "y") f_var_y (some ex_integer) "y" rfl).1
     (some "y", ex_int 2)
     ⟨[[(some "x", ex_int 5)]], f_frame (ex_int 1) (ex_int 2), [], rfl,
       (by simp), [(some "x", ex_int 1)], [], rfl, rfl, (by simp)⟩,
   ((eval_expr_leaf 0 _).2.1 ex_loc (some "z") (.T_VAR_DECL ex_loc "z" none none) none "z"
     rfl).2.1.2 (by
       simp only [unbound, f_frame, List.mem_cons, List.mem_singleton, List.not_mem_nil,
         or_false]
       rintro f (rfl | rfl) c hc
       · simp at hc; subst hc; simp
       · simp at hc; rcases hc with rfl | rfl <;> simp),
   (eval_expr_leaf 0 []).2.2.1 ex_loc (tree_assocs ex_agg)⟩

/-! ### Function bodies and frame balance -/

theorem same_below_refl (v : vtable_t) : same_below v v := ⟨rfl, rfl⟩

theorem same_below_trans {a b c : vtable_t} (h1 : same_below a b) (h2 : same_below b c) :
    same_below a c :=
  ⟨h2.1.trans h1.1, h2.2.trans h1.2⟩

theorem same_below_pop (v w v4 : vtable_t) (h : same_below (vtable_push v) w)
    (hp : vtable_pop w = .ok v4) : v4 = v := by
  cases w with
  | nil => cases hp
  | cons f down =>
    simp only [vtable_pop, Except.ok.injEq] at hp
    have := h.1
    simp only [vtable_push, List.tail_cons] at this
    rw [← hp, this]

theorem same_below_pop_ok (v w : vtable_t) (h : same_below (vtable_push v) w) :
    vtable_pop w = .ok v := by
  cases w with
  | nil => have := h.2; simp [vtable_push] at this
  | cons f down =>
    have := h.1
    simp only [vtable_push, List.tail_cons] at this
    simp [vtable_pop, this]

theorem vtable_bind_below (v : vtable_t) (name : vtkey_t) (value : tree_t) (v2 : vtable_t)
    (h : vtable_bind v name value = .ok v2) : same_below v v2 := by
  unfold vtable_bind at h
  split at h
  · cases h; exact same_below_refl _
  · split at h
    · cases h; exact ⟨rfl, rfl⟩
    · split at h
      · cases h; exact ⟨rfl, rfl⟩
      · cases h

theorem bind_ports_below (t : tree_t) : ∀ (ports : List tree_t) (i : Nat) (v v2 : vtable_t),
    bind_ports ports i t v = .ok (some v2) → same_below v v2 := by
  intro ports
  induction ports with
  | nil =>
    intro i v v2 h
    simp only [bind_ports, Except.ok.injEq, Option.some.injEq] at h
    subst h
    exact same_below_refl _
  | cons port rest ih =>
    intro i v v2 h
    unfold bind_ports at h
    split at h
    · cases h
    · split at h
      · cases h
      · obtain ⟨key, _, h⟩ := bind_ok _ _ _ h
        obtain ⟨w, hw, h⟩ := bind_ok _ _ _ h
        exact same_below_trans (vtable_bind_below _ _ _ _ hw) (ih _ _ _ h)

theorem fold_args_same (ev : tree_t → vtable_t → eval_m (tree_t × vtable_t))
    (hev : ∀ e w r w2, ev e w = .ok (r, w2) → w2 = w) :
    ∀ (ps : List param_t) (a : fold_args_t) (v : vtable_t) (a2 : fold_args_t) (v2 : vtable_t),
      fold_args ev ps a v = .ok (a2, v2) → v2 = v := by
  intro ps
  induction ps with
  | nil =>
    intro a v a2 v2 h
    simp only [fold_args, Except.ok.injEq, Prod.mk.injEq] at h
    exact h.2.symm
  | cons p rest ih =>
    intro a v a2 v2 h
    obtain ⟨kind, value⟩ := p
    unfold fold_args at h
    split at h
    · cases h
    · obtain ⟨⟨val, w⟩, hw, h1⟩ := bind_ok _ _ _ h
      obtain ⟨a3, _, h2⟩ := bind_ok _ _ _ h1
      have hv := hev _ _ _ _ hw
      rw [hv] at h2
      exact ih _ _ _ _ h2

theorem eval_decls_below (ev : tree_t → vtable_t → eval_m (tree_t × vtable_t))
    (hev : ∀ e w r w2, ev e w = .ok (r, w2) → w2 = w) :
    ∀ (ds : List tree_t) (v v2 : vtable_t), eval_decls ev ds v = .ok v2 → same_below v v2 := by
  intro ds
  induction ds with
  | nil =>
    intro v v2 h
    simp only [eval_decls, Except.ok.injEq] at h
    subst h
    exact same_below_refl _
  | cons d rest ih =>
    intro v v2 h
    unfold eval_decls at h
    split at h
    · split at h
      · cases h
      · obtain ⟨⟨val, w⟩, hw, h1⟩ := bind_ok _ _ _ h
        obtain ⟨key, _, h2⟩ := bind_ok _ _ _ h1
        obtain ⟨w3, hw3, h3⟩ := bind_ok _ _ _ h2
        have hv := hev _ _ _ _ hw
        rw [hv] at hw3
        exact same_below_trans (vtable_bind_below _ _ _ _ hw3) (ih _ _ h3)
    · exact ih _ _ h

theorem eval_stmts_below (st : tree_t → vtable_t → eval_m vtable_t)
    (hst : ∀ s w w2, st s w = .ok w2 → same_below w w2) :
    ∀ (ss : List tree_t) (v v2 : vtable_t), eval_stmts st ss v = .ok v2 → same_below v v2 := by
  intro ss
  induction ss with
  | nil =>
    intro v v2 h
    simp only [eval_stmts, Except.ok.injEq] at h
    subst h
    exact same_below_refl _
  | cons s rest ih =>
    intro v v2 h
    unfold eval_stmts at h
    obtain ⟨w, hw, h⟩ := bind_ok _ _ _ h
    exact same_below_trans (hst _ _ _ hw) (ih _ _ h)

theorem eval_body_stmts_below (st : tree_t → vtable_t → eval_m vtable_t)
    (hst : ∀ s w w2, st s w = .ok w2 → same_below w w2) :
    ∀ (ss : List tree_t) (v v2 : vtable_t),
      eval_body_stmts st ss v = .ok v2 → same_below v v2 := by
  intro ss
  induction ss with
  | nil =>
    intro v v2 h
    simp only [eval_body_stmts, Except.ok.injEq] at h
    subst h
    exact same_below_refl _
  | cons s rest ih =>
    intro v v2 h
    unfold eval_body_stmts at h
    obtain ⟨w, hw, h⟩ := bind_ok _ _ _ h
    split at h
    · cases h; exact hst _ _ _ hw
    · exact same_below_trans (hst _ _ _ hw) (ih _ _ h)

theorem balanced_zero : balanced 0 where
  expr := fun t v r v2 h => by simp [eval_expr] at h
  fcall := fun t v r v2 h => by simp [eval_fcall] at h
  body := fun t v v2 h => by simp [eval_func_body] at h
  stmt := fun t v v2 h => by simp [eval_stmt] at h
  ret := fun t v v2 h => by simp [eval_return] at h
  cond := fun t v v2 h => by simp [eval_if] at h
  loop := fun t v v2 h => by simp [eval_while] at h
  assign := fun t v v2 h => by simp [eval_var_assign] at h

theorem balanced_expr (fuel : Nat) (ih : balanced fuel) (t : tree_t) (v : vtable_t)
    (r : tree_t) (v2 : vtable_t) (h : eval_expr (fuel + 1) t v = .ok (r, v2)) : v2 = v := by
  rw [eval_expr] at h
  split at h
  · exact ih.fcall _ _ _ _ h
  · obtain ⟨x, _, h1⟩ := bind_ok _ _ _ h
    cases h1; rfl
  · obtain ⟨x, _, h1⟩ := bind_ok _ _ _ h
    cases h1; rfl
  · cases h; rfl
  · cases h

theorem balanced_body (fuel : Nat) (ih : balanced fuel) (t : tree_t) (v v2 : vtable_t)
    (h : eval_func_body (fuel + 1) t v = .ok v2) : same_below v v2 := by
  rw [eval_func_body] at h
  obtain ⟨w, hw, h1⟩ := bind_ok _ _ _ h
  exact same_below_trans (eval_decls_below _ (fun e w r w2 => ih.expr e w r w2) _ _ _ hw)
    (eval_body_stmts_below _ (fun s w w2 => ih.stmt s w w2) _ _ _ h1)

theorem balanced_fcall (fuel : Nat) (ih : balanced fuel) (t : tree_t) (v : vtable_t)
    (r : tree_t) (v2 : vtable_t) (h : eval_fcall (fuel + 1) t v = .ok (r, v2)) : v2 = v := by
  rw [eval_fcall] at h
  split at h
  · cases h
  · split at h
    · cases h
    · split at h
      · split at h
        · cases h; rfl
        · obtain ⟨o, ho, h1⟩ := bind_ok _ _ _ h
          cases o with
          | none =>
            obtain ⟨v4, hp, h2⟩ := bind_ok _ _ _ h1
            cases h2
            simpa [vtable_pop, vtable_push] using hp.symm
          | some w =>
            obtain ⟨w3, hb, h2⟩ := bind_ok _ _ _ h1
            obtain ⟨v4, hp, h3⟩ := bind_ok _ _ _ h2
            have hs := same_below_trans (bind_ports_below _ _ _ _ _ ho) (ih.body _ _ _ hb)
            have hv := same_below_pop _ _ _ hs hp
            subst hv
            split at h3
            · cases h3; rfl
            · obtain ⟨b, _, h4⟩ := bind_ok _ _ _ h3
              split at h4 <;> (cases h4; rfl)
      · split at h
        · cases h; rfl
        · obtain ⟨⟨a, w⟩, ha, h1⟩ := bind_ok _ _ _ h
          have hv := fold_args_same _ (fun e w r w2 => ih.expr e w r w2) _ _ _ _ _ ha
          subst hv
          simp only at h1
          split at h1
          · obtain ⟨x, _, h2⟩ := bind_ok _ _ _ h1
            cases h2; rfl
          · split at h1
            · obtain ⟨x, _, h2⟩ := bind_ok _ _ _ h1
              cases h2; rfl
            · split at h1
              · obtain ⟨x, _, h2⟩ := bind_ok _ _ _ h1
                cases h2; rfl
              · split at h1
                · obtain ⟨x, _, h2⟩ := bind_ok _ _ _ h1
                  cases h2; rfl
                · cases h1; rfl

theorem balanced_ret (fuel : Nat) (ih : balanced fuel) (t : tree_t) (v v2 : vtable_t)
    (h : eval_return (fuel + 1) t v = .ok v2) : same_below v v2 := by
  rw [eval_return] at h
  split at h
  · obtain ⟨⟨val, w⟩, hw, h1⟩ := bind_ok _ _ _ h
    have hv := ih.expr _ _ _ _ hw
    subst hv
    exact vtable_bind_below _ _ _ _ h1
  · cases h; exact same_below_refl _

theorem balanced_cond (fuel : Nat) (ih : balanced fuel) (t : tree_t) (v v2 : vtable_t)
    (h : eval_if (fuel + 1) t v = .ok v2) : same_below v v2 := by
  rw [eval_if] at h
  split at h
  · cases h
  · obtain ⟨⟨c, w⟩, hw, h1⟩ := bind_ok _ _ _ h
    have hv := ih.expr _ _ _ _ hw
    subst hv
    obtain ⟨b, _, h2⟩ := bind_ok _ _ _ h1
    split at h2
    · cases h2
    · split at h2 <;> exact eval_stmts_below _ (fun s w w2 => ih.stmt s w w2) _ _ _ h2

theorem balanced_loop (fuel : Nat) (ih : balanced fuel) (t : tree_t) (v v2 : vtable_t)
    (h : eval_while (fuel + 1) t v = .ok v2) : same_below v v2 := by
  rw [eval_while] at h
  split at h
  · cases h
  · obtain ⟨⟨c, w⟩, hw, h1⟩ := bind_ok _ _ _ h
    have hv := ih.expr _ _ _ _ hw
    subst hv
    obtain ⟨b, _, h2⟩ := bind_ok _ _ _ h1
    split at h2
    · cases h2
    · split at h2
      · cases h2; exact same_below_refl _
      · obtain ⟨w3, h3, h4⟩ := bind_ok _ _ _ h2
        exact same_below_trans (eval_stmts_below _ (fun s w w2 => ih.stmt s w w2) _ _ _ h3)
          (ih.loop _ _ _ h4)

theorem balanced_assign (fuel : Nat) (ih : balanced fuel) (t : tree_t) (v v2 : vtable_t)
    (h : eval_var_assign (fuel + 1) t v = .ok v2) : same_below v v2 := by
  cases t
  case T_VAR_ASSIGN l i target value =>
    rw [eval_var_assign] at h
    split at h
    · cases h
    · obtain ⟨⟨u, w⟩, hw, h1⟩ := bind_ok _ _ _ h
      have hv := ih.expr _ _ _ _ hw
      subst hv
      obtain ⟨b, _, h2⟩ := bind_ok _ _ _ h1
      split at h2
      · cases h2
      · split at h2
        · cases h2
        · obtain ⟨key, _, h3⟩ := bind_ok _ _ _ h2
          exact vtable_bind_below _ _ _ _ h3
  all_goals simp [eval_var_assign] at h

theorem balanced_stmt (fuel : Nat) (ih : balanced fuel) (t : tree_t) (v v2 : vtable_t)
    (h : eval_stmt (fuel + 1) t v = .ok v2) : same_below v v2 := by
  rw [eval_stmt] at h
  split at h
  · exact ih.ret _ _ _ h
  · exact ih.loop _ _ _ h
  · exact ih.cond _ _ _ h
  · exact ih.assign _ _ _ h
  · cases h

theorem eval_balanced : ∀ fuel, balanced fuel := by
  intro fuel
  induction fuel with
  | zero => exact balanced_zero
  | succ n ih =>
    exact
      { expr := balanced_expr n ih
        fcall := balanced_fcall n ih
        body := balanced_body n ih
        stmt := balanced_stmt n ih
        ret := balanced_ret n ih
        cond := balanced_cond n ih
        loop := balanced_loop n ih
        assign := balanced_assign n ih }

/-- C30: frame balance.  Whenever eval_fcall or eval_expr returns, whether
the call was folded, declined or ended by an early return, the value-table
it returns is the one it was given: the same frames with the same bindings.
A function body, run between the push and the pop of eval_fcall, returns a
table that differs from the one it was given in the top frame at most. -/
theorem eval_fcall_frame_balance (fuel : Nat) (t r : tree_t) (v v2 : vtable_t) :
    (eval_fcall fuel t v = .ok (r, v2) → v2 = v) ∧
    (eval_expr fuel t v = .ok (r, v2) → v2 = v) ∧
    (eval_func_body fuel t v = .ok v2 → v2.tail = v.tail ∧ v2.length = v.length) :=
  ⟨(eval_balanced fuel).fcall t v r v2, (eval_balanced fuel).expr t v r v2,
    (eval_balanced fuel).body t v v2⟩

theorem ex_balance_folded :
    eval_fcall 2 ex_add_1_2 ex_table = .ok (ex_int 3, ex_table) := rfl

theorem ex_balance_declined :
    eval_fcall 1 (f_call ex_agg) ex_table = .ok (f_call ex_agg, ex_table) := rfl

theorem ex_balance_early :
    eval_fcall 5 (ex_body_call [ex_return 1, ex_return 2]) ex_table
      = .ok (ex_int 1, ex_table) := rfl

/-- C30 at a table of one caller frame, for a folded call, a declined call
and a call ended by an early return. -/
theorem eval_fcall_frame_balance_witness :
    (eval_fcall 2 ex_add_1_2 ex_table = .ok (ex_int 3, ex_table) ∧ ex_table = ex_table) ∧
    (eval_fcall 1 (f_call ex_agg) ex_table = .ok (f_call ex_agg, ex_table) ∧
      ex_table = ex_table) ∧
    (eval_fcall 5 (ex_body_call [ex_return 1, ex_return 2]) ex_table
        = .ok (ex_int 1, ex_table) ∧ ex_table = ex_table) :=
  ⟨⟨ex_balance_folded,
     (eval_fcall_frame_balance 2 ex_add_1_2 (ex_int 3) ex_table ex_table).1 ex_balance_folded⟩,
   ⟨ex_balance_declined,
     (eval_fcall_frame_balance 1 (f_call ex_agg) (f_call ex_agg) ex_table ex_table).1
       ex_balance_declined⟩,
   ⟨ex_balance_early,
     (eval_fcall_frame_balance 5 (ex_body_call [ex_return 1, ex_return 2]) (ex_int 1)
       ex_table ex_table).1 ex_balance_early⟩⟩

theorem eval_body_stmts_stops (st : tree_t → vtable_t → eval_m vtable_t)
    (sk : tree_t) (post : List tree_t) (w w2 : vtable_t) (r : tree_t)
    (hk : st sk w = .ok w2) (hr : vtable_get w2 result_i = some r) :
    ∀ (pre : List tree_t) (v : vtable_t), runs_unset st pre v w →
      eval_body_stmts st (pre ++ sk :: post) v = .ok w2 := by
  intro pre
  induction pre with
  | nil =>
    intro v hv
    simp only [runs_unset] at hv
    subst hv
    simp [eval_body_stmts, hk, hr, bind, Except.bind, pure, Except.pure]
  | cons s rest ih =>
    intro v hv
    obtain ⟨v2, h1, h2, h3⟩ := hv
    simp [eval_body_stmts, h1, h2, ih v2 h3, bind, Except.bind]

theorem bind_ports_params (t t2 : tree_t) (hp : tree_params t = tree_params t2) :
    ∀ (ports : List tree_t) (i : Nat) (v : vtable_t),
      bind_ports ports i t v = bind_ports ports i t2 v := by
  intro ports
  induction ports with
  | nil => intro i v; rfl
  | cons p rest ih =>
    intro i v
    unfold bind_ports
    rw [hp]
    split
    · rfl
    · split
      · rfl
      · cases tree_ident_key p with
        | error e => rfl
        | ok key =>
          simp only [bind, Except.bind]
          cases vtable_bind v key _ with
          | error e => rfl
          | ok v2 => exact ih _ _

/-- C29: execution of a function body stops at the first top-level statement
after which a result binding is visible in the value-table, the frames of the
callers included.  For a body without builtin attribute whose statements are
pre, sk, post: when the statements of pre run without leaving a result
binding visible and sk leaves the result r, the body returns the table that
sk left, whatever post holds, and the call folds to r when r is folded (and
is returned unchanged when r is not). -/
theorem eval_body_stops_at_result (fuel : Nat) (loc : loc_t) (id : Option ident_t)
    (ty : Option type_t) (params : List param_t) (dloc : loc_t) (did : ident_t)
    (dty : Option type_t) (dports ddecls pre post : List tree_t) (sk : tree_t)
    (dattrs : attrs_t) (v v2 v3 w w2 : vtable_t) (r : tree_t)
    (hb : tree_attr_str (.T_FUNC_BODY dloc did dty dports ddecls (pre ++ sk :: post) dattrs)
      builtin_i = none)
    (hp : bind_ports dports 0 (.T_FCALL loc id none ty params) (vtable_push v)
      = .ok (some v2))
    (hd : eval_decls (fun e x => eval_expr fuel e x) ddecls v2 = .ok v3)
    (hpre : runs_unset (fun s x => eval_stmt fuel s x) pre v3 w)
    (hk : eval_stmt fuel sk w = .ok w2)
    (hr : vtable_get w2 result_i = some r) :
    eval_func_body (fuel + 1)
        (.T_FUNC_BODY dloc did dty dports ddecls (pre ++ sk :: post) dattrs) v2 = .ok w2 ∧
    (folded r = .ok true →
      eval_fcall (fuel + 2)
          (.T_FCALL loc id
            (some (.T_FUNC_BODY dloc did dty dports ddecls (pre ++ sk :: post) dattrs))
            ty params) v
        = .ok (r, v)) ∧
    (folded r = .ok false →
      eval_fcall (fuel + 2)
          (.T_FCALL loc id
            (some (.T_FUNC_BODY dloc did dty dports ddecls (pre ++ sk :: post) dattrs))
            ty params) v
        = .ok (.T_FCALL loc id
            (some (.T_FUNC_BODY dloc did dty dports ddecls (pre ++ sk :: post) dattrs))
            ty params, v)) := by
  have hst := eval_body_stmts_stops (fun s x => eval_stmt fuel s x) sk post w w2 r hk hr
    pre v3 hpre
  have hbody : eval_func_body (fuel + 1)
      (.T_FUNC_BODY dloc did dty dports ddecls (pre ++ sk :: post) dattrs) v2 = .ok w2 := by
    simp [eval_func_body, tree_decls, tree_stmts, hd, hst, bind, Except.bind]
  have hp2 := bind_ports_params
    (.T_FCALL loc id
      (some (.T_FUNC_BODY dloc did dty dports ddecls (pre ++ sk :: post) dattrs)) ty params)
    (.T_FCALL loc id none ty params) rfl dports 0 (vtable_push v)
  rw [hp] at hp2
  have hs := same_below_trans (bind_ports_below _ _ _ _ _ hp)
    ((eval_balanced (fuel + 1)).body _ _ _ hbody)
  have hpop := same_below_pop_ok v w2 hs
  refine ⟨hbody, fun hf => ?_, fun hf => ?_⟩ <;>
  simp [eval_fcall, tree_ref, tree_kind, hb, tree_ports, hp2, hbody, hr, hpop, hf, bind,
    Except.bind, pure, Except.pure]

/-- C29 at the bodies `return 1; return 2;` and `return 1; null;`: both
calls fold to 1, the null statement (which eval_stmt cannot evaluate) is not
reached. -/
theorem eval_body_stops_at_result_witness :
    eval_fcall 5 (ex_body_call [ex_return 1, ex_return 2]) [] = .ok (ex_int 1, []) ∧
    eval_fcall 5 (ex_body_call [ex_return 1, .T_NULL ex_loc none]) [] = .ok (ex_int 1, []) ∧
    eval_stmt 3 (.T_NULL ex_loc none) [[]]
      = .error (.fatal ex_loc "cannot evaluate statement %s") :=
  ⟨(eval_body_stops_at_result 3 ex_loc (some "r") (some ex_integer) [] ex_loc "r"
      (some (.mk .T_OTHER none (some ex_integer) [] none none)) [] [] [] [ex_return 2]
      (ex_return 1) [] [] [[]] [[]] [[]] [[(result_i, ex_int 1)]] (ex_int 1)
      rfl rfl rfl rfl rfl rfl).2.1 rfl,
   (eval_body_stops_at_result 3 ex_loc (some "r") (some ex_integer) [] ex_loc "r"
      (some (.mk .T_OTHER none (some ex_integer) [] none none)) [] [] [] [.T_NULL ex_loc none]
      (ex_return 1) [] [] [[]] [[]] [[]] [[(result_i, ex_int 1)]] (ex_int 1)
      rfl rfl rfl rfl rfl rfl).2.1 rfl,
   rfl⟩

/-! ### Synthesised labels -/

theorem ident_interned_run (x : String) (st : pstate) :
    ident_interned x st = .ok (decide (x ∈ st.interned), st) := rfl

theorem ident_new_run (x : String) (st : pstate) :
    ident_new x st = .ok (x, intern x st) := by
  simp only [ident_new, intern, bind, StateT.bind, modify, modifyGet, MonadStateOf.modifyGet,
    StateT.modifyGet, pure, StateT.pure, Except.pure, Except.bind]

theorem loc_to_ident_loop_step (base : String) (n i : Nat) (buf : String) (st : pstate) :
    loc_to_ident_loop base (n + 1) i buf st =
      if buf ∈ st.interned then loc_to_ident_loop base n (i + 1) (loc_to_ident_buf base i) st
      else .ok (buf, intern buf st) := by
  rw [loc_to_ident_loop]
  by_cases hb : buf ∈ st.interned <;>
  simp [ident_interned_run, hb, ident_new_run, bind, StateT.bind, Except.bind]

theorem loc_to_ident_loop_first (base : String) (st : pstate) :
    ∀ (d i n : Nat), d < n →
      (∀ j, i ≤ j → j < i + d → candidate base j ∈ st.interned) →
      candidate base (i + d) ∉ st.interned →
      loc_to_ident_loop base n i (candidate base i) st
        = .ok (candidate base (i + d), intern (candidate base (i + d)) st) := by
  intro d
  induction d with
  | zero =>
    intro i n hn _ hfree
    cases n with
    | zero => omega
    | succ n =>
      rw [Nat.add_zero] at hfree
      rw [loc_to_ident_loop_step, if_neg hfree]
      rfl
  | succ d ih =>
    intro i n hn hint hfree
    cases n with
    | zero => omega
    | succ n =>
      have hi : candidate base i ∈ st.interned := hint i (le_refl _) (by omega)
      have e2 : i + (d + 1) = (i + 1) + d := by omega
      rw [e2] at hfree ⊢
      have h := ih (i + 1) n (by omega) (fun j h1 h2 => hint j (by omega) (by omega)) hfree
      rw [loc_to_ident_loop_step, if_pos hi]
      exact h

theorem loc_to_ident_loop_fresh (base : String) :
    ∀ (n i : Nat) (st : pstate) (x : ident_t) (s2 : pstate),
      loc_to_ident_loop base n i (candidate base i) st = .ok (x, s2) →
      x ∉ st.interned ∧ s2 = intern x st ∧ ∃ m, x = candidate base m := by
  intro n
  induction n with
  | zero => intro i st x s2 h; simp [loc_to_ident_loop, parse_abort] at h
  | succ n ih =>
    intro i st x s2 h
    rw [loc_to_ident_loop_step] at h
    by_cases hi : candidate base i ∈ st.interned
    · rw [if_pos hi] at h
      exact ih (i + 1) st x s2 h
    · rw [if_neg hi] at h
      simp only [Except.ok.injEq, Prod.mk.injEq] at h
      obtain ⟨rfl, rfl⟩ := h
      exact ⟨hi, rfl, i, rfl⟩

theorem candidate_letter (base : String) (i : Nat) (hi : i < 26) :
    candidate base (i + 1) = base ++ String.mk [Char.ofNat (97 + i)] ∧
    (Char.ofNat (97 + i)).isLower = true := by
  have h1 : (97 + i) % 256 = 97 + i := by omega
  have h2 : ¬ (97 + i) % 256 = 0 := by omega
  refine ⟨by simp [candidate, loc_to_ident_buf, h1], ?_⟩
  interval_cases i <;> decide

theorem set_label_and_loc_some (t : tree_t) (lbl : ident_t) (loc : loc_t) (st : pstate) :
    set_label_and_loc t (some lbl) loc st
      = .ok (tree_set_ident (tree_set_loc t loc) lbl, st) := rfl

theorem set_label_and_loc_none (t : tree_t) (loc : loc_t) (st : pstate) :
    set_label_and_loc t none loc st =
      match loc_to_ident loc st with
      | .ok (x, s2) => .ok (tree_set_ident (tree_set_loc t loc) x, s2)
      | .error e => .error e := by
  simp only [set_label_and_loc, bind, StateT.bind, Except.bind, pure, StateT.pure, Except.pure]
  cases loc_to_ident loc st <;> rfl

/-- C24 (amended): loc_to_ident tests the name line_N, N the first line of
the location, and then line_N followed by the one character of code
'a' + i for i = 0, 1, ..., and returns the first of these names that is not
interned (m counts the names tested before it; 258 iterations are followed),
interning it.  Whenever it returns, the name was not interned before the
call and is one of these candidates.  It is exactly line_N when that name
was not interned; for m from 1 to 26 the suffix is the lower-case letter
number m, and the candidate after line_Nz is line_N followed by an opening
brace.  A statement with an explicit label keeps that label and interns
nothing. -/
theorem loc_to_ident_fresh (loc : loc_t) (st : pstate) :
    (∀ m, m < 258 → (∀ j, j < m → candidate (line_name loc) j ∈ st.interned) →
      candidate (line_name loc) m ∉ st.interned →
      loc_to_ident loc st
        = .ok (candidate (line_name loc) m, intern (candidate (line_name loc) m) st)) ∧
    (∀ x s2, loc_to_ident loc st = .ok (x, s2) →
      x ∉ st.interned ∧ s2 = intern x st ∧ ∃ m, x = candidate (line_name loc) m) ∧
    (line_name loc ∉ st.interned →
      loc_to_ident loc st = .ok (line_name loc, intern (line_name loc) st)) ∧
    (∀ i, i < 26 →
      candidate (line_name loc) (i + 1) = line_name loc ++ String.mk [Char.ofNat (97 + i)] ∧
      (Char.ofNat (97 + i)).isLower = true) ∧
    candidate (line_name loc) 27 = line_name loc ++ "\x7b" ∧
    (∀ t lbl, set_label_and_loc t (some lbl) loc st
      = .ok (tree_set_ident (tree_set_loc t loc) lbl, st)) := by
  have hfirst : ∀ m, m < 258 → (∀ j, j < m → candidate (line_name loc) j ∈ st.interned) →
      candidate (line_name loc) m ∉ st.interned →
      loc_to_ident loc st
        = .ok (candidate (line_name loc) m, intern (candidate (line_name loc) m) st) := by
    intro m hm hint hfree
    have h := loc_to_ident_loop_first (line_name loc) st m 0 258 hm
      (fun j _ h2 => hint j (by omega)) (by simpa using hfree)
    simpa [loc_to_ident, line_name] using h
  refine ⟨hfirst, fun x s2 h => ?_, fun h => ?_, fun i hi => candidate_letter _ i hi, ?_,
    fun t lbl => rfl⟩
  · exact loc_to_ident_loop_fresh (line_name loc) 258 0 st x s2 h
  · exact hfirst 0 (by decide) (fun j hj => by omega) h
  · simp [candidate, loc_to_ident_buf]

theorem ex_line_5_name : line_name ex_line_5 = "line_5" := by decide

theorem ex_interned_27_all :
    ∀ j, j < 27 → candidate "line_5" j ∈ ex_interned_27.interned := by
  intro j hj
  interval_cases j <;> decide

theorem ex_interned_27_brace : candidate "line_5" 27 ∉ ex_interned_27.interned := by decide

theorem ex_interned_27_run :
    loc_to_ident ex_line_5 ex_interned_27
      = .ok ("line_5\x7b", intern "line_5\x7b" ex_interned_27) := by
  have h := loc_to_ident_loop_first "line_5" ex_interned_27 27 0 258 (by decide)
    (fun j _ h2 => ex_interned_27_all j (by omega)) (by simpa using ex_interned_27_brace)
  have e : candidate "line_5" (0 + 27) = "line_5\x7b" := by decide
  rw [e] at h
  simpa [loc_to_ident, ex_line_5_name, line_name, ex_line_5] using h

/-- C24 as stated fails when line_5 and line_5a to line_5z are interned: for
a location on line 5 loc_to_ident returns line_5 followed by an opening
brace, which is not a letter. -/
theorem loc_to_ident_suffix_not_letter :
    loc_to_ident ex_line_5 ex_interned_27
      = .ok ("line_5\x7b", intern "line_5\x7b" ex_interned_27) ∧
    (Char.ofNat 123).isAlpha = false ∧
    "line_5\x7b" = "line_5" ++ String.mk [Char.ofNat 123] :=
  ⟨ex_interned_27_run, by decide, by decide⟩

/-- C24 at a location on line 5: with nothing interned the label is line_5,
with line_5 interned it is line_5a, and the name is interned by the call. -/
theorem loc_to_ident_fresh_witness :
    loc_to_ident ex_line_5 (pstate_init [])
      = .ok (candidate (line_name ex_line_5) 0,
          intern (candidate (line_name ex_line_5) 0) (pstate_init [])) ∧
    loc_to_ident ex_line_5 (intern "line_5" (pstate_init []))
      = .ok (candidate (line_name ex_line_5) 1,
          intern (candidate (line_name ex_line_5) 1) (intern "line_5" (pstate_init []))) ∧
    candidate (line_name ex_line_5) 0 = "line_5" ∧
    candidate (line_name ex_line_5) 1 = "line_5a" :=
  ⟨(loc_to_ident_fresh ex_line_5 (pstate_init [])).1 0 (by decide) (fun j hj => by omega)
      (by decide),
   (loc_to_ident_fresh ex_line_5 (intern "line_5" (pstate_init []))).1 1 (by decide)
      (fun j hj => by interval_cases j; decide) (by decide),
   by decide, by decide⟩

/-! ### Report statements -/

theorem set_frame_interned (h : Option String) (l : loc_t) (s : pstate) :
    (set_frame h l s).interned = s.interned := rfl

theorem intern_set_frame (x : ident_t) (h : Option String) (l : loc_t) (s : pstate) :
    intern x (set_frame h l s) = set_frame h l (intern x s) := by
  unfold intern
  rw [set_frame_interned]
  split <;> rfl

theorem first_free (p : Nat → Prop) [DecidablePred p] :
    ∀ (b : Nat), (∃ m, m < b ∧ p m) → ∃ m, m < b ∧ p m ∧ ∀ j, j < m → ¬ p j := by
  intro b
  induction b with
  | zero => rintro ⟨m, hm, _⟩; omega
  | succ b ih =>
    rintro ⟨m, hm, hp⟩
    by_cases hb : ∃ m, m < b ∧ p m
    · obtain ⟨m2, h1, h2, h3⟩ := ih hb
      exact ⟨m2, by omega, h2, h3⟩
    · have hmb : m = b := by
        by_contra hne
        exact hb ⟨m, by omega, hp⟩
      subst hmb
      exact ⟨m, hm, hp, fun j hj hpj => hb ⟨j, hj, hpj⟩⟩

theorem set_label_and_loc_app (label : Option ident_t) (s : pstate)
    (hl : label_settles label s) (t : tree_t) (loc : loc_t) (h : Option String) (l : loc_t) :
    ∃ x s2, set_label_and_loc t label loc (set_frame h l s)
        = .ok (tree_set_ident (tree_set_loc t loc) x, set_frame h l s2) ∧
      (∀ lbl, label = some lbl → x = lbl) := by
  cases label with
  | some lbl => exact ⟨lbl, s, rfl, fun _ e => (Option.some.inj e)⟩
  | none =>
    rcases hl with hl | hl
    · cases hl
    · obtain ⟨m, hm, hfree, hleast⟩ :=
        first_free (fun m => candidate ("line_" ++ toString loc.first_line) m ∉ s.interned) 258
          (hl loc.first_line)
      have hrun := loc_to_ident_loop_first (line_name loc) (set_frame h l s) m 0 258 hm
        (fun j _ h2 => by
          have := hleast j (by omega)
          simpa [set_frame_interned, line_name] using this)
        (by simpa [set_frame_interned, line_name] using hfree)
      refine ⟨candidate (line_name loc) m, intern (candidate (line_name loc) m) s, ?_,
        fun _ e => by cases e⟩
      rw [set_label_and_loc_none]
      have e : loc_to_ident loc (set_frame h l s)
          = .ok (candidate (line_name loc) m,
              set_frame h l (intern (candidate (line_name loc) m) s)) := by
        rw [← intern_set_frame]
        simpa [loc_to_ident, line_name] using hrun
      rw [e]

/-- C21: for every report statement `report m [severity v] ;`,
p_report_statement returns an assertion node whose condition is a reference
with identifier FALSE, whose message is the expression m, whose severity is
the expression after `severity` when that token follows and else a
reference with identifier NOTE, and whose only attribute is the integer
attribute is_report = 1; a written label is the identifier of the node. -/
theorem p_report_statement_desugars (s s1 sv : pstate) (m v : tree_t)
    (label : Option ident_t)
    (h2 : s.peek2_valid = false) (ht : next_tok s = .tREPORT)
    (hm : parses p_expression (advance s) m s1) (h21 : s1.peek2_valid = false)
    (hv : report_severity_part s1 v sv) (h2v : sv.peek2_valid = false)
    (hsemi : next_tok sv = .tSEMI)
    (hl : label_settles label (intern "is_report" (intern "FALSE" (advance sv))))
    (h : Option String) (l : loc_t) :
    ∃ N loc x sF, (∀ f, N ≤ f →
      p_report_statement f label (set_frame h l s)
        = .ok (.T_ASSERT loc (some x) (some (.T_REF LOC_INVALID (some "FALSE") none none))
            m v [("is_report", .A_INT 1)], set_frame h l sF)) ∧
      (∀ lbl, label = some lbl → x = lbl) := by
  obtain ⟨Nm, hNm⟩ := hm
  have hcs := consume_app .tREPORT (some "report statement") l s h2 ht
  rcases hv with ⟨hs, ⟨Nv, hNv⟩⟩ | ⟨hs, rfl, rfl⟩
  · obtain ⟨x, sF, hx, hlbl⟩ := set_label_and_loc_app label _ hl
      (.T_ASSERT LOC_INVALID none (some (.T_REF LOC_INVALID (some "FALSE") none none))
        m v [("is_report", .A_INT 1)])
      (_diff_loc (start_after (start_after (start_after l s) s1) sv)
        (intern "is_report" (intern "FALSE" (advance sv))).yylloc)
      (some "report statement") (start_after (start_after (start_after l s) s1) sv)
    refine ⟨Nm + Nv, _diff_loc (start_after (start_after (start_after l s) s1) sv)
        (intern "is_report" (intern "FALSE" (advance sv))).yylloc, x, sF, fun f hf => ?_, hlbl⟩
    simp only [p_report_statement, EXTEND_app, bind, StateT.bind, hcs, Except.bind,
      hNm f (by omega), optional_app_hit _ _ _ s1 h21 hs, ite_true, hNv f (by omega),
      consume_app _ _ _ sv h2v hsemi, ident_new_app, tree_add_attr_int, List.nil_append,
      CURRENT_LOC_app, pure, StateT.pure, Except.pure, hx, tree_set_loc, tree_set_ident,
      set_frame_set_frame]
  · have h2n : (intern "NOTE" (force_peek s1)).peek2_valid = false := h2v
    obtain ⟨x, sF, hx, hlbl⟩ := set_label_and_loc_app label _ hl
      (.T_ASSERT LOC_INVALID none (some (.T_REF LOC_INVALID (some "FALSE") none none))
        m (.T_REF LOC_INVALID (some "NOTE") none none) [("is_report", .A_INT 1)])
      (_diff_loc (start_after (start_after l s) (intern "NOTE" (force_peek s1)))
        (intern "is_report" (intern "FALSE" (advance (intern "NOTE" (force_peek s1))))).yylloc)
      (some "report statement") (start_after (start_after l s) (intern "NOTE" (force_peek s1)))
    refine ⟨Nm, _diff_loc (start_after (start_after l s) (intern "NOTE" (force_peek s1)))
        (intern "is_report" (intern "FALSE" (advance (intern "NOTE" (force_peek s1))))).yylloc,
      x, sF, fun f hf => ?_, hlbl⟩
    simp only [p_report_statement, EXTEND_app, bind, StateT.bind, hcs, Except.bind,
      hNm f (by omega), optional_app_miss _ _ _ s1 h21 hs, Bool.false_eq_true, if_false,
      consume_app _ _ _ _ h2v hsemi, ident_new_app, tree_add_attr_int, List.nil_append,
      CURRENT_LOC_app, pure, StateT.pure, Except.pure, hx, tree_set_loc, tree_set_ident,
      set_frame_set_frame]

theorem line_name_ne (x y : String) (hy : y.data.head? ≠ some 'l') : "line_" ++ x ≠ y := by
  intro h
  apply hy
  rw [← h]
  simp [String.data_append]

theorem ex_report_message : parses p_expression (advance ex_r0) (ex_parsed_int 1 7) ex_r1 := by
  have hf := p_factor_int_literal (advance ex_r0) rfl rfl (by decide)
  have he := p_expression_of_factor _ _ _ hf rfl (by decide)
  simpa only [force_peek_idem] using he

theorem ex_report_settles :
    label_settles none
      (intern "is_report" (intern "FALSE" (advance (intern "NOTE" (force_peek ex_r1))))) := by
  refine Or.inr (fun n => ⟨0, by decide, ?_⟩)
  have e : (intern "is_report" (intern "FALSE"
      (advance (intern "NOTE" (force_peek ex_r1))))).interned = ["is_report", "FALSE", "NOTE"] :=
    rfl
  rw [e]
  simp only [candidate, List.mem_cons, List.mem_singleton, List.not_mem_nil, or_false, not_or]
  exact ⟨line_name_ne _ _ (by decide), line_name_ne _ _ (by decide),
    line_name_ne _ _ (by decide)⟩

/-- C21 at the tokens of `report 1 ;` without label: an assertion with
condition FALSE, message 1, severity NOTE and the attribute is_report = 1. -/
theorem p_report_statement_desugars_witness :
    ∃ N loc x sF, (∀ f, N ≤ f →
      p_report_statement f none (set_frame none LOC_INVALID ex_r0)
        = .ok (.T_ASSERT loc (some x) (some (.T_REF LOC_INVALID (some "FALSE") none none))
            (ex_parsed_int 1 7) (.T_REF LOC_INVALID (some "NOTE") none none)
            [("is_report", .A_INT 1)], set_frame none LOC_INVALID sF)) ∧
      (∀ lbl, (none : Option ident_t) = some lbl → x = lbl) :=
  p_report_statement_desugars ex_r0 ex_r1 (intern "NOTE" (force_peek ex_r1))
    (ex_parsed_int 1 7) (.T_REF LOC_INVALID (some "NOTE") none none) none rfl rfl
    ex_report_message rfl (Or.inr ⟨by decide, rfl, rfl⟩) rfl rfl ex_report_settles none
    LOC_INVALID

/-! ### If statements -/

theorem foldl_add_stmt (l : loc_t) (i : Option ident_t) (v : tree_t) (es : List tree_t) :
    ∀ (S ss : List tree_t),
      S.foldl tree_add_stmt (.T_IF l i v ss es) = .T_IF l i v (ss ++ S) es := by
  intro S
  induction S with
  | nil => intro ss; simp
  | cons x rest ih => intro ss; simp [tree_add_stmt, ih]

theorem foldl_add_else_stmt (l : loc_t) (i : Option ident_t) (v : tree_t) (ss : List tree_t) :
    ∀ (E es : List tree_t),
      E.foldl tree_add_else_stmt (.T_IF l i v ss es) = .T_IF l i v ss (es ++ E) := by
  intro E
  induction E with
  | nil => intro es; simp
  | cons x rest ih => intro es; simp [tree_add_else_stmt, ih]

theorem branches_end_peek2 : ∀ (bs : List branch) (s : pstate), branches_ok s bs →
    (branches_end s bs).peek2_valid = false ∧ next_tok (branches_end s bs) ≠ .tELSIF := by
  intro bs
  induction bs with
  | nil => intro s h; exact h
  | cons b rest ih => intro s h; exact ih _ h.2.2.2.2.2.2

theorem p_if_statement_tail_app (E : List tree_t) (s4 : pstate) :
    ∀ (bs : List branch) (s : pstate), branches_ok s bs →
      else_part (branches_end s bs) E s4 →
      ∃ N, ∀ f, N ≤ f → ∀ (h : Option String) (l tl : loc_t) (ti : Option ident_t)
          (tv : tree_t) (tS : List tree_t),
        p_if_statement_tail f (.T_IF tl ti tv tS []) (set_frame h l s)
          = .ok (.T_IF tl ti tv tS (else_chain l s bs E),
              set_frame h (else_loc (branches_loc l s bs) (branches_end s bs)) s4) := by
  intro bs
  induction bs with
  | nil =>
    intro s hb he
    obtain ⟨h2, hne⟩ := hb
    have h2f : (force_peek s).peek2_valid = false := by rw [force_peek_peek2, h2]
    simp only [branches_end] at he
    rcases he with ⟨hel, ⟨N, hN⟩⟩ | ⟨hel, rfl, rfl⟩
    · refine ⟨N + 1, fun f hf h l tl ti tv tS => ?_⟩
      obtain ⟨k, rfl⟩ := Nat.exists_eq_add_of_le hf
      have e : N + 1 + k = (N + k) + 1 := by omega
      rw [e]
      simp only [p_if_statement_tail, bind, StateT.bind, Except.bind,
        optional_app_miss .tELSIF _ _ s h2 hne, Bool.false_eq_true, if_false,
        optional_app_hit .tELSE _ _ (force_peek s) h2f (by rw [next_tok_force_peek]; exact hel),
        ite_true, advance_force_peek, start_after_force_peek, hN (N + k) (by omega),
        foldl_add_else_stmt, List.nil_append, else_chain, branches_loc, branches_end, else_loc,
        hel]
    · refine ⟨1, fun f hf h l tl ti tv tS => ?_⟩
      obtain ⟨k, rfl⟩ := Nat.exists_eq_add_of_le hf
      have e : 1 + k = k + 1 := by omega
      rw [e]
      simp only [p_if_statement_tail, bind, StateT.bind, Except.bind,
        optional_app_miss .tELSIF _ _ s h2 hne, Bool.false_eq_true, if_false,
        optional_app_miss .tELSE _ _ (force_peek s) h2f (by rw [next_tok_force_peek]; exact hel),
        force_peek_idem, pure, StateT.pure, Except.pure, else_chain, branches_loc,
        branches_end, else_loc, hel]
  | cons b rest ih =>
    intro s hb he
    obtain ⟨h2, ht, ⟨Nc, hNc⟩, h2c, hthen, ⟨Ns, hNs⟩, hrest⟩ := hb
    obtain ⟨Nr, hNr⟩ := ih b.after_stmts hrest he
    refine ⟨Nc + Ns + Nr + 1, fun f hf h l tl ti tv tS => ?_⟩
    obtain ⟨k, rfl⟩ := Nat.exists_eq_add_of_le hf
    have e : Nc + Ns + Nr + 1 + k = (Nc + Ns + Nr + k) + 1 := by omega
    rw [e]
    simp only [p_if_statement_tail, bind, StateT.bind, Except.bind,
      optional_app_hit .tELSIF _ _ s h2 ht, ite_true, ident_new_app,
      hNc (Nc + Ns + Nr + k) (by omega), consume_app _ _ _ b.after_cond h2c hthen,
      hNs (Nc + Ns + Nr + k) (by omega), foldl_add_stmt, List.nil_append, CURRENT_LOC_app,
      pure, StateT.pure, Except.pure, tree_set_loc, hNr (Nc + Ns + Nr + k) (by omega),
      tree_add_else_stmt, else_chain, branches_loc, branches_end]

/-- C22: for an if statement with condition c0 and statements S0, the elsif
branches bs and the else statements E (empty when there is no else part),
p_if_statement returns an if node with condition c0 and then-statements S0
whose else-branch is the chain of the branches: the else-branch of each node
but the innermost is exactly the single if node of the next branch, which
has the condition and the statements of that branch, and the else-branch of
the innermost node is exactly E. -/
theorem p_if_statement_chain (s s1 s2 s4 : pstate) (c0 : tree_t) (S0 E : List tree_t)
    (bs : List branch) (label : Option ident_t)
    (h2 : s.peek2_valid = false) (ht : next_tok s = .tIF)
    (hc : parses p_expression (advance s) c0 s1) (h21 : s1.peek2_valid = false)
    (hthen : next_tok s1 = .tTHEN)
    (hS : sequence_parses (advance s1) S0 s2)
    (hb : branches_ok s2 bs)
    (he : else_part (branches_end s2 bs) E s4)
    (h24 : s4.peek2_valid = false) (hend : next_tok s4 = .tEND)
    (hif : next_tok (advance s4) = .tIF)
    (hsemi : next_tok (advance (advance s4)) = .tSEMI)
    (hl : label_settles label (advance (advance (advance s4))))
    (h : Option String) (l : loc_t) :
    (∃ N loc x sF, (∀ f, N ≤ f →
      p_if_statement f label (set_frame h l s)
        = .ok (.T_IF loc (some x) c0 S0 (else_chain (start_after (start_after l s) s1) s2 bs E),
            set_frame h l sF)) ∧
      (∀ lbl, label = some lbl → x = lbl)) ∧
    (∀ l2 s3, else_chain l2 s3 [] E = E) ∧
    (∀ l2 s3 b rest, ∃ loc l3,
      else_chain l2 s3 (b :: rest) E
        = [.T_IF loc (some "elsif") b.cond b.stmts (else_chain l3 b.after_stmts rest E)]) ∧
    (next_tok (branches_end s2 bs) ≠ .tELSE → E = []) := by
  refine ⟨?_, fun _ _ => rfl, fun _ _ _ _ => ⟨_, _, rfl⟩, fun hne => ?_⟩
  · obtain ⟨Nc, hNc⟩ := hc
    obtain ⟨Ns, hNs⟩ := hS
    obtain ⟨Nt, hNt⟩ := p_if_statement_tail_app E s4 bs s2 hb he
    have hcs := consume_app .tIF (some "if statement") l s h2 ht
    have hpk : (force_peek (advance (advance s4))).peek2_valid = false := by
      rw [force_peek_peek2]; rfl
    have hcs4 : ∀ h l, consume .tSEMI (set_frame h l (force_peek (advance (advance s4))))
        = .ok (true, set_frame h (start_after l (advance (advance s4)))
            (advance (advance (advance s4)))) := by
      intro h l
      have := consume_app .tSEMI h l (force_peek (advance (advance s4))) hpk
        (by rw [next_tok_force_peek]; exact hsemi)
      rw [advance_force_peek, start_after_force_peek] at this
      exact this
    obtain ⟨x, sF, hx, hlbl⟩ := set_label_and_loc_app label _ hl
      (.T_IF LOC_INVALID none c0 S0 (else_chain (start_after (start_after l s) s1) s2 bs E))
      (_diff_loc
        (start_after (start_after (start_after
          (else_loc (branches_loc (start_after (start_after l s) s1) s2 bs) (branches_end s2 bs))
          s4) (advance s4)) (advance (advance s4)))
        (advance (advance (advance s4))).yylloc)
      (some "if statement")
      (start_after (start_after (start_after
          (else_loc (branches_loc (start_after (start_after l s) s1) s2 bs) (branches_end s2 bs))
          s4) (advance s4)) (advance (advance s4)))
    refine ⟨Nc + Ns + Nt + 1,
      _diff_loc
        (start_after (start_after (start_after
          (else_loc (branches_loc (start_after (start_after l s) s1) s2 bs) (branches_end s2 bs))
          s4) (advance s4)) (advance (advance s4)))
        (advance (advance (advance s4))).yylloc, x, sF, fun f hf => ?_, hlbl⟩
    obtain ⟨k, rfl⟩ := Nat.exists_eq_add_of_le hf
    have e : Nc + Ns + Nt + 1 + k = (Nc + Ns + Nt + k) + 1 := by omega
    rw [e]
    simp only [p_if_statement, EXTEND_app, bind, StateT.bind, Except.bind, hcs,
      hNc (Nc + Ns + Nt + k) (by omega), consume_app .tTHEN _ _ s1 h21 hthen,
      hNs (Nc + Ns + Nt + k) (by omega), foldl_add_stmt, List.nil_append,
      hNt (Nc + Ns + Nt + k) (by omega), consume_app .tEND _ _ s4 h24 hend,
      consume_app .tIF _ _ (advance s4) rfl hif, peek_app _ _ (advance (advance s4)) rfl,
      hsemi, reduceCtorEq, if_false, hcs4, advance_force_peek, start_after_force_peek,
      CURRENT_LOC_app, pure, StateT.pure, Except.pure, hx, tree_set_loc, tree_set_ident,
      set_frame_set_frame]
  · rcases he with ⟨hel, _⟩ | ⟨_, rfl, _⟩
    · exact absurd hel hne
    · rfl

theorem set_label_and_loc_fresh (s : pstate) (t : tree_t) (loc : loc_t) (m : Nat)
    (hm : m < 258) (hint : ∀ j, j < m → candidate (line_name loc) j ∈ s.interned)
    (hfree : candidate (line_name loc) m ∉ s.interned) (h : Option String) (l : loc_t) :
    set_label_and_loc t none loc (set_frame h l s)
      = .ok (tree_set_ident (tree_set_loc t loc) (candidate (line_name loc) m),
          set_frame h l (intern (candidate (line_name loc) m) s)) := by
  have hrun := loc_to_ident_loop_first (line_name loc) (set_frame h l s) m 0 258 hm
    (fun j _ h2 => by simpa [set_frame_interned] using hint j (by omega))
    (by simpa [set_frame_interned] using hfree)
  rw [set_label_and_loc_none]
  have e : loc_to_ident loc (set_frame h l s)
      = .ok (candidate (line_name loc) m,
          set_frame h l (intern (candidate (line_name loc) m) s)) := by
    rw [← intern_set_frame]
    simpa [loc_to_ident, line_name] using hrun
  rw [e]

theorem p_sequential_null (a : pstate) (h2 : a.peek2_valid = false)
    (ht : next_tok a = .tNULL) (hsemi : next_tok (advance a) = .tSEMI) (m : Nat) (hm : m < 258)
    (hint : ∀ j, j < m →
      candidate (line_name (start_after (start_after LOC_INVALID a) (advance a))) j
        ∈ (advance (advance a)).interned)
    (hfree : candidate (line_name (start_after (start_after LOC_INVALID a) (advance a))) m
      ∉ (advance (advance a)).interned) :
    parses p_sequential_statement a
      (.T_NULL (_diff_loc (start_after (start_after LOC_INVALID a) (advance a))
          (advance (advance a)).yylloc)
        (some (candidate (line_name (start_after (start_after LOC_INVALID a) (advance a))) m)))
      (intern (candidate (line_name (start_after (start_after LOC_INVALID a) (advance a))) m)
        (advance (advance a))) := by
  refine ⟨1, fun f hf h l => ?_⟩
  obtain ⟨k, rfl⟩ := Nat.exists_eq_add_of_le hf
  have e : 1 + k = k + 1 := by omega
  rw [e]
  have h2f : (force_peek a).peek2_valid = false := by rw [force_peek_peek2, h2]
  have hfl : line_name (_diff_loc (start_after (start_after LOC_INVALID a) (advance a))
      (advance (advance a)).yylloc)
      = line_name (start_after (start_after LOC_INVALID a) (advance a)) := rfl
  have hx := set_label_and_loc_fresh (advance (advance a)) (.T_NULL LOC_INVALID none)
    (_diff_loc (start_after (start_after LOC_INVALID a) (advance a))
      (advance (advance a)).yylloc) m hm (by rw [hfl]; exact hint) (by rw [hfl]; exact hfree)
    (some "null statement") (start_after (start_after LOC_INVALID a) (advance a))
  rw [hfl] at hx
  simp only [p_sequential_statement, BEGIN_app, bind, StateT.bind, Except.bind,
    peek_app _ _ a h2, ht, reduceCtorEq, if_false, pure, StateT.pure, Except.pure,
    peek_app _ _ (force_peek a) h2f, next_tok_force_peek, force_peek_idem, p_null_statement,
    EXTEND_app,
    consume_app .tNULL _ _ (force_peek a) h2f (by rw [next_tok_force_peek]; exact ht),
    advance_force_peek, start_after_force_peek, consume_app .tSEMI _ _ (advance a) rfl hsemi,
    CURRENT_LOC_app, hx, tree_set_loc, tree_set_ident, set_frame_set_frame]

theorem sequence_parses_nil (a : pstate) (h2 : a.peek2_valid = false)
    (hn : next_tok a ∉ sequential_statement_starts) :
    sequence_parses a [] (force_peek a) := by
  refine ⟨2, fun f hf parent addf h l => ?_⟩
  obtain ⟨k, rfl⟩ := Nat.exists_eq_add_of_le hf
  have e : 2 + k = k + 1 + 1 := by omega
  rw [e]
  simp only [p_sequence_of_statements, p_sequence_of_statements_loop, BEGIN_app, bind,
    StateT.bind, Except.bind, scan_app _ _ _ a h2, hn, decide_False, Bool.false_eq_true,
    if_false, pure, StateT.pure, Except.pure, List.foldl_nil, set_frame_set_frame]

theorem sequence_parses_one (a a1 : pstate) (x : tree_t) (h2 : a.peek2_valid = false)
    (hin : next_tok a ∈ sequential_statement_starts)
    (hx : parses p_sequential_statement (force_peek a) x a1) (h21 : a1.peek2_valid = false)
    (hn : next_tok a1 ∉ sequential_statement_starts) :
    sequence_parses a [x] (force_peek a1) := by
  obtain ⟨N, hN⟩ := hx
  refine ⟨N + 3, fun f hf parent addf h l => ?_⟩
  obtain ⟨k, rfl⟩ := Nat.exists_eq_add_of_le hf
  have e : N + 3 + k = (N + k) + 1 + 1 + 1 := by omega
  rw [e]
  simp only [p_sequence_of_statements, p_sequence_of_statements_loop, BEGIN_app, bind,
    StateT.bind, Except.bind, scan_app _ _ _ a h2, hin, decide_True, ite_true,
    hN (N + k + 1) (by omega), scan_app _ _ _ a1 h21, hn, decide_False, Bool.false_eq_true,
    if_false, pure, StateT.pure, Except.pure, List.foldl_cons, List.foldl_nil,
    set_frame_set_frame]

theorem line_brace_ne (base y : String) (c : Char) (hy : y.data.getLast? ≠ some c) :
    base ++ String.mk [c] ≠ y := by
  intro h
  apply hy
  rw [← h]
  simp [String.data_append]

theorem ex_if_cond : parses p_expression (advance ex_i0) (ex_parsed_int 1 3) ex_i1 := by
  have hf := p_factor_int_literal (advance ex_i0) rfl rfl (by decide)
  have he := p_expression_of_factor _ _ _ hf rfl (by decide)
  simpa only [force_peek_idem] using he

theorem ex_if_stmts : sequence_parses (advance ex_i1) [ex_null 10 "line_1"] ex_i2 :=
  sequence_parses_one (advance ex_i1) _ _ rfl (by decide)
    (p_sequential_null (force_peek (advance ex_i1)) rfl rfl rfl 0 (by decide)
      (fun j hj => by omega) (by decide))
    rfl (by decide)

theorem ex_elsif_cond :
    parses p_expression (intern "elsif" (advance ex_i2)) (ex_parsed_int 2 22) ex_i3 := by
  have hf := p_factor_int_literal (intern "elsif" (advance ex_i2)) rfl rfl (by decide)
  have he := p_expression_of_factor _ _ _ hf rfl (by decide)
  simpa only [force_peek_idem] using he

theorem ex_elsif_stmts : sequence_parses (advance ex_i3) [ex_null 29 "line_1a"] ex_i4 :=
  sequence_parses_one (advance ex_i3) _ _ rfl (by decide)
    (p_sequential_null (force_peek (advance ex_i3)) rfl rfl rfl 1 (by decide)
      (fun j hj => by interval_cases j; decide) (by decide))
    rfl (by decide)

theorem ex_else_stmts : sequence_parses (advance ex_i4) [ex_null 40 "line_1b"] ex_i5 :=
  sequence_parses_one (advance ex_i4) _ _ rfl (by decide)
    (p_sequential_null (force_peek (advance ex_i4)) rfl rfl rfl 2 (by decide)
      (fun j hj => by interval_cases j <;> decide) (by decide))
    rfl (by decide)

theorem ex_if_settles : label_settles none (advance (advance (advance ex_i5))) := by
  refine Or.inr (fun n => ⟨27, by decide, ?_⟩)
  have e : (advance (advance (advance ex_i5))).interned
      = ["line_1b", "line_1a", "elsif", "line_1"] := rfl
  have c : candidate ("line_" ++ toString n) 27
      = ("line_" ++ toString n) ++ String.mk [Char.ofNat 123] := by
    simp [candidate, loc_to_ident_buf]
  rw [e, c]
  simp only [List.mem_cons, List.mem_singleton, List.not_mem_nil, or_false, not_or]
  exact ⟨line_brace_ne _ _ _ (by decide), line_brace_ne _ _ _ (by decide),
    line_brace_ne _ _ _ (by decide), line_brace_ne _ _ _ (by decide)⟩

/-- C22 at the tokens of
`if 1 then null ; elsif 2 then null ; else null ; end if ;`: the if node has
the condition 1 and one null statement, its else-branch is the single elsif
node with the condition 2 and one null statement, whose else-branch is the
null statement of the else part. -/
theorem p_if_statement_chain_witness :
    (∃ N loc x sF, (∀ f, N ≤ f →
      p_if_statement f none (set_frame none LOC_INVALID ex_i0)
        = .ok (.T_IF loc (some x) (ex_parsed_int 1 3) [ex_null 10 "line_1"]
            (else_chain (start_after (start_after LOC_INVALID ex_i0) ex_i1) ex_i2 [ex_branch]
              [ex_null 40 "line_1b"]),
            set_frame none LOC_INVALID sF)) ∧
      (∀ lbl, (none : Option ident_t) = some lbl → x = lbl)) ∧
    else_chain (start_after (start_after LOC_INVALID ex_i0) ex_i1) ex_i2 [ex_branch]
        [ex_null 40 "line_1b"]
      = [.T_IF ⟨1, 0, 1, 35, none, some 0⟩ (some "elsif") (ex_parsed_int 2 22)
          [ex_null 29 "line_1a"] [ex_null 40 "line_1b"]] :=
  ⟨(p_if_statement_chain ex_i0 ex_i1 ex_i2 ex_i5 (ex_parsed_int 1 3) [ex_null 10 "line_1"]
      [ex_null 40 "line_1b"] [ex_branch] none rfl rfl ex_if_cond rfl rfl ex_if_stmts
      ⟨rfl, rfl, ex_elsif_cond, rfl, rfl, ex_elsif_stmts, rfl, by decide⟩
      (Or.inl ⟨rfl, ex_else_stmts⟩) rfl rfl rfl rfl ex_if_settles none LOC_INVALID).1,
   rfl⟩

/-! ### Interface signal declarations -/

theorem after_ident_peek2 (u : ident_t) (s : pstate) : (after_ident u s).peek2_valid = false := by
  unfold after_ident freed
  simp only
  rw [intern_peek2]
  rfl

theorem optional_app (tok : token_t) (h : Option String) (l : loc_t) (s : pstate)
    (h2 : s.peek2_valid = false) :
    optional tok (set_frame h l s)
      = .ok (decide (next_tok s = tok),
          set_frame h (optional_loc tok l s) (skip_optional tok s)) := by
  by_cases ht : next_tok s = tok
  · simp [optional_app_hit tok h l s h2 ht, ht, optional_loc, skip_optional]
  · simp [optional_app_miss tok h l s h2 ht, ht, optional_loc, skip_optional]

theorem skip_optional_peek2 (tok : token_t) (s : pstate) (h2 : s.peek2_valid = false) :
    (skip_optional tok s).peek2_valid = false := by
  unfold skip_optional
  split
  · rfl
  · rw [force_peek_peek2, h2]

theorem p_identifier_list_loop_app (us : List ident_t) :
    ∀ (s : pstate), idents_ok s us →
      ∃ N, ∀ f, N ≤ f → ∀ (h : Option String) (l : loc_t) (acc : List ident_t),
        p_identifier_list_loop f acc (set_frame h l s)
          = .ok (acc ++ us, set_frame h (idents_loc l s us) (force_peek (idents_end s us))) := by
  induction us with
  | nil =>
    intro s hc
    obtain ⟨h2, hne⟩ := hc
    refine ⟨1, fun f hf h l acc => ?_⟩
    obtain ⟨k, rfl⟩ := Nat.exists_eq_add_of_le hf
    rw [Nat.add_comm]
    simp [p_identifier_list_loop, bind, StateT.bind, optional_app_miss .tCOMMA h l s h2 hne,
      Except.bind, pure, StateT.pure, Except.pure, idents_loc, idents_end]
  | cons u rest ih =>
    intro s hc
    obtain ⟨h2, ht, hid, hu, hrest⟩ := hc
    obtain ⟨N, hN⟩ := ih _ hrest
    refine ⟨N + 1, fun f hf h l acc => ?_⟩
    obtain ⟨k, rfl⟩ := Nat.exists_eq_add_of_le hf
    have e : N + 1 + k = (N + k) + 1 := by omega
    rw [e, p_identifier_list_loop]
    simp only [bind, StateT.bind, optional_app_hit .tCOMMA h l s h2 ht, Except.bind, ite_true,
      p_identifier_app u _ _ (advance s) rfl hid hu, hN (N + k) (by omega), idents_loc,
      idents_end, List.append_assoc, List.singleton_append]

theorem p_mode_app (h : Option String) (l : loc_t) (c : pstate) (h2 : c.peek2_valid = false)
    (hin : next_tok c ∈ mode_tokens) :
    p_mode (set_frame h l c)
      = .ok (token_mode (next_tok c), set_frame h (start_after l c) (advance c)) := by
  have ho := one_of_app mode_tokens h l c h2 hin
  simp only [mode_tokens] at ho
  simp only [mode_tokens, List.mem_cons, List.mem_singleton, List.not_mem_nil, or_false] at hin
  rcases hin with hq | hq | hq | hq | hq <;>
  simp only [p_mode, bind, StateT.bind, Except.bind, ho, hq, token_mode, pure, StateT.pure,
    Except.pure]

theorem add_each_entity (mk : ident_t → tree_t) (pl : loc_t) (pi : ident_t)
    (gs ds ss : List tree_t) :
    ∀ (ids : List ident_t) (ps : List tree_t),
      add_each tree_add_port mk ids (.T_ENTITY pl pi gs ps ds ss)
        = .T_ENTITY pl pi gs (ps ++ ids.map mk) ds ss := by
  intro ids
  induction ids with
  | nil => intro ps; simp [add_each]
  | cons i rest ih => intro ps; simp [add_each, tree_add_port, ih]

theorem idents_end_peek2 : ∀ (us : List ident_t) (s : pstate), idents_ok s us →
    (idents_end s us).peek2_valid = false := by
  intro us
  induction us with
  | nil => intro s h; exact h.1
  | cons u rest ih => intro s h; exact ih _ h.2.2.2.2

/-- The loop of p_interface_signal_declaration, called on its own: for every
interface signal declaration `[signal] u0, u1, ..., un : [mode] type` whose
parent is an entity, p_interface_signal_declaration adds to the ports of the entity exactly one
port declaration per identifier of the list that p_identifier_list returns,
after the ports the entity had; all of them have the same mode (the written
one, or IN when no mode is written), the same type, the class signal and
the same location span. -/
theorem p_interface_signal_declaration_ports (s d e : pstate) (u0 : ident_t)
    (us : List ident_t) (mode : port_mode_t) (ty : type_t) (pl : loc_t) (pi : ident_t)
    (gs ps ds ss : List tree_t) (addf : tree_t → tree_t → tree_t)
    (h2 : s.peek2_valid = false)
    (hid : next_tok (skip_optional .tSIGNAL s) = .tID)
    (hu : (force_peek (skip_optional .tSIGNAL s)).yylval_s = some u0)
    (hus : idents_ok (after_ident u0 (skip_optional .tSIGNAL s)) us)
    (hcolon : next_tok (idents_end (after_ident u0 (skip_optional .tSIGNAL s)) us) = .tCOLON)
    (hm : mode_part (advance (idents_end (after_ident u0 (skip_optional .tSIGNAL s)) us))
      mode d)
    (hty : type_parses d ty e) (h2e : e.peek2_valid = false)
    (hnb : next_tok e ≠ .tBUS) (hna : next_tok e ≠ .tASSIGN) :
    ∃ loc,
      (∃ N, ∀ f, N ≤ f → ∀ (h : Option String) (l : loc_t),
        p_interface_signal_declaration f (.T_ENTITY pl pi gs ps ds ss) addf (set_frame h l s)
          = .ok (.T_ENTITY pl pi gs (ps ++ (u0 :: us).map (signal_port loc mode ty)) ds ss,
              set_frame h l (force_peek e))) ∧
      ((u0 :: us).map (signal_port loc mode ty)).length = us.length + 1 ∧
      (∀ p ∈ (u0 :: us).map (signal_port loc mode ty), ∃ i, i ∈ u0 :: us ∧
        p = .T_PORT_DECL loc i mode (some ty) (some .C_SIGNAL) none) ∧
      (next_tok (advance (idents_end (after_ident u0 (skip_optional .tSIGNAL s)) us))
          ∉ mode_tokens → mode = .PORT_IN) ∧
      (next_tok (advance (idents_end (after_ident u0 (skip_optional .tSIGNAL s)) us))
          ∈ mode_tokens →
        mode = token_mode
          (next_tok (advance (idents_end (after_ident u0 (skip_optional .tSIGNAL s)) us)))) := by
  refine ⟨_diff_loc
    (mode_loc
      (start_after
        (idents_loc (start_after (optional_loc .tSIGNAL LOC_INVALID s) (skip_optional .tSIGNAL s))
          (after_ident u0 (skip_optional .tSIGNAL s)) us)
        (idents_end (after_ident u0 (skip_optional .tSIGNAL s)) us))
      (advance (idents_end (after_ident u0 (skip_optional .tSIGNAL s)) us)))
    (force_peek e).yylloc, ?_, by simp, ?_, ?_, ?_⟩
  · obtain ⟨Nl, hNl⟩ := p_identifier_list_loop_app us _ hus
    obtain ⟨Nt, hNt⟩ := hty
    have h2a := skip_optional_peek2 .tSIGNAL s h2
    have h2b := idents_end_peek2 us _ hus
    have h2bf : (force_peek (idents_end (after_ident u0 (skip_optional .tSIGNAL s)) us)).peek2_valid
        = false := by rw [force_peek_peek2, h2b]
    have hcs := fun h l => consume_app .tCOLON h l
      (force_peek (idents_end (after_ident u0 (skip_optional .tSIGNAL s)) us)) h2bf
      (by rw [next_tok_force_peek]; exact hcolon)
    simp only [advance_force_peek, start_after_force_peek] at hcs
    have h2ef : (force_peek e).peek2_valid = false := by rw [force_peek_peek2, h2e]
    refine ⟨Nl + Nt, fun f hf h l => ?_⟩
    rcases hm with ⟨hin, rfl, rfl⟩ | ⟨hin, rfl, rfl⟩
    · simp only [p_interface_signal_declaration, BEGIN_app, bind, StateT.bind, Except.bind,
        optional_app .tSIGNAL _ _ s h2, p_identifier_list,
        p_identifier_app u0 _ _ (skip_optional .tSIGNAL s) h2a hid hu,
        hNl f (by omega), List.singleton_append, hcs, scan_app _ _ _ _ (advance_peek2 _),
        mode_tokens] at hin ⊢
      simp only [hin, decide_True, ite_true, bind, StateT.bind, Except.bind,
        p_mode_app _ _ _ (force_peek_peek2 _ ▸ advance_peek2 _) (by
          rw [next_tok_force_peek]; simpa [mode_tokens] using hin),
        next_tok_force_peek, advance_force_peek, start_after_force_peek,
        hNt f (by omega), optional_app_miss .tBUS _ _ e h2e hnb,
        optional_app_miss .tASSIGN _ _ (force_peek e) h2ef
          (by rw [next_tok_force_peek]; exact hna),
        Bool.false_eq_true, if_false, pure, StateT.pure, Except.pure, CURRENT_LOC_app,
        force_peek_idem, add_each_entity, signal_port, mode_loc, mode_tokens,
        set_frame_set_frame]
      rfl
    · simp only [p_interface_signal_declaration, BEGIN_app, bind, StateT.bind, Except.bind,
        optional_app .tSIGNAL _ _ s h2, p_identifier_list,
        p_identifier_app u0 _ _ (skip_optional .tSIGNAL s) h2a hid hu,
        hNl f (by omega), List.singleton_append, hcs, scan_app _ _ _ _ (advance_peek2 _),
        mode_tokens] at hin ⊢
      simp only [hin, decide_False, Bool.false_eq_true, if_false, bind, StateT.bind,
        Except.bind, force_peek_idem,
        hNt f (by omega), optional_app_miss .tBUS _ _ e h2e hnb,
        optional_app_miss .tASSIGN _ _ (force_peek e) h2ef
          (by rw [next_tok_force_peek]; exact hna),
        pure, StateT.pure, Except.pure, CURRENT_LOC_app,
        add_each_entity, signal_port, mode_loc, mode_tokens,
        set_frame_set_frame]
      rfl
  · intro p hp
    obtain ⟨i, hi, rfl⟩ := List.mem_map.1 hp
    exact ⟨i, hi, rfl⟩
  · intro hn
    rcases hm with ⟨hin, _, _⟩ | ⟨_, rfl, _⟩
    · exact absurd hin hn
    · rfl
  · intro hin
    rcases hm with ⟨_, rfl, _⟩ | ⟨hn, _, _⟩
    · rfl
    · exact absurd hin hn

theorem p_subtype_indication_mark (d : pstate) (u : ident_t) (h2 : d.peek2_valid = false)
    (ht : next_tok d = .tID) (ht2 : next_tok2 d ≠ .tID)
    (hu : (force_peek2 d).yylval_s = some u) :
    type_parses d (.mk .T_UNRESOLVED (some u) none [] none none)
      (freed (intern u (shift (force_peek2 d)))) := by
  refine ⟨0, fun f _ h l => ?_⟩
  obtain ⟨hv, hp2, hpt⟩ := force_peek2_valid d h2
  have h2f : (force_peek d).peek2_valid = false := by rw [force_peek_peek2, h2]
  obtain ⟨hf2, hn2⟩ := force_peek2_force_peek d
  have hid := p_identifier_app2 u (some "subtype indication") LOC_INVALID (force_peek2 d) hv hp2
    (by rw [hpt, ht]) hu
  simp only [p_subtype_indication, BEGIN_app, bind, StateT.bind, Except.bind,
    peek_app _ _ d h2, ht, ite_true, peek2_app _ _ (force_peek d) h2f, hf2, hn2, ht2,
    if_false, p_type_mark, hid, pure, StateT.pure, Except.pure, set_frame_set_frame]

theorem ex_ports_type : type_parses ex_p3 ex_bit ex_p4 :=
  p_subtype_indication_mark ex_p3 "bit" rfl rfl (by decide) rfl

/-- The loop of p_interface_signal_declaration at the tokens of
`a , b : in bit )` with an entity without ports as parent: two port
declarations of mode IN, for a and b, with the same type and the same
location. -/
theorem p_interface_signal_declaration_ports_witness :
    ∃ loc,
      (∃ N, ∀ f, N ≤ f → ∀ (h : Option String) (l : loc_t),
        p_interface_signal_declaration f (.T_ENTITY ex_loc "e" [] [] [] []) tree_add_port
            (set_frame h l ex_p0)
          = .ok (.T_ENTITY ex_loc "e" []
              ([] ++ ["a", "b"].map (signal_port loc .PORT_IN ex_bit)) [] [],
              set_frame h l (force_peek ex_p4))) ∧
      (["a", "b"].map (signal_port loc .PORT_IN ex_bit)).length = 1 + 1 ∧
      (∀ p ∈ ["a", "b"].map (signal_port loc .PORT_IN ex_bit), ∃ i, i ∈ ["a", "b"] ∧
        p = .T_PORT_DECL loc i .PORT_IN (some ex_bit) (some .C_SIGNAL) none) ∧
      (next_tok (advance (idents_end (after_ident "a" (skip_optional .tSIGNAL ex_p0)) ["b"]))
          ∉ mode_tokens → port_mode_t.PORT_IN = .PORT_IN) ∧
      (next_tok (advance (idents_end (after_ident "a" (skip_optional .tSIGNAL ex_p0)) ["b"]))
          ∈ mode_tokens →
        port_mode_t.PORT_IN = token_mode
          (next_tok (advance
            (idents_end (after_ident "a" (skip_optional .tSIGNAL ex_p0)) ["b"])))) :=
  p_interface_signal_declaration_ports ex_p0 ex_p3 ex_p4 "a" ["b"] .PORT_IN ex_bit ex_loc "e"
    [] [] [] [] tree_add_port rfl rfl rfl
    ⟨rfl, rfl, rfl, rfl, rfl, by decide⟩ rfl
    (Or.inl ⟨by decide, rfl, rfl⟩) ex_ports_type rfl (by decide) (by decide)

/-! ### Concurrent statements of an architecture -/

theorem mismatch_next_tok (s : pstate) : next_tok (mismatch s) = next_tok s := by
  have hv : (mismatch s).peek_valid = true := force_peek_valid s
  have hfm : force_peek (mismatch s) = mismatch s := by
    unfold force_peek
    rw [if_pos hv]
  show (force_peek (mismatch s)).peek_tok = (force_peek s).peek_tok
  rw [hfm]
  rfl

theorem force_peek_mismatch (s : pstate) : force_peek (mismatch s) = mismatch s := by
  have hv : (mismatch s).peek_valid = true := force_peek_valid s
  unfold force_peek
  rw [if_pos hv]

theorem p_concurrent_statement_labelled_other (s : pstate) (u : ident_t)
    (h2 : s.peek2_valid = false) (ht : next_tok s = .tID) (ht2 : next_tok2 s = .tCOLON)
    (hu : (force_peek2 s).yylval_s = some u)
    (hn : next_tok (after_label u s) ∉ concurrent_statement_starts) :
    parses p_concurrent_statement s (.T_BLOCK LOC_INVALID) (mismatch (after_label u s)) := by
  refine ⟨0, fun f _ h l => ?_⟩
  obtain ⟨hv, hp2, hpt⟩ := force_peek2_valid s h2
  have h2f : (force_peek s).peek2_valid = false := by rw [force_peek_peek2, h2]
  obtain ⟨hf2, hn2⟩ := force_peek2_force_peek s
  obtain ⟨hy2, hyt⟩ := after_ident2_facts u (force_peek2 s) hv
  have hid := p_identifier_app2 u (some "concurrent statement") LOC_INVALID (force_peek2 s) hv
    hp2 (by rw [hpt, ht]) hu
  have hcs := fun l => consume_app .tCOLON (some "concurrent statement") l
    (freed (intern u (shift (force_peek2 s)))) hy2 (by rw [hyt]; exact ht2)
  have h2a : (after_label u s).peek2_valid = false := rfl
  have h2af : (force_peek (after_label u s)).peek2_valid = false := by
    rw [force_peek_peek2, h2a]
  simp only [concurrent_statement_starts, List.mem_cons, List.mem_singleton,
    List.not_mem_nil, or_false, not_or] at hn
  obtain ⟨hq1, hq2, hq3⟩ := hn
  simp only [p_concurrent_statement, BEGIN_app, bind, StateT.bind, Except.bind,
    peek_app _ _ s h2, ht, ite_true, peek2_app _ _ (force_peek s) h2f, hf2, hn2, ht2, hid, hcs,
    pure, StateT.pure, Except.pure]
  have hpk := fun l => peek_app (some "concurrent statement") l (after_label u s) h2a
  have hpk2 := fun l => peek_app (some "concurrent statement") l (force_peek (after_label u s))
    h2af
  have hex := fun l => expect_app [token_t.tPROCESS] (some "concurrent statement") l
    (force_peek (after_label u s)) h2af
  simp only [next_tok_force_peek, force_peek_idem, mismatch_force_peek] at hpk2 hex
  unfold after_label at hpk hpk2 hex hq1 hq2 hq3 ⊢
  simp only [hpk, hq1, if_false, StateT.bind, StateT.pure, bind, Except.bind, pure, Except.pure,
    hpk2]
  generalize hq : next_tok (advance (freed (intern u (shift (force_peek2 s))))) = q at hq2 hq3 ⊢
  cases q <;> first
    | exact absurd rfl hq2
    | exact absurd rfl hq3
    | simp only [hex, StateT.bind, StateT.pure, bind, Except.bind, pure, Except.pure,
        set_frame_set_frame]

theorem after_label_force_peek (u : ident_t) (s : pstate) :
    after_label u (force_peek s) = after_label u s := by
  unfold after_label
  rw [(force_peek2_force_peek s).1]

theorem p_concurrent_statement_labelled_process (s b : pstate) (u : ident_t) (p : tree_t)
    (h2 : s.peek2_valid = false) (ht : next_tok s = .tID) (ht2 : next_tok2 s = .tCOLON)
    (hu : (force_peek2 s).yylval_s = some u)
    (hn : next_tok (after_label u s) = .tPROCESS ∨ next_tok (after_label u s) = .tPOSTPONED)
    (hp : process_parses (some u) (force_peek (after_label u s)) p b) :
    parses p_concurrent_statement s p b := by
  obtain ⟨N, hN⟩ := hp
  refine ⟨N, fun f hf h l => ?_⟩
  obtain ⟨hv, hp2, hpt⟩ := force_peek2_valid s h2
  have h2f : (force_peek s).peek2_valid = false := by rw [force_peek_peek2, h2]
  obtain ⟨hf2, hn2⟩ := force_peek2_force_peek s
  obtain ⟨hy2, hyt⟩ := after_ident2_facts u (force_peek2 s) hv
  have hid := p_identifier_app2 u (some "concurrent statement") LOC_INVALID (force_peek2 s) hv
    hp2 (by rw [hpt, ht]) hu
  have hcs := fun l => consume_app .tCOLON (some "concurrent statement") l
    (freed (intern u (shift (force_peek2 s)))) hy2 (by rw [hyt]; exact ht2)
  have h2a : (after_label u s).peek2_valid = false := rfl
  have h2af : (force_peek (after_label u s)).peek2_valid = false := by
    rw [force_peek_peek2, h2a]
  have hq1 : next_tok (after_label u s) ≠ .tID := by
    rcases hn with hn | hn <;> rw [hn] <;> decide
  simp only [p_concurrent_statement, BEGIN_app, bind, StateT.bind, Except.bind,
    peek_app _ _ s h2, ht, ite_true, peek2_app _ _ (force_peek s) h2f, hf2, hn2, ht2, hid, hcs,
    pure, StateT.pure, Except.pure]
  have hpk := fun l => peek_app (some "concurrent statement") l (after_label u s) h2a
  have hpk2 := fun l => peek_app (some "concurrent statement") l (force_peek (after_label u s))
    h2af
  have hN2 := hN f hf
  simp only [next_tok_force_peek, force_peek_idem] at hpk2
  unfold after_label at hpk hpk2 hq1 hn hN2
  simp only [hpk, hq1, if_false, StateT.bind, StateT.pure, bind, Except.bind, pure, Except.pure,
    hpk2]
  rcases hn with hn | hn <;> simp only [hn, hN2, set_frame_set_frame]

theorem p_concurrent_statement_process (s b : pstate) (p : tree_t)
    (h2 : s.peek2_valid = false)
    (hn : next_tok s = .tPROCESS ∨ next_tok s = .tPOSTPONED)
    (hp : process_parses none (force_peek s) p b) :
    parses p_concurrent_statement s p b := by
  obtain ⟨N, hN⟩ := hp
  refine ⟨N, fun f hf h l => ?_⟩
  have h2f : (force_peek s).peek2_valid = false := by rw [force_peek_peek2, h2]
  have hq1 : next_tok s ≠ .tID := by
    rcases hn with hn | hn <;> rw [hn] <;> decide
  rcases hn with hn | hn <;>
  simp only [p_concurrent_statement, BEGIN_app, bind, StateT.bind, Except.bind,
    peek_app _ _ s h2, hn, reduceCtorEq, if_false, pure, StateT.pure, Except.pure,
    peek_app _ _ (force_peek s) h2f, next_tok_force_peek, force_peek_idem, hN f hf,
    set_frame_set_frame]

theorem p_architecture_statement_part_none (s : pstate) (h2 : s.peek2_valid = false)
    (hn : next_tok s ∉ concurrent_statement_starts) :
    ∀ f (h : Option String) (l : loc_t) (arch : tree_t),
      p_architecture_statement_part (f + 1) arch (set_frame h l s)
        = .ok (arch, set_frame h l (force_peek s)) := by
  intro f h l arch
  simp only [concurrent_statement_starts] at hn
  simp only [p_architecture_statement_part, p_architecture_statement_part_loop, BEGIN_app, bind,
    StateT.bind, Except.bind, scan_app _ _ _ s h2, hn, decide_False, Bool.false_eq_true,
    if_false, pure, StateT.pure, Except.pure, set_frame_set_frame]

theorem p_architecture_statement_part_one (s s1 : pstate) (x : tree_t)
    (h2 : s.peek2_valid = false) (hin : next_tok s ∈ concurrent_statement_starts)
    (hx : parses p_concurrent_statement (force_peek s) x s1) (h21 : s1.peek2_valid = false)
    (hn : next_tok s1 ∉ concurrent_statement_starts) :
    ∃ N, ∀ f, N ≤ f → ∀ (h : Option String) (l : loc_t) (arch : tree_t),
      p_architecture_statement_part f arch (set_frame h l s)
        = .ok (tree_add_stmt arch x, set_frame h l (force_peek s1)) := by
  obtain ⟨N, hN⟩ := hx
  refine ⟨N + 2, fun f hf h l arch => ?_⟩
  obtain ⟨k, rfl⟩ := Nat.exists_eq_add_of_le hf
  have e : N + 2 + k = (N + k) + 1 + 1 := by omega
  rw [e]
  simp only [concurrent_statement_starts] at hn hin
  simp only [p_architecture_statement_part, p_architecture_statement_part_loop, BEGIN_app, bind,
    StateT.bind, Except.bind, scan_app _ _ _ s h2, hin, decide_True, ite_true,
    hN (N + k + 1) (by omega), scan_app _ _ _ s1 h21, hn, decide_False, Bool.false_eq_true,
    if_false, pure, StateT.pure, Except.pure, set_frame_set_frame]

theorem p_process_statement_empty (a : pstate) (u : ident_t) (h2 : a.peek2_valid = false)
    (t0 : next_tok a = .tPROCESS) (t1 : next_tok (advance a) = .tBEGIN)
    (t2 : next_tok (advance (advance a)) = .tEND)
    (t3 : next_tok (advance (advance (advance a))) = .tPROCESS)
    (t4 : next_tok (advance (advance (advance (advance a)))) = .tSEMI) :
    process_parses (some u) a
      (.T_PROCESS
        (_diff_loc
          (start_after (start_after (start_after (start_after (start_after LOC_INVALID a)
            (advance a)) (advance (advance a))) (advance (advance (advance a))))
            (advance (advance (advance (advance a)))))
          (advance (advance (advance (advance (advance a))))).yylloc)
        (some u) [] [] [] [])
      (advance (advance (advance (advance (advance a))))) := by
  obtain ⟨Ns, hNs⟩ := sequence_parses_nil (advance (advance a)) rfl (by rw [t2]; decide)
  refine ⟨Ns + 2, fun f hf h l => ?_⟩
  obtain ⟨k, rfl⟩ := Nat.exists_eq_add_of_le hf
  have e : Ns + 2 + k = (Ns + k + 1) + 1 := by omega
  rw [e]
  have h2f : (force_peek a).peek2_valid = false := by rw [force_peek_peek2, h2]
  have h2f1 : (force_peek (advance a)).peek2_valid = false := by
    rw [force_peek_peek2]; rfl
  have h2f2 : (force_peek (advance (advance a))).peek2_valid = false := by
    rw [force_peek_peek2]; rfl
  have h2f4 : (force_peek (advance (advance (advance (advance a))))).peek2_valid = false := by
    rw [force_peek_peek2]; rfl
  simp only [p_process_statement, BEGIN_app, bind, StateT.bind, Except.bind,
    optional_app_miss .tPOSTPONED _ _ a h2 (by rw [t0]; decide),
    consume_app .tPROCESS _ _ (force_peek a) h2f (by rw [next_tok_force_peek]; exact t0),
    advance_force_peek, start_after_force_peek,
    optional_app_miss .tLPAREN _ _ (advance a) rfl (by rw [t1]; decide),
    optional_app_miss .tIS _ _ (force_peek (advance a)) h2f1
      (by rw [next_tok_force_peek, t1]; decide),
    Bool.false_eq_true, if_false, pure, StateT.pure, Except.pure, force_peek_idem,
    p_process_declarative_part, p_process_declarative_part_loop,
    scan_app _ _ _ (force_peek (advance a)) h2f1, next_tok_force_peek, t1,
    List.mem_singleton, reduceCtorEq, decide_False,
    consume_app .tBEGIN _ _ (force_peek (advance a)) h2f1
      (by rw [next_tok_force_peek]; exact t1),
    p_process_statement_part, hNs (Ns + k + 1 + 1) (by omega), List.foldl_nil,
    consume_app .tEND _ _ (force_peek (advance (advance a))) h2f2
      (by rw [next_tok_force_peek]; exact t2),
    consume_app .tPROCESS _ _ (advance (advance (advance a))) rfl t3,
    peek_app _ _ (advance (advance (advance (advance a)))) rfl, t4,
    consume_app .tSEMI _ _ (force_peek (advance (advance (advance (advance a))))) h2f4
      (by rw [next_tok_force_peek]; exact t4),
    CURRENT_LOC_app, tree_set_loc, tree_set_ident, set_frame_set_frame]

theorem labelled_assert_block (s : pstate) (u : ident_t) (h2 : s.peek2_valid = false)
    (ht : next_tok s = .tID) (ht2 : next_tok2 s = .tCOLON)
    (hu : (force_peek2 s).yylval_s = some u) (ha : next_tok (after_label u s) = .tASSERT) :
    ∃ N, ∀ f, N ≤ f → ∀ (h : Option String) (l : loc_t) (arch : tree_t),
      p_architecture_statement_part f arch (set_frame h l s)
        = .ok (tree_add_stmt arch (.T_BLOCK LOC_INVALID),
            set_frame h l (mismatch (after_label u s))) := by
  have h2f : (force_peek s).peek2_valid = false := by rw [force_peek_peek2, h2]
  obtain ⟨hf2, hn2⟩ := force_peek2_force_peek s
  have hx := p_concurrent_statement_labelled_other (force_peek s) u h2f
    (by rw [next_tok_force_peek]; exact ht) (by rw [hn2]; exact ht2) (by rw [hf2]; exact hu)
    (by rw [after_label_force_peek, ha]; decide)
  rw [after_label_force_peek] at hx
  obtain ⟨N, hN⟩ := p_architecture_statement_part_one s _ _ h2 (by rw [ht]; decide) hx
    (by rw [mismatch_peek2]; rfl) (by rw [mismatch_next_tok, ha]; decide)
  rw [force_peek_mismatch] at hN
  exact ⟨N, hN⟩

/-- C25: the architecture path lacks the concurrent assertion that the
grammar comment of p_concurrent_statement lists and that p_entity_statement
dispatches to p_concurrent_assertion_statement.  In an architecture
statement part a process statement, with or without label, is accepted as a
concurrent statement and added to the statements of the architecture, as the
node p_process_statement returns.  A statement `u : assert ...` is not
accepted: after the label and the colon the mismatch is signalled through
expect, nothing more is consumed and a block node is added to the
statements, the statement part ending before `assert`; without a label the
statement part ends before `assert` and nothing is added. -/
theorem p_architecture_statement_part_accepts (s : pstate) (al : loc_t) (ai ai2 : ident_t)
    (ds ss : List tree_t) (h2 : s.peek2_valid = false) :
    (∀ u, next_tok s = .tID → next_tok2 s = .tCOLON → (force_peek2 s).yylval_s = some u →
      next_tok (after_label u s) = .tASSERT →
      (∃ N, ∀ f, N ≤ f → ∀ (h : Option String) (l : loc_t),
        p_architecture_statement_part f (.T_ARCH al ai ai2 ds ss) (set_frame h l s)
          = .ok (.T_ARCH al ai ai2 ds (ss ++ [.T_BLOCK LOC_INVALID]),
              set_frame h l (mismatch (after_label u s)))) ∧
      next_tok (mismatch (after_label u s)) = .tASSERT ∧
      (mismatch (after_label u s)).input = (force_peek (after_label u s)).input ∧
      (mismatch (after_label u s)).n_errors =
        (if RECOVER_THRESH ≤ (force_peek (after_label u s)).n_correct then
          (force_peek (after_label u s)).n_errors + 1
         else (force_peek (after_label u s)).n_errors)) ∧
    (next_tok s = .tASSERT → ∀ f (h : Option String) (l : loc_t),
      p_architecture_statement_part (f + 1) (.T_ARCH al ai ai2 ds ss) (set_frame h l s)
        = .ok (.T_ARCH al ai ai2 ds ss, set_frame h l (force_peek s))) ∧
    (∀ p b, (next_tok s = .tPROCESS ∨ next_tok s = .tPOSTPONED) →
      process_parses none (force_peek s) p b → b.peek2_valid = false →
      next_tok b ∉ concurrent_statement_starts →
      ∃ N, ∀ f, N ≤ f → ∀ (h : Option String) (l : loc_t),
        p_architecture_statement_part f (.T_ARCH al ai ai2 ds ss) (set_frame h l s)
          = .ok (.T_ARCH al ai ai2 ds (ss ++ [p]), set_frame h l (force_peek b))) ∧
    (∀ u p b, next_tok s = .tID → next_tok2 s = .tCOLON → (force_peek2 s).yylval_s = some u →
      (next_tok (after_label u s) = .tPROCESS ∨ next_tok (after_label u s) = .tPOSTPONED) →
      process_parses (some u) (force_peek (after_label u s)) p b → b.peek2_valid = false →
      next_tok b ∉ concurrent_statement_starts →
      ∃ N, ∀ f, N ≤ f → ∀ (h : Option String) (l : loc_t),
        p_architecture_statement_part f (.T_ARCH al ai ai2 ds ss) (set_frame h l s)
          = .ok (.T_ARCH al ai ai2 ds (ss ++ [p]), set_frame h l (force_peek b))) := by
  have h2f : (force_peek s).peek2_valid = false := by rw [force_peek_peek2, h2]
  obtain ⟨hf2, hn2⟩ := force_peek2_force_peek s
  refine ⟨fun u ht ht2 hu ha => ⟨?_, ?_, rfl, ?_⟩, fun ha f h l => ?_,
    fun p b hn hp h2b hnb => ?_, fun u p b ht ht2 hu hn hp h2b hnb => ?_⟩
  · obtain ⟨N, hN⟩ := labelled_assert_block s u h2 ht ht2 hu ha
    exact ⟨N, fun f hf h l => hN f hf h l _⟩
  · rw [mismatch_next_tok, ha]
  · simp [mismatch]
  · exact p_architecture_statement_part_none s h2 (by rw [ha]; decide) f h l _
  · have hx := p_concurrent_statement_process (force_peek s) b p h2f
      (by rw [next_tok_force_peek]; exact hn) (by rw [force_peek_idem]; exact hp)
    obtain ⟨N, hN⟩ := p_architecture_statement_part_one s b p h2
      (by rcases hn with hn | hn <;> rw [hn] <;> decide) hx h2b hnb
    exact ⟨N, fun f hf h l => hN f hf h l _⟩
  · have hx := p_concurrent_statement_labelled_process (force_peek s) b u p h2f
      (by rw [next_tok_force_peek]; exact ht) (by rw [hn2]; exact ht2) (by rw [hf2]; exact hu)
      (by rw [after_label_force_peek]; exact hn) (by rw [after_label_force_peek]; exact hp)
    obtain ⟨N, hN⟩ := p_architecture_statement_part_one s b p h2 (by rw [ht]; decide) hx h2b hnb
    exact ⟨N, fun f hf h l => hN f hf h l _⟩

/-- C25 as stated fails at the tokens of `a1 : assert 1 ;` read with the
counters as parse sets them: the statement part adds a block node, not a
concurrent-assertion node, counts one error, and leaves `assert 1 ;`
unread. -/
theorem cassert_not_accepted :
    (∃ N, ∀ f, N ≤ f →
      p_architecture_statement_part f ex_arch (set_frame none LOC_INVALID ex_q0)
        = .ok (.T_ARCH ex_loc "rtl" "e" [] [.T_BLOCK LOC_INVALID],
            set_frame none LOC_INVALID (mismatch (after_label "a1" ex_q0)))) ∧
    ex_q0.n_errors = 0 ∧
    (mismatch (after_label "a1" ex_q0)).n_errors = 1 ∧
    next_tok (mismatch (after_label "a1" ex_q0)) = .tASSERT ∧
    (mismatch (after_label "a1" ex_q0)).input = [ex_lx_int 1 12, ex_lx .tSEMI 14] :=
  ⟨(labelled_assert_block ex_q0 "a1" rfl rfl rfl rfl rfl).elim
      fun N hN => ⟨N, fun f hf => hN f hf none LOC_INVALID ex_arch⟩,
    rfl, rfl, rfl, rfl⟩

theorem ex_process_parses :
    ∃ loc, process_parses (some "p1") (force_peek (after_label "p1" ex_w0))
      (.T_PROCESS loc (some "p1") [] [] [] []) ex_w1 :=
  ⟨_, p_process_statement_empty (force_peek (after_label "p1" ex_w0)) "p1" rfl rfl rfl rfl rfl
    rfl⟩

/-- C25 at the tokens of `p1 : process begin end process ;`, which add a
process node with the label p1 to an architecture without statements, and at
the tokens of `a1 : assert 1 ;`, which add a block node. -/
theorem p_architecture_statement_part_accepts_witness :
    (∃ loc N, ∀ f, N ≤ f → ∀ (h : Option String) (l : loc_t),
      p_architecture_statement_part f (.T_ARCH ex_loc "rtl" "e" [] []) (set_frame h l ex_w0)
        = .ok (.T_ARCH ex_loc "rtl" "e" [] ([] ++ [.T_PROCESS loc (some "p1") [] [] [] []]),
            set_frame h l (force_peek ex_w1))) ∧
    (∃ N, ∀ f, N ≤ f → ∀ (h : Option String) (l : loc_t),
      p_architecture_statement_part f (.T_ARCH ex_loc "rtl" "e" [] []) (set_frame h l ex_q0)
        = .ok (.T_ARCH ex_loc "rtl" "e" [] ([] ++ [.T_BLOCK LOC_INVALID]),
            set_frame h l (mismatch (after_label "a1" ex_q0)))) :=
  ⟨ex_process_parses.elim fun loc hp =>
      ⟨loc, (p_architecture_statement_part_accepts ex_w0 ex_loc "rtl" "e" [] [] rfl).2.2.2 "p1"
        _ ex_w1 rfl rfl rfl (Or.inl rfl) hp rfl (by decide)⟩,
   ((p_architecture_statement_part_accepts ex_q0 ex_loc "rtl" "e" [] [] rfl).1 "a1" rfl rfl rfl
      rfl).1⟩

/-! ### Value-table: binding, lookup and scoping -/

theorem bound_in_false (f : vtframe_t) (k : vtkey_t) :
    bound_in f k = false ↔ ∀ b ∈ f, b.1 ≠ k := by
  simp [bound_in]

theorem bound_in_true (f : vtframe_t) (k : vtkey_t) :
    bound_in f k = true ↔ ∃ b ∈ f, b.1 = k := by
  simp [bound_in]

theorem vtframe_set_none (f : vtframe_t) (k : vtkey_t) (x : tree_t) :
    vtframe_set f k x = none ↔ bound_in f k = false := by
  induction f with
  | nil => simp [vtframe_set, bound_in]
  | cons b bs ih =>
    unfold vtframe_set
    by_cases hb : b.1 = k
    · simp [hb, bound_in]
    · simp only [hb, if_false, Option.map_eq_none', ih]
      simp [bound_in, hb]

theorem find_key_none (f : vtframe_t) (k : vtkey_t) :
    f.find? (fun b => decide (b.1 = k)) = none ↔ bound_in f k = false := by
  simp [bound_in]

theorem vtframe_set_find (f f2 : vtframe_t) (k : vtkey_t) (x : tree_t)
    (h : vtframe_set f k x = some f2) :
    f2.find? (fun b => decide (b.1 = k)) = some (k, x) ∧
    (∀ j, j ≠ k → f2.find? (fun b => decide (b.1 = j)) = f.find? (fun b => decide (b.1 = j))) ∧
    (∀ j, bound_in f2 j = bound_in f j) := by
  induction f generalizing f2 with
  | nil => simp [vtframe_set] at h
  | cons b bs ih =>
    unfold vtframe_set at h
    by_cases hb : b.1 = k
    · simp only [hb, if_true, Option.some.injEq] at h
      subst h
      refine ⟨by simp, ?_, ?_⟩
      · intro j hj
        have : ¬ k = j := fun e => hj e.symm
        simp [List.find?, hb, this]
      · intro j
        simp [bound_in, hb]
    · simp only [hb, if_false, Option.map_eq_some'] at h
      obtain ⟨bs2, hs, rfl⟩ := h
      obtain ⟨h1, h2, h3⟩ := ih bs2 hs
      refine ⟨by simp [List.find?, hb, h1], ?_, ?_⟩
      · intro j hj
        by_cases hbj : b.1 = j
        · simp [List.find?, hbj]
        · simp [List.find?, hbj, h2 j hj]
      · intro j
        have := h3 j
        simp only [bound_in, List.any_cons] at this ⊢
        rw [this]

theorem append_find (f : vtframe_t) (k : vtkey_t) (x : tree_t) (h : bound_in f k = false) :
    (f ++ [(k, x)]).find? (fun b => decide (b.1 = k)) = some (k, x) ∧
    (∀ j, j ≠ k → (f ++ [(k, x)]).find? (fun b => decide (b.1 = j))
      = f.find? (fun b => decide (b.1 = j))) ∧
    (∀ j, bound_in (f ++ [(k, x)]) j = (bound_in f j || decide (k = j))) := by
  refine ⟨?_, ?_, ?_⟩
  · rw [List.find?_append, (find_key_none f k).2 h]
    simp
  · intro j hj
    have : ¬ k = j := fun e => hj e.symm
    rw [List.find?_append]
    simp [List.find?, this]
  · intro j
    simp [bound_in]

/-- What one call of vtable_bind on a table with a top frame does. -/
theorem vtable_bind_top (f : vtframe_t) (down : vtable_t) (k : vtkey_t) (x : tree_t)
    (v2 : vtable_t) (h : vtable_bind (f :: down) k x = .ok v2) :
    ∃ f2, v2 = f2 :: down ∧ f.length ≤ f2.length ∧ f2.length ≤ f.length + 1 ∧
      (bound_in f k = true → f2.length = f.length) ∧
      f2.find? (fun b => decide (b.1 = k)) = some (k, x) ∧
      (∀ j, j ≠ k → f2.find? (fun b => decide (b.1 = j))
        = f.find? (fun b => decide (b.1 = j))) ∧
      (∀ j, bound_in f2 j = (bound_in f j || decide (k = j))) := by
  unfold vtable_bind at h
  simp only at h
  cases hs : vtframe_set f k x with
  | some f3 =>
    simp only [hs, Except.ok.injEq] at h
    subst h
    obtain ⟨h1, h2, h3⟩ := vtframe_set_find f f3 k x hs
    have hl := vtframe_set_length f f3 k x hs
    have hb : bound_in f k = true := by
      cases hq : bound_in f k with
      | true => rfl
      | false => rw [(vtframe_set_none f k x).2 hq] at hs; cases hs
    refine ⟨f3, rfl, by omega, by omega, fun _ => hl, h1, h2, ?_⟩
    intro j
    by_cases hj : k = j
    · subst hj; simp [h3, hb]
    · simp [h3, hj]
  | none =>
    simp only [hs] at h
    split at h
    · simp only [Except.ok.injEq] at h
      subst h
      have hb := (vtframe_set_none f k x).1 hs
      obtain ⟨h1, h2, h3⟩ := append_find f k x hb
      exact ⟨_, rfl, by simp, by simp, by simp [hb], h1, h2, h3⟩
    · cases h

/-- The call returns when the name is bound in the top frame or the frame
has room. -/
theorem vtable_bind_returns (f : vtframe_t) (down : vtable_t) (k : vtkey_t) (x : tree_t)
    (h : bound_in f k = true ∨ f.length < VTABLE_SZ) :
    ∃ v2, vtable_bind (f :: down) k x = .ok v2 := by
  unfold vtable_bind
  simp only
  cases hs : vtframe_set f k x with
  | some f3 => exact ⟨_, rfl⟩
  | none =>
    have hb := (vtframe_set_none f k x).1 hs
    rcases h with h | h
    · rw [hb] at h; cases h
    · simp [h]

theorem vtable_get_hit (f : vtframe_t) (down : vtable_t) (k : vtkey_t) (b : vtkey_t × tree_t)
    (h : f.find? (fun b => decide (b.1 = k)) = some b) :
    vtable_get (f :: down) k = some b.2 := by
  simp only [vtable_get]
  rw [vtframe_get, h]

theorem vtable_get_miss (f : vtframe_t) (down : vtable_t) (k : vtkey_t)
    (h : bound_in f k = false) : vtable_get (f :: down) k = vtable_get down k := by
  simp only [vtable_get]
  rw [vtframe_get, (find_key_none f k).2 h]

theorem vtable_get_congr (f f2 : vtframe_t) (down : vtable_t) (k : vtkey_t)
    (h : f2.find? (fun b => decide (b.1 = k)) = f.find? (fun b => decide (b.1 = k))) :
    vtable_get (f2 :: down) k = vtable_get (f :: down) k := by
  simp only [vtable_get]
  rw [vtframe_get, vtframe_get, h]

/-- A run of binds of other names keeps the binding of k in the top frame. -/
theorem vtable_binds_keeps (k : vtkey_t) (x : tree_t) (down : vtable_t) :
    ∀ (bs : List (vtkey_t × tree_t)) (f : vtframe_t) (v3 : vtable_t),
      f.find? (fun b => decide (b.1 = k)) = some (k, x) → (∀ b ∈ bs, b.1 ≠ k) →
      vtable_binds (f :: down) bs = .ok v3 →
      ∃ f3, v3 = f3 :: down ∧ f3.find? (fun b => decide (b.1 = k)) = some (k, x) := by
  intro bs
  induction bs with
  | nil =>
    intro f v3 hf _ h
    simp only [vtable_binds, Except.ok.injEq] at h
    exact ⟨f, h.symm, hf⟩
  | cons b rest ih =>
    intro f v3 hf hne h
    obtain ⟨j, y⟩ := b
    simp only [vtable_binds] at h
    cases hb : vtable_bind (f :: down) j y with
    | error e => simp [hb] at h
    | ok v2 =>
      simp only [hb] at h
      obtain ⟨f2, rfl, -, -, -, -, h2, -⟩ := vtable_bind_top f down j y v2 hb
      have hkj : k ≠ j := fun e => hne (j, y) (List.mem_cons_self _ _) e.symm
      exact ih f2 v3 (by rw [h2 k hkj]; exact hf)
        (fun c hc => hne c (List.mem_cons_of_mem _ hc)) h

/-- A run of binds changes the top frame only. -/
theorem vtable_binds_below : ∀ (bs : List (vtkey_t × tree_t)) (f : vtframe_t)
    (down v3 : vtable_t), vtable_binds (f :: down) bs = .ok v3 → ∃ f3, v3 = f3 :: down := by
  intro bs
  induction bs with
  | nil =>
    intro f down v3 h
    simp only [vtable_binds, Except.ok.injEq] at h
    exact ⟨f, h.symm⟩
  | cons b rest ih =>
    intro f down v3 h
    obtain ⟨j, y⟩ := b
    simp only [vtable_binds] at h
    cases hb : vtable_bind (f :: down) j y with
    | error e => simp [hb] at h
    | ok v2 =>
      simp only [hb] at h
      obtain ⟨f2, rfl, -⟩ := vtable_bind_top f down j y v2 hb
      exact ih f2 down v3 h

/-- A run of binds returns when the frame has room for all of them. -/
theorem vtable_binds_returns : ∀ (bs : List (vtkey_t × tree_t)) (f : vtframe_t)
    (down : vtable_t), f.length + bs.length ≤ VTABLE_SZ →
    ∃ v3, vtable_binds (f :: down) bs = .ok v3 := by
  intro bs
  induction bs with
  | nil => intro f down _; exact ⟨_, rfl⟩
  | cons b rest ih =>
    intro f down h
    obtain ⟨j, y⟩ := b
    simp only [List.length_cons] at h
    obtain ⟨v2, hb⟩ := vtable_bind_returns f down j y (Or.inr (by omega))
    obtain ⟨f2, rfl, -, hl, -⟩ := vtable_bind_top f down j y v2 hb
    obtain ⟨v3, h3⟩ := ih f2 down (by omega)
    exact ⟨v3, by simp only [vtable_binds, hb, h3]⟩

/-- C31: on a table with a top frame f that binds k already or holds fewer
than VTABLE_SZ bindings, vtable_bind of k to x returns; afterwards
vtable_get of k is x and vtable_get of every other name is what it was; x
stays the value of k after every run of binds of other names that returns
(and such a run returns whenever the frame has room for it), until k is
bound again (which then always returns, and gives the new value) or the
frame is popped (which leaves the frames below as they were).  On a table
without frame vtable_bind returns the table unchanged and vtable_get finds
nothing. -/
theorem vtable_bind_then_get (f : vtframe_t) (down : vtable_t) (k : vtkey_t) (x : tree_t)
    (h : bound_in f k = true ∨ f.length < VTABLE_SZ) :
    (∃ f2, vtable_bind (f :: down) k x = .ok (f2 :: down) ∧
      vtable_get (f2 :: down) k = some x ∧
      (∀ j, j ≠ k → vtable_get (f2 :: down) j = vtable_get (f :: down) j) ∧
      (∀ bs v3, (∀ b ∈ bs, b.1 ≠ k) → vtable_binds (f2 :: down) bs = .ok v3 →
        vtable_get v3 k = some x ∧ vtable_pop v3 = .ok down ∧
        ∀ y, ∃ v4, vtable_bind v3 k y = .ok v4 ∧ vtable_get v4 k = some y) ∧
      (∀ bs, f2.length + bs.length ≤ VTABLE_SZ →
        ∃ v3, vtable_binds (f2 :: down) bs = .ok v3)) ∧
    vtable_bind [] k x = .ok [] ∧ vtable_get [] k = none := by
  refine ⟨?_, rfl, rfl⟩
  obtain ⟨v2, hb⟩ := vtable_bind_returns f down k x h
  obtain ⟨f2, rfl, -, -, -, h1, h2, -⟩ := vtable_bind_top f down k x v2 hb
  refine ⟨f2, hb, ?_, ?_, ?_, ?_⟩
  · exact vtable_get_hit _ _ _ _ h1
  · intro j hj
    exact vtable_get_congr _ _ _ _ (h2 j hj)
  · intro bs v3 hne h3
    obtain ⟨f3, rfl, hf3⟩ := vtable_binds_keeps k x down bs f2 v3 h1 hne h3
    refine ⟨vtable_get_hit _ _ _ _ hf3, rfl, ?_⟩
    intro y
    have hbd : bound_in f3 k = true := by
      cases hq : bound_in f3 k with
      | true => rfl
      | false => rw [(find_key_none f3 k).2 hq] at hf3; cases hf3
    obtain ⟨v4, h4⟩ := vtable_bind_returns f3 down k y (Or.inl hbd)
    obtain ⟨f4, rfl, -, -, -, h5, -⟩ := vtable_bind_top f3 down k y v4 h4
    exact ⟨_, h4, vtable_get_hit _ _ _ _ h5⟩
  · intro bs hl
    exact vtable_binds_returns bs f2 down hl

/-- C31 at the frame that binds x to 1 and y to 2: x is bound to 5. -/
theorem vtable_bind_then_get_witness :
    (bound_in [(some "x", ex_int 1), (some "y", ex_int 2)] (some "x") = true ∨
      [(some "x", ex_int 1), (some "y", ex_int 2)].length < VTABLE_SZ) ∧
    ((∃ f2, vtable_bind ex_scopes (some "x") (ex_int 5) = .ok (f2 :: ex_scopes.tail) ∧
      vtable_get (f2 :: ex_scopes.tail) (some "x") = some (ex_int 5) ∧
      (∀ j, j ≠ some "x" → vtable_get (f2 :: ex_scopes.tail) j = vtable_get ex_scopes j) ∧
      (∀ bs v3, (∀ b ∈ bs, b.1 ≠ some "x") →
        vtable_binds (f2 :: ex_scopes.tail) bs = .ok v3 →
        vtable_get v3 (some "x") = some (ex_int 5) ∧ vtable_pop v3 = .ok ex_scopes.tail ∧
        ∀ y, ∃ v4, vtable_bind v3 (some "x") y = .ok v4 ∧ vtable_get v4 (some "x") = some y) ∧
      (∀ bs, f2.length + bs.length ≤ VTABLE_SZ →
        ∃ v3, vtable_binds (f2 :: ex_scopes.tail) bs = .ok v3)) ∧
    vtable_bind [] (some "x") (ex_int 5) = .ok [] ∧ vtable_get [] (some "x") = none) :=
  ⟨Or.inl (by decide),
   vtable_bind_then_get [(some "x", ex_int 1), (some "y", ex_int 2)]
     [[(some "x", ex_int 7), (some "z", ex_int 9)]] (some "x") (ex_int 5) (Or.inl (by decide))⟩

/-- C32: lexical scoping of the value-table.  After vtable_push every name
is looked up as before; a name the top frame does not bind is looked up in
the frames below and a name it binds gets the value of the top frame
(nearest first); vtable_bind changes the top frame only, so the new value
shadows a binding of a lower frame, which is found again after vtable_pop;
and vtable_push, any run of binds that returns and vtable_pop give back the
table from before the push, hence every lookup result from before (the run
returns whenever it has at most VTABLE_SZ binds). -/
theorem vtable_lexical_scoping (v : vtable_t) :
    (∀ k, vtable_get (vtable_push v) k = vtable_get v k) ∧
    (∀ f k, bound_in f k = false → vtable_get (f :: v) k = vtable_get v k) ∧
    (∀ f k b, f.find? (fun c => decide (c.1 = k)) = some b →
      vtable_get (f :: v) k = some b.2) ∧
    (∀ f k x v2, vtable_bind (f :: v) k x = .ok v2 →
      vtable_get v2 k = some x ∧ v2.tail = v ∧ vtable_pop v2 = .ok v) ∧
    (∀ bs v2, vtable_binds (vtable_push v) bs = .ok v2 →
      ∃ v3, vtable_pop v2 = .ok v3 ∧ v3 = v ∧ ∀ k, vtable_get v3 k = vtable_get v k) ∧
    (∀ bs, bs.length ≤ VTABLE_SZ → ∃ v2, vtable_binds (vtable_push v) bs = .ok v2) := by
  refine ⟨?_, ?_, ?_, ?_, ?_, ?_⟩
  · intro k
    exact vtable_get_miss [] v k rfl
  · intro f k h
    exact vtable_get_miss f v k h
  · intro f k b h
    exact vtable_get_hit f v k b h
  · intro f k x v2 h
    obtain ⟨f2, rfl, -, -, -, h1, -⟩ := vtable_bind_top f v k x v2 h
    exact ⟨vtable_get_hit _ _ _ _ h1, rfl, rfl⟩
  · intro bs v2 h
    obtain ⟨f3, rfl⟩ := vtable_binds_below bs [] v v2 h
    exact ⟨v, rfl, rfl, fun _ => rfl⟩
  · intro bs h
    exact vtable_binds_returns bs [] v (by simpa using h)

/-- C32 at the table ex_scopes: in a new frame x is bound to 5 and w to 6;
inside, x is 5 and z is still 9; after the pop x is 1 again and w is not
bound. -/
theorem vtable_lexical_scoping_witness :
    vtable_get (vtable_push ex_scopes) (some "x") = some (ex_int 1) ∧
    vtable_get ex_scopes (some "z") = some (ex_int 9) ∧
    (∃ v2, vtable_binds (vtable_push ex_scopes)
        [(some "x", ex_int 5), (some "w", ex_int 6)] = .ok v2 ∧
      vtable_get v2 (some "x") = some (ex_int 5) ∧
      vtable_get v2 (some "z") = some (ex_int 9) ∧
      ∃ v3, vtable_pop v2 = .ok v3 ∧ v3 = ex_scopes ∧
        ∀ k, vtable_get v3 k = vtable_get ex_scopes k) :=
  ⟨rfl, rfl,
   _, rfl, rfl, rfl,
   (vtable_lexical_scoping ex_scopes).2.2.2.2.1 [(some "x", ex_int 5), (some "w", ex_int 6)] _ rfl⟩

/-! ### Returns inside branches and loops -/

theorem eval_stmts_append (st : tree_t → vtable_t → eval_m vtable_t) :
    ∀ (pre post : List tree_t) (v w : vtable_t), eval_stmts st pre v = .ok w →
      eval_stmts st (pre ++ post) v = eval_stmts st post w := by
  intro pre
  induction pre with
  | nil =>
    intro post v w h
    simp only [eval_stmts, Except.ok.injEq] at h
    subst h
    rfl
  | cons s rest ih =>
    intro post v w h
    simp only [eval_stmts, bind, Except.bind] at h
    cases hs : st s v with
    | error e => simp [hs] at h
    | ok v1 =>
      simp only [hs] at h
      simp only [List.cons_append, eval_stmts, bind, Except.bind, hs]
      exact ih post v1 w h

theorem eval_stmts_through (st : tree_t → vtable_t → eval_m vtable_t)
    (pre post : List tree_t) (r : tree_t) (v w w2 : vtable_t)
    (hpre : eval_stmts st pre v = .ok w) (hr : st r w = .ok w2) :
    eval_stmts st (pre ++ r :: post) v = eval_stmts st post w2 := by
  rw [eval_stmts_append st pre (r :: post) v w hpre]
  simp only [eval_stmts, bind, Except.bind, hr]

/-- C39: a return inside the selected branch of an if or inside the body of
a while does not end that branch or loop.  When the condition folds to true
and the statement r of the branch (or body) `pre ++ r :: post` has run and
left a result binding visible, eval_if goes on with every statement of post,
and eval_while goes on with every statement of post and then starts over
with its condition; only the statement loop of eval_func_body stops at r.
Two returns in a row, run on a table with a frame, leave the value of the
second one as the result: the function
`begin if 1 = 1 then return 1; return 2; end if; return 3; end` folds to 2,
and so does
`variable y := 0; begin while y < 3 loop return y; y := y + 1; end loop; end`,
whose loop runs three times. -/
theorem eval_return_no_interrupt (fuel : Nat) (loc : loc_t) (id : Option ident_t)
    (c : tree_t) (pre post E : List tree_t) (r cond : tree_t) (v v2 w w2 : vtable_t)
    (hc : eval_expr fuel c v = .ok (cond, v2))
    (hb : folded_bool cond = .ok (some true))
    (hpre : eval_stmts (fun s x => eval_stmt fuel s x) pre v2 = .ok w)
    (hr : eval_stmt fuel r w = .ok w2)
    (hres : (vtable_get w2 result_i).isSome = true) :
    eval_if (fuel + 1) (.T_IF loc id c (pre ++ r :: post) E) v
      = eval_stmts (fun s x => eval_stmt fuel s x) post w2 ∧
    eval_while (fuel + 1) (.T_WHILE loc id c (pre ++ r :: post)) v
      = (match eval_stmts (fun s x => eval_stmt fuel s x) post w2 with
         | .ok v3 => eval_while fuel (.T_WHILE loc id c (pre ++ r :: post)) v3
         | .error e => .error e) ∧
    (runs_unset (fun s x => eval_stmt fuel s x) pre v2 w →
      eval_body_stmts (fun s x => eval_stmt fuel s x) (pre ++ r :: post) v2 = .ok w2) ∧
    (∀ l1 i1 l2 i2 e1 e2 val1 val2 u u1 u2 u3, u ≠ [] →
      eval_expr fuel e1 u = .ok (val1, u1) → vtable_bind u1 result_i val1 = .ok u2 →
      eval_expr fuel e2 u2 = .ok (val2, u3) →
      ∃ u4, eval_stmts (fun s x => eval_stmt (fuel + 2) s x)
          [.T_RETURN l1 i1 (some e1), .T_RETURN l2 i2 (some e2)] u = .ok u4 ∧
        vtable_get u4 result_i = some val2) ∧
    (∀ k, eval (k + 8) (ex_body_call [ex_if_returns, ex_return 3]) = .ok (ex_int 2)) ∧
    (∀ k, eval (k + 14) w_call = .ok (ex_int 2)) := by
  refine ⟨?_, ?_, ?_, ?_, fun k => rfl, fun k => rfl⟩
  · simp only [eval_if, tree_value, tree_stmts, bind, Except.bind, hc, hb, if_true]
    exact eval_stmts_through _ pre post r v2 w w2 hpre hr
  · rw [eval_while]
    simp only [tree_value, tree_stmts, bind, Except.bind, hc, hb, Bool.not_true,
      Bool.false_eq_true, if_false]
    rw [eval_stmts_through _ pre post r v2 w w2 hpre hr]
    cases eval_stmts (fun s x => eval_stmt fuel s x) post w2 <;> rfl
  · intro hu
    obtain ⟨x, hx⟩ := Option.isSome_iff_exists.1 hres
    exact eval_body_stmts_stops _ r post w w2 x hr hx pre v2 hu
  · intro l1 i1 l2 i2 e1 e2 val1 val2 u u1 u2 u3 hne h1 hb1 h2
    have hu1 : u1 = u := (eval_balanced fuel).expr e1 u val1 u1 h1
    have hu3 : u3 = u2 := (eval_balanced fuel).expr e2 u2 val2 u3 h2
    subst hu1 hu3
    cases u1 with
    | nil => exact absurd rfl hne
    | cons f down =>
      obtain ⟨f2, rfl, -, -, -, hf2, -, hbd⟩ := vtable_bind_top f down result_i val1 u3 hb1
      have hbound : bound_in f2 result_i = true := by simp [hbd]
      obtain ⟨u4, h4⟩ := vtable_bind_returns f2 down result_i val2 (Or.inl hbound)
      obtain ⟨f4, rfl, -, -, -, hf4, -⟩ := vtable_bind_top f2 down result_i val2 u4 h4
      refine ⟨f4 :: down, ?_, vtable_get_hit _ _ _ _ hf4⟩
      simp only [eval_stmts, eval_stmt, tree_kind, eval_return, tree_value, bind, Except.bind,
        h1, hb1, h2, h4]

/-- C39 at the statement `if 1 = 1 then return 1; return 2; end if;`, run on
a table with one empty frame: after `return 1;` the branch goes on with
`return 2;`, which leaves 2 as the result; the same two statements as the
body of a function stop after `return 1;`. -/
theorem eval_return_no_interrupt_witness :
    eval_stmt 5 (ex_return 1) [[]] = .ok [[(result_i, ex_int 1)]] ∧
    eval_if 6 ex_if_returns [[]]
      = eval_stmts (fun s x => eval_stmt 5 s x) [ex_return 2] [[(result_i, ex_int 1)]] ∧
    eval_if 6 ex_if_returns [[]] = .ok [[(result_i, ex_int 2)]] ∧
    eval_body_stmts (fun s x => eval_stmt 5 s x) [ex_return 1, ex_return 2] [[]]
      = .ok [[(result_i, ex_int 1)]] :=
  ⟨rfl,
   (eval_return_no_interrupt 5 ex_loc (some "line_1") ex_eq_1_1 [] [ex_return 2] []
      (ex_return 1) _ [[]] [[]] [[]] [[(result_i, ex_int 1)]] rfl rfl rfl rfl rfl).1,
   rfl,
   (eval_return_no_interrupt 5 ex_loc (some "line_1") ex_eq_1_1 [] [ex_return 2] []
      (ex_return 1) _ [[]] [[]] [[]] [[(result_i, ex_int 1)]] rfl rfl rfl rfl rfl).2.2.1 rfl⟩

/-! ### Lookahead buffer and cascade suppression -/

theorem peek_wf (s : pstate) (h : lookahead_ok s) :
    peek s = .ok (next_tok s, force_peek s) := by
  rcases s with ⟨input, ys, yn, yd, yl, sl, ne, nc, pt, pv, p2t, p2v, hs, av, itn⟩
  cases pv <;> cases p2v <;> cases input <;>
  simp_all [lookahead_ok, peek, yylex, next_tok, force_peek, lexed, lexed_tok, bind, StateT.bind,
    get, getThe, MonadStateOf.get, StateT.get, pure, StateT.pure, Except.pure, Except.bind, set,
    StateT.set, modify, modifyGet, MonadStateOf.modifyGet, StateT.modifyGet]

theorem peek2_wf (s : pstate) (h : lookahead_ok s) :
    peek2 s = .ok (next_tok2 s, force_peek2 s) := by
  rcases s with ⟨input, ys, yn, yd, yl, sl, ne, nc, pt, pv, p2t, p2v, hs, av, itn⟩
  cases pv <;> cases p2v <;> rcases input with _ | ⟨a, _ | ⟨b, rest⟩⟩ <;>
  simp_all [lookahead_ok, peek2, peek, yylex, next_tok2, force_peek2, force_peek, lexed,
    lexed_tok, bind, StateT.bind, get, getThe, MonadStateOf.get, StateT.get, pure, StateT.pure,
    Except.pure, Except.bind, set, StateT.set, modify, modifyGet, MonadStateOf.modifyGet,
    StateT.modifyGet]

theorem consume_wf (tok : token_t) (s : pstate) (h : lookahead_ok s) :
    consume tok s = .ok (decide (tok = next_tok s), after_consume tok s) := by
  by_cases ht : tok = next_tok s <;>
  rcases s with ⟨input, ys, yn, yd, yl, sl, ne, nc, pt, pv, p2t, p2v, hs, av, itn⟩ <;>
  by_cases hl : sl.linebuf = none <;> cases pv <;> cases p2v <;> cases input <;>
  simp_all [lookahead_ok, consume, peek, yylex, next_tok, force_peek, lexed, lexed_tok,
    after_consume, count_event, counters, RECOVER_THRESH, bind, StateT.bind,
    get, getThe, MonadStateOf.get, StateT.get, pure, StateT.pure, Except.pure, Except.bind, set,
    StateT.set, modify, modifyGet, MonadStateOf.modifyGet, StateT.modifyGet]

theorem force_peek_peek2_tok (s : pstate) : (force_peek s).peek2_tok = s.peek2_tok := by
  unfold force_peek lexed
  split
  · rfl
  · split <;> rfl

theorem after_consume_force_peek (tok : token_t) (s : pstate) :
    after_consume tok (force_peek s) = after_consume tok s := by
  simp [after_consume, force_peek_idem, next_tok_force_peek, force_peek_peek2,
    force_peek_peek2_tok]

theorem optional_wf (tok : token_t) (s : pstate) (h : lookahead_ok s) :
    optional tok s =
      if next_tok s = tok then .ok (true, after_consume tok s) else .ok (false, force_peek s) := by
  have hf : lookahead_ok (force_peek s) := fun _ => force_peek_valid s
  by_cases ht : next_tok s = tok
  · have hc := consume_wf tok (force_peek s) hf
    simp only [next_tok_force_peek, ht, decide_True] at hc
    simp only [optional, bind, StateT.bind, peek_wf s h, Except.bind, ht, if_true, hc, pure,
      StateT.pure, Except.pure]
    rw [after_consume_force_peek]
  · simp [optional, bind, StateT.bind, peek_wf s h, Except.bind, ht, pure, StateT.pure,
      Except.pure]

theorem scan_wf (toks : List token_t) (s : pstate) (h : lookahead_ok s) :
    scan toks s = .ok (decide (next_tok s ∈ toks), force_peek s) := by
  simp [scan, bind, StateT.bind, peek_wf s h, Except.bind, pure, StateT.pure, Except.pure]

theorem expect_wf (toks : List token_t) (s : pstate) (h : lookahead_ok s) :
    expect toks s = .ok ((), mismatch s) := by
  simp [expect, _vexpect, mismatch, bind, StateT.bind, peek_wf s h, Except.bind, pure,
    StateT.pure, Except.pure, modify, modifyGet, MonadStateOf.modifyGet, StateT.modifyGet]

theorem one_of_wf (toks : List token_t) (s : pstate) (h : lookahead_ok s) :
    one_of toks s =
      if next_tok s ∈ toks then .ok (next_tok s, after_consume (next_tok s) s)
      else .error (.undefined_behaviour "va_arg past the end of the arguments") := by
  have hf : lookahead_ok (force_peek s) := fun _ => force_peek_valid s
  by_cases ht : next_tok s ∈ toks
  · have hc := consume_wf (next_tok s) (force_peek s) hf
    simp only [next_tok_force_peek, decide_True] at hc
    simp only [one_of, bind, StateT.bind, peek_wf s h, Except.bind, ht, if_true, hc, pure,
      StateT.pure, Except.pure]
    rw [after_consume_force_peek]
  · simp [one_of, bind, StateT.bind, peek_wf s h, Except.bind, ht, parse_abort]

theorem lookahead_ok_force_peek (s : pstate) : lookahead_ok (force_peek s) :=
  fun _ => force_peek_valid s

theorem lookahead_ok_force_peek2 (s : pstate) : lookahead_ok (force_peek2 s) := by
  intro _
  unfold force_peek2
  split
  · exact force_peek_valid s
  · have := force_peek_valid s
    generalize force_peek s = x at this
    unfold lexed
    split <;> simpa using this

theorem lookahead_ok_after_consume (tok : token_t) (s : pstate) :
    lookahead_ok (after_consume tok s) := by
  intro h
  simp [after_consume] at h

theorem lookahead_ok_mismatch (s : pstate) : lookahead_ok (mismatch s) := by
  intro _
  simpa [mismatch] using force_peek_valid s

theorem token_at_cons (t : token_t) (ts : List token_t) (n : Nat) :
    token_at (t :: ts) (n + 1) = token_at ts n := by
  simp [token_at]

theorem token_at_nil (n : Nat) : token_at [] n = .tEOF := by
  simp [token_at]

theorem next_tok_pending (s : pstate) (h : lookahead_ok s) :
    next_tok s = token_at (pending s) 0 := by
  rcases s with ⟨input, ys, yn, yd, yl, sl, ne, nc, pt, pv, p2t, p2v, hs, av, itn⟩
  cases pv <;> cases p2v <;> cases input <;>
  simp_all [lookahead_ok, next_tok, force_peek, lexed, lexed_tok, pending, buffered, token_at]

theorem next_tok2_pending (s : pstate) (h : lookahead_ok s) :
    next_tok2 s = token_at (pending s) 1 := by
  rcases s with ⟨input, ys, yn, yd, yl, sl, ne, nc, pt, pv, p2t, p2v, hs, av, itn⟩
  cases pv <;> cases p2v <;> rcases input with _ | ⟨a, _ | ⟨b, rest⟩⟩ <;>
  simp_all [lookahead_ok, next_tok2, force_peek2, force_peek, lexed, lexed_tok, pending,
    buffered, token_at]

theorem pending_force_peek (s : pstate) (h : lookahead_ok s) (n : Nat) :
    token_at (pending (force_peek s)) n = token_at (pending s) n := by
  rcases s with ⟨input, ys, yn, yd, yl, sl, ne, nc, pt, pv, p2t, p2v, hs, av, itn⟩
  cases pv <;> cases p2v <;> cases input <;> cases n <;>
  simp_all [lookahead_ok, force_peek, lexed, lexed_tok, pending, buffered, token_at]

theorem pending_force_peek2 (s : pstate) (h : lookahead_ok s) (n : Nat) :
    token_at (pending (force_peek2 s)) n = token_at (pending s) n := by
  rcases s with ⟨input, ys, yn, yd, yl, sl, ne, nc, pt, pv, p2t, p2v, hs, av, itn⟩
  cases pv <;> cases p2v <;> rcases input with _ | ⟨a, _ | ⟨b, rest⟩⟩ <;>
  rcases n with _ | _ | n <;>
  simp_all [lookahead_ok, force_peek2, force_peek, lexed, lexed_tok, pending, buffered,
    token_at]

theorem pending_after_consume (tok : token_t) (s : pstate) (h : lookahead_ok s) (n : Nat) :
    token_at (pending (after_consume tok s)) n = token_at (pending s) (n + 1) := by
  rcases s with ⟨input, ys, yn, yd, yl, sl, ne, nc, pt, pv, p2t, p2v, hs, av, itn⟩
  cases pv <;> cases p2v <;> cases input <;> cases n <;>
  simp_all [lookahead_ok, after_consume, next_tok, force_peek, lexed, lexed_tok, pending,
    buffered, token_at]

theorem pending_mismatch (s : pstate) (h : lookahead_ok s) (n : Nat) :
    token_at (pending (mismatch s)) n = token_at (pending s) n := by
  rw [← pending_force_peek s h n]
  rfl

theorem counters_force_peek (s : pstate) : counters (force_peek s) = counters s := by
  unfold force_peek lexed counters
  split
  · rfl
  · split <;> rfl

theorem counters_force_peek2 (s : pstate) : counters (force_peek2 s) = counters s := by
  rw [← counters_force_peek s]
  unfold force_peek2 lexed counters
  split
  · rfl
  · split <;> rfl

theorem counters_after_consume (tok : token_t) (s : pstate) :
    counters (after_consume tok s) = count_event (counters s) (decide (tok = next_tok s)) := by
  rw [← counters_force_peek s]
  rfl

theorem counters_mismatch (s : pstate) :
    counters (mismatch s) = count_event (counters s) false := by
  rw [← counters_force_peek s]
  simp [mismatch, counters, count_event]

theorem drop_tail_eq {α : Type} (l i0 : List α) (m : Nat) (h : l = i0.drop m) :
    l.tail = i0.drop (m + 1) := by
  subst h
  simp [List.tail_drop]

theorem lexed_input (s : pstate) : (lexed s).input = s.input.tail := by
  unfold lexed
  split <;> simp [*]

theorem lexed_slots (s : pstate) :
    (lexed s).peek_valid = s.peek_valid ∧ (lexed s).peek2_valid = s.peek2_valid ∧
    (lexed s).peek_tok = s.peek_tok ∧ (lexed s).peek2_tok = s.peek2_tok := by
  unfold lexed
  split <;> simp

theorem buffered_length_force_peek (s : pstate) :
    (buffered (force_peek s)).length = 1 + (if s.peek2_valid then 1 else 0) := by
  simp only [buffered, force_peek_valid, force_peek_peek2, if_true, List.length_append,
    List.length_singleton]
  split <;> simp

theorem fetched_force_peek (i0 : List lexeme_t) (c : Nat) (s : pstate) (h : lookahead_ok s)
    (hf : fetched_ok i0 c s) : fetched_ok i0 c (force_peek s) := by
  unfold fetched_ok at *
  by_cases hv : s.peek_valid = true
  · have : force_peek s = s := by unfold force_peek; simp [hv]
    rw [this]; exact hf
  · have hv2 : s.peek_valid = false := by simpa using hv
    have h2 : s.peek2_valid = false := by
      cases hq : s.peek2_valid with
      | false => rfl
      | true => exact absurd (h hq) hv
    have hb : buffered s = [] := by simp [buffered, hv2, h2]
    have hi : (force_peek s).input = s.input.tail := by
      unfold force_peek
      simp only [hv2, Bool.false_eq_true, if_false]
      exact lexed_input s
    rw [hi, buffered_length_force_peek, h2]
    rw [hb] at hf
    exact drop_tail_eq _ _ _ hf

theorem fetched_force_peek2 (i0 : List lexeme_t) (c : Nat) (s : pstate) (h : lookahead_ok s)
    (hf : fetched_ok i0 c s) : fetched_ok i0 c (force_peek2 s) := by
  have h1 := fetched_force_peek i0 c s h hf
  have hl := buffered_length_force_peek s
  rw [← force_peek_peek2 s] at hl
  have hv := force_peek_valid s
  unfold force_peek2
  generalize force_peek s = x at h1 hv hl
  by_cases h2 : x.peek2_valid = true
  · simp only [h2, if_true]; exact h1
  · have h2f : x.peek2_valid = false := by simpa using h2
    simp only [h2f, Bool.false_eq_true, if_false]
    unfold fetched_ok at *
    have hb : (buffered { lexed x with peek2_valid := true, peek2_tok := lexed_tok x }).length
        = 2 := by
      simp [buffered, (lexed_slots x).1, hv]
    rw [hb]
    rw [h2f] at hl
    simp only [Bool.false_eq_true, if_false, Nat.add_zero] at hl
    rw [hl] at h1
    show (lexed x).input = _
    rw [lexed_input]
    exact drop_tail_eq _ _ _ h1

theorem fetched_after_consume (i0 : List lexeme_t) (c : Nat) (tok : token_t) (s : pstate)
    (h : lookahead_ok s) (hf : fetched_ok i0 c s) :
    fetched_ok i0 (c + 1) (after_consume tok s) := by
  have h1 := fetched_force_peek i0 c s h hf
  have hl := buffered_length_force_peek s
  unfold fetched_ok at *
  have hb : (buffered (after_consume tok s)).length = if s.peek2_valid then 1 else 0 := by
    simp only [buffered, after_consume]
    split <;> simp
  rw [hb]
  rw [hl] at h1
  show (force_peek s).input = _
  rw [h1]
  congr 1
  omega

theorem fetched_mismatch (i0 : List lexeme_t) (c : Nat) (s : pstate) (h : lookahead_ok s)
    (hf : fetched_ok i0 c s) : fetched_ok i0 c (mismatch s) :=
  fetched_force_peek i0 c s h hf

theorem buffered_length_le (s : pstate) : (buffered s).length ≤ 2 := by
  unfold buffered
  split <;> split <;> simp

theorem la_run_peek (s : pstate) (h : lookahead_ok s) :
    run_call .peek s = .ok (.tok (next_tok s), force_peek s) := by
  simp [run_call, bind, StateT.bind, peek_wf s h, Except.bind, pure, StateT.pure,
    Except.pure]

theorem la_run_peek2 (s : pstate) (h : lookahead_ok s) :
    run_call .peek2 s = .ok (.tok (next_tok2 s), force_peek2 s) := by
  simp [run_call, bind, StateT.bind, peek2_wf s h, Except.bind, pure, StateT.pure,
    Except.pure]

theorem la_run_consume (tok : token_t) (s : pstate) (h : lookahead_ok s) :
    run_call (.consume tok) s
      = .ok (.flag (decide (tok = next_tok s)), after_consume tok s) := by
  simp [run_call, bind, StateT.bind, consume_wf tok s h, Except.bind, pure, StateT.pure,
    Except.pure]

theorem la_run_optional (tok : token_t) (s : pstate) (h : lookahead_ok s) :
    run_call (.optional tok) s =
      if next_tok s = tok then .ok (.flag true, after_consume tok s)
      else .ok (.flag false, force_peek s) := by
  simp only [run_call, bind, StateT.bind, optional_wf tok s h]
  split <;> simp [Except.bind, pure, StateT.pure, Except.pure]

theorem la_run_scan (toks : List token_t) (s : pstate) (h : lookahead_ok s) :
    run_call (.scan toks) s = .ok (.flag (decide (next_tok s ∈ toks)), force_peek s) := by
  simp [run_call, bind, StateT.bind, scan_wf toks s h, Except.bind, pure, StateT.pure,
    Except.pure]

theorem la_run_expect (toks : List token_t) (s : pstate) (h : lookahead_ok s) :
    run_call (.expect toks) s = .ok (.unit, mismatch s) := by
  simp [run_call, bind, StateT.bind, expect_wf toks s h, Except.bind, pure, StateT.pure,
    Except.pure]

theorem la_run_one_of (toks : List token_t) (s : pstate) (h : lookahead_ok s) :
    run_call (.one_of toks) s =
      if next_tok s ∈ toks then .ok (.tok (next_tok s), after_consume (next_tok s) s)
      else .error (.undefined_behaviour "va_arg past the end of the arguments") := by
  simp only [run_call, bind, StateT.bind, one_of_wf toks s h]
  split <;> simp [Except.bind, pure, StateT.pure, Except.pure]

theorem views_peek {tokens : Nat → token_t} {a : la_spec} {s : pstate}
    (h : views tokens a s) : views tokens a (force_peek s) :=
  ⟨lookahead_ok_force_peek s, fun n => by rw [pending_force_peek s h.1 n]; exact h.2.1 n,
   by rw [counters_force_peek]; exact h.2.2⟩

theorem views_peek2 {tokens : Nat → token_t} {a : la_spec} {s : pstate}
    (h : views tokens a s) : views tokens a (force_peek2 s) :=
  ⟨lookahead_ok_force_peek2 s, fun n => by rw [pending_force_peek2 s h.1 n]; exact h.2.1 n,
   by rw [counters_force_peek2]; exact h.2.2⟩

theorem views_head {tokens : Nat → token_t} {a : la_spec} {s : pstate}
    (h : views tokens a s) : next_tok s = tokens a.pos := by
  rw [next_tok_pending s h.1, h.2.1 0]; rfl

theorem views_second {tokens : Nat → token_t} {a : la_spec} {s : pstate}
    (h : views tokens a s) : next_tok2 s = tokens (a.pos + 1) := by
  rw [next_tok2_pending s h.1, h.2.1 1]

theorem views_consume {tokens : Nat → token_t} {a : la_spec} {s : pstate}
    (h : views tokens a s) (tok : token_t) :
    views tokens (a.event (decide (tok = tokens a.pos))).step (after_consume tok s) := by
  refine ⟨lookahead_ok_after_consume tok s, fun n => ?_, ?_⟩
  · rw [pending_after_consume tok s h.1 n, h.2.1 (n + 1)]
    simp [la_spec.step, la_spec.event, Nat.add_comm, Nat.add_left_comm]
  · rw [counters_after_consume, h.2.2, views_head h]
    rfl

theorem views_mismatch {tokens : Nat → token_t} {a : la_spec} {s : pstate}
    (h : views tokens a s) : views tokens (a.event false) (mismatch s) :=
  ⟨lookahead_ok_mismatch s, fun n => by rw [pending_mismatch s h.1 n]; exact h.2.1 n,
   by rw [counters_mismatch, h.2.2]; rfl⟩

/-- One call that is not a one_of outside its set does what the
specification says, and the accounting of the token source goes on. -/
theorem la_call_refines (tokens : Nat → token_t) (i0 : List lexeme_t) (a : la_spec)
    (s : pstate) (c : la_call) (h : views tokens a s) (hf : fetched_ok i0 a.pos s)
    (hc : one_of_misses tokens a c = false) :
    ∃ s2, run_call c s = .ok ((spec_call tokens a c).1, s2) ∧
      views tokens (spec_call tokens a c).2 s2 ∧
      fetched_ok i0 (spec_call tokens a c).2.pos s2 := by
  have hh := views_head h
  cases c with
  | peek =>
    exact ⟨_, by rw [la_run_peek s h.1, hh]; rfl, views_peek h,
      fetched_force_peek i0 _ s h.1 hf⟩
  | peek2 =>
    exact ⟨_, by rw [la_run_peek2 s h.1, views_second h]; rfl, views_peek2 h,
      fetched_force_peek2 i0 _ s h.1 hf⟩
  | consume tok =>
    exact ⟨_, by rw [la_run_consume tok s h.1, hh]; rfl, views_consume h tok,
      fetched_after_consume i0 _ tok s h.1 hf⟩
  | optional tok =>
    by_cases ht : tokens a.pos = tok
    · refine ⟨after_consume tok s, ?_, ?_, ?_⟩
      · rw [la_run_optional tok s h.1, hh]; simp [spec_call, ht]
      · have := views_consume h tok
        simpa [spec_call, ht] using this
      · simpa [spec_call, ht, la_spec.step, la_spec.event]
          using fetched_after_consume i0 _ tok s h.1 hf
    · refine ⟨force_peek s, ?_, ?_, ?_⟩
      · rw [la_run_optional tok s h.1, hh]; simp [spec_call, ht]
      · simpa [spec_call, ht] using views_peek h
      · simpa [spec_call, ht] using fetched_force_peek i0 _ s h.1 hf
  | scan toks =>
    exact ⟨_, by rw [la_run_scan toks s h.1, hh]; rfl, views_peek h,
      fetched_force_peek i0 _ s h.1 hf⟩
  | expect toks =>
    exact ⟨_, la_run_expect toks s h.1, views_mismatch h, fetched_mismatch i0 _ s h.1 hf⟩
  | one_of toks =>
    have ht : tokens a.pos ∈ toks := by simpa [one_of_misses] using hc
    refine ⟨after_consume (tokens a.pos) s, ?_, ?_, ?_⟩
    · rw [la_run_one_of toks s h.1, hh]; simp [spec_call, ht]
    · have := views_consume h (tokens a.pos)
      simpa [spec_call, ht] using this
    · simpa [spec_call, ht, la_spec.step, la_spec.event]
        using fetched_after_consume i0 _ (tokens a.pos) s h.1 hf

/-- A sequence of calls in which no one_of is outside its set does what the
specification says. -/
theorem run_calls_refines (tokens : Nat → token_t) (i0 : List lexeme_t) :
    ∀ (cs : List la_call) (a : la_spec) (s : pstate), views tokens a s →
      fetched_ok i0 a.pos s → one_of_hits tokens a cs = true →
      ∃ s2, run_calls cs s = .ok ((spec_calls tokens a cs).1, s2) ∧
        views tokens (spec_calls tokens a cs).2 s2 ∧
        fetched_ok i0 (spec_calls tokens a cs).2.pos s2 := by
  intro cs
  induction cs with
  | nil =>
    intro a s h hf _
    exact ⟨s, rfl, h, hf⟩
  | cons c cs ih =>
    intro a s h hf hc
    simp only [one_of_hits, Bool.and_eq_true, Bool.not_eq_true'] at hc
    obtain ⟨s1, h1, hv1, hf1⟩ := la_call_refines tokens i0 a s c h hf hc.1
    obtain ⟨s2, h2, hv2, hf2⟩ := ih _ s1 hv1 hf1 hc.2
    refine ⟨s2, ?_, hv2, hf2⟩
    simp only [run_calls, bind, StateT.bind, h1, Except.bind, h2, pure, StateT.pure,
      Except.pure, spec_calls]

theorem views_start (s : pstate) (h1 : s.peek_valid = false) (h2 : s.peek2_valid = false) :
    views (source_tokens s) (la_start s) s ∧ fetched_ok s.input (la_start s).pos s := by
  refine ⟨⟨(fun h => by rw [h2] at h; cases h), fun n => ?_, rfl⟩, ?_⟩
  · simp [pending, buffered, h1, h2, source_tokens, la_start]
  · simp [fetched_ok, buffered, h1, h2, la_start]

/-- A sequence of calls returns what the specification says when no one_of
is outside its set, and stops in the search loop of one_of otherwise. -/
theorem run_calls_total (tokens : Nat → token_t) (i0 : List lexeme_t) :
    ∀ (cs : List la_call) (a : la_spec) (s : pstate), views tokens a s →
      fetched_ok i0 a.pos s →
      if one_of_hits tokens a cs = true then
        ∃ s2, run_calls cs s = .ok ((spec_calls tokens a cs).1, s2) ∧
          views tokens (spec_calls tokens a cs).2 s2 ∧
          fetched_ok i0 (spec_calls tokens a cs).2.pos s2
      else run_calls cs s = .error (.undefined_behaviour "va_arg past the end of the arguments") := by
  intro cs
  induction cs with
  | nil =>
    intro a s h hf
    simp only [one_of_hits, if_true]
    exact ⟨s, rfl, h, hf⟩
  | cons c cs ih =>
    intro a s h hf
    by_cases hm : one_of_misses tokens a c = true
    · simp only [one_of_hits, hm, Bool.not_true, Bool.false_and, Bool.false_eq_true, if_false]
      cases c with
      | one_of toks =>
        have ht : tokens a.pos ∉ toks := by simpa [one_of_misses] using hm
        have hr := la_run_one_of toks s h.1
        rw [views_head h, if_neg ht] at hr
        simp only [run_calls, bind, StateT.bind, hr, Except.bind]
      | _ => simp [one_of_misses] at hm
    · have hm2 : one_of_misses tokens a c = false := by simpa using hm
      obtain ⟨s1, h1, hv1, hf1⟩ := la_call_refines tokens i0 a s c h hf hm2
      have := ih _ s1 hv1 hf1
      simp only [one_of_hits, hm2, Bool.not_false, Bool.true_and]
      split
      · rename_i hh
        rw [if_pos hh] at this
        obtain ⟨s2, h2, hv2, hf2⟩ := this
        refine ⟨s2, ?_, hv2, hf2⟩
        simp only [run_calls, bind, StateT.bind, h1, Except.bind, h2, pure, StateT.pure,
          Except.pure, spec_calls]
      · rename_i hh
        rw [if_neg hh] at this
        simp only [run_calls, bind, StateT.bind, h1, Except.bind, this]

theorem basic_hits (tokens : Nat → token_t) :
    ∀ (cs : List la_call) (a : la_spec), (∀ c ∈ cs, basic_call c = true) →
      one_of_hits tokens a cs = true ∧ (spec_calls tokens a cs).2.pos = a.pos + consumes cs := by
  intro cs
  induction cs with
  | nil => intro a _; exact ⟨rfl, rfl⟩
  | cons c cs ih =>
    intro a hb
    have hc := hb c (List.mem_cons_self _ _)
    have ih2 := ih (spec_call tokens a c).2 (fun d hd => hb d (List.mem_cons_of_mem _ hd))
    cases c with
    | peek => simpa [one_of_hits, one_of_misses, spec_calls, spec_call, consumes] using ih2
    | peek2 => simpa [one_of_hits, one_of_misses, spec_calls, spec_call, consumes] using ih2
    | consume tok =>
      refine ⟨by simpa [one_of_hits, one_of_misses] using ih2.1, ?_⟩
      have hpos : (spec_call tokens a (.consume tok)).2.pos = a.pos + 1 := rfl
      show (spec_calls tokens (spec_call tokens a (.consume tok)).2 cs).2.pos = _
      rw [ih2.2, hpos]
      simp only [consumes]
      omega
    | _ => simp [basic_call] at hc

theorem spec_calls_append (tokens : Nat → token_t) :
    ∀ (pre cs : List la_call) (a : la_spec),
      (spec_calls tokens a (pre ++ cs)).1
        = (spec_calls tokens a pre).1 ++ (spec_calls tokens (spec_calls tokens a pre).2 cs).1 ∧
      (spec_calls tokens a pre).1.length = pre.length := by
  intro pre
  induction pre with
  | nil => intro cs a; exact ⟨rfl, rfl⟩
  | cons c pre ih =>
    intro cs a
    have := ih cs (spec_call tokens a c).2
    simp [spec_calls, this.1, this.2]

/-- C34: the lookahead buffer is a faithful view of the token source.  From
a state with both slots empty, every sequence cs of peek, peek2 and consume
calls returns, and returns what the calls return on the plain token stream
of the scanner: the call after the calls pre is answered at the position
`consumes pre`, so a consume compares the token of that number with the
expected one and removes it whether it matches or not, peek returns that
token and peek2 the next one, and neither moves the position.  Afterwards
the tokens not consumed are the stream from position `consumes cs` on, and
the scanner has delivered exactly the tokens consumed and the (at most two)
tokens held in the slots: none was fetched twice or skipped. -/
theorem lookahead_faithful (s : pstate) (cs : List la_call)
    (h1 : s.peek_valid = false) (h2 : s.peek2_valid = false)
    (hb : ∀ c ∈ cs, basic_call c = true) :
    ∃ s2, run_calls cs s = .ok ((spec_calls (source_tokens s) (la_start s) cs).1, s2) ∧
      (∀ pre c post, cs = pre ++ c :: post →
        (spec_calls (source_tokens s) (la_start s) cs).1[pre.length]? = some
          (match c with
           | .consume tok => .flag (decide (tok = source_tokens s (consumes pre)))
           | .peek2 => .tok (source_tokens s (consumes pre + 1))
           | _ => .tok (source_tokens s (consumes pre)))) ∧
      (∀ n, token_at (pending s2) n = source_tokens s (consumes cs + n)) ∧
      s2.input = s.input.drop (consumes cs + (buffered s2).length) ∧
      (buffered s2).length ≤ 2 ∧ lookahead_ok s2 := by
  obtain ⟨hv, hf⟩ := views_start s h1 h2
  obtain ⟨hh, hp⟩ := basic_hits (source_tokens s) cs (la_start s) hb
  obtain ⟨s2, hr, hv2, hf2⟩ :=
    run_calls_refines (source_tokens s) s.input cs (la_start s) s hv hf hh
  have hp0 : (spec_calls (source_tokens s) (la_start s) cs).2.pos = consumes cs := by
    rw [hp]; simp [la_start]
  refine ⟨s2, hr, ?_, ?_, ?_, buffered_length_le s2, hv2.1⟩
  · intro pre c post hcs
    subst hcs
    obtain ⟨ha, hl⟩ := spec_calls_append (source_tokens s) pre (c :: post) (la_start s)
    rw [ha, List.getElem?_append_right (by omega), hl, Nat.sub_self]
    have hpre : ∀ d ∈ pre, basic_call d = true :=
      fun d hd => hb d (List.mem_append_left _ hd)
    have hc : basic_call c = true := hb c (by simp)
    have hq := (basic_hits (source_tokens s) pre (la_start s) hpre).2
    simp only [la_start, Nat.zero_add] at hq
    cases c with
    | peek => simp [spec_calls, spec_call, hq, la_start]
    | peek2 => simp [spec_calls, spec_call, hq, la_start]
    | consume tok => simp [spec_calls, spec_call, hq, la_start]
    | _ => simp [basic_call] at hc
  · intro n
    rw [hv2.2.1 n, hp0]
  · have := hf2
    rw [hp0] at this
    exact this

/-- C34 on the tokens of `entity e is end;`: the three consumes remove
`entity`, `e` (which does not match `is`) and `is`; the scanner has then
delivered these three tokens and `end`, which waits in the first slot. -/
theorem lookahead_faithful_witness :
    ∃ s2, run_calls ex_lookahead_calls (pstate_init ex_entity_tokens)
        = .ok ([.tok .tENTITY, .tok .tID, .flag true, .tok .tID, .flag false, .tok .tEND,
                .flag true], s2) ∧
      token_at (pending s2) 0 = .tEND ∧ token_at (pending s2) 1 = .tSEMI ∧
      s2.input = ex_entity_tokens.drop (3 + (buffered s2).length) ∧
      (buffered s2).length ≤ 2 :=
  Exists.imp (fun _ h => ⟨h.1, h.2.2.1 0, h.2.2.1 1, h.2.2.2.1, h.2.2.2.2.1⟩)
    (lookahead_faithful (pstate_init ex_entity_tokens) ex_lookahead_calls rfl rfl (by decide))

/-- The run of a sequence of calls from a state with both slots empty: the
result of the specification, or the stop in the search loop of one_of. -/
theorem run_calls_from_start (s : pstate) (cs : List la_call)
    (h1 : s.peek_valid = false) (h2 : s.peek2_valid = false) :
    if one_of_hits (source_tokens s) (la_start s) cs = true then
      ∃ s2, run_calls cs s = .ok ((spec_calls (source_tokens s) (la_start s) cs).1, s2) ∧
        views (source_tokens s) (spec_calls (source_tokens s) (la_start s) cs).2 s2 ∧
        fetched_ok s.input (spec_calls (source_tokens s) (la_start s) cs).2.pos s2
    else run_calls cs s = .error (.undefined_behaviour "va_arg past the end of the arguments") :=
  run_calls_total (source_tokens s) s.input cs (la_start s) s (views_start s h1 h2).1
    (views_start s h1 h2).2

/-- C35: in every state s2 reached from a state with both slots empty by a
sequence of peek, peek2, consume, optional, scan, expect and one_of calls,
the second slot is filled only if the first one is; the scanner has
delivered exactly the tokens consumed and the at most two tokens held in the
slots; peek, peek2 and consume return (none of their assertions fails); and
after consume the second slot is empty and the first one is filled iff the
second one was filled before.  A sequence of calls that does not return
has stopped in the search loop of one_of, never at an assertion. -/
theorem lookahead_invariant (s : pstate) (cs : List la_call)
    (h1 : s.peek_valid = false) (h2 : s.peek2_valid = false) :
    (∀ rs s2, run_calls cs s = .ok (rs, s2) →
      lookahead_ok s2 ∧ (buffered s2).length ≤ 2 ∧
      (∃ c, s2.input = s.input.drop (c + (buffered s2).length)) ∧
      (∃ t s3, peek s2 = .ok (t, s3)) ∧ (∃ t s3, peek2 s2 = .ok (t, s3)) ∧
      (∀ tok, ∃ b s3, consume tok s2 = .ok (b, s3) ∧ s3.peek2_valid = false ∧
        s3.peek_valid = s2.peek2_valid)) ∧
    (∀ e, run_calls cs s = .error e →
      e = .undefined_behaviour "va_arg past the end of the arguments" ∧
      one_of_hits (source_tokens s) (la_start s) cs = false) := by
  have ht := run_calls_from_start s cs h1 h2
  constructor
  · intro rs s2 hr
    split at ht
    · obtain ⟨s3, hr3, hv, hf⟩ := ht
      rw [hr] at hr3
      simp only [Except.ok.injEq, Prod.mk.injEq] at hr3
      obtain ⟨-, rfl⟩ := hr3
      refine ⟨hv.1, buffered_length_le s2, ⟨_, hf⟩, ⟨_, _, peek_wf s2 hv.1⟩,
        ⟨_, _, peek2_wf s2 hv.1⟩, fun tok => ⟨_, _, consume_wf tok s2 hv.1, rfl, rfl⟩⟩
    · rw [hr] at ht; cases ht
  · intro e he
    split at ht
    · obtain ⟨s3, hr3, -⟩ := ht
      rw [he] at hr3; cases hr3
    · rename_i hh
      rw [he] at ht
      simp only [Except.error.injEq] at ht
      exact ⟨ht, by simpa using hh⟩

/-- C35 on the tokens of `entity e is end;`: after scan, optional, one_of and
peek2 the tokens `is` and `end` are pre-fetched, the second slot is filled
only with the first, and a consume then leaves the second slot empty. -/
theorem lookahead_invariant_witness :
    ∃ s2, run_calls ex_invariant_calls (pstate_init ex_entity_tokens)
        = .ok ([.flag true, .flag true, .tok .tID, .tok .tEND], s2) ∧
      token_at (pending s2) 0 = .tIS ∧ token_at (pending s2) 1 = .tEND ∧ lookahead_ok s2 ∧
      (∀ tok, ∃ b s3, consume tok s2 = .ok (b, s3) ∧ s3.peek2_valid = false ∧
        s3.peek_valid = s2.peek2_valid) := by
  have h := run_calls_from_start (pstate_init ex_entity_tokens) ex_invariant_calls rfl rfl
  rw [if_pos (by decide)] at h
  obtain ⟨s2, hr, hv, -⟩ := h
  have hinv := (lookahead_invariant (pstate_init ex_entity_tokens) ex_invariant_calls
    rfl rfl).1 _ s2 hr
  exact ⟨s2, hr, hv.2.1 0, hv.2.1 1, hinv.1, hinv.2.2.2.2.2⟩

/-- C36: one_of on a state with a consistent lookahead buffer.  When the
head token is in the set, one_of returns it, the head token is consumed and
counted as a correct consume.  When the head token is not in the set, the
search loop of one_of has no test for the end of its arguments and reads
past them: the call does not return the head token and reports nothing,
while the specification has it report an error and return the head token
(the branch of _one_of that calls _vexpect is never reached). -/
theorem one_of_outside_set (toks : List token_t) (s : pstate) (h : lookahead_ok s) :
    (next_tok s ∈ toks →
      one_of toks s = .ok (next_tok s, after_consume (next_tok s) s) ∧
      counters (after_consume (next_tok s) s) = ((counters s).1, (counters s).2 + 1) ∧
      ∀ n, token_at (pending (after_consume (next_tok s) s)) n = token_at (pending s) (n + 1)) ∧
    (next_tok s ∉ toks →
      one_of toks s = .error (.undefined_behaviour "va_arg past the end of the arguments") ∧
      ∀ tokens a, views tokens a s →
        spec_call tokens a (.one_of toks) = (.tok (next_tok s), a.event false)) := by
  have hw := one_of_wf toks s h
  constructor
  · intro ht
    rw [if_pos ht] at hw
    refine ⟨hw, ?_, fun n => pending_after_consume _ s h n⟩
    rw [counters_after_consume]
    simp [count_event]
  · intro ht
    rw [if_neg ht] at hw
    refine ⟨hw, fun tokens a hv => ?_⟩
    have hh := views_head hv
    rw [hh] at ht
    simp [spec_call, ht, hh]

/-- C36 at the call of p_mode, one_of(tIN, tOUT, tINOUT, tBUFFER, tLINKAGE):
on the head token `in` it returns that token, on the head token `;` it
stops in its search loop. -/
theorem one_of_outside_set_witness :
    lookahead_ok (pstate_init [ex_lx .tSEMI 0]) ∧
    one_of [.tIN, .tOUT, .tINOUT, .tBUFFER, .tLINKAGE] (pstate_init [ex_lx .tSEMI 0])
      = .error (.undefined_behaviour "va_arg past the end of the arguments") ∧
    (∃ s2, one_of [.tIN, .tOUT, .tINOUT, .tBUFFER, .tLINKAGE] (pstate_init [ex_lx .tIN 0])
      = .ok (.tIN, s2)) :=
  ⟨(fun h2 => by cases h2),
   ((one_of_outside_set [.tIN, .tOUT, .tINOUT, .tBUFFER, .tLINKAGE]
      (pstate_init [ex_lx .tSEMI 0]) (fun h2 => by cases h2)).2 (by decide)).1,
   _, ((one_of_outside_set [.tIN, .tOUT, .tINOUT, .tBUFFER, .tLINKAGE]
      (pstate_init [ex_lx .tIN 0]) (fun h2 => by cases h2)).1 (by decide)).1⟩

theorem count_events_snoc (c : Nat × Nat) (evs : List Bool) (x : Bool) :
    count_events c (evs ++ [x]) = count_event (count_events c evs) x := by
  simp [count_events, List.foldl_append]

theorem count_events_cons (c : Nat × Nat) (evs : List Bool) (x : Bool) :
    count_events c (x :: evs) = count_events (count_event c x) evs := rfl

theorem count_events_matches (e c m : Nat) :
    count_events (e, c) (List.replicate m true) = (e, c + m) := by
  induction m generalizing c with
  | zero => rfl
  | succ m ih =>
    rw [List.replicate_succ, count_events_cons]
    simp only [count_event, if_true]
    rw [ih]
    congr 1
    omega

/-- The value of n_correct is the length of the run of matches that ends the
comparisons made since it was 0. -/
theorem count_events_run (e : Nat) (b : List Bool) :
    ∃ b0, b = b0 ++ List.replicate (count_events (e, 0) b).2 true := by
  induction b using List.reverseRecOn with
  | nil => exact ⟨[], rfl⟩
  | append_singleton b x ih =>
    obtain ⟨b0, hb0⟩ := ih
    rw [count_events_snoc]
    cases x with
    | false =>
      refine ⟨b ++ [false], ?_⟩
      simp [count_event]
    | true =>
      refine ⟨b0, ?_⟩
      simp only [count_event, if_true]
      rw [List.replicate_succ', ← List.append_assoc, ← hb0]

theorem count_event_mismatch_snd (c : Nat × Nat) : (count_event c false).2 = 0 := by
  simp [count_event]

theorem call_events_spec (tokens : Nat → token_t) :
    ∀ (cs : List la_call) (a : la_spec), one_of_hits tokens a cs = true →
      ((spec_calls tokens a cs).2.n_errors, (spec_calls tokens a cs).2.n_correct)
        = count_events (a.n_errors, a.n_correct) (call_events cs (spec_calls tokens a cs).1) := by
  intro cs
  induction cs with
  | nil => intro a _; rfl
  | cons c cs ih =>
    intro a hh
    simp only [one_of_hits, Bool.and_eq_true, Bool.not_eq_true'] at hh
    have ih2 := ih (spec_call tokens a c).2 hh.2
    simp only [spec_calls]
    rw [ih2]
    cases c with
    | peek => rfl
    | peek2 => rfl
    | consume tok => rfl
    | optional tok =>
      by_cases ht : tokens a.pos = tok
      · simp [spec_call, ht, call_events, call_event, count_events_cons, la_spec.step,
          la_spec.event]
      · simp [spec_call, ht, call_events, call_event]
    | scan toks => rfl
    | expect toks => rfl
    | one_of toks =>
      have ht : tokens a.pos ∈ toks := by simpa [one_of_misses] using hh.1
      simp [spec_call, ht, call_events, call_event, count_events_cons, la_spec.step,
        la_spec.event]

/-- The counters after a sequence of calls that returns are those after the
comparisons the calls made. -/
theorem run_calls_counters (s : pstate) (h : lookahead_ok s) (cs : List la_call)
    (rs : List la_ret) (s2 : pstate) (hr : run_calls cs s = .ok (rs, s2)) :
    counters s2 = count_events (counters s) (call_events cs rs) := by
  have hv : views (fun n => token_at (pending s) n) (la_start s) s :=
    ⟨h, fun n => by simp [la_start], rfl⟩
  have hf : fetched_ok
      ((buffered s).map (fun t => (⟨t, "", 0, 0.0, LOC_INVALID⟩ : lexeme_t)) ++ s.input)
      (la_start s).pos s := by
    simp [fetched_ok, la_start]
  have ht := run_calls_total _ _ cs (la_start s) s hv hf
  split at ht
  · rename_i hh
    obtain ⟨s3, hr3, hv3, -⟩ := ht
    rw [hr] at hr3
    simp only [Except.ok.injEq, Prod.mk.injEq] at hr3
    obtain ⟨rfl, rfl⟩ := hr3
    rw [hv3.2.2, call_events_spec _ cs (la_start s) hh]
    rfl
  · rw [hr] at ht; cases ht

/-- C33: cascade suppression as a state machine over (n_errors, n_correct),
on a state with a consistent lookahead buffer.  A consume that matches adds
1 to n_correct and leaves n_errors; a consume that does not match, and every
expect, sets n_correct to 0 and adds 1 to n_errors if n_correct was at least
RECOVER_THRESH, nothing otherwise.  A one_of whose head token is in its set
is a matching consume; a one_of whose head token is outside its set does
not reach the error report: it stops in its search loop.  The counters
after any sequence of calls that returns are those of the comparisons made.
Hence a mismatch after a run of matches that brings n_correct to at least
RECOVER_THRESH reports exactly one error, and of two mismatches the second
is reported only if the comparisons between them end with at least
RECOVER_THRESH matches in a row. -/
theorem cascade_suppression (s : pstate) (h : lookahead_ok s) :
    (∀ tok, ∃ s2, consume tok s = .ok (decide (tok = next_tok s), s2) ∧
      counters s2 =
        if tok = next_tok s then ((counters s).1, (counters s).2 + 1)
        else (if RECOVER_THRESH ≤ (counters s).2 then (counters s).1 + 1 else (counters s).1,
              0)) ∧
    (∀ toks, ∃ s2, expect toks s = .ok ((), s2) ∧
      counters s2 =
        (if RECOVER_THRESH ≤ (counters s).2 then (counters s).1 + 1 else (counters s).1, 0)) ∧
    (∀ toks,
      (next_tok s ∈ toks → ∃ s2, one_of toks s = .ok (next_tok s, s2) ∧
        counters s2 = ((counters s).1, (counters s).2 + 1)) ∧
      (next_tok s ∉ toks →
        one_of toks s
          = .error (.undefined_behaviour "va_arg past the end of the arguments"))) ∧
    (∀ cs rs s2, run_calls cs s = .ok (rs, s2) →
      counters s2 = count_events (counters s) (call_events cs rs)) ∧
    (∀ e c m, RECOVER_THRESH ≤ c + m →
      count_events (e, c) (List.replicate m true ++ [false]) = (e + 1, 0)) ∧
    (∀ c0 a b,
      (count_event (count_events (count_event (count_events c0 a) false) b) false).1
        = (count_events (count_event (count_events c0 a) false) b).1 + 1 →
      ∃ b0 k, RECOVER_THRESH ≤ k ∧ b = b0 ++ List.replicate k true) := by
  refine ⟨?_, ?_, ?_, ?_, ?_, ?_⟩
  · intro tok
    refine ⟨_, consume_wf tok s h, ?_⟩
    rw [counters_after_consume]
    by_cases ht : tok = next_tok s <;> simp [count_event, ht]
  · intro toks
    refine ⟨_, expect_wf toks s h, ?_⟩
    rw [counters_mismatch]
    simp [count_event]
  · intro toks
    have hw := one_of_wf toks s h
    constructor
    · intro ht
      rw [if_pos ht] at hw
      refine ⟨_, hw, ?_⟩
      rw [counters_after_consume]
      simp [count_event]
    · intro ht
      rw [if_neg ht] at hw
      exact hw
  · intro cs rs s2 hr
    exact run_calls_counters s h cs rs s2 hr
  · intro e c m hm
    rw [count_events_snoc, count_events_matches]
    simp [count_event, hm]
  · intro c0 a b hrep
    generalize hc1 : count_event (count_events c0 a) false = c1 at hrep
    have h0 : c1.2 = 0 := by rw [← hc1]; exact count_event_mismatch_snd _
    obtain ⟨e1, n1⟩ := c1
    simp only at h0
    subst h0
    obtain ⟨b0, hb0⟩ := count_events_run e1 b
    refine ⟨b0, (count_events (e1, 0) b).2, ?_, hb0⟩
    by_contra hlt
    simp [count_event, hlt] at hrep

/-- C33 on the tokens of `entity e is end;` after the reset of parse
(n_correct = RECOVER_THRESH): three calls consume(tIS) meet `entity`, `e`
and `is`; the first mismatch is reported, the second is not, the match
counts 1. -/
theorem cascade_suppression_witness :
    lookahead_ok (parse_reset (pstate_init ex_entity_tokens)) ∧
    ∃ s2, run_calls [.consume .tIS, .consume .tIS, .consume .tIS]
        (parse_reset (pstate_init ex_entity_tokens))
        = .ok ([.flag false, .flag false, .flag true], s2) ∧
      counters s2 = (1, 1) := by
  have h := run_calls_from_start (parse_reset (pstate_init ex_entity_tokens))
    [.consume .tIS, .consume .tIS, .consume .tIS] rfl rfl
  rw [if_pos (by decide)] at h
  obtain ⟨s2, hr, -, -⟩ := h
  have hl : lookahead_ok (parse_reset (pstate_init ex_entity_tokens)) := by
    intro h2; cases h2
  exact ⟨hl, s2, hr, (cascade_suppression _ hl).2.2.2.1 _ _ s2 hr⟩

/-! ### Termination of the context clause -/

/-- One iteration of the loop of p_context_clause on the head token library
or use: p_library_clause and p_use_clause have empty bodies, so nothing is
consumed and the state is left as it was. -/
theorem p_context_item_idle (s : pstate) (hv : s.peek_valid = true)
    (hm : s.peek_tok ∈ [token_t.tLIBRARY, .tUSE]) : p_context_item s = .ok ((), s) := by
  rw [p_context_item, BEGIN_eq]
  have hv2 : (set_frame (some "context item") LOC_INVALID s).peek_valid = true := hv
  simp only [bind, StateT.bind, peek_ready _ hv2, Except.bind]
  have ht : (set_frame (some "context item") LOC_INVALID s).peek_tok = s.peek_tok := rfl
  rw [ht]
  simp at hm
  rcases hm with hm | hm <;> rw [hm] <;> rfl

theorem p_context_clause_loop_stuck (fuel : Nat) (s : pstate) (hv : s.peek_valid = true)
    (hm : s.peek_tok ∈ [token_t.tLIBRARY, .tUSE]) :
    p_context_clause_loop fuel s = .error .out_of_fuel := by
  induction fuel with
  | zero => rfl
  | succ k ih =>
    simp only [p_context_clause_loop, scan, bind, StateT.bind, peek_ready s hv, Except.bind, pure,
      StateT.pure, Except.pure, hm, decide_True, ite_true, p_context_item_idle s hv hm, ih]

theorem p_design_unit_stuck (fuel : Nat) (s : pstate) (hv : s.peek_valid = true)
    (hm : s.peek_tok ∈ [token_t.tLIBRARY, .tUSE]) :
    p_design_unit fuel s = .error .out_of_fuel := by
  rw [p_design_unit, BEGIN_eq]
  simp only [bind, StateT.bind, p_context_clause]
  rw [BEGIN_eq]
  have h1 := p_context_clause_loop_stuck fuel (set_frame (some "context clause") LOC_INVALID
    (set_frame (some "design unit") LOC_INVALID s)) hv hm
  rw [h1]
  rfl

/-- C38: parse does not terminate on a token stream that starts with library
or use.  The loop of p_context_clause goes on while the head token is one of
the two, and its body p_context_item then calls p_library_clause or
p_use_clause, whose bodies are empty: an iteration consumes no token and
leaves the state as it was, so the loop condition holds again.  With every
amount of fuel (every bound on the number of iterations) the run of parse
ends in that loop. -/
theorem parse_context_clause_loops (fuel : Nat) (st : pstate)
    (hp : st.peek_valid = true ∨ st.peek2_valid = false)
    (hm : next_tok st = .tLIBRARY ∨ next_tok st = .tUSE) :
    parse fuel st = .error .out_of_fuel ∧
    p_context_item (force_peek (parse_reset st)) = .ok ((), force_peek (parse_reset st)) ∧
    scan [.tLIBRARY, .tUSE] (force_peek (parse_reset st))
      = .ok (true, force_peek (parse_reset st)) := by
  have hv : (force_peek (parse_reset st)).peek_valid = true := force_peek_valid _
  have ht : (force_peek (parse_reset st)).peek_tok ∈ [token_t.tLIBRARY, .tUSE] := by
    rw [(force_peek_reset st).2.2]
    rcases hm with hm | hm <;> simp [hm]
  have hne : next_tok st ≠ .tEOF := by
    rcases hm with hm | hm <;> rw [hm] <;> decide
  refine ⟨?_, p_context_item_idle _ hv ht, ?_⟩
  · simp only [parse, bind, StateT.bind, modify, modifyGet, MonadStateOf.modifyGet,
      StateT.modifyGet, pure, StateT.pure, Except.pure, Except.bind]
    have hrs : ({ st with n_errors := 0, n_correct := RECOVER_THRESH, assert_viol := none }
        : pstate) = parse_reset st := rfl
    rw [hrs, peek_reset st hp]
    simp [hne, StateT.bind, StateT.pure, bind, Except.bind, pure, Except.pure,
      p_design_unit_stuck fuel _ hv ht]
  · simp [scan, bind, StateT.bind, peek_ready _ hv, Except.bind, pure, StateT.pure,
      Except.pure, ht]

/-- C38 on the tokens of `library ieee;`: parse runs out of every amount of
fuel. -/
theorem parse_context_clause_loops_witness :
    next_tok (pstate_init ex_tokens_library) = .tLIBRARY ∧
    parse 1 (pstate_init ex_tokens_library) = .error .out_of_fuel ∧
    parse 1000000 (pstate_init ex_tokens_library) = .error .out_of_fuel :=
  ⟨rfl,
   (parse_context_clause_loops 1 (pstate_init ex_tokens_library) (Or.inr rfl) (Or.inl rfl)).1,
   (parse_context_clause_loops 1000000 (pstate_init ex_tokens_library) (Or.inr rfl)
      (Or.inl rfl)).1⟩

/-! ### Token values under two-token lookahead -/

theorem peek2_ready (x : pstate) (hv : x.peek_valid = true) (h2 : x.peek2_valid = true) :
    peek2 x = .ok (x.peek2_tok, x) := by
  simp [peek2, hv, h2, bind, StateT.bind, get, getThe, MonadStateOf.get, StateT.get, pure,
    StateT.pure, Except.pure, Except.bind]

/-- The name production on two identifier tokens that are both pre-fetched:
the reference gets the text the scanner stored last, which is the text of
the second token, and the text is freed. -/
theorem p_name_after_peek2 (k : Nat) (u : String) (h : Option String) (l : loc_t) (x : pstate)
    (hv : x.peek_valid = true) (h2 : x.peek2_valid = true) (ht : x.peek_tok = .tID)
    (ht2 : x.peek2_tok = .tID) (hu : x.yylval_s = some u) :
    p_name (k + 1) (set_frame h l x)
      = .ok (.T_REF (_diff_loc x.yylloc x.yylloc) (some u) none none,
             set_frame h l (freed (intern u (shift x)))) := by
  rw [p_name, BEGIN_app]
  have hv1 : (set_frame (some "name") LOC_INVALID x).peek_valid = true := hv
  have h21 : (set_frame (some "name") LOC_INVALID x).peek2_valid = true := h2
  have hid := p_identifier_app2 u (some "name") LOC_INVALID x hv h2 ht hu
  simp only [bind, StateT.bind, peek_ready _ hv1, Except.bind]
  have e1 : (set_frame (some "name") LOC_INVALID x).peek_tok = .tID := ht
  rw [e1]
  have e2 : (set_frame (some "name") LOC_INVALID x).peek2_tok = .tID := ht2
  simp only [StateT.bind, peek2_ready _ hv1 h21, e2, Except.bind]
  simp only [p_simple_name, bind, StateT.bind, hid, Except.bind, CURRENT_LOC_app, pure,
    StateT.pure, Except.pure]
  have hl : (if LOC_INVALID.linebuf = none then x.yylloc else LOC_INVALID) = x.yylloc := rfl
  have hy : (freed (intern u (shift x))).yylloc = x.yylloc := by
    unfold freed intern; split <;> rfl
  simp only [hl, set_frame_set_frame]
  rw [hy]

/-- The type mark production when the text of the head identifier has been
freed: the identifier token is consumed and the dangling yylval.s is read. -/
theorem p_type_mark_freed (h : Option String) (l : loc_t) (y : pstate)
    (h2 : y.peek2_valid = false) (ht : next_tok y = .tID) (hv : y.peek_valid = true)
    (hu : y.yylval_s = none) :
    p_type_mark (set_frame h l y)
      = .error (.undefined_behaviour "yylval.s is not a live string") := by
  have hf : force_peek y = y := by unfold force_peek; simp [hv]
  have ha : (advance y).yylval_s = none := by
    unfold advance; rw [hf]; exact hu
  have hr : ∀ l2, yylval_read_s (set_frame h l2 (advance y))
      = .error (.undefined_behaviour "yylval.s is not a live string") := by
    intro l2
    have : (set_frame h l2 (advance y)).yylval_s = none := ha
    simp [yylval_read_s, bind, StateT.bind, get, getThe, MonadStateOf.get, StateT.get, this,
      parse_abort, pure, StateT.pure, Except.pure, Except.bind]
  simp only [p_type_mark, p_identifier, bind, StateT.bind, consume_app _ h l y h2 ht,
    Except.bind, if_true, hr]

/-- C40: token values do not survive two-token lookahead.  On a subtype
indication written as two identifier tokens a and b, p_subtype_indication
fetches both tokens with peek and peek2 before it consumes any; the scanner
has then stored the text of b in the one yylval, over the text of a.  The
name production consumes the token a and builds its reference from that
text, so the resolution function name gets the identifier of b, and frees
it; the type mark production then consumes the token b and reads the freed
text.  p_subtype_indication does not return a subtype for the two
identifiers. -/
theorem p_subtype_indication_two_identifiers (k : Nat) (s : pstate) (a b : lexeme_t)
    (rest : List lexeme_t) (hv : s.peek_valid = false) (h2 : s.peek2_valid = false)
    (hi : s.input = a :: b :: rest) (ha : a.kind = .tID) (hb : b.kind = .tID) :
    (force_peek s).yylval_s = some a.text ∧ (force_peek2 s).yylval_s = some b.text ∧
    (∃ loc sN, p_name (k + 1) (set_frame (some "subtype indication") LOC_INVALID (force_peek2 s))
        = .ok (.T_REF loc (some b.text) none none,
               set_frame (some "subtype indication") LOC_INVALID sN) ∧
      sN.yylval_s = none ∧ next_tok sN = .tID ∧
      p_type_mark (set_frame (some "subtype indication") LOC_INVALID sN)
        = .error (.undefined_behaviour "yylval.s is not a live string")) ∧
    p_subtype_indication (k + 1) s
      = .error (.undefined_behaviour "yylval.s is not a live string") := by
  have hx : (force_peek2 s).peek_valid = true ∧ (force_peek2 s).peek2_valid = true ∧
      (force_peek2 s).peek_tok = .tID ∧ (force_peek2 s).peek2_tok = .tID ∧
      (force_peek2 s).yylval_s = some b.text ∧ (force_peek s).yylval_s = some a.text ∧
      next_tok s = .tID ∧ next_tok2 s = .tID := by
    rcases s with ⟨input, ys, yn, yd, yl, sl, ne, nc, pt, pv, p2t, p2v, hs, av, itn⟩
    simp only at hv h2 hi
    subst hv h2 hi
    simp [force_peek2, force_peek, lexed, lexed_tok, next_tok, next_tok2, ha, hb]
  obtain ⟨x1, x2, x3, x4, x5, x6, x7, x8⟩ := hx
  have hn := p_name_after_peek2 k b.text (some "subtype indication") LOC_INVALID (force_peek2 s)
    x1 x2 x3 x4 x5
  obtain ⟨y1, y2⟩ := after_ident2_facts b.text (force_peek2 s) x1
  rw [x4] at y2
  have y3 : (freed (intern b.text (shift (force_peek2 s)))).peek_valid = true := by
    unfold freed intern; split <;> exact x1
  have hm := p_type_mark_freed (some "subtype indication") LOC_INVALID
    (freed (intern b.text (shift (force_peek2 s)))) y1 y2 y3 rfl
  refine ⟨x6, x5, ⟨_, _, hn, rfl, y2, hm⟩, ?_⟩
  rw [p_subtype_indication, BEGIN_eq]
  have h2f : (force_peek s).peek2_valid = false := by rw [force_peek_peek2, h2]
  simp only [bind, StateT.bind, peek_app _ _ s h2, Except.bind, x7, if_true,
    peek2_app _ _ (force_peek s) h2f, (force_peek2_force_peek s).1, (force_peek2_force_peek s).2,
    x8, hn, hm]

/-- C40 on the tokens of `resolved bit`: the reference built for the
resolution function is named bit, and no subtype is returned. -/
theorem p_subtype_indication_two_identifiers_witness :
    (force_peek (pstate_init ex_tokens_resolved)).yylval_s = some "resolved" ∧
    (∃ loc sN, p_name 1 (set_frame (some "subtype indication") LOC_INVALID
        (force_peek2 (pstate_init ex_tokens_resolved)))
        = .ok (.T_REF loc (some "bit") none none,
               set_frame (some "subtype indication") LOC_INVALID sN)) ∧
    p_subtype_indication 1 (pstate_init ex_tokens_resolved)
      = .error (.undefined_behaviour "yylval.s is not a live string") :=
  ⟨(p_subtype_indication_two_identifiers 0 (pstate_init ex_tokens_resolved)
      (ex_lx_id "resolved" 0) (ex_lx_id "bit" 9) [] rfl rfl rfl rfl rfl).1,
   Exists.imp (fun _ h => Exists.imp (fun _ g => g.1) h)
     (p_subtype_indication_two_identifiers 0 (pstate_init ex_tokens_resolved)
      (ex_lx_id "resolved" 0) (ex_lx_id "bit" 9) [] rfl rfl rfl rfl rfl).2.2.1,
   (p_subtype_indication_two_identifiers 0 (pstate_init ex_tokens_resolved)
      (ex_lx_id "resolved" 0) (ex_lx_id "bit" 9) [] rfl rfl rfl rfl rfl).2.2.2⟩

/-! ### Comparisons made by a run of parse -/

theorem set_counters_set_counters (p q : Nat × Nat) (s : pstate) :
    set_counters p (set_counters q s) = set_counters p s := rfl

theorem count_events_append (p : Nat × Nat) (a b : List Bool) :
    count_events p (a ++ b) = count_events (count_events p a) b := by
  simp [count_events, List.foldl_append]

@[instance]
theorem tracked_pure {α : Type} (x : α) : tracked (pure x : parse_m α) := by
  constructor
  intro s y s2 h
  simp only [pure, StateT.pure, Except.pure, Except.ok.injEq, Prod.mk.injEq] at h
  obtain ⟨rfl, rfl⟩ := h
  exact ⟨[], fun p => rfl⟩

@[instance]
theorem tracked_abort {α : Type} (e : parse_fail) : tracked (parse_abort e : parse_m α) := by
  constructor
  intro s y s2 h
  cases h

@[instance]
theorem tracked_bind {α β : Type} (m : parse_m α) (f : α → parse_m β) (hm : tracked m)
    (hf : ∀ x, tracked (f x)) : tracked (m >>= f) := by
  constructor
  intro s y s3 h
  simp only [bind, StateT.bind] at h
  cases hms : m s with
  | error e => rw [hms] at h; cases h
  | ok r =>
    obtain ⟨x, s2⟩ := r
    rw [hms] at h
    simp only [Except.bind] at h
    obtain ⟨e1, h1⟩ := hm.runs s x s2 hms
    obtain ⟨e2, h2⟩ := (hf x).runs s2 y s3 h
    refine ⟨e1 ++ e2, fun p => ?_⟩
    simp only [bind, StateT.bind, h1 p, Except.bind]
    rw [h2 (count_events p e1), count_events_append]

@[instance]
theorem tracked_get_bind {α : Type} (f : pstate → parse_m α)
    (hf : ∀ st p, f (set_counters p st) = f st) (ht : ∀ st, tracked (f st)) :
    tracked (get >>= f) := by
  constructor
  intro s y s2 h
  have h1 : f s s = .ok (y, s2) := h
  obtain ⟨evs, he⟩ := (ht s).runs s y s2 h1
  refine ⟨evs, fun p => ?_⟩
  show f (set_counters p s) (set_counters p s) = _
  rw [hf]
  exact he p

@[instance]
theorem tracked_modify (g : pstate → pstate)
    (hg : ∀ p st, g (set_counters p st) = set_counters p (g st)) :
    tracked (modify g : parse_m PUnit) := by
  constructor
  intro s y s2 h
  have h1 : (Except.ok (PUnit.unit, g s) : Except parse_fail (PUnit × pstate)) = .ok (y, s2) := h
  simp only [Except.ok.injEq, Prod.mk.injEq] at h1
  obtain ⟨-, rfl⟩ := h1
  refine ⟨[], fun p => ?_⟩
  show (Except.ok (PUnit.unit, g (set_counters p s)) : Except parse_fail (PUnit × pstate)) = _
  rw [hg]
  rfl

theorem peek_not_ok (s : pstate) (h : ¬ lookahead_ok s) :
    peek s = .error (.assert_failed "!peek2_valid") := by
  have h1 : s.peek2_valid = true ∧ s.peek_valid = false := by
    simpa [lookahead_ok] using h
  simp [peek, h1.1, h1.2, parse_abort, bind, StateT.bind, get, getThe, MonadStateOf.get,
    StateT.get, Except.bind, pure, StateT.pure, Except.pure]

theorem peek2_not_ok (s : pstate) (h : ¬ lookahead_ok s) :
    peek2 s = .error (.assert_failed "!peek2_valid") := by
  have h1 : s.peek2_valid = true ∧ s.peek_valid = false := by
    simpa [lookahead_ok] using h
  simp [peek2, h1.1, h1.2, parse_abort, bind, StateT.bind, get, getThe, MonadStateOf.get,
    StateT.get, Except.bind, pure, StateT.pure, Except.pure]

theorem force_peek_set_counters (p : Nat × Nat) (s : pstate) :
    force_peek (set_counters p s) = set_counters p (force_peek s) := by
  rcases s with ⟨input, ys, yn, yd, yl, sl, ne, nc, pt, pv, p2t, p2v, hs, av, itn⟩
  cases pv <;> cases input <;> rfl

theorem next_tok_set_counters (p : Nat × Nat) (s : pstate) :
    next_tok (set_counters p s) = next_tok s := by
  unfold next_tok
  rw [force_peek_set_counters]
  rfl

theorem force_peek2_set_counters (p : Nat × Nat) (s : pstate) :
    force_peek2 (set_counters p s) = set_counters p (force_peek2 s) := by
  rcases s with ⟨input, ys, yn, yd, yl, sl, ne, nc, pt, pv, p2t, p2v, hs, av, itn⟩
  cases pv <;> cases p2v <;> rcases input with _ | ⟨a, _ | ⟨b, rest⟩⟩ <;> rfl

theorem next_tok2_set_counters (p : Nat × Nat) (s : pstate) :
    next_tok2 (set_counters p s) = next_tok2 s := by
  unfold next_tok2
  rw [force_peek2_set_counters]
  rfl

theorem after_consume_set_counters (tok : token_t) (p : Nat × Nat) (s : pstate) :
    after_consume tok (set_counters p s)
      = set_counters (count_event p (decide (tok = next_tok s))) (after_consume tok s) := by
  unfold after_consume
  rw [next_tok_set_counters, force_peek_set_counters]
  rfl

theorem mismatch_set_counters (p : Nat × Nat) (s : pstate) :
    mismatch (set_counters p s) = set_counters (count_event p false) (mismatch s) := by
  unfold mismatch
  rw [force_peek_set_counters]
  simp [set_counters, count_event]

@[instance]
theorem tracked_peek : tracked peek := by
  constructor
  intro s x s2 h
  by_cases hw : lookahead_ok s
  · rw [peek_wf s hw] at h
    simp only [Except.ok.injEq, Prod.mk.injEq] at h
    obtain ⟨rfl, rfl⟩ := h
    refine ⟨[], fun p => ?_⟩
    rw [peek_wf _ (show lookahead_ok (set_counters p s) from hw), next_tok_set_counters,
      force_peek_set_counters]
    rfl
  · rw [peek_not_ok s hw] at h; cases h

@[instance]
theorem tracked_peek2 : tracked peek2 := by
  constructor
  intro s x s2 h
  by_cases hw : lookahead_ok s
  · rw [peek2_wf s hw] at h
    simp only [Except.ok.injEq, Prod.mk.injEq] at h
    obtain ⟨rfl, rfl⟩ := h
    refine ⟨[], fun p => ?_⟩
    rw [peek2_wf _ (show lookahead_ok (set_counters p s) from hw), next_tok2_set_counters,
      force_peek2_set_counters]
    rfl
  · rw [peek2_not_ok s hw] at h; cases h

theorem consume_not_ok (tok : token_t) (s : pstate) (h : ¬ lookahead_ok s) :
    consume tok s = .error (.assert_failed "!peek2_valid") := by
  simp [consume, bind, StateT.bind, peek_not_ok s h, Except.bind]

@[instance]
theorem tracked_consume (tok : token_t) : tracked (consume tok) := by
  constructor
  intro s x s2 h
  by_cases hw : lookahead_ok s
  · rw [consume_wf tok s hw] at h
    simp only [Except.ok.injEq, Prod.mk.injEq] at h
    obtain ⟨rfl, rfl⟩ := h
    refine ⟨[decide (tok = next_tok s)], fun p => ?_⟩
    rw [consume_wf _ _ (show lookahead_ok (set_counters p s) from hw), next_tok_set_counters,
      after_consume_set_counters]
    rfl
  · rw [consume_not_ok tok s hw] at h; cases h

theorem expect_not_ok (toks : List token_t) (s : pstate) (h : ¬ lookahead_ok s) :
    expect toks s = .error (.assert_failed "!peek2_valid") := by
  simp [expect, _vexpect, bind, StateT.bind, peek_not_ok s h, Except.bind]

@[instance]
theorem tracked_expect (toks : List token_t) : tracked (expect toks) := by
  constructor
  intro s x s2 h
  by_cases hw : lookahead_ok s
  · rw [expect_wf toks s hw] at h
    simp only [Except.ok.injEq, Prod.mk.injEq] at h
    obtain ⟨-, rfl⟩ := h
    refine ⟨[false], fun p => ?_⟩
    rw [expect_wf _ _ (show lookahead_ok (set_counters p s) from hw), mismatch_set_counters]
    rfl
  · rw [expect_not_ok toks s hw] at h; cases h

@[instance]
theorem tracked_ite {α : Type} (c : Prop) [Decidable c] (a b : parse_m α) (ha : tracked a)
    (hb : tracked b) : tracked (if c then a else b) := by
  split
  · exact ha
  · exact hb

@[instance]
theorem tracked_optional (tok : token_t) : tracked (optional tok) := by
  unfold optional
  refine tracked_bind _ _ tracked_peek (fun t => ?_)
  split
  · exact tracked_bind _ _ (tracked_consume tok) (fun _ => tracked_pure _)
  · exact tracked_pure _

@[instance]
theorem tracked_scan (toks : List token_t) : tracked (scan toks) := by
  unfold scan
  exact tracked_bind _ _ tracked_peek (fun t => tracked_pure _)

@[instance]
theorem tracked_one_of (toks : List token_t) : tracked (one_of toks) := by
  unfold one_of
  refine tracked_bind _ _ tracked_peek (fun t => ?_)
  split
  · exact tracked_bind _ _ (tracked_consume t) (fun _ => tracked_pure _)
  · exact tracked_abort _

@[instance]
theorem tracked_ident_new (x : String) : tracked (ident_new x) := by
  unfold ident_new
  refine tracked_bind _ _ (tracked_modify _ (fun p st => ?_)) (fun _ => tracked_pure _)
  show (if x ∈ st.interned then _ else _) = set_counters p (if x ∈ st.interned then _ else _)
  split <;> rfl

@[instance]
theorem tracked_ident_interned (x : String) : tracked (ident_interned x) := by
  unfold ident_interned
  exact tracked_get_bind _ (fun _ _ => rfl) (fun _ => tracked_pure _)

@[instance]
theorem tracked_yylval_read_s : tracked yylval_read_s := by
  unfold yylval_read_s
  refine tracked_get_bind _ (fun _ _ => rfl) (fun st => ?_)
  split
  · exact tracked_pure _
  · exact tracked_abort _

@[instance]
theorem tracked_yylval_free_s : tracked yylval_free_s :=
  tracked_modify _ (fun _ _ => rfl)

@[instance]
theorem tracked_CURRENT_LOC : tracked CURRENT_LOC := by
  unfold CURRENT_LOC
  exact tracked_get_bind _ (fun _ _ => rfl) (fun _ => tracked_pure _)

theorem EXTEND_eq {α : Type} (n : String) (body : parse_m α) (s : pstate) :
    EXTEND n body s =
      match body (set_frame (some n) s.start_loc s) with
      | .ok (a, s2) => .ok (a, set_frame s.hint_str s.start_loc s2)
      | .error e => .error e :=
  EXTEND_app n body s.hint_str s.start_loc s

@[instance]
theorem tracked_EXTEND {α : Type} (n : String) (body : parse_m α) (hb : tracked body) :
    tracked (EXTEND n body) := by
  constructor
  intro s x s2 h
  rw [EXTEND_eq] at h
  cases hr : body (set_frame (some n) s.start_loc s) with
  | error e => rw [hr] at h; cases h
  | ok r =>
    obtain ⟨a, s1⟩ := r
    rw [hr] at h
    simp only [Except.ok.injEq, Prod.mk.injEq] at h
    obtain ⟨rfl, rfl⟩ := h
    obtain ⟨evs, he⟩ := hb.runs _ _ _ hr
    refine ⟨evs, fun p => ?_⟩
    rw [EXTEND_eq]
    have := he p
    have e1 : set_frame (some n) (set_counters p s).start_loc (set_counters p s)
        = set_counters p (set_frame (some n) s.start_loc s) := rfl
    rw [e1, this]
    rfl

@[instance]
theorem tracked_BEGIN {α : Type} (n : String) (body : parse_m α) (hb : tracked body) :
    tracked (BEGIN n body) := by
  unfold BEGIN
  exact tracked_EXTEND _ _
    (tracked_bind _ _ (tracked_modify _ (fun _ _ => rfl)) (fun _ => hb))

@[instance]
theorem tracked_bind_inst {α β : Type} (m : parse_m α) (f : α → parse_m β) [hm : tracked m]
    [hf : ∀ x, tracked (f x)] : tracked (m >>= f) :=
  tracked_bind m f hm hf

@[instance]
theorem tracked_ite_inst {α : Type} (c : Prop) [Decidable c] (a b : parse_m α) [ha : tracked a]
    [hb : tracked b] : tracked (if c then a else b) :=
  tracked_ite c a b ha hb

@[instance]
theorem tracked_EXTEND_inst {α : Type} (n : String) (body : parse_m α) [hb : tracked body] :
    tracked (EXTEND n body) :=
  tracked_EXTEND n body hb

@[instance]
theorem tracked_BEGIN_inst {α : Type} (n : String) (body : parse_m α) [hb : tracked body] :
    tracked (BEGIN n body) :=
  tracked_BEGIN n body hb

@[instance]
theorem tracked_str_to_agg_loop (loc : loc_t) (cs : List Char) :
    ∀ acc, tracked (str_to_agg_loop loc cs acc) := by
  induction cs with
  | nil => intro acc; unfold str_to_agg_loop; infer_instance
  | cons c rest ih =>
    intro acc
    unfold str_to_agg_loop
    repeat (first | infer_instance | apply tracked_bind | intro _ | split)

@[instance]
theorem tracked_str_to_agg (cs : List Char) (loc : loc_t) : tracked (str_to_agg cs loc) := by
  unfold str_to_agg
  repeat (first | infer_instance | apply tracked_bind | intro _ | split)

@[instance]
theorem tracked_loc_to_ident_loop (base : String) (n : Nat) :
    ∀ i buf, tracked (loc_to_ident_loop base n i buf) := by
  induction n with
  | zero => intro i buf; unfold loc_to_ident_loop; infer_instance
  | succ n ih =>
    intro i buf
    unfold loc_to_ident_loop
    repeat (first | infer_instance | apply tracked_bind | intro _ | split)

@[instance]
theorem tracked_loc_to_ident (loc : loc_t) : tracked (loc_to_ident loc) := by
  unfold loc_to_ident
  repeat (first | infer_instance | apply tracked_bind | intro _ | split)

@[instance]
theorem tracked_set_label_and_loc (t : tree_t) (label : Option ident_t) (loc : loc_t) :
    tracked (set_label_and_loc t label loc) := by
  unfold set_label_and_loc
  repeat (first | infer_instance | apply tracked_bind | intro _ | split)

@[instance]
theorem tracked_p_identifier : tracked p_identifier := by
  unfold p_identifier
  repeat (first | infer_instance | apply tracked_bind | intro _ | split)

@[instance]
theorem tracked_p_mode : tracked p_mode := by
  unfold p_mode
  repeat (first | infer_instance | apply tracked_bind | intro _ | split)

@[instance]
theorem tracked_p_simple_name : tracked p_simple_name := by
  unfold p_simple_name
  repeat (first | infer_instance | apply tracked_bind | intro _ | split)

@[instance]
theorem tracked_p_operator_symbol : tracked p_operator_symbol := by
  unfold p_operator_symbol
  repeat (first | infer_instance | apply tracked_bind | intro _ | split)

@[instance]
theorem tracked_p_type_mark : tracked p_type_mark := by
  unfold p_type_mark
  repeat (first | infer_instance | apply tracked_bind | intro _ | split)

@[instance]
theorem tracked_p_abstract_literal : tracked p_abstract_literal := by
  unfold p_abstract_literal
  apply tracked_BEGIN
  apply tracked_bind
  · infer_instance
  · intro tok
    exact tracked_get_bind _ (fun _ _ => rfl) (fun _ => inferInstance)

@[instance]
theorem tracked_p_physical_literal (mult : Option tree_t) :
    tracked (p_physical_literal mult) := by
  unfold p_physical_literal
  repeat (first | infer_instance | apply tracked_EXTEND | apply tracked_bind | intro _ | split)

@[instance]
theorem tracked_p_numeric_literal : tracked p_numeric_literal := by
  unfold p_numeric_literal
  repeat (first | infer_instance | apply tracked_BEGIN | apply tracked_bind | intro _ | split)

@[instance]
theorem tracked_p_literal : tracked p_literal := by
  unfold p_literal
  repeat (first | infer_instance | apply tracked_BEGIN | apply tracked_bind | intro _ | split)

@[instance]
theorem tracked_p_multiplying_operator : tracked p_multiplying_operator := by
  unfold p_multiplying_operator
  repeat (first | infer_instance | apply tracked_bind | intro _ | split)

@[instance]
theorem tracked_p_adding_operator : tracked p_adding_operator := by
  unfold p_adding_operator
  repeat (first | infer_instance | apply tracked_bind | intro _ | split)

@[instance]
theorem tracked_p_relational_operator : tracked p_relational_operator := by
  unfold p_relational_operator
  repeat (first | infer_instance | apply tracked_bind | intro _ | split)

/-- Every production of the expression grammar makes a fixed sequence of
comparisons, at every fuel. -/
theorem tracked_expressions (fuel : Nat) :
    (∀ pfx expr1, tracked (p_slice_name fuel pfx expr1)) ∧
    (∀ t, tracked (p_function_call_loop fuel t)) ∧
    (∀ pfx expr1, tracked (p_function_call fuel pfx expr1)) ∧
    tracked (p_name fuel) ∧
    tracked (p_primary fuel) ∧
    tracked (p_factor fuel) ∧
    (∀ t, tracked (p_term_loop fuel t)) ∧
    tracked (p_term fuel) ∧
    (∀ t, tracked (p_simple_expression_loop fuel t)) ∧
    tracked (p_simple_expression fuel) ∧
    tracked (p_shift_expression fuel) ∧
    (∀ t, tracked (p_relation_loop fuel t)) ∧
    tracked (p_relation fuel) ∧
    tracked (p_expression fuel) := by
  induction fuel with
  | zero =>
    refine ⟨?_, ?_, ?_, ?_, ?_, ?_, ?_, ?_, ?_, ?_, ?_, ?_, ?_, ?_⟩ <;> intros <;>
    first
      | (unfold p_slice_name; exact tracked_abort _)
      | (unfold p_function_call_loop; exact tracked_abort _)
      | (unfold p_function_call; exact tracked_abort _)
      | (unfold p_name; exact tracked_abort _)
      | (unfold p_primary; exact tracked_abort _)
      | (unfold p_factor; exact tracked_abort _)
      | (unfold p_term_loop; exact tracked_abort _)
      | (unfold p_term; exact tracked_abort _)
      | (unfold p_simple_expression_loop; exact tracked_abort _)
      | (unfold p_simple_expression; exact tracked_abort _)
      | (unfold p_shift_expression; exact tracked_abort _)
      | (unfold p_relation_loop; exact tracked_abort _)
      | (unfold p_relation; exact tracked_abort _)
      | (unfold p_expression; exact tracked_abort _)
  | succ n ih =>
    obtain ⟨h0, h1, h2, h3, h4, h5, h6, h7, h8, h9, h10, h11, h12, h13⟩ := ih
    refine ⟨?_, ?_, ?_, ?_, ?_, ?_, ?_, ?_, ?_, ?_, ?_, ?_, ?_, ?_⟩
    · intros
      unfold p_slice_name
      repeat (first | infer_instance | apply tracked_BEGIN | apply tracked_EXTEND | apply tracked_bind | intro _ | split)
    · intros
      unfold p_function_call_loop
      repeat (first | infer_instance | apply tracked_BEGIN | apply tracked_EXTEND | apply tracked_bind | intro _ | split)
    · intros
      unfold p_function_call
      repeat (first | infer_instance | apply tracked_BEGIN | apply tracked_EXTEND | apply tracked_bind | intro _ | split)
    · unfold p_name
      repeat (first | infer_instance | apply tracked_BEGIN | apply tracked_EXTEND | apply tracked_bind | intro _ | split)
    · unfold p_primary
      repeat (first | infer_instance | apply tracked_BEGIN | apply tracked_EXTEND | apply tracked_bind | intro _ | split)
    · unfold p_factor
      repeat (first | infer_instance | apply tracked_BEGIN | apply tracked_EXTEND | apply tracked_bind | intro _ | split)
    · intros
      unfold p_term_loop
      repeat (first | infer_instance | apply tracked_BEGIN | apply tracked_EXTEND | apply tracked_bind | intro _ | split)
    · unfold p_term
      repeat (first | infer_instance | apply tracked_BEGIN | apply tracked_EXTEND | apply tracked_bind | intro _ | split)
    · intros
      unfold p_simple_expression_loop
      repeat (first | infer_instance | apply tracked_BEGIN | apply tracked_EXTEND | apply tracked_bind | intro _ | split)
    · unfold p_simple_expression
      repeat (first | infer_instance | apply tracked_BEGIN | apply tracked_EXTEND | apply tracked_bind | intro _ | split)
    · unfold p_shift_expression
      repeat (first | infer_instance | apply tracked_BEGIN | apply tracked_EXTEND | apply tracked_bind | intro _ | split)
    · intros
      unfold p_relation_loop
      repeat (first | infer_instance | apply tracked_BEGIN | apply tracked_EXTEND | apply tracked_bind | intro _ | split)
    · unfold p_relation
      repeat (first | infer_instance | apply tracked_BEGIN | apply tracked_EXTEND | apply tracked_bind | intro _ | split)
    · unfold p_expression
      repeat (first | infer_instance | apply tracked_BEGIN | apply tracked_EXTEND | apply tracked_bind | intro _ | split)

@[instance]
theorem tracked_p_slice_name (fuel : Nat) (pfx : ident_t) (expr1 : tree_t) :
    tracked (p_slice_name fuel pfx expr1) :=
  (tracked_expressions fuel).1 pfx expr1

@[instance]
theorem tracked_p_function_call_loop (fuel : Nat) (t : tree_t) :
    tracked (p_function_call_loop fuel t) :=
  (tracked_expressions fuel).2.1 t

@[instance]
theorem tracked_p_function_call (fuel : Nat) (pfx : ident_t) (expr1 : tree_t) :
    tracked (p_function_call fuel pfx expr1) :=
  (tracked_expressions fuel).2.2.1 pfx expr1

@[instance]
theorem tracked_p_name (fuel : Nat) : tracked (p_name fuel) :=
  (tracked_expressions fuel).2.2.2.1

@[instance]
theorem tracked_p_primary (fuel : Nat) : tracked (p_primary fuel) :=
  (tracked_expressions fuel).2.2.2.2.1

@[instance]
theorem tracked_p_factor (fuel : Nat) : tracked (p_factor fuel) :=
  (tracked_expressions fuel).2.2.2.2.2.1

@[instance]
theorem tracked_p_term_loop (fuel : Nat) (t : tree_t) :
    tracked (p_term_loop fuel t) :=
  (tracked_expressions fuel).2.2.2.2.2.2.1 t

@[instance]
theorem tracked_p_term (fuel : Nat) : tracked (p_term fuel) :=
  (tracked_expressions fuel).2.2.2.2.2.2.2.1

@[instance]
theorem tracked_p_simple_expression_loop (fuel : Nat) (t : tree_t) :
    tracked (p_simple_expression_loop fuel t) :=
  (tracked_expressions fuel).2.2.2.2.2.2.2.2.1 t

@[instance]
theorem tracked_p_simple_expression (fuel : Nat) : tracked (p_simple_expression fuel) :=
  (tracked_expressions fuel).2.2.2.2.2.2.2.2.2.1

@[instance]
theorem tracked_p_shift_expression (fuel : Nat) : tracked (p_shift_expression fuel) :=
  (tracked_expressions fuel).2.2.2.2.2.2.2.2.2.2.1

@[instance]
theorem tracked_p_relation_loop (fuel : Nat) (t : tree_t) :
    tracked (p_relation_loop fuel t) :=
  (tracked_expressions fuel).2.2.2.2.2.2.2.2.2.2.2.1 t

@[instance]
theorem tracked_p_relation (fuel : Nat) : tracked (p_relation fuel) :=
  (tracked_expressions fuel).2.2.2.2.2.2.2.2.2.2.2.2.1

@[instance]
theorem tracked_p_expression (fuel : Nat) : tracked (p_expression fuel) :=
  (tracked_expressions fuel).2.2.2.2.2.2.2.2.2.2.2.2.2

@[instance]
theorem tracked_p_identifier_list_loop  (fuel : Nat) :
    ∀ (a : List ident_t), tracked (p_identifier_list_loop fuel a) := by
  induction fuel with
  | zero =>
    intro a
    unfold p_identifier_list_loop
    exact tracked_abort _
  | succ n ih =>
    intro a
    unfold p_identifier_list_loop
    repeat (first | infer_instance | apply tracked_BEGIN | apply tracked_EXTEND | apply tracked_bind | intro _ | split)

@[instance]
theorem tracked_p_identifier_list (fuel : Nat) :
    tracked (p_identifier_list fuel) := by
  unfold p_identifier_list
  repeat (first | infer_instance | apply tracked_BEGIN | apply tracked_EXTEND | apply tracked_bind | intro _ | split)

@[instance]
theorem tracked_p_library_clause  :
    tracked (p_library_clause) := by
  unfold p_library_clause
  repeat (first | infer_instance | apply tracked_BEGIN | apply tracked_EXTEND | apply tracked_bind | intro _ | split)

@[instance]
theorem tracked_p_use_clause  :
    tracked (p_use_clause) := by
  unfold p_use_clause
  repeat (first | infer_instance | apply tracked_BEGIN | apply tracked_EXTEND | apply tracked_bind | intro _ | split)

@[instance]
theorem tracked_p_context_item  :
    tracked (p_context_item) := by
  unfold p_context_item
  repeat (first | infer_instance | apply tracked_BEGIN | apply tracked_EXTEND | apply tracked_bind | intro _ | split)

@[instance]
theorem tracked_p_context_clause_loop  (fuel : Nat) :
    tracked (p_context_clause_loop fuel) := by
  induction fuel with
  | zero =>
    unfold p_context_clause_loop
    exact tracked_abort _
  | succ n ih =>
    unfold p_context_clause_loop
    repeat (first | infer_instance | apply tracked_BEGIN | apply tracked_EXTEND | apply tracked_bind | intro _ | split)

@[instance]
theorem tracked_p_context_clause (fuel : Nat) :
    tracked (p_context_clause fuel) := by
  unfold p_context_clause
  repeat (first | infer_instance | apply tracked_BEGIN | apply tracked_EXTEND | apply tracked_bind | intro _ | split)

@[instance]
theorem tracked_p_subtype_indication (fuel : Nat) :
    tracked (p_subtype_indication fuel) := by
  unfold p_subtype_indication
  repeat (first | infer_instance | apply tracked_BEGIN | apply tracked_EXTEND | apply tracked_bind | intro _ | split)

@[instance]
theorem tracked_p_interface_constant_declaration (fuel : Nat) (parent : tree_t) (addf : tree_t → tree_t → tree_t) :
    tracked (p_interface_constant_declaration fuel parent addf) := by
  unfold p_interface_constant_declaration
  repeat (first | infer_instance | apply tracked_BEGIN | apply tracked_EXTEND | apply tracked_bind | intro _ | split)

@[instance]
theorem tracked_p_interface_signal_declaration (fuel : Nat) (parent : tree_t) (_addf : tree_t → tree_t → tree_t) :
    tracked (p_interface_signal_declaration fuel parent _addf) := by
  unfold p_interface_signal_declaration
  repeat (first | infer_instance | apply tracked_BEGIN | apply tracked_EXTEND | apply tracked_bind | intro _ | split)

@[instance]
theorem tracked_p_interface_variable_declaration (parent : tree_t) :
    tracked (p_interface_variable_declaration parent) := by
  unfold p_interface_variable_declaration
  repeat (first | infer_instance | apply tracked_BEGIN | apply tracked_EXTEND | apply tracked_bind | intro _ | split)

@[instance]
theorem tracked_p_interface_file_declaration (parent : tree_t) :
    tracked (p_interface_file_declaration parent) := by
  unfold p_interface_file_declaration
  repeat (first | infer_instance | apply tracked_BEGIN | apply tracked_EXTEND | apply tracked_bind | intro _ | split)

@[instance]
theorem tracked_p_interface_declaration (fuel : Nat) (def_class : class_t) (parent : tree_t) (addf : tree_t → tree_t → tree_t) :
    tracked (p_interface_declaration fuel def_class parent addf) := by
  unfold p_interface_declaration
  repeat (first | infer_instance | apply tracked_BEGIN | apply tracked_EXTEND | apply tracked_bind | intro _ | split)

@[instance]
theorem tracked_p_interface_element (fuel : Nat) (def_class : class_t) (parent : tree_t) (addf : tree_t → tree_t → tree_t) :
    tracked (p_interface_element fuel def_class parent addf) := by
  unfold p_interface_element
  repeat (first | infer_instance | apply tracked_BEGIN | apply tracked_EXTEND | apply tracked_bind | intro _ | split)

@[instance]
theorem tracked_p_interface_list_loop (def_class : class_t) (addf : tree_t → tree_t → tree_t) (fuel : Nat) :
    ∀ (a : tree_t), tracked (p_interface_list_loop def_class addf fuel a) := by
  induction fuel with
  | zero =>
    intro a
    unfold p_interface_list_loop
    exact tracked_abort _
  | succ n ih =>
    intro a
    unfold p_interface_list_loop
    repeat (first | infer_instance | apply tracked_BEGIN | apply tracked_EXTEND | apply tracked_bind | intro _ | split)

@[instance]
theorem tracked_p_interface_list (fuel : Nat) (def_class : class_t) (parent : tree_t) (addf : tree_t → tree_t → tree_t) :
    tracked (p_interface_list fuel def_class parent addf) := by
  unfold p_interface_list
  repeat (first | infer_instance | apply tracked_BEGIN | apply tracked_EXTEND | apply tracked_bind | intro _ | split)

@[instance]
theorem tracked_p_port_list (fuel : Nat) (parent : tree_t) :
    tracked (p_port_list fuel parent) := by
  unfold p_port_list
  repeat (first | infer_instance | apply tracked_BEGIN | apply tracked_EXTEND | apply tracked_bind | intro _ | split)

@[instance]
theorem tracked_p_port_clause (fuel : Nat) (parent : tree_t) :
    tracked (p_port_clause fuel parent) := by
  unfold p_port_clause
  repeat (first | infer_instance | apply tracked_BEGIN | apply tracked_EXTEND | apply tracked_bind | intro _ | split)

@[instance]
theorem tracked_p_generic_list (fuel : Nat) (parent : tree_t) :
    tracked (p_generic_list fuel parent) := by
  unfold p_generic_list
  repeat (first | infer_instance | apply tracked_BEGIN | apply tracked_EXTEND | apply tracked_bind | intro _ | split)

@[instance]
theorem tracked_p_generic_clause (fuel : Nat) (parent : tree_t) :
    tracked (p_generic_clause fuel parent) := by
  unfold p_generic_clause
  repeat (first | infer_instance | apply tracked_BEGIN | apply tracked_EXTEND | apply tracked_bind | intro _ | split)

@[instance]
theorem tracked_p_entity_header (fuel : Nat) (entity : tree_t) :
    tracked (p_entity_header fuel entity) := by
  unfold p_entity_header
  repeat (first | infer_instance | apply tracked_BEGIN | apply tracked_EXTEND | apply tracked_bind | intro _ | split)

@[instance]
theorem tracked_p_attribute_declaration (head : ident_t) (parent : tree_t) :
    tracked (p_attribute_declaration head parent) := by
  unfold p_attribute_declaration
  repeat (first | infer_instance | apply tracked_BEGIN | apply tracked_EXTEND | apply tracked_bind | intro _ | split)

@[instance]
theorem tracked_p_entity_class  :
    tracked (p_entity_class) := by
  unfold p_entity_class
  repeat (first | infer_instance | apply tracked_BEGIN | apply tracked_EXTEND | apply tracked_bind | intro _ | split)

@[instance]
theorem tracked_p_entity_specification (fuel : Nat) :
    tracked (p_entity_specification fuel) := by
  unfold p_entity_specification
  repeat (first | infer_instance | apply tracked_BEGIN | apply tracked_EXTEND | apply tracked_bind | intro _ | split)

@[instance]
theorem tracked_p_attribute_specification (fuel : Nat) (head : ident_t) (parent : tree_t) :
    tracked (p_attribute_specification fuel head parent) := by
  unfold p_attribute_specification
  repeat (first | infer_instance | apply tracked_BEGIN | apply tracked_EXTEND | apply tracked_bind | intro _ | split)

@[instance]
theorem tracked_p_entity_declarative_item (fuel : Nat) (entity : tree_t) :
    tracked (p_entity_declarative_item fuel entity) := by
  unfold p_entity_declarative_item
  repeat (first | infer_instance | apply tracked_BEGIN | apply tracked_EXTEND | apply tracked_bind | intro _ | split)

@[instance]
theorem tracked_p_entity_declarative_part_loop  (fuel : Nat) :
    ∀ (a : tree_t), tracked (p_entity_declarative_part_loop fuel a) := by
  induction fuel with
  | zero =>
    intro a
    unfold p_entity_declarative_part_loop
    exact tracked_abort _
  | succ n ih =>
    intro a
    unfold p_entity_declarative_part_loop
    repeat (first | infer_instance | apply tracked_BEGIN | apply tracked_EXTEND | apply tracked_bind | intro _ | split)

@[instance]
theorem tracked_p_entity_declarative_part (fuel : Nat) (entity : tree_t) :
    tracked (p_entity_declarative_part fuel entity) := by
  unfold p_entity_declarative_part
  repeat (first | infer_instance | apply tracked_BEGIN | apply tracked_EXTEND | apply tracked_bind | intro _ | split)

@[instance]
theorem tracked_p_assertion (fuel : Nat) : tracked (p_assertion fuel) := by
  unfold p_assertion
  apply tracked_BEGIN
  apply tracked_bind
  · infer_instance
  intro _
  apply tracked_bind
  · infer_instance
  intro value
  apply tracked_bind
  · infer_instance
  intro c
  split
  · repeat (first | infer_instance | apply tracked_BEGIN | apply tracked_EXTEND | apply tracked_bind | intro _ | split)
  · refine tracked_get_bind _ ?_ ?_
    · intro st p
      rfl
    · intro st
      split
      · repeat (first | infer_instance | apply tracked_BEGIN | apply tracked_EXTEND | apply tracked_bind | intro _ | split)
      · apply tracked_bind
        · infer_instance
        intro a
        apply tracked_bind
        · exact tracked_modify _ (fun _ _ => rfl)
        · intro _
          repeat (first | infer_instance | apply tracked_BEGIN | apply tracked_EXTEND | apply tracked_bind | intro _ | split)

@[instance]
theorem tracked_p_concurrent_assertion_statement (fuel : Nat) :
    tracked (p_concurrent_assertion_statement fuel) := by
  unfold p_concurrent_assertion_statement
  repeat (first | infer_instance | apply tracked_BEGIN | apply tracked_EXTEND | apply tracked_bind | intro _ | split)

@[instance]
theorem tracked_p_entity_statement (fuel : Nat) :
    tracked (p_entity_statement fuel) := by
  unfold p_entity_statement
  repeat (first | infer_instance | apply tracked_BEGIN | apply tracked_EXTEND | apply tracked_bind | intro _ | split)

@[instance]
theorem tracked_p_entity_statement_part_loop  (fuel : Nat) :
    ∀ (a : tree_t), tracked (p_entity_statement_part_loop fuel a) := by
  induction fuel with
  | zero =>
    intro a
    unfold p_entity_statement_part_loop
    exact tracked_abort _
  | succ n ih =>
    intro a
    unfold p_entity_statement_part_loop
    repeat (first | infer_instance | apply tracked_BEGIN | apply tracked_EXTEND | apply tracked_bind | intro _ | split)

@[instance]
theorem tracked_p_entity_statement_part (fuel : Nat) (entity : tree_t) :
    tracked (p_entity_statement_part fuel entity) := by
  unfold p_entity_statement_part
  repeat (first | infer_instance | apply tracked_BEGIN | apply tracked_EXTEND | apply tracked_bind | intro _ | split)

@[instance]
theorem tracked_p_entity_declaration (fuel : Nat) :
    tracked (p_entity_declaration fuel) := by
  unfold p_entity_declaration
  repeat (first | infer_instance | apply tracked_BEGIN | apply tracked_EXTEND | apply tracked_bind | intro _ | split)

@[instance]
theorem tracked_p_primary_unit (fuel : Nat) :
    tracked (p_primary_unit fuel) := by
  unfold p_primary_unit
  repeat (first | infer_instance | apply tracked_BEGIN | apply tracked_EXTEND | apply tracked_bind | intro _ | split)

@[instance]
theorem tracked_p_signal_declaration (fuel : Nat) (parent : tree_t) :
    tracked (p_signal_declaration fuel parent) := by
  unfold p_signal_declaration
  repeat (first | infer_instance | apply tracked_BEGIN | apply tracked_EXTEND | apply tracked_bind | intro _ | split)

@[instance]
theorem tracked_p_block_declarative_item (fuel : Nat) (parent : tree_t) :
    tracked (p_block_declarative_item fuel parent) := by
  unfold p_block_declarative_item
  repeat (first | infer_instance | apply tracked_BEGIN | apply tracked_EXTEND | apply tracked_bind | intro _ | split)

@[instance]
theorem tracked_p_variable_declaration (fuel : Nat) (parent : tree_t) :
    tracked (p_variable_declaration fuel parent) := by
  unfold p_variable_declaration
  repeat (first | infer_instance | apply tracked_BEGIN | apply tracked_EXTEND | apply tracked_bind | intro _ | split)

@[instance]
theorem tracked_p_process_declarative_item (fuel : Nat) (proc : tree_t) :
    tracked (p_process_declarative_item fuel proc) := by
  unfold p_process_declarative_item
  repeat (first | infer_instance | apply tracked_BEGIN | apply tracked_EXTEND | apply tracked_bind | intro _ | split)

@[instance]
theorem tracked_p_process_declarative_part_loop  (fuel : Nat) :
    ∀ (a : tree_t), tracked (p_process_declarative_part_loop fuel a) := by
  induction fuel with
  | zero =>
    intro a
    unfold p_process_declarative_part_loop
    exact tracked_abort _
  | succ n ih =>
    intro a
    unfold p_process_declarative_part_loop
    repeat (first | infer_instance | apply tracked_BEGIN | apply tracked_EXTEND | apply tracked_bind | intro _ | split)

@[instance]
theorem tracked_p_process_declarative_part (fuel : Nat) (proc : tree_t) :
    tracked (p_process_declarative_part fuel proc) := by
  unfold p_process_declarative_part
  repeat (first | infer_instance | apply tracked_BEGIN | apply tracked_EXTEND | apply tracked_bind | intro _ | split)

@[instance]
theorem tracked_p_target (name : Option tree_t) :
    tracked (p_target name) := by
  unfold p_target
  repeat (first | infer_instance | apply tracked_BEGIN | apply tracked_EXTEND | apply tracked_bind | intro _ | split)

@[instance]
theorem tracked_p_variable_assignment_statement (fuel : Nat) (label : Option ident_t) (name : Option tree_t) :
    tracked (p_variable_assignment_statement fuel label name) := by
  unfold p_variable_assignment_statement
  repeat (first | infer_instance | apply tracked_BEGIN | apply tracked_EXTEND | apply tracked_bind | intro _ | split)

@[instance]
theorem tracked_p_waveform_element (fuel : Nat) :
    tracked (p_waveform_element fuel) := by
  unfold p_waveform_element
  repeat (first | infer_instance | apply tracked_BEGIN | apply tracked_EXTEND | apply tracked_bind | intro _ | split)

@[instance]
theorem tracked_p_waveform_loop  (fuel : Nat) :
    ∀ (a : tree_t), tracked (p_waveform_loop fuel a) := by
  induction fuel with
  | zero =>
    intro a
    unfold p_waveform_loop
    exact tracked_abort _
  | succ n ih =>
    intro a
    unfold p_waveform_loop
    repeat (first | infer_instance | apply tracked_BEGIN | apply tracked_EXTEND | apply tracked_bind | intro _ | split)

@[instance]
theorem tracked_p_waveform (fuel : Nat) (stmt : tree_t) :
    tracked (p_waveform fuel stmt) := by
  unfold p_waveform
  repeat (first | infer_instance | apply tracked_BEGIN | apply tracked_EXTEND | apply tracked_bind | intro _ | split)

@[instance]
theorem tracked_p_signal_assignment_statement (fuel : Nat) (label : Option ident_t) (name : Option tree_t) :
    tracked (p_signal_assignment_statement fuel label name) := by
  unfold p_signal_assignment_statement
  repeat (first | infer_instance | apply tracked_BEGIN | apply tracked_EXTEND | apply tracked_bind | intro _ | split)

@[instance]
theorem tracked_p_sensitivity_list_loop  (fuel : Nat) :
    ∀ (a : tree_t), tracked (p_sensitivity_list_loop fuel a) := by
  induction fuel with
  | zero =>
    intro a
    unfold p_sensitivity_list_loop
    exact tracked_abort _
  | succ n ih =>
    intro a
    unfold p_sensitivity_list_loop
    repeat (first | infer_instance | apply tracked_BEGIN | apply tracked_EXTEND | apply tracked_bind | intro _ | split)

@[instance]
theorem tracked_p_sensitivity_list (fuel : Nat) (proc : tree_t) :
    tracked (p_sensitivity_list fuel proc) := by
  unfold p_sensitivity_list
  repeat (first | infer_instance | apply tracked_BEGIN | apply tracked_EXTEND | apply tracked_bind | intro _ | split)

@[instance]
theorem tracked_p_sensitivity_clause (fuel : Nat) (wait : tree_t) :
    tracked (p_sensitivity_clause fuel wait) := by
  unfold p_sensitivity_clause
  repeat (first | infer_instance | apply tracked_BEGIN | apply tracked_EXTEND | apply tracked_bind | intro _ | split)

@[instance]
theorem tracked_p_condition_clause (fuel : Nat) (wait : tree_t) :
    tracked (p_condition_clause fuel wait) := by
  unfold p_condition_clause
  repeat (first | infer_instance | apply tracked_BEGIN | apply tracked_EXTEND | apply tracked_bind | intro _ | split)

@[instance]
theorem tracked_p_timeout_clause (fuel : Nat) (wait : tree_t) :
    tracked (p_timeout_clause fuel wait) := by
  unfold p_timeout_clause
  repeat (first | infer_instance | apply tracked_BEGIN | apply tracked_EXTEND | apply tracked_bind | intro _ | split)

@[instance]
theorem tracked_p_wait_statement (fuel : Nat) (label : Option ident_t) :
    tracked (p_wait_statement fuel label) := by
  unfold p_wait_statement
  repeat (first | infer_instance | apply tracked_BEGIN | apply tracked_EXTEND | apply tracked_bind | intro _ | split)

@[instance]
theorem tracked_p_assertion_statement (fuel : Nat) (label : Option ident_t) :
    tracked (p_assertion_statement fuel label) := by
  unfold p_assertion_statement
  repeat (first | infer_instance | apply tracked_BEGIN | apply tracked_EXTEND | apply tracked_bind | intro _ | split)

@[instance]
theorem tracked_p_report_statement (fuel : Nat) (label : Option ident_t) :
    tracked (p_report_statement fuel label) := by
  unfold p_report_statement
  repeat (first | infer_instance | apply tracked_BEGIN | apply tracked_EXTEND | apply tracked_bind | intro _ | split)

@[instance]
theorem tracked_p_null_statement (label : Option ident_t) :
    tracked (p_null_statement label) := by
  unfold p_null_statement
  repeat (first | infer_instance | apply tracked_BEGIN | apply tracked_EXTEND | apply tracked_bind | intro _ | split)

@[instance]
theorem tracked_p_iteration_scheme (fuel : Nat) :
    tracked (p_iteration_scheme fuel) := by
  unfold p_iteration_scheme
  repeat (first | infer_instance | apply tracked_BEGIN | apply tracked_EXTEND | apply tracked_bind | intro _ | split)

@[instance]
theorem tracked_p_return_statement (fuel : Nat) (label : Option ident_t) :
    tracked (p_return_statement fuel label) := by
  unfold p_return_statement
  repeat (first | infer_instance | apply tracked_BEGIN | apply tracked_EXTEND | apply tracked_bind | intro _ | split)

/-- Every production of the statement grammar makes a fixed sequence of
comparisons, at every fuel. -/
theorem tracked_statements (fuel : Nat) :
    (∀ (a : tree_t) (b : (tree_t → tree_t → tree_t)), tracked (p_sequence_of_statements_loop fuel a b)) ∧
    (∀ (a : tree_t) (b : (tree_t → tree_t → tree_t)), tracked (p_sequence_of_statements fuel a b)) ∧
    (∀ (a : tree_t), tracked (p_if_statement_tail fuel a)) ∧
    (∀ (a : Option ident_t), tracked (p_if_statement fuel a)) ∧
    (∀ (a : Option ident_t), tracked (p_loop_statement fuel a)) ∧
    tracked (p_sequential_statement fuel) := by
  induction fuel with
  | zero =>
    refine ⟨?_, ?_, ?_, ?_, ?_, ?_⟩ <;> intros <;>
    first
      | (unfold p_sequence_of_statements_loop; exact tracked_abort _)
      | (unfold p_sequence_of_statements; exact tracked_abort _)
      | (unfold p_if_statement_tail; exact tracked_abort _)
      | (unfold p_if_statement; exact tracked_abort _)
      | (unfold p_loop_statement; exact tracked_abort _)
      | (unfold p_sequential_statement; exact tracked_abort _)
  | succ n ih =>
    obtain ⟨h0, h1, h2, h3, h4, h5⟩ := ih
    refine ⟨?_, ?_, ?_, ?_, ?_, ?_⟩
    · intro a b
      unfold p_sequence_of_statements_loop
      repeat (first | infer_instance | apply tracked_BEGIN | apply tracked_EXTEND | apply tracked_bind | intro _ | split)
    · intro a b
      unfold p_sequence_of_statements
      repeat (first | infer_instance | apply tracked_BEGIN | apply tracked_EXTEND | apply tracked_bind | intro _ | split)
    · intro a
      unfold p_if_statement_tail
      repeat (first | infer_instance | apply tracked_BEGIN | apply tracked_EXTEND | apply tracked_bind | intro _ | split)
    · intro a
      unfold p_if_statement
      repeat (first | infer_instance | apply tracked_BEGIN | apply tracked_EXTEND | apply tracked_bind | intro _ | split)
    · intro a
      unfold p_loop_statement
      repeat (first | infer_instance | apply tracked_BEGIN | apply tracked_EXTEND | apply tracked_bind | intro _ | split)
    · unfold p_sequential_statement
      repeat (first | infer_instance | apply tracked_BEGIN | apply tracked_EXTEND | apply tracked_bind | intro _ | split)

@[instance]
theorem tracked_p_sequence_of_statements_loop (fuel : Nat) (a : tree_t) (b : (tree_t → tree_t → tree_t)) :
    tracked (p_sequence_of_statements_loop fuel a b) :=
  (tracked_statements fuel).1 a b

@[instance]
theorem tracked_p_sequence_of_statements (fuel : Nat) (a : tree_t) (b : (tree_t → tree_t → tree_t)) :
    tracked (p_sequence_of_statements fuel a b) :=
  (tracked_statements fuel).2.1 a b

@[instance]
theorem tracked_p_if_statement_tail (fuel : Nat) (a : tree_t) :
    tracked (p_if_statement_tail fuel a) :=
  (tracked_statements fuel).2.2.1 a

@[instance]
theorem tracked_p_if_statement (fuel : Nat) (a : Option ident_t) :
    tracked (p_if_statement fuel a) :=
  (tracked_statements fuel).2.2.2.1 a

@[instance]
theorem tracked_p_loop_statement (fuel : Nat) (a : Option ident_t) :
    tracked (p_loop_statement fuel a) :=
  (tracked_statements fuel).2.2.2.2.1 a

@[instance]
theorem tracked_p_sequential_statement (fuel : Nat) : tracked (p_sequential_statement fuel) :=
  (tracked_statements fuel).2.2.2.2.2

@[instance]
theorem tracked_p_process_statement_part (fuel : Nat) (proc : tree_t) :
    tracked (p_process_statement_part fuel proc) := by
  unfold p_process_statement_part
  repeat (first | infer_instance | apply tracked_BEGIN | apply tracked_EXTEND | apply tracked_bind | intro _ | split)

@[instance]
theorem tracked_p_process_statement (fuel : Nat) (label : Option ident_t) :
    tracked (p_process_statement fuel label) := by
  unfold p_process_statement
  repeat (first | infer_instance | apply tracked_BEGIN | apply tracked_EXTEND | apply tracked_bind | intro _ | split)

@[instance]
theorem tracked_p_concurrent_statement (fuel : Nat) :
    tracked (p_concurrent_statement fuel) := by
  unfold p_concurrent_statement
  repeat (first | infer_instance | apply tracked_BEGIN | apply tracked_EXTEND | apply tracked_bind | intro _ | split)

@[instance]
theorem tracked_p_architecture_declarative_part_loop  (fuel : Nat) :
    ∀ (a : tree_t), tracked (p_architecture_declarative_part_loop fuel a) := by
  induction fuel with
  | zero =>
    intro a
    unfold p_architecture_declarative_part_loop
    exact tracked_abort _
  | succ n ih =>
    intro a
    unfold p_architecture_declarative_part_loop
    repeat (first | infer_instance | apply tracked_BEGIN | apply tracked_EXTEND | apply tracked_bind | intro _ | split)

@[instance]
theorem tracked_p_architecture_declarative_part (fuel : Nat) (arch : tree_t) :
    tracked (p_architecture_declarative_part fuel arch) := by
  unfold p_architecture_declarative_part
  repeat (first | infer_instance | apply tracked_BEGIN | apply tracked_EXTEND | apply tracked_bind | intro _ | split)

@[instance]
theorem tracked_p_architecture_statement_part_loop  (fuel : Nat) :
    ∀ (a : tree_t), tracked (p_architecture_statement_part_loop fuel a) := by
  induction fuel with
  | zero =>
    intro a
    unfold p_architecture_statement_part_loop
    exact tracked_abort _
  | succ n ih =>
    intro a
    unfold p_architecture_statement_part_loop
    repeat (first | infer_instance | apply tracked_BEGIN | apply tracked_EXTEND | apply tracked_bind | intro _ | split)

@[instance]
theorem tracked_p_architecture_statement_part (fuel : Nat) (arch : tree_t) :
    tracked (p_architecture_statement_part fuel arch) := by
  unfold p_architecture_statement_part
  repeat (first | infer_instance | apply tracked_BEGIN | apply tracked_EXTEND | apply tracked_bind | intro _ | split)

@[instance]
theorem tracked_p_architecture_body (fuel : Nat) :
    tracked (p_architecture_body fuel) := by
  unfold p_architecture_body
  repeat (first | infer_instance | apply tracked_BEGIN | apply tracked_EXTEND | apply tracked_bind | intro _ | split)

@[instance]
theorem tracked_p_secondary_unit (fuel : Nat) :
    tracked (p_secondary_unit fuel) := by
  unfold p_secondary_unit
  repeat (first | infer_instance | apply tracked_BEGIN | apply tracked_EXTEND | apply tracked_bind | intro _ | split)

@[instance]
theorem tracked_p_library_unit (fuel : Nat) :
    tracked (p_library_unit fuel) := by
  unfold p_library_unit
  repeat (first | infer_instance | apply tracked_BEGIN | apply tracked_EXTEND | apply tracked_bind | intro _ | split)

@[instance]
theorem tracked_p_design_unit (fuel : Nat) :
    tracked (p_design_unit fuel) := by
  unfold p_design_unit
  repeat (first | infer_instance | apply tracked_BEGIN | apply tracked_EXTEND | apply tracked_bind | intro _ | split)

/-- The counters stay clean (no error, n_correct at least RECOVER_THRESH)
exactly as long as every comparison matches; the first mismatch makes
n_errors positive for good. -/
theorem count_events_clean (evs : List Bool) :
    ∀ e c, (e = 0 → RECOVER_THRESH ≤ c) →
      ((count_events (e, c) evs).1 = 0 ↔ e = 0 ∧ ∀ b ∈ evs, b = true) := by
  induction evs with
  | nil => intro e c _; simp [count_events]
  | cons x rest ih =>
    intro e c hc
    rw [count_events_cons]
    cases x with
    | true =>
      have := ih e (c + 1) (fun h => Nat.le_succ_of_le (hc h))
      simpa [count_event] using this
    | false =>
      by_cases he : e = 0
      · have h5 := hc he
        have := ih (e + 1) 0 (fun h => by omega)
        simp [count_event, h5, this]
      · have := ih (if RECOVER_THRESH ≤ c then e + 1 else e) 0
          (fun h => by split at h <;> omega)
        simp only [count_event, Bool.false_eq_true, if_false, ge_iff_le]
        rw [this]
        constructor
        · intro h; split at h <;> omega
        · intro h; exact absurd h.1 he

theorem counters_of_tracked {α : Type} (m : parse_m α) [hm : tracked m] (s : pstate) (x : α)
    (s2 : pstate) (h : m s = .ok (x, s2)) :
    ∃ evs : List Bool, counters s2 = count_events (counters s) evs ∧
      ∀ p, m (set_counters p s) = .ok (x, set_counters (count_events p evs) s2) := by
  obtain ⟨evs, he⟩ := hm.runs s x s2 h
  refine ⟨evs, ?_, he⟩
  have h1 := he (counters s)
  have h2 : set_counters (counters s) s = s := rfl
  rw [h2, h] at h1
  simp only [Except.ok.injEq, Prod.mk.injEq, true_and] at h1
  have h3 : counters s2 = counters (set_counters (count_events (counters s) evs) s2) := by
    rw [← h1]
  rw [h3]
  rfl

/-- The run of parse: the counters are reset, the head token is fetched,
and unless it is end-of-file the design unit is parsed and returned if no
error was counted. -/
theorem parse_eq (fuel : Nat) (st : pstate) (hp : lookahead_ok st) :
    parse fuel st =
      if next_tok st = .tEOF then .ok (none, force_peek (parse_reset st))
      else match p_design_unit fuel (force_peek (parse_reset st)) with
        | .error e => .error e
        | .ok (u, s2) => if 0 < s2.n_errors then .ok (none, s2) else .ok (u, s2) := by
  have hp2 : st.peek_valid = true ∨ st.peek2_valid = false := by
    cases h2 : st.peek2_valid with
    | false => exact Or.inr rfl
    | true => exact Or.inl (hp h2)
  simp only [parse, bind, StateT.bind, modify, modifyGet, MonadStateOf.modifyGet,
    StateT.modifyGet, pure, StateT.pure, Except.pure, Except.bind, get, getThe,
    MonadStateOf.get, StateT.get]
  have hrs : ({ st with n_errors := 0, n_correct := RECOVER_THRESH, assert_viol := none }
      : pstate) = parse_reset st := rfl
  rw [hrs, peek_reset st hp2]
  simp only []
  by_cases he : next_tok st = .tEOF
  · simp [he, StateT.pure, pure, Except.pure]
  · simp only [he, if_false]
    cases hD : p_design_unit fuel (force_peek (parse_reset st)) with
    | error e =>
      simp [hD, StateT.pure, StateT.bind, StateT.get, pure, Except.pure, bind, Except.bind]
    | ok r =>
      obtain ⟨u, s2⟩ := r
      by_cases hn : 0 < s2.n_errors <;>
      simp [hD, hn, StateT.pure, StateT.bind, StateT.get, pure, Except.pure, bind, Except.bind]

theorem parse_not_ok (fuel : Nat) (st : pstate) (hp : ¬ lookahead_ok st) :
    parse fuel st = .error (.assert_failed "!peek2_valid") := by
  have h1 : ¬ lookahead_ok (parse_reset st) := hp
  simp only [parse, bind, StateT.bind, modify, modifyGet, MonadStateOf.modifyGet,
    StateT.modifyGet, pure, StateT.pure, Except.pure, Except.bind]
  have hrs : ({ st with n_errors := 0, n_correct := RECOVER_THRESH, assert_viol := none }
      : pstate) = parse_reset st := rfl
  rw [hrs, peek_not_ok _ h1]

/-- C37: parse returns a tree only if no mismatch occurred.  A run of parse
that returns has made a sequence evs of comparisons (true for a consume
that matched, false for a consume that did not match and for an expect):
the design unit is parsed with the same result from every value of the
counters, which are updated by these comparisons only; parse starts them at
(0, RECOVER_THRESH), so the first mismatch is counted, and n_errors is 0 at
the end iff every comparison matched.  Whether all comparisons matched does
not depend on the choice of evs.  A run returns a tree only with n_errors =
0, hence only if every consume matched and no expect was called.  A one_of
whose head token is outside its set is not among the comparisons of a run
that returns: its search loop reads past its arguments, the call of _vexpect
after the loop is not reached, and the run does not return. -/
theorem parse_reports_first_mismatch (fuel : Nat) (st : pstate) (r : Option tree_t)
    (s2 : pstate) (h : parse fuel st = .ok (r, s2)) :
    ∃ evs : List Bool,
      counters s2 = count_events (0, RECOVER_THRESH) evs ∧
      (s2.n_errors = 0 ↔ ∀ b ∈ evs, b = true) ∧
      (r ≠ none → s2.n_errors = 0 ∧ ∀ b ∈ evs, b = true) ∧
      (if next_tok st = .tEOF then evs = [] ∧ r = none
       else ∃ u, (r = if 0 < s2.n_errors then none else u) ∧
         ∀ p, p_design_unit fuel (set_counters p (force_peek (parse_reset st)))
           = .ok (u, set_counters (count_events p evs) s2)) ∧
      (∀ evs2, (∀ p, count_events p evs2 = count_events p evs) →
        ((∀ b ∈ evs2, b = true) ↔ ∀ b ∈ evs, b = true)) ∧
      (∀ tok s p, lookahead_ok s →
        consume tok (set_counters p s)
          = .ok (decide (tok = next_tok s),
                 set_counters (count_events p [decide (tok = next_tok s)])
                   (after_consume tok s))) ∧
      (∀ toks s p, lookahead_ok s →
        expect toks (set_counters p s)
          = .ok ((), set_counters (count_events p [false]) (mismatch s))) := by
  have hcl : ∀ evs : List Bool,
      ((count_events (0, RECOVER_THRESH) evs).1 = 0 ↔ ∀ b ∈ evs, b = true) := by
    intro evs
    have := count_events_clean evs 0 RECOVER_THRESH (fun _ => Nat.le_refl _)
    simpa using this
  have huniq : ∀ evs evs2 : List Bool, (∀ p, count_events p evs2 = count_events p evs) →
      ((∀ b ∈ evs2, b = true) ↔ ∀ b ∈ evs, b = true) := by
    intro evs evs2 hq
    rw [← hcl evs, ← hcl evs2, hq]
  have hcons : ∀ tok s p, lookahead_ok s →
      consume tok (set_counters p s)
        = .ok (decide (tok = next_tok s),
               set_counters (count_events p [decide (tok = next_tok s)])
                 (after_consume tok s)) := by
    intro tok s p hw
    rw [consume_wf _ _ (show lookahead_ok (set_counters p s) from hw), next_tok_set_counters,
      after_consume_set_counters]
    rfl
  have hexp : ∀ toks s p, lookahead_ok s →
      expect toks (set_counters p s)
        = .ok ((), set_counters (count_events p [false]) (mismatch s)) := by
    intro toks s p hw
    rw [expect_wf _ _ (show lookahead_ok (set_counters p s) from hw), mismatch_set_counters]
    rfl
  by_cases hp : lookahead_ok st
  · rw [parse_eq fuel st hp] at h
    have hc0 : counters (force_peek (parse_reset st)) = (0, RECOVER_THRESH) := by
      rw [counters_force_peek]; rfl
    by_cases he : next_tok st = .tEOF
    · simp only [he, if_true, Except.ok.injEq, Prod.mk.injEq] at h
      obtain ⟨rfl, rfl⟩ := h
      refine ⟨[], hc0, ?_, ?_, ?_, huniq [], hcons, hexp⟩
      · have : (force_peek (parse_reset st)).n_errors = 0 := congrArg Prod.fst hc0
        simp [this]
      · intro hne; exact absurd rfl hne
      · simp [he]
    · simp only [he, if_false] at h
      cases hD : p_design_unit fuel (force_peek (parse_reset st)) with
      | error e => rw [hD] at h; cases h
      | ok q =>
        obtain ⟨u, s3⟩ := q
        rw [hD] at h
        simp only at h
        obtain ⟨evs, hcnt, hrun⟩ := counters_of_tracked (p_design_unit fuel) _ u s3 hD
        rw [hc0] at hcnt
        have hs : s3 = s2 ∧ r = if 0 < s3.n_errors then none else u := by
          by_cases hn : 0 < s3.n_errors
          · simp only [hn, if_true, Except.ok.injEq, Prod.mk.injEq] at h
            exact ⟨h.2, by simp [hn, h.1]⟩
          · simp only [hn, if_false, Except.ok.injEq, Prod.mk.injEq] at h
            exact ⟨h.2, by simp [hn, h.1]⟩
        obtain ⟨rfl, hr⟩ := hs
        have hiff : s3.n_errors = 0 ↔ ∀ b ∈ evs, b = true := by
          rw [← hcl evs, ← hcnt]; rfl
        refine ⟨evs, hcnt, hiff, ?_, ?_, huniq evs, hcons, hexp⟩
        · intro hne
          have h0 : s3.n_errors = 0 := by
            by_contra hpos
            have : 0 < s3.n_errors := Nat.pos_of_ne_zero hpos
            rw [if_pos this] at hr
            exact hne hr
          exact ⟨h0, hiff.1 h0⟩
        · simp only [he, if_false]
          exact ⟨u, hr, hrun⟩
  · rw [parse_not_ok fuel st hp] at h; cases h

theorem parse_then_errors_parse (fuel : Nat) (st : pstate) (r : Option tree_t) (n : Nat)
    (s2 : pstate) (h : parse_then_errors fuel st = .ok ((r, n), s2)) :
    parse fuel st = .ok (r, s2) ∧ s2.n_errors = n := by
  simp only [parse_then_errors, parse_errors, bind, StateT.bind, Except.bind, get, getThe,
    MonadStateOf.get, StateT.get, pure, StateT.pure, Except.pure] at h
  cases hq : parse fuel st with
  | error e => rw [hq] at h; cases h
  | ok q =>
    obtain ⟨r1, s1⟩ := q
    rw [hq] at h
    simp only [Except.ok.injEq, Prod.mk.injEq] at h
    obtain ⟨⟨rfl, rfl⟩, rfl⟩ := h
    exact ⟨rfl, rfl⟩

/-- C37 on the tokens of `entity e is end;`: parse returns the entity, so
n_errors is 0 and each comparison of the run matched. -/
theorem parse_reports_first_mismatch_witness :
    ∃ s2 evs, parse 3 (pstate_init ex_entity_tokens) = .ok (some ex_entity, s2) ∧
      counters s2 = count_events (0, RECOVER_THRESH) evs ∧
      s2.n_errors = 0 ∧ ∀ b ∈ evs, b = true :=
  ex_entity_parses.elim fun s2 h =>
    (parse_reports_first_mismatch 3 (pstate_init ex_entity_tokens) (some ex_entity) s2
      (parse_then_errors_parse 3 _ _ _ s2 h).1).elim fun evs he =>
      ⟨s2, evs, (parse_then_errors_parse 3 _ _ _ s2 h).1, he.1,
        (he.2.2.1 (by simp)).1, (he.2.2.1 (by simp)).2⟩

/-! ### Function bodies called while a result is visible -/

/-- C29 as stated fails for a call that is evaluated while a result binding
of its caller is visible.  The body `x := 9; return 7;` of n, called on its
own, folds to 7: `return 7;` is its first statement that binds the result.
Called while the frame of the caller holds the result 5, the body stops
after `x := 9;`, `return 7;` is not run, and the call folds to 5, the result
of the caller; so the function whose body is
`if 1 = 1 then return 5; return n; end if;` folds to 5, not to 7. -/
theorem eval_body_stops_at_caller_result :
    eval 6 n_call = .ok (ex_int 7) ∧
    eval_stmt 5 n_assign [[(some "x", ex_int 0)], [(result_i, ex_int 5)]]
      = .ok [[(some "x", ex_int 9)], [(result_i, ex_int 5)]] ∧
    eval_func_body 6 n_body [[], [(result_i, ex_int 5)]]
      = .ok [[(some "x", ex_int 9)], [(result_i, ex_int 5)]] ∧
    eval_fcall 7 n_call [[(result_i, ex_int 5)]] = .ok (ex_int 5, [[(result_i, ex_int 5)]]) ∧
    eval 12 (ex_body_call [ex_if_calls]) = .ok (ex_int 5) :=
  ⟨rfl, rfl, rfl, rfl, rfl⟩

/-! ### Results of parse -/

theorem ex_attribute_stops :
    parse 3 (pstate_init ex_tokens_attribute)
      = .error (.undefined_behaviour "va_arg past the end of the arguments") := by
  simp +decide [parse, pstate_init, ex_tokens_attribute, ex_lx,
    ex_lx_id, ex_tok_loc, p_design_unit,
    p_context_clause, p_context_clause_loop, p_library_unit, p_primary_unit, p_entity_declaration,
    p_entity_header, p_entity_declarative_part, p_entity_declarative_part_loop,
    p_entity_declarative_item, one_of, parse_abort, p_identifier,
    ident_new, yylval_read_s, yylval_free_s, optional, consume, peek, yylex, scan, BEGIN, EXTEND,
    CURRENT_LOC, _diff_loc, tree_set_loc, RECOVER_THRESH, LOC_INVALID,
    StateT.run, bind, StateT.bind, get,
    getThe, MonadStateOf.get, StateT.get, pure, StateT.pure, Except.pure, Except.bind, set,
    StateT.set, modify, modifyGet, MonadStateOf.modifyGet, StateT.modifyGet, Except.map]

theorem ex_attribute_decl_parses :
    ∃ s2, parse_then_errors 4 (pstate_init ex_tokens_attribute_decl)
      = .ok ((some ex_entity_attribute, 0), s2) := by
  simp +decide [parse_then_errors, parse_errors, parse, pstate_init, ex_tokens_attribute_decl, ex_lx,
    ex_lx_id, ex_tok_loc, p_design_unit, ex_entity_attribute,
    p_context_clause, p_context_clause_loop, p_library_unit, p_primary_unit, p_entity_declaration,
    p_entity_header, p_entity_declarative_part, p_entity_declarative_part_loop,
    p_entity_declarative_item, one_of, parse_abort, p_identifier, p_attribute_declaration,
    p_type_mark, tree_add_decl,
    ident_new, yylval_read_s, yylval_free_s, optional, consume, peek, yylex, scan, BEGIN, EXTEND,
    CURRENT_LOC, _diff_loc, tree_set_loc, RECOVER_THRESH, LOC_INVALID,
    StateT.run, bind, StateT.bind, get,
    getThe, MonadStateOf.get, StateT.get, pure, StateT.pure, Except.pure, Except.bind, set,
    StateT.set, modify, modifyGet, MonadStateOf.modifyGet, StateT.modifyGet, Except.map]

theorem parse_then_errors_error (fuel : Nat) (st : pstate) (e : parse_fail)
    (h : parse fuel st = .error e) : parse_then_errors fuel st = .error e := by
  simp only [parse_then_errors, bind, StateT.bind, h, Except.bind]

theorem parse_then_errors_stuck (fuel : Nat) (st : pstate)
    (hp : st.peek_valid = true ∨ st.peek2_valid = false)
    (hm : next_tok st = .tLIBRARY ∨ next_tok st = .tUSE) :
    parse_then_errors fuel st = .error .out_of_fuel := by
  have hv0 : (force_peek (parse_reset st)).peek_valid = true := force_peek_valid _
  have ht0 := (force_peek_reset st).2.2
  have he : next_tok st ≠ .tEOF := by rcases hm with hm | hm <;> rw [hm] <;> decide
  rw [parse_then_errors_eq fuel st hp, if_neg he,
    p_design_unit_stuck fuel _ hv0 (by rw [ht0]; rcases hm with hm | hm <;> rw [hm] <;> decide)]

/-- C8: parse followed by parse_errors, started with a consistent lookahead
buffer.  With end-of-file as head token parse returns null and the error
count is 0; with a head token that starts neither a context item nor a
library unit it returns null and the error count is 1.  Whenever the two
calls return (r, n): r is null exactly when the head token is end-of-file
or n > 0, n = 0 at end-of-file, and a non-null r is the tree returned by
p_design_unit with n = 0.  The error count with which the call is entered
has no influence: it is reset.  With library or use as head token the two
calls do not return, whatever the bound on the iterations of the loop of
p_context_clause: neither null nor a tree is delivered. -/
theorem parse_null_cases (fuel : Nat) (st : pstate)
    (hp : st.peek_valid = true ∨ st.peek2_valid = false) :
    (next_tok st = .tEOF → ∃ s2, parse_then_errors fuel st = .ok ((none, 0), s2)) ∧
    (next_tok st ∉ [token_t.tEOF, .tLIBRARY, .tUSE, .tENTITY, .tARCHITECTURE] →
      ∃ s2, parse_then_errors (fuel + 1) st = .ok ((none, 1), s2)) ∧
    (∀ r n st2, parse_then_errors fuel st = .ok ((r, n), st2) →
      (r = none ↔ next_tok st = .tEOF ∨ 0 < n) ∧
      (next_tok st = .tEOF → n = 0) ∧
      (∀ t, r = some t →
        n = 0 ∧ p_design_unit fuel (force_peek (parse_reset st)) = .ok (some t, st2))) ∧
    (∀ k, parse_then_errors fuel { st with n_errors := k } = parse_then_errors fuel st) ∧
    (next_tok st = .tLIBRARY ∨ next_tok st = .tUSE →
      parse_then_errors fuel st = .error .out_of_fuel) := by
  obtain ⟨he0, hc0, ht0⟩ := force_peek_reset st
  have hv0 : (force_peek (parse_reset st)).peek_valid = true := force_peek_valid _
  refine ⟨fun he => ?_, fun hj => ?_, fun r n st2 h => ?_, fun k => rfl,
    parse_then_errors_stuck fuel st hp⟩
  · rw [parse_then_errors_eq fuel st hp, if_pos he]
    exact ⟨_, rfl⟩
  · have he : next_tok st ≠ .tEOF := fun hh => hj (by rw [hh]; simp)
    have hj2 : (force_peek (parse_reset st)).peek_tok ∉
        [token_t.tLIBRARY, .tUSE, .tENTITY, .tARCHITECTURE] := by
      rw [ht0]; intro hh; exact hj (List.mem_cons_of_mem _ hh)
    rw [parse_then_errors_eq (fuel + 1) st hp, if_neg he,
      p_design_unit_junk fuel _ hv0 (le_of_eq hc0.symm) hj2]
    simp [he0]
  · rw [parse_then_errors_eq fuel st hp] at h
    by_cases he : next_tok st = .tEOF
    · rw [if_pos he] at h
      simp only [Except.ok.injEq, Prod.mk.injEq] at h
      obtain ⟨⟨rfl, rfl⟩, rfl⟩ := h
      simp [he]
    · rw [if_neg he] at h
      cases hD : p_design_unit fuel (force_peek (parse_reset st)) with
      | error e => rw [hD] at h; cases h
      | ok p =>
        obtain ⟨u, s2⟩ := p
        rw [hD] at h
        simp only at h
        by_cases hn : 0 < s2.n_errors
        · rw [if_pos hn] at h
          simp only [Except.ok.injEq, Prod.mk.injEq] at h
          obtain ⟨⟨rfl, rfl⟩, rfl⟩ := h
          simp [he, hn]
        · rw [if_neg hn] at h
          simp only [Except.ok.injEq, Prod.mk.injEq] at h
          obtain ⟨⟨rfl, rfl⟩, rfl⟩ := h
          have hu : u ≠ none := fun hh =>
            hn (p_design_unit_none fuel _ s2 hv0 (le_of_eq hc0.symm) (hh ▸ hD))
          refine ⟨⟨fun hh => absurd hh hu, fun hh => ?_⟩, fun hh => absurd hh he, fun t ht => ?_⟩
          · rcases hh with hh | hh
            · exact absurd hh he
            · exact absurd hh hn
          · subst ht
            exact ⟨by omega, rfl⟩

/-- C8 at the empty input, at the input `;`, at `entity e is end;` and at
`library ieee ;`. -/
theorem parse_null_cases_witness :
    (∃ s2, parse_then_errors 3 (pstate_init []) = .ok ((none, 0), s2)) ∧
    (∃ s2, parse_then_errors 3 (pstate_init [ex_lx .tSEMI 0]) = .ok ((none, 1), s2)) ∧
    (∃ s2, parse_then_errors 3 (pstate_init ex_entity_tokens) = .ok ((some ex_entity, 0), s2) ∧
      p_design_unit 3 (force_peek (parse_reset (pstate_init ex_entity_tokens)))
        = .ok (some ex_entity, s2)) ∧
    parse_then_errors 1000 (pstate_init ex_tokens_library) = .error .out_of_fuel :=
  ⟨(parse_null_cases 3 (pstate_init []) (Or.inr rfl)).1 rfl,
   (parse_null_cases 2 (pstate_init [ex_lx .tSEMI 0]) (Or.inr rfl)).2.1 (by decide),
   ex_entity_parses.elim fun s2 h => ⟨s2, h,
     (((parse_null_cases 3 (pstate_init ex_entity_tokens) (Or.inr rfl)).2.2.1 _ _ _ h).2.2
       ex_entity rfl).2⟩,
   (parse_null_cases 1000 (pstate_init ex_tokens_library) (Or.inr rfl)).2.2.2.2 (Or.inl rfl)⟩

/-- C8 as stated fails at the tokens of `library ieee ;` and of
`entity e is attribute a ;`: the head token is not end-of-file and no error
has been reported, yet parse returns neither the design-unit tree nor null.
On the first input the loop of p_context_clause consumes nothing and goes on
for ever (whatever the bound on its iterations, it is not left); on the
second the search loop of one_of reads past its arguments. -/
theorem parse_returns_nothing :
    next_tok (pstate_init ex_tokens_library) = .tLIBRARY ∧
    parse_then_errors 1 (pstate_init ex_tokens_library) = .error .out_of_fuel ∧
    parse_then_errors 1000000 (pstate_init ex_tokens_library) = .error .out_of_fuel ∧
    next_tok (pstate_init ex_tokens_attribute) = .tENTITY ∧
    parse_then_errors 3 (pstate_init ex_tokens_attribute)
      = .error (.undefined_behaviour "va_arg past the end of the arguments") :=
  ⟨rfl, parse_then_errors_stuck 1 _ (Or.inr rfl) (Or.inl rfl),
   parse_then_errors_stuck 1000000 _ (Or.inr rfl) (Or.inl rfl), rfl,
   parse_then_errors_error 3 _ _ ex_attribute_stops⟩

/-- C37 as stated fails at the tokens of `entity e is attribute a ;`: the
one_of of p_entity_declarative_item meets `;`, which is neither `:` nor
`of`.  It is the first mismatch of the parse (with `: t ; end ;` in place of
the `;` the same tokens parse without error), and it is not reported: the
search loop of one_of reads past its arguments and the call of _vexpect
after it is never reached. -/
theorem parse_one_of_unreported :
    parse 3 (pstate_init ex_tokens_attribute)
      = .error (.undefined_behaviour "va_arg past the end of the arguments") ∧
    ex_tokens_attribute.take 5 = ex_tokens_attribute_decl.take 5 ∧
    ex_tokens_attribute.drop 5 = [ex_lx .tSEMI 24] ∧
    ∃ s2, parse_then_errors 4 (pstate_init ex_tokens_attribute_decl)
      = .ok ((some ex_entity_attribute, 0), s2) :=
  ⟨ex_attribute_stops, rfl, rfl, ex_attribute_decl_parses⟩

/-! ### Port clauses -/

theorem ex_items_ports :
    item_ports (advance (advance ex_pc0)) ex_item_ab ++ rest_ports ex_item_ab.e [ex_item_c, ex_item_d]
      = [signal_port ⟨1, 6, 1, 19, none, some 0⟩ .PORT_IN ex_bit "a",
         signal_port ⟨1, 6, 1, 19, none, some 0⟩ .PORT_IN ex_bit "b",
         signal_port ⟨1, 21, 1, 32, none, some 0⟩ .PORT_OUT ex_bit "c",
         signal_port ⟨1, 34, 1, 41, none, some 0⟩ .PORT_IN ex_bit "d"] := rfl

end Nvc
